import Mathlib

/-!
# M5Unified_CW_Decoder: fixed-point basic operators (`basic_op.c`, `basic_op.h`)

A shallow embedding of the ITU-T G.191 style basic operators of the repository.

Modelling conventions
* `int16_t` / `int32_t` values are mathematical integers (`Int`); every C
  arithmetic result that is stored in a 32-bit (16-bit) object is passed through
  `wrap32` (`wrap16`), the two's-complement reduction, so that a wrap-around of
  the machine is visible in the model.
* `unsigned` views of a 32-bit object (needed for `&`, `|`, `^` against the
  `0x...L` masks of the source) are natural numbers below `2^32`, obtained with
  `toU32`; the bit operations are the ones of `Nat`.
* `x >> n` on a signed value is the arithmetic shift `Int.shiftRight`.
* `x << n` on a 32-bit value is `wrap32 (x * 2 ^ n)`.
* The two globals `Overflow` and `Carry` are the fields of `Status`, which is
  passed into and returned from every function that reads or writes them.
-/

namespace BasicOp

/-! ## Machine integers -/

abbrev INT16_MAX : Int := 32767
abbrev INT16_MIN : Int := -32768
abbrev INT32_MAX : Int := 2147483647
abbrev INT32_MIN : Int := -2147483648

/-- Conversion of an integer to `int16_t` (two's complement, modulo `2^16`). -/
def wrap16 (x : Int) : Int := (x + 32768) % 65536 - 32768

/-- Conversion of an integer to `int32_t` (two's complement, modulo `2^32`). -/
def wrap32 (x : Int) : Int := (x + 2147483648) % 4294967296 - 2147483648

/-- Conversion of an integer to `uint32_t`: the 32-bit pattern as a natural number. -/
def toU32 (x : Int) : Nat := (x % 4294967296).toNat

/-- Bitwise exclusive or of two `int32_t` values (`a ^ b`). -/
def xor32 (a b : Int) : Int := wrap32 (Int.ofNat (Nat.xor (toU32 a) (toU32 b)))

/-- Range predicate of `int16_t`. -/
def isInt16 (x : Int) : Prop := -32768 ≤ x ∧ x ≤ 32767

/-- Range predicate of `int32_t`. -/
def isInt32 (x : Int) : Prop := -2147483648 ≤ x ∧ x ≤ 2147483647

instance (x : Int) : Decidable (isInt16 x) :=
  inferInstanceAs (Decidable (-32768 ≤ x ∧ x ≤ 32767))

instance (x : Int) : Decidable (isInt32 x) :=
  inferInstanceAs (Decidable (-2147483648 ≤ x ∧ x ≤ 2147483647))

/-- Mathematical clamp to the `int16_t` range (specification side). -/
def clamp16 (x : Int) : Int := max (-32768) (min 32767 x)

/-- Mathematical clamp to the `int32_t` range (specification side). -/
def clamp32 (x : Int) : Int := max (-2147483648) (min 2147483647 x)

/-- The globals `Overflow` and `Carry` of `basic_op.c`. -/
structure Status where
  Overflow : Bool
  Carry : Int
deriving DecidableEq, Repr

/-- Initial value of the globals: `Overflow = false`, `Carry = 0`. -/
def Status.init : Status := { Overflow := false, Carry := 0 }

/-! ## `basic_op.h` inline functions -/

/-- Source `extract_h`: `return L_v1>>16;` -/
def extract_h (L_v1 : Int) : Int := wrap16 (L_v1 >>> (16 : Nat))

/-- Source `extract_l`: `return (int16_t)L_v1;` -/
def extract_l (L_v1 : Int) : Int := wrap16 L_v1

/-- Source `L_deposit_h`: `return (int32_t)v1<<16;` -/
def L_deposit_h (v1 : Int) : Int := wrap32 (v1 * 2 ^ 16)

/-- Source `L_deposit_l`: `return (int32_t)v1;` -/
def L_deposit_l (v1 : Int) : Int := v1

/-! ## `basic_op.c` -/

/-- Source `saturate` (basic_op.c:49). -/
def saturate (L_v1 : Int) (s : Status) : Int × Status :=
  if INT16_MAX < L_v1 then
    (INT16_MAX, { s with Overflow := true })
  else if L_v1 < INT16_MIN then
    (INT16_MIN, { s with Overflow := true })
  else
    (extract_l L_v1, s)

/-- Source `add` (basic_op.c:77): `return saturate((int32_t)v1 + v2);` -/
def add (v1 v2 : Int) (s : Status) : Int × Status :=
  saturate (wrap32 (v1 + v2)) s

/-- Source `sub` (basic_op.c:97): `return saturate((int32_t)v1 - v2);` -/
def sub (v1 v2 : Int) (s : Status) : Int × Status :=
  saturate (wrap32 (v1 - v2)) s

mutual
/-- Source `shl` (basic_op.c:118) with an explicit budget for the mutual calls between
`shl` and `shr`; a call made with an exhausted budget returns `(0, s)`.
For counts of 31 and more C leaves `(int32_t)1 << v2` undefined; the model takes
the wrapped value `wrap32 (2 ^ v2)`. The outcome of `shl` does not depend on that
value: for a count above 15 either `v1 ≠ 0` and the first disjunct of the test
decides, or `v1 = 0` and the product is `0`. -/
def shl_rec (depth : Nat) (v1 v2 : Int) (s : Status) : Int × Status :=
  match depth with
  | 0 => (0, s)
  | d + 1 =>
    if v2 < 0 then
      let v2 := if v2 < -16 then -16 else v2
      let v2 := wrap16 (-v2)
      shr_rec d v1 v2 s
    else
      let result := wrap32 (v1 * wrap32 (1 * 2 ^ v2.toNat))
      if (v2 > 15 ∧ v1 ≠ 0) ∨ result ≠ wrap32 (wrap16 result) then
        (if v1 > 0 then INT16_MAX else INT16_MIN, { s with Overflow := true })
      else
        (extract_l result, s)
/-- Source `shr` (basic_op.c:153) with an explicit budget for the mutual calls between
`shl` and `shr`; a call made with an exhausted budget returns `(0, s)`. -/
def shr_rec (depth : Nat) (v1 v2 : Int) (s : Status) : Int × Status :=
  match depth with
  | 0 => (0, s)
  | d + 1 =>
    if v2 < 0 then
      let v2 := if v2 < -16 then -16 else v2
      let v2 := wrap16 (-v2)
      shl_rec d v1 v2 s
    else
      if v2 ≥ 15 then
        (if v1 < 0 then -1 else 0, s)
      else
        (wrap16 (v1 >>> v2.toNat), s)
end

/-- Source `shl` (basic_op.c:118). A negative count is turned into a non-negative one
before the call of `shr`, so the mutual calls never nest deeper than two. -/
def shl (v1 v2 : Int) (s : Status) : Int × Status := shl_rec 2 v1 v2 s

/-- Source `shr` (basic_op.c:153). -/
def shr (v1 v2 : Int) (s : Status) : Int × Status := shr_rec 2 v1 v2 s

/-- Specification side (spec section 8, "shift identities"): `shl (shr v n) n`
returns `v` with its low `n` bits cleared, i.e. `v - v mod 2^n`, and leaves the
status (hence `Overflow`) as it was. -/
def shl_shr_clears_low_bits (v n : Int) (s : Status) : Prop :=
  shl (shr v n s).1 n (shr v n s).2 = (v - v % 2 ^ n.toNat, s)

instance (v n : Int) (s : Status) : Decidable (shl_shr_clears_low_bits v n s) :=
  inferInstanceAs (Decidable (shl (shr v n s).1 n (shr v n s).2 = (v - v % 2 ^ n.toNat, s)))

/-- Source `L_add` (basic_op.c:227). -/
def L_add (L_v1 L_v2 : Int) (s : Status) : Int × Status :=
  let L_var_out := wrap32 (L_v1 + L_v2)
  if 0 = Nat.land 0x80000000 (toU32 (xor32 L_v1 L_v2)) then
    if Nat.land 0x80000000 (toU32 (xor32 L_var_out L_v1)) ≠ 0 then
      (if L_v1 < 0 then INT32_MIN else INT32_MAX, { s with Overflow := true })
    else
      (L_var_out, s)
  else
    (L_var_out, s)

/-- Source `L_sub` (basic_op.c:257). -/
def L_sub (L_v1 L_v2 : Int) (s : Status) : Int × Status :=
  let L_var_out := wrap32 (L_v1 - L_v2)
  if 0 ≠ Nat.land 0x80000000 (toU32 (xor32 L_v1 L_v2)) then
    if Nat.land 0x80000000 (toU32 (xor32 L_var_out L_v1)) ≠ 0 then
      (if L_v1 < 0 then INT32_MIN else INT32_MAX, { s with Overflow := true })
    else
      (L_var_out, s)
  else
    (L_var_out, s)

/-- The `for(; v2 > 0; v2--)` loop of `L_shl` (basic_op.c:298); the arguments are
the remaining count `v2`, the running `L_v1` and the current `L_var_out`. -/
def L_shl_loop : Nat → Int → Int → Status → Int × Status
  | 0, _, L_var_out, s => (L_var_out, s)
  | v2 + 1, L_v1, _, s =>
    if L_v1 > 0x3fffffff then
      (INT32_MAX, { s with Overflow := true })
    else if L_v1 < wrap32 0xc0000000 then
      (INT32_MIN, { s with Overflow := true })
    else
      let L_v1 := wrap32 (L_v1 * 2)
      L_shl_loop v2 L_v1 L_v1 s

mutual
/-- Source `L_shl` (basic_op.c:288) with an explicit budget for the mutual calls between
`L_shl` and `L_shr`; a call made with an exhausted budget returns `(0, s)`. -/
def L_shl_rec (depth : Nat) (L_v1 v2 : Int) (s : Status) : Int × Status :=
  match depth with
  | 0 => (0, s)
  | d + 1 =>
    if v2 ≤ 0 then
      let v2 := if v2 < -32 then -32 else v2
      let v2 := wrap16 (-v2)
      L_shr_rec d L_v1 v2 s
    else
      L_shl_loop v2.toNat L_v1 0 s
/-- Source `L_shr` (basic_op.c:334) with an explicit budget for the mutual calls between
`L_shl` and `L_shr`; a call made with an exhausted budget returns `(0, s)`. -/
def L_shr_rec (depth : Nat) (L_v1 v2 : Int) (s : Status) : Int × Status :=
  match depth with
  | 0 => (0, s)
  | d + 1 =>
    if v2 < 0 then
      let v2 := if v2 < -32 then -32 else v2
      let v2 := wrap16 (-v2)
      L_shl_rec d L_v1 v2 s
    else
      if v2 ≥ 31 then
        (if L_v1 < 0 then -1 else 0, s)
      else if L_v1 < 0 then
        (~~~((~~~L_v1) >>> v2.toNat), s)
      else
        (L_v1 >>> v2.toNat, s)
end

/-- Source `L_shl` (basic_op.c:288). `L_shl` calls `L_shr` with a count in `[0, 32]` and
`L_shr` calls `L_shl` with a count in `[1, 32]`, so two levels suffice. -/
def L_shl (L_v1 v2 : Int) (s : Status) : Int × Status := L_shl_rec 2 L_v1 v2 s

/-- Source `L_shr` (basic_op.c:334). -/
def L_shr (L_v1 v2 : Int) (s : Status) : Int × Status := L_shr_rec 2 L_v1 v2 s

/-- Source `L_mult` (basic_op.c:409). -/
def L_mult (v1 v2 : Int) (s : Status) : Int × Status :=
  let L_var_out := wrap32 (v1 * v2)
  if L_var_out ≠ 0x40000000 then
    (wrap32 (L_var_out * 2 ^ 1), s)
  else
    (INT32_MAX, { s with Overflow := true })

/-- Source `L_mult0` (basic_op.c:438). -/
def L_mult0 (v1 v2 : Int) : Int := wrap32 (v1 * v2)

/-- Source `mult` (basic_op.c:459); it does not touch `Overflow` or `Carry`. -/
def mult (v1 v2 : Int) : Int :=
  if -32768 = v1 ∧ -32768 = v2 then
    INT16_MAX
  else
    let acc := wrap32 (v1 * v2)
    let acc := wrap32 (acc * 2 ^ 1)
    extract_h acc

/-- The body of `mult_r` (basic_op.c:492-495) up to and including the shift:
product, `+= 0x4000`, `&= 0xffff8000L`, `>>= 15`. -/
def mult_r_shifted (v1 v2 : Int) : Int :=
  let L_product_arr := wrap32 (v1 * v2)
  let L_product_arr := wrap32 (L_product_arr + 0x00004000)
  let L_product_arr := wrap32 (Int.ofNat (Nat.land (toU32 L_product_arr) 0xffff8000))
  L_product_arr >>> (15 : Nat)

/-- The sign-extension fix-up of `mult_r` (basic_op.c:497-499):
`if(L_product_arr & 0x00010000L) L_product_arr |= 0xffff0000L;` -/
def mult_r_sign_extend (L_product_arr : Int) : Int :=
  if Nat.land (toU32 L_product_arr) 0x00010000 ≠ 0 then
    wrap32 (Int.ofNat (Nat.lor (toU32 L_product_arr) 0xffff0000))
  else
    L_product_arr

/-- Source `mult_r` (basic_op.c:487). -/
def mult_r (v1 v2 : Int) (s : Status) : Int × Status :=
  saturate (mult_r_sign_extend (mult_r_shifted v1 v2)) s

/-- Source `L_mac` (basic_op.c:522): `return L_add(L_v3, L_mult(v1, v2));` -/
def L_mac (L_v3 v1 v2 : Int) (s : Status) : Int × Status :=
  let m := L_mult v1 v2 s
  L_add L_v3 m.1 m.2

/-- Source `L_mac0` (basic_op.c:545). -/
def L_mac0 (L_v3 v1 v2 : Int) (s : Status) : Int × Status :=
  L_add L_v3 (L_mult0 v1 v2) s

/-- Source `L_msu` (basic_op.c:617): `return L_sub(L_v3, L_mult(v1, v2));` -/
def L_msu (L_v3 v1 v2 : Int) (s : Status) : Int × Status :=
  let m := L_mult v1 v2 s
  L_sub L_v3 m.1 m.2

/-- Source `L_msu0` (basic_op.c:640). -/
def L_msu0 (L_v3 v1 v2 : Int) (s : Status) : Int × Status :=
  L_sub L_v3 (L_mult0 v1 v2) s

/-- Source `round_fx` (basic_op.c:705): `return extract_h(L_add(L_v1, 0x00008000L));` -/
def round_fx (L_v1 : Int) (s : Status) : Int × Status :=
  let r := L_add L_v1 0x00008000 s
  (extract_h r.1, r.2)

/-- Source `mac_r` (basic_op.c:594): `return round_fx(L_mac(L_v3, v1, v2));` -/
def mac_r (L_v3 v1 v2 : Int) (s : Status) : Int × Status :=
  let m := L_mac L_v3 v1 v2 s
  round_fx m.1 m.2

/-- Source `msu_r` (basic_op.c:688): `return round_fx(L_msu(L_v3, v1, v2));` -/
def msu_r (L_v3 v1 v2 : Int) (s : Status) : Int × Status :=
  let m := L_msu L_v3 v1 v2 s
  round_fx m.1 m.2

/-- Source `L_add_c` (basic_op.c:730). -/
def L_add_c (L_v1 L_v2 : Int) (s : Status) : Int × Status :=
  let L_var_out := wrap32 (wrap32 (L_v1 + L_v2) + s.Carry)
  let L_test := wrap32 (L_v1 + L_v2)
  let oc : Bool × Int :=
    if L_v1 > 0 ∧ L_v2 > 0 ∧ L_test < 0 then
      (true, 0)
    else if L_v1 < 0 ∧ L_v2 < 0 then
      if L_test ≥ 0 then (true, 1) else (false, 1)
    else if xor32 L_v1 L_v2 < 0 ∧ L_test ≥ 0 then
      (false, 1)
    else
      (false, 0)
  let Overflow := oc.1
  let carry_int := oc.2
  if s.Carry ≠ 0 then
    if L_test = INT32_MAX then
      (L_var_out, { Overflow := true, Carry := carry_int })
    else if L_test = wrap32 0xFFFFFFFF then
      (L_var_out, { Overflow := Overflow, Carry := 1 })
    else
      (L_var_out, { Overflow := Overflow, Carry := carry_int })
  else
    (L_var_out, { Overflow := Overflow, Carry := carry_int })

/-- Source `L_sub_c` (basic_op.c:802). -/
def L_sub_c (L_v1 L_v2 : Int) (s : Status) : Int × Status :=
  if s.Carry ≠ 0 then
    let s := { s with Carry := 0 }
    if L_v2 ≠ INT32_MIN then
      L_add_c L_v1 (wrap32 (-L_v2)) s
    else
      let L_var_out := wrap32 (L_v1 - L_v2)
      if L_v1 > 0 then
        (L_var_out, { Overflow := true, Carry := 0 })
      else
        (L_var_out, s)
  else
    let L_var_out := wrap32 (wrap32 (L_v1 - L_v2) - 0x00000001)
    let L_test := wrap32 (L_v1 - L_v2)
    let oc : Bool × Int :=
      if L_test < 0 ∧ L_v1 > 0 ∧ L_v2 < 0 then
        (true, 0)
      else if L_test > 0 ∧ L_v1 < 0 ∧ L_v2 > 0 then
        (true, 1)
      else if L_test > 0 ∧ xor32 L_v1 L_v2 > 0 then
        (false, 1)
      else
        (s.Overflow, 0)
    let Overflow := oc.1
    let carry_int := oc.2
    if L_test = INT32_MIN then
      (L_var_out, { Overflow := true, Carry := carry_int })
    else
      (L_var_out, { Overflow := Overflow, Carry := carry_int })

/-- Source `L_macNs` (basic_op.c:569): `return L_add_c(L_v3, L_mult(v1, v2));` -/
def L_macNs (L_v3 v1 v2 : Int) (s : Status) : Int × Status :=
  let m := L_mult v1 v2 s
  L_add_c L_v3 m.1 m.2

/-- Source `L_msuNs` (basic_op.c:664): `return L_sub_c(L_v3, L_mult(v1, v2));` -/
def L_msuNs (L_v3 v1 v2 : Int) (s : Status) : Int × Status :=
  let m := L_mult v1 v2 s
  L_sub_c L_v3 m.1 m.2

/-! ## Remaining `basic_op.h` inline functions -/

/-- Source `negate` (basic_op.h:112): `return (v1 == INT16_MIN)? INT16_MAX : -v1;`
It does not touch `Overflow` or `Carry`. -/
def negate (v1 : Int) : Int :=
  if v1 = INT16_MIN then INT16_MAX else wrap16 (-v1)

/-- Source `L_negate` (basic_op.h:128): `return (INT32_MIN == L_v1)? INT32_MAX : -L_v1;` -/
def L_negate (L_v1 : Int) : Int :=
  if INT32_MIN = L_v1 then INT32_MAX else wrap32 (-L_v1)

/-- Source `abs_s` (basic_op.h:143). -/
def abs_s (v1 : Int) : Int :=
  if INT16_MIN = v1 then
    INT16_MAX
  else
    wrap16 (if v1 < 0 then -v1 else v1)

/-- Source `L_abs` (basic_op.h:162). -/
def L_abs (L_v1 : Int) : Int :=
  if L_v1 = INT32_MIN then
    INT32_MAX
  else
    wrap32 (if L_v1 < 0 then -L_v1 else L_v1)

/-- A call of a function that reads and writes neither `Overflow` nor `Carry`
(`mult`, `negate`, `abs_s`, `L_negate`, `L_abs`, ...): the returned value together
with the globals, which are what they were before the call. -/
def call_pure (r : Int) (s : Status) : Int × Status := (r, s)

/-! ## Remaining `basic_op.c` functions -/

/-- The loop `for(var_out = 0; v1 < 0x4000; var_out++) v1 <<= 1;` of `norm_s`
(basic_op.c:204), bounded by `fuel` evaluations of the loop test; `none` when the
test still holds after `fuel` evaluations. -/
def norm_s_loop : Nat → Int → Int → Option Int
  | 0, _, _ => none
  | fuel + 1, v1, var_out =>
    if v1 < 0x4000 then
      norm_s_loop fuel (wrap16 (v1 * 2 ^ 1)) (wrap16 (var_out + 1))
    else
      some var_out

/-- Source `norm_s` (basic_op.c:191); `fuel` bounds the loop. -/
def norm_s (fuel : Nat) (v1 : Int) : Option Int :=
  if v1 = 0 then
    some 0
  else if v1 = wrap16 0xffff then
    some 15
  else
    let v1 := if v1 < 0 then wrap16 (~~~v1) else v1
    norm_s_loop fuel v1 0

/-- The loop `for(var_out = 0; L_v1 < 0x40000000L; var_out++) L_v1 <<= 1;` of
`norm_l` (basic_op.c:384), bounded by `fuel` evaluations of the loop test; `none`
when the test still holds after `fuel` evaluations. -/
def norm_l_loop : Nat → Int → Int → Option Int
  | 0, _, _ => none
  | fuel + 1, L_v1, var_out =>
    if L_v1 < 0x40000000 then
      norm_l_loop fuel (wrap32 (L_v1 * 2 ^ 1)) (wrap16 (var_out + 1))
    else
      some var_out

/-- Source `norm_l` (basic_op.c:371); `fuel` bounds the loop. -/
def norm_l (fuel : Nat) (L_v1 : Int) : Option Int :=
  if L_v1 = 0 then
    some 0
  else if INT32_MIN = L_v1 then
    some 31
  else
    let L_v1 := if L_v1 < 0 then wrap32 (~~~L_v1) else L_v1
    norm_l_loop fuel L_v1 0

/-- Source `shr_r` (basic_op.c:866). -/
def shr_r (v1 v2 : Int) (s : Status) : Int × Status :=
  if v2 > 15 then
    (0, s)
  else
    let r := shr v1 v2 s
    if v2 > 0 then
      if Nat.land (toU32 v1) (toU32 (wrap32 (1 * 2 ^ (v2 - 1).toNat))) ≠ 0 then
        (wrap16 (r.1 + 1), r.2)
      else
        r
    else
      r

/-- Source `L_shr_r` (basic_op.c:908). -/
def L_shr_r (L_v1 v2 : Int) (s : Status) : Int × Status :=
  if v2 > 31 then
    (0, s)
  else
    let r := L_shr L_v1 v2 s
    if v2 > 0 then
      if Nat.land (toU32 L_v1) (toU32 (wrap32 (1 * 2 ^ (v2 - 1).toNat))) ≠ 0 then
        (wrap32 (r.1 + 1), r.2)
      else
        r
    else
      r

/-- Source `i_mult` (basic_op.c:938), the branch without `ORIGINAL_G7231`:
`int32_t register c = a * b; return saturate(c);` -/
def i_mult (a b : Int) (s : Status) : Int × Status :=
  saturate (wrap32 (a * b)) s

/-- Source `L_sat` (basic_op.c:962). -/
def L_sat (L_v1 : Int) (s : Status) : Int × Status :=
  if s.Overflow then
    (if s.Carry ≠ 0 then INT32_MIN else INT32_MAX, { Overflow := false, Carry := 0 })
  else
    (L_v1, s)

/-- Source `L_mls` (basic_op.c:1000). -/
def L_mls (Lv v : Int) (s : Status) : Int × Status :=
  let acc := wrap32 (Int.ofNat (Nat.land (toU32 Lv) 0x0000ffff))
  let acc := wrap32 (acc * v)
  let r := L_shr acc 15 s
  L_mac r.1 v (extract_h Lv) r.2

/-- One pass of the loop body of `div_s` (basic_op.c:1050-1056) on
`(var_out, L_num)` with the status. -/
def div_s_step (L_denom : Int) (var_out L_num : Int) (s : Status) : Int × Int × Status :=
  let var_out := wrap16 (var_out * 2 ^ 1)
  let L_num := wrap32 (L_num * 2 ^ 1)
  if L_num ≥ L_denom then
    let r := L_sub L_num L_denom s
    let a := add var_out 1 r.2
    (a.1, r.1, a.2)
  else
    (var_out, L_num, s)

/-- The loop `for(iteration = 0; iteration < 15; iteration++)` of `div_s`, as the
number of passes still to run; it returns the final `var_out` and status. -/
def div_s_loop : Nat → Int → Int → Int → Status → Int × Status
  | 0, _, var_out, _, s => (var_out, s)
  | n + 1, L_denom, var_out, L_num, s =>
    let st := div_s_step L_denom var_out L_num s
    div_s_loop n L_denom st.1 st.2.1 st.2.2

/-- Source `div_s` (basic_op.c:1029); `none` is a failed `assert`. -/
def div_s (v1 v2 : Int) (s : Status) : Option (Int × Status) :=
  if ¬ (v1 ≤ v2) then none
  else if ¬ (0 ≤ v1) then none
  else if ¬ (0 < v2) then none
  else if 0 = v1 then
    some (0, s)
  else if v1 = v2 then
    some (INT16_MAX, s)
  else
    let L_num := L_deposit_l v1
    let L_denom := L_deposit_l v2
    some (div_s_loop 15 L_denom 0 L_num s)

/-- One pass of the loop body of `div_l` (basic_op.c:1100-1105). -/
def div_l_step (L_den : Int) (var_out L_num : Int) (s : Status) : Int × Int × Status :=
  let v := shl var_out 1 s
  let n := L_shl L_num 1 v.2
  if n.1 ≥ L_den then
    let r := L_sub n.1 L_den n.2
    let a := add v.1 1 r.2
    (a.1, r.1, a.2)
  else
    (v.1, n.1, n.2)

/-- The loop `for(iteration = 0; iteration < 15; iteration++)` of `div_l`, as the
number of passes still to run. -/
def div_l_loop : Nat → Int → Int → Int → Status → Int × Status
  | 0, _, var_out, _, s => (var_out, s)
  | n + 1, L_den, var_out, L_num, s =>
    let st := div_l_step L_den var_out L_num s
    div_l_loop n L_den st.1 st.2.1 st.2.2

/-- Source `div_l` (basic_op.c:1082); `none` is a failed `assert`. -/
def div_l (L_num den : Int) (s : Status) : Option (Int × Status) :=
  if ¬ (0 < den) then none
  else if ¬ (0 ≤ L_num) then none
  else
    let L_den := L_deposit_h den
    if L_num ≥ L_den then
      some (INT16_MAX, s)
    else
      let n := L_shr L_num 1 s
      let d := L_shr L_den 1 n.2
      some (div_l_loop 15 d.1 0 n.1 d.2)

/-! ## `filter.hpp` / `filter.cpp`: first-order direct form I -/

/-- Data members of class `IIR1DirectFormI` (filter.hpp:68-75): the Q15
coefficients and the delay line. -/
structure IIR1DirectFormI where
  b0 : Int
  b1 : Int
  a1 : Int
  ff0 : Int
  fb0 : Int
deriving DecidableEq, Repr

/-- Source `IIR1DirectFormI::convol` (filter.cpp:115): the returned accumulator,
the object after the call and the status. -/
def IIR1DirectFormI.convol (f : IIR1DirectFormI) (input : Int) (s : Status) :
    Int × IIR1DirectFormI × Status :=
  let r := round_fx f.fb0 s
  let acc := L_mult r.1 f.a1 r.2
  let acc := L_mac acc.1 f.ff0 f.b1 acc.2
  let f := { f with ff0 := input }
  let acc := L_mac acc.1 f.ff0 f.b0 acc.2
  (acc.1, { f with fb0 := acc.1 }, acc.2)

/-- Source `IIR1DirectFormI::filter(int16_t* out, const int16_t* in, int num)`
(filter.cpp:94): `*out++ = round_fx(convol(*in++));` for each input sample. -/
def IIR1DirectFormI.filter_q15 :
    IIR1DirectFormI → List Int → Status → List Int × IIR1DirectFormI × Status
  | f, [], s => ([], f, s)
  | f, x :: xs, s =>
    let c := f.convol x s
    let o := round_fx c.1 c.2.2
    let rest := IIR1DirectFormI.filter_q15 c.2.1 xs o.2
    (o.1 :: rest.1, rest.2.1, rest.2.2)

/-- Source `IIR1DirectFormI::filter(int32_t* out, const int16_t* in, int num)`
(filter.cpp:101): `*out++ = convol(*in++);` for each input sample. -/
def IIR1DirectFormI.filter_q31 :
    IIR1DirectFormI → List Int → Status → List Int × IIR1DirectFormI × Status
  | f, [], s => ([], f, s)
  | f, x :: xs, s =>
    let c := f.convol x s
    let rest := IIR1DirectFormI.filter_q31 c.2.1 xs c.2.2
    (c.1 :: rest.1, rest.2.1, rest.2.2)

/-! ## `basic_op.h`: maximum and minimum -/

/-- Source `s_max` (basic_op.h:180): `return (v1 > v2)? v1 : v2;` -/
def s_max (v1 v2 : Int) : Int := if v1 > v2 then v1 else v2

/-- Source `s_min` (basic_op.h:185): `return (v1 < v2)? v1 : v2;` -/
def s_min (v1 v2 : Int) : Int := if v1 < v2 then v1 else v2

/-- Source `L_max` (basic_op.h:190): `return (L_v1 > L_v2)? L_v1 : L_v2;` -/
def L_max (L_v1 L_v2 : Int) : Int := if L_v1 > L_v2 then L_v1 else L_v2

/-- Source `L_min` (basic_op.h:195): `return (L_v1 < L_v2)? L_v1 : L_v2;` -/
def L_min (L_v1 L_v2 : Int) : Int := if L_v1 < L_v2 then L_v1 else L_v2

/-! ## `filter.hpp` / `filter.cpp`: second-order direct form I -/

/-- Data members of class `IIR2DirectFormI` (filter.hpp:91-119): those inherited
from `IIR1DirectFormI` and the second-order coefficients and delay line. The
coefficients are Q14. -/
structure IIR2DirectFormI extends IIR1DirectFormI where
  b2 : Int
  a2 : Int
  ff1 : Int
  fb1 : Int
deriving DecidableEq, Repr

/-- Source `IIR2DirectFormI::convol` (filter.cpp:184): the returned accumulator,
the object after the call and the status. The shift count is `15 - 14`. -/
def IIR2DirectFormI.convol (f : IIR2DirectFormI) (input : Int) (s : Status) :
    Int × IIR2DirectFormI × Status :=
  let r := round_fx f.fb1 s
  let m := L_mult r.1 f.a2 r.2
  let acc := L_shl m.1 (15 - 14) m.2
  let r := round_fx f.fb0 acc.2
  let m := L_mult r.1 f.a1 r.2
  let t := L_shl m.1 (15 - 14) m.2
  let acc := L_add acc.1 t.1 t.2
  let m := L_mult f.ff1 f.b2 acc.2
  let t := L_shl m.1 (15 - 14) m.2
  let acc := L_add acc.1 t.1 t.2
  let m := L_mult f.ff0 f.b1 acc.2
  let t := L_shl m.1 (15 - 14) m.2
  let acc := L_add acc.1 t.1 t.2
  let f := { f with ff1 := f.ff0 }
  let f := { f with ff0 := input }
  let m := L_mult f.ff0 f.b0 acc.2
  let t := L_shl m.1 (15 - 14) m.2
  let acc := L_add acc.1 t.1 t.2
  let f := { f with fb1 := f.fb0 }
  (acc.1, { f with fb0 := acc.1 }, acc.2)

/-- Source `IIR1DirectFormI::filter(int16_t* out, const int16_t* in, int num)`
(filter.cpp:94) on a second-order object, where the virtual call `convol`
resolves to `IIR2DirectFormI::convol`. -/
def IIR2DirectFormI.filter_q15 :
    IIR2DirectFormI → List Int → Status → List Int × IIR2DirectFormI × Status
  | f, [], s => ([], f, s)
  | f, x :: xs, s =>
    let c := f.convol x s
    let o := round_fx c.1 c.2.2
    let rest := IIR2DirectFormI.filter_q15 c.2.1 xs o.2
    (o.1 :: rest.1, rest.2.1, rest.2.2)

/-- Source `IIR1DirectFormI::filter(int32_t* out, const int16_t* in, int num)`
(filter.cpp:101) on a second-order object. -/
def IIR2DirectFormI.filter_q31 :
    IIR2DirectFormI → List Int → Status → List Int × IIR2DirectFormI × Status
  | f, [], s => ([], f, s)
  | f, x :: xs, s =>
    let c := f.convol x s
    let rest := IIR2DirectFormI.filter_q31 c.2.1 xs c.2.2
    (c.1 :: rest.1, rest.2.1, rest.2.2)

/-- The samples `in[0]`, ..., `in[num-1]` that the loop
`for( ; 0 < num; num--)` of `filter` (filter.cpp:96, 103) reads through `*in++`:
none when `num <= 0`. -/
def filter_input (input : Nat → Int) (num : Int) : List Int :=
  (List.range num.toNat).map input

/-! ## `f2q.h` and `bilinear.c` over exact arithmetic

`float` values are rational numbers; the operations on them are taken exact, so
rounding inside the floating-point unit is not part of this model. -/

/-- Conversion `(long long)x` of a floating value: the fractional part is
discarded (C: truncation toward zero). -/
def truncToInt (x : ℚ) : Int := if 0 ≤ x then ⌊x⌋ else ⌈x⌉

/-- Source macro `F2Qn(fval, qn)` (f2q.h:35):
`((long long)(1 + fval*(0x02LL<<qn))>>1)`. The cast applies to the parenthesised
sum, the shift to the converted integer. -/
def F2Qn (fval : ℚ) (qn : Nat) : Int :=
  (truncToInt (1 + fval * ((2 * 2 ^ qn : Int) : ℚ))) >>> (1 : Nat)

/-- A C array given by its initial entries; entries that are not listed read
as `0`. -/
def arr (l : List ℚ) : Nat → ℚ := fun i => l.getD i 0

/-- The loop `for(m = N - 1; m >= 1; m--)` of `a2c` (bilinear.c:48-51 with
`c0 = 2.f`, `c1 = -2.f`, and bilinear.c:54-57 with `c0 = c1 = T`), started at
index `m`: `buf[m] += c1*buf[m-1]; buf[m-1] *= c0;`. -/
def a2c_mul (c0 c1 : ℚ) : Nat → (Nat → ℚ) → (Nat → ℚ)
  | 0, buf => buf
  | m + 1, buf =>
    let buf := Function.update buf (m + 1) (buf (m + 1) + c1 * buf m)
    let buf := Function.update buf m (buf m * c0)
    a2c_mul c0 c1 m buf

/-- A loop `for(l = ...; ...; l++)` of `a2c` that runs its inner loop `cnt`
times on the `N` entries of `buf`. -/
def a2c_rep (c0 c1 : ℚ) (N : Nat) : Nat → (Nat → ℚ) → (Nat → ℚ)
  | 0, buf => buf
  | cnt + 1, buf => a2c_rep c0 c1 N cnt (a2c_mul c0 c1 (N - 1) buf)

/-- The contents of `buf` in `a2c` (bilinear.c:44-58) at the end of the body of
the loop over `k`, before it is added to `c`. -/
def a2c_buf (a : Nat → ℚ) (N : Nat) (T : ℚ) (k : Nat) : Nat → ℚ :=
  let buf : Nat → ℚ := fun j => if j = 0 then a k else 0
  let buf := a2c_rep 2 (-2) N k buf
  a2c_rep T T N (N - (k + 1)) buf

/-- Source `a2c` (bilinear.c:36): the array `c` after the call. Entries of `c`
from index `N` on are not written. -/
def a2c (a c : Nat → ℚ) (N : Nat) (T : ℚ) : Nat → ℚ :=
  let c : Nat → ℚ := fun i => if i < N then 0 else c i
  (List.range N).foldl
    (fun c k => fun i => if i < N then c i + a2c_buf a N T k i else c i) c

/-- Source `normalize` (bilinear.c:66), the loop `for(i = N - 1; 0 <= i; i--)`
with `cnt = i + 1` indices still to be processed:
`num[i] /= den[0]; den[i] /= den[0];`. -/
def normalize : Nat → (Nat → ℚ) → (Nat → ℚ) → (Nat → ℚ) × (Nat → ℚ)
  | 0, num, den => (num, den)
  | i + 1, num, den =>
    let num := Function.update num i (num i / den 0)
    let den := Function.update den i (den i / den 0)
    normalize i num den

/-- The first loop of `bilinear` (bilinear.c:91-94), entered with `n`:
`for( ; (0.0 == numa[n]) && (0.0 == dena[n]) && (0 < n); n--)` with body
`numd[n] = 0.0; dend[n] = 0.0;`. The result is the final `n` and the two arrays. -/
def bilinear_trim (numa dena : Nat → ℚ) :
    Nat → (Nat → ℚ) → (Nat → ℚ) → Nat × (Nat → ℚ) × (Nat → ℚ)
  | 0, numd, dend => (0, numd, dend)
  | n + 1, numd, dend =>
    if 0 = numa (n + 1) ∧ 0 = dena (n + 1) then
      bilinear_trim numa dena n (Function.update numd (n + 1) 0)
        (Function.update dend (n + 1) 0)
    else
      (n + 1, numd, dend)

/-- Source `bilinear` (bilinear.c:87) for `1 <= N`: the arrays `numd` and `dend`
after the call. -/
def bilinear (numd dend numa dena : Nat → ℚ) (N : Nat) (T : ℚ) :
    (Nat → ℚ) × (Nat → ℚ) :=
  let r := bilinear_trim numa dena (N - 1) numd dend
  let n := r.1 + 1
  let numd := a2c numa r.2.1 n T
  let dend := a2c dena r.2.2 n T
  normalize n numd dend

/-! ## `filter.cpp`: coefficient design -/

/-- Enumerator `FILTER_TYPE_LPF` (filter.hpp:35). -/
abbrev FILTER_TYPE_LPF : Int := 0
/-- Enumerator `FILTER_TYPE_BPF` (filter.hpp:36). -/
abbrev FILTER_TYPE_BPF : Int := 1
/-- Enumerator `FILTER_TYPE_HPF` (filter.hpp:37). -/
abbrev FILTER_TYPE_HPF : Int := 2
/-- Enumerator `FILTER_TYPE_APF` (filter.hpp:38). -/
abbrev FILTER_TYPE_APF : Int := 3
/-- Enumerator `FILTER_TYPE_BEF` (filter.hpp:39). -/
abbrev FILTER_TYPE_BEF : Int := 4
/-- Enumerator `NUMOF_FILTER_TYPE` (filter.hpp:40). -/
abbrev NUMOF_FILTER_TYPE : Int := 5

/-- The `switch(type)` of `IIRFilter1::setFreq` (filter.cpp:59-69): the array
`numa` when a `break` is reached, `none` when `assert(false)` is reached. -/
def IIRFilter1.numa (wp : ℚ) (type : Int) : Option (Nat → ℚ) :=
  if type = FILTER_TYPE_LPF then
    some (arr [wp, 0])
  else if type = FILTER_TYPE_HPF then
    some (arr [0, 1])
  else
    none

/-- Source `IIRFilter1::setFreq` (filter.cpp:52). The argument `wp` is the value
of `bilinear_prewarp(2*M_PI*cutoff, T)`, which this model does not compute. A
failing `assert` ends the call with `Except.error` and the object as it is at
that point. -/
def IIRFilter1.setFreq (f : IIR1DirectFormI) (wp sample_freq : ℚ) (type : Int) :
    Except IIR1DirectFormI IIR1DirectFormI :=
  let T := 1 / sample_freq
  match IIRFilter1.numa wp type with
  | none => Except.error f
  | some numa =>
    let dena := arr [wp, 1]
    let r := bilinear (arr []) (arr []) numa dena 2 T
    let f := { f with b0 := wrap16 (F2Qn (r.1 0) 15) }
    let f := { f with b1 := wrap16 (F2Qn (r.1 1) 15) }
    Except.ok { f with a1 := wrap16 (F2Qn (-(r.2 1)) 15) }

/-- The `switch(type)` of `IIRFilter2::setFreq` (filter.cpp:140-155): the array
`numa` when a `break` is reached, `none` when `assert(false)` is reached. The
case `FILTER_TYPE_BEF` has no `break`: after its three assignments control
continues into `default`. -/
def IIRFilter2.numa (wp Q : ℚ) (type : Int) : Option (Nat → ℚ) :=
  if type = FILTER_TYPE_LPF then
    some (arr [wp * wp, 0, 0])
  else if type = FILTER_TYPE_BPF then
    some (arr [0, 1 / Q * wp, 0])
  else if type = FILTER_TYPE_HPF then
    some (arr [0, 0, 1])
  else if type = FILTER_TYPE_BEF then
    let _numa := arr [wp * wp, 0, 1]
    none
  else
    none

/-- Source `IIRFilter2::setFreq` (filter.cpp:133), with `wp` and the error case
as in `IIRFilter1.setFreq`. -/
def IIRFilter2.setFreq (f : IIR2DirectFormI) (wp sample_freq : ℚ) (type : Int) (Q : ℚ) :
    Except IIR2DirectFormI IIR2DirectFormI :=
  let T := 1 / sample_freq
  match IIRFilter2.numa wp Q type with
  | none => Except.error f
  | some numa =>
    let dena := arr [wp * wp, 1 / Q * wp, 1]
    let r := bilinear (arr []) (arr []) numa dena 3 T
    let f := { f with b0 := wrap16 (F2Qn (r.1 0) 14) }
    let f := { f with b1 := wrap16 (F2Qn (r.1 1) 14) }
    let f := { f with b2 := wrap16 (F2Qn (r.1 2) 14) }
    let f := { f with a1 := wrap16 (F2Qn (-(r.2 1)) 14) }
    Except.ok { f with a2 := wrap16 (F2Qn (-(r.2 2)) 14) }

/-! ## `goertzel.hpp` -/

/-- Data members of class `Goertzel` (goertzel.hpp:109-113); `y0` and `y1` are
`y[0]` and `y[1]`. -/
structure Goertzel where
  N : Int
  y0 : Int
  y1 : Int
  coef : Int
  att : Int
deriving DecidableEq, Repr

/-- The body of the loop of `Goertzel::compute` (goertzel.hpp:127-131) for one
sample. -/
def Goertzel.compute_step (g : Goertzel) (sample : Int) (s : Status) : Goertzel × Status :=
  let r := round_fx g.y0 s
  let m := L_mult r.1 g.coef r.2
  let acc := L_shl m.1 (15 - 14) m.2
  let acc := L_sub acc.1 g.y1 acc.2
  let g := { g with y1 := g.y0 }
  let y := L_mac acc.1 g.att sample acc.2
  ({ g with y0 := y.1 }, y.2)

/-- The loop `for (int i = 0 ; i < N; i++)` of `Goertzel::compute`
(goertzel.hpp:126) after its first `i` iterations, on the samples `in[0]`, ...,
`in[i-1]`. -/
def Goertzel.compute_loop (input : Nat → Int) : Nat → Goertzel → Status → Goertzel × Status
  | 0, g, s => (g, s)
  | i + 1, g, s =>
    let r := Goertzel.compute_loop input i g s
    r.1.compute_step (input i) r.2

/-- Source `Goertzel::compute` (goertzel.hpp:122). -/
def Goertzel.compute (g : Goertzel) (input : Nat → Int) (s : Status) : Goertzel × Status :=
  let g := { g with y0 := 0, y1 := 0 }
  Goertzel.compute_loop input g.N.toNat g s

/-- Source `Goertzel::getSquaredMagnitude` (goertzel.hpp:77). The `int32_t`
variable `magSq` is narrowed to 16 bits where it is passed to `L_mult`. -/
def Goertzel.getSquaredMagnitude (g : Goertzel) (input : Nat → Int) (s : Status) :
    Int × Goertzel × Status :=
  let c := g.compute input s
  let g := c.1
  let y0 := round_fx g.y0 c.2
  let y1 := round_fx g.y1 y0.2
  let magSq := mult y0.1 y1.1
  let m := L_mult (wrap16 magSq) g.coef y1.2
  let sh := L_shl m.1 (15 - 14) m.2
  let magSq := L_negate sh.1
  let acc := L_mac magSq y1.1 y1.1 sh.2
  let acc := L_mac acc.1 y0.1 y0.1 acc.2
  (acc.1, g, acc.2)

/-! ## `agc.hpp` / `agc.cpp` -/

/-- Macro `AGC_GAIN_Qn` (agc.cpp:38). -/
abbrev AGC_GAIN_Qn : Int := 10

/-- Data members of class `Agc` (agc.hpp:37-67). -/
structure Agc where
  target : Int
  maxGain : Int
  attack : Int
  release : Int
  gain : Int
  minGain : Int
deriving DecidableEq, Repr

/-- The body of the loop of `Agc::process` (agc.cpp:46-57) for one sample: the
value stored through `out`, the object and the status afterwards. -/
def Agc.process_sample (a : Agc) (x : Int) (s : Status) : Int × Agc × Status :=
  let m := L_mult x (extract_h a.gain) s
  let sh := L_shl m.1 (15 - AGC_GAIN_Qn) m.2
  let out := round_fx sh.1 sh.2
  let g :=
    if a.target < abs_s out.1 then
      let r := round_fx a.gain out.2
      L_mult r.1 a.attack r.2
    else
      let r := round_fx a.gain out.2
      let acc := sub INT16_MAX r.1 r.2
      let acc := shr acc.1 2 acc.2
      L_mac a.gain acc.1 a.release acc.2
  let gain := g.1
  let gain := L_max (L_deposit_h a.minGain) (L_min (L_deposit_h a.maxGain) gain)
  (out.1, { a with gain := gain }, g.2)

/-- Source `Agc::process` (agc.cpp:43) on the `nSamples` input samples. -/
def Agc.process : Agc → List Int → Status → List Int × Agc × Status
  | a, [], s => ([], a, s)
  | a, x :: xs, s =>
    let r := a.process_sample x s
    let rest := Agc.process r.2.1 xs r.2.2
    (r.1 :: rest.1, rest.2.1, rest.2.2)

/-! ## Constructors of the filter classes -/

/-- Constructor `IIR1DirectFormI(b0, b1, a1)` (filter.hpp:53): the coefficients
are stored and the delay line is cleared. -/
def IIR1DirectFormI.ctor (b0 b1 a1 : Int) : IIR1DirectFormI :=
  { b0 := b0, b1 := b1, a1 := a1, ff0 := 0, fb0 := 0 }

/-- Constructor `IIR2DirectFormI(b0, b1, b2, a1, a2)` (filter.hpp:102). -/
def IIR2DirectFormI.ctor (b0 b1 b2 a1 a2 : Int) : IIR2DirectFormI :=
  { toIIR1DirectFormI := IIR1DirectFormI.ctor b0 b1 a1, b2 := b2, a2 := a2, ff1 := 0, fb1 := 0 }

/-! ## `goertzel.hpp`: magnitude -/

/-- First statement of `Goertzel::getMagnitude` (goertzel.hpp:103):
`int32_t magSq = L_max(getSquaredMagnitude(in), 1);`. -/
def Goertzel.getMagnitude_magSq (g : Goertzel) (input : Nat → Int) (s : Status) :
    Int × Goertzel × Status :=
  let r := g.getSquaredMagnitude input s
  (L_max r.1 1, r.2.1, r.2.2)

/-- The argument of `sqrt` in `Goertzel::getMagnitude` (goertzel.hpp:104):
`magSq/((1LL<<31)*1.0f)`. The square root and the conversion of its result are
not part of this model. -/
def Goertzel.getMagnitude_sqrt_arg (g : Goertzel) (input : Nat → Int) (s : Status) : ℚ :=
  ((g.getMagnitude_magSq input s).1 : ℚ) / (((2 ^ 31 : Int) : ℚ) * 1)

/-! ## `agc.hpp` / `agc.cpp`: construction

A floating value assigned to an `int16_t` member is truncated toward zero and
kept in 16 bits. -/

/-- Source `Agc::setTargetLevel` (agc.cpp:82): `target = INT16_MAX*amp + 0.5;` -/
def Agc.setTargetLevel (a : Agc) (amp : ℚ) : Agc :=
  { a with target := wrap16 (truncToInt ((INT16_MAX : ℚ) * amp + 1 / 2)) }

/-- Source `Agc::setMaxGain` (agc.cpp:89): `maxGain = (1<<AGC_GAIN_Qn)*amp + 0.5;` -/
def Agc.setMaxGain (a : Agc) (amp : ℚ) : Agc :=
  { a with maxGain := wrap16 (truncToInt (((2 ^ AGC_GAIN_Qn.toNat : Int) : ℚ) * amp + 1 / 2)) }

/-- Source `Agc::setMinGain` (agc.cpp:95): `minGain = (1<<AGC_GAIN_Qn)*amp + 0.5;` -/
def Agc.setMinGain (a : Agc) (amp : ℚ) : Agc :=
  { a with minGain := wrap16 (truncToInt (((2 ^ AGC_GAIN_Qn.toNat : Int) : ℚ) * amp + 1 / 2)) }

/-- Source `Agc::setAttackTime` (agc.cpp:70): `attack = 32768.*ms2CoefA1(ms, fs) + 0.5;`.
The argument `coefA1` is the value of `ms2CoefA1(ms, fs)`, which this model does
not compute. -/
def Agc.setAttackTime (a : Agc) (coefA1 : ℚ) : Agc :=
  { a with attack := wrap16 (truncToInt (32768 * coefA1 + 1 / 2)) }

/-- Source `Agc::setReleaseTime` (agc.cpp:76):
`release = (1<<2)*32768.*(1.f - ms2CoefA1(ms, fs)) + 0.5;`, with `coefA1` as in
`Agc.setAttackTime`. -/
def Agc.setReleaseTime (a : Agc) (coefA1 : ℚ) : Agc :=
  { a with release := wrap16 (truncToInt (((2 ^ 2 : Int) : ℚ) * 32768 * (1 - coefA1) + 1 / 2)) }

/-- Constructor `Agc::Agc` (agc.hpp:40): `gain(0)`, then the five setters, the
last one `setMinGain(0.7)`. The members other than `gain` have no value before
their setter runs; they are written as `0` here and every one is overwritten.
The arguments `attackCoef` and `releaseCoef` are the values of `ms2CoefA1` for
the attack and the release time. -/
def Agc.ctor (target maxGain attackCoef releaseCoef : ℚ) : Agc :=
  let a : Agc := { target := 0, maxGain := 0, attack := 0, release := 0, gain := 0, minGain := 0 }
  let a := a.setTargetLevel target
  let a := a.setMaxGain maxGain
  let a := a.setAttackTime attackCoef
  let a := a.setReleaseTime releaseCoef
  a.setMinGain (7 / 10)

/-! ## `m5un.hpp` / `m5un.cpp`: envelope smoother -/

/-- Data members of class `Smoother` (m5un.hpp:19-22). -/
structure Smoother where
  up_coef : Int
  down_coef : Int
  buf : Int
deriving DecidableEq, Repr

/-- Constructor `Smoother(up_coef, down_coef)` (m5un.hpp:15): `buf(0)`. -/
def Smoother.ctor (up_coef down_coef : Int) : Smoother :=
  { up_coef := up_coef, down_coef := down_coef, buf := 0 }

/-- The body of the loop of `Smoother::smooth` (m5un.cpp:130-132) for one sample.
The difference `*in++ - round_fx(buf)` is computed in `int` and then stored in
the `int16_t` variable `dat`. -/
def Smoother.smooth_sample (m : Smoother) (x : Int) (s : Status) : Int × Smoother × Status :=
  let r := round_fx m.buf s
  let dat := wrap16 (x - r.1)
  let b := L_mac m.buf dat (if 0 ≤ dat then m.up_coef else m.down_coef) r.2
  let buf := b.1
  let o := round_fx buf b.2
  (o.1, { m with buf := buf }, o.2)

/-- Source `Smoother::smooth` (m5un.cpp:127) on the `num` input samples. -/
def Smoother.smooth : Smoother → List Int → Status → List Int × Smoother × Status
  | m, [], s => ([], m, s)
  | m, x :: xs, s =>
    let r := m.smooth_sample x s
    let rest := Smoother.smooth r.2.1 xs r.2.2
    (r.1 :: rest.1, rest.2.1, rest.2.2)

/-! ## `f2q.h`, `bilinear.c` and `IIRFilter1::setFreq` in `float` arithmetic

A `float` value is a rational number, and every `float` operation of the source
is the exact operation followed by the rounding `fl` of the result to a `float`.
The rounding is a parameter of the model. -/

/-- What the model assumes of the rounding `fl` of `float` results: a `float` is
rounded to itself, integers up to `2 ^ 24` are `float` values, and away from
overflow the result is within `|x| / 2 ^ 24 + 2 ^ (-40)` of the exact value `x`.
Rounding to nearest in IEEE 754 single precision has these properties (its error
is at most `|x| / 2 ^ 24` for a normal and `2 ^ (-150)` for a subnormal result). -/
def FloatRounding (fl : ℚ → ℚ) : Prop :=
  (∀ x, fl (fl x) = fl x) ∧ (∀ n : Int, |n| ≤ 16777216 → fl (n : ℚ) = (n : ℚ)) ∧
  (∀ x, |x| ≤ 2 ^ 100 → |fl x - x| ≤ |x| / 2 ^ 24 + 1 / 2 ^ 40)

/-- The loop `for(m = N - 1; m >= 1; m--)` of `a2c` (bilinear.c:48-51 with
`c0 = 2.f`, `c1 = -2.f`, and bilinear.c:54-57 with `c0 = c1 = T`) in `float`
arithmetic, started at index `m`: `buf[m] += c1*buf[m-1]; buf[m-1] *= c0;`. -/
def a2c_mul_f32 (fl : ℚ → ℚ) (c0 c1 : ℚ) : Nat → (Nat → ℚ) → (Nat → ℚ)
  | 0, buf => buf
  | m + 1, buf =>
    let buf := Function.update buf (m + 1) (fl (buf (m + 1) + fl (c1 * buf m)))
    let buf := Function.update buf m (fl (buf m * c0))
    a2c_mul_f32 fl c0 c1 m buf

/-- A loop `for(l = ...; ...; l++)` of `a2c` in `float` arithmetic that runs its
inner loop `cnt` times on the `N` entries of `buf`. -/
def a2c_rep_f32 (fl : ℚ → ℚ) (c0 c1 : ℚ) (N : Nat) : Nat → (Nat → ℚ) → (Nat → ℚ)
  | 0, buf => buf
  | cnt + 1, buf => a2c_rep_f32 fl c0 c1 N cnt (a2c_mul_f32 fl c0 c1 (N - 1) buf)

/-- The contents of `buf` in `a2c` (bilinear.c:44-58) in `float` arithmetic at
the end of the body of the loop over `k`, before it is added to `c`. -/
def a2c_buf_f32 (fl : ℚ → ℚ) (a : Nat → ℚ) (N : Nat) (T : ℚ) (k : Nat) : Nat → ℚ :=
  let buf : Nat → ℚ := fun j => if j = 0 then a k else 0
  let buf := a2c_rep_f32 fl 2 (-2) N k buf
  a2c_rep_f32 fl T T N (N - (k + 1)) buf

/-- Source `a2c` (bilinear.c:36) in `float` arithmetic: the array `c` after the
call, with `c[i] += buf[i]` rounded. -/
def a2c_f32 (fl : ℚ → ℚ) (a c : Nat → ℚ) (N : Nat) (T : ℚ) : Nat → ℚ :=
  let c : Nat → ℚ := fun i => if i < N then 0 else c i
  (List.range N).foldl
    (fun c k => fun i => if i < N then fl (c i + a2c_buf_f32 fl a N T k i) else c i) c

/-- Source `normalize` (bilinear.c:66) in `float` arithmetic, the loop
`for(i = N - 1; 0 <= i; i--)` with `cnt = i + 1` indices still to be processed:
`num[i] /= den[0]; den[i] /= den[0];`. -/
def normalize_f32 (fl : ℚ → ℚ) : Nat → (Nat → ℚ) → (Nat → ℚ) → (Nat → ℚ) × (Nat → ℚ)
  | 0, num, den => (num, den)
  | i + 1, num, den =>
    let num := Function.update num i (fl (num i / den 0))
    let den := Function.update den i (fl (den i / den 0))
    normalize_f32 fl i num den

/-- Source `bilinear` (bilinear.c:87) for `1 <= N` in `float` arithmetic: the
arrays `numd` and `dend` after the call. The first loop compares with and stores
`0.0`, which involves no rounding. -/
def bilinear_f32 (fl : ℚ → ℚ) (numd dend numa dena : Nat → ℚ) (N : Nat) (T : ℚ) :
    (Nat → ℚ) × (Nat → ℚ) :=
  let r := bilinear_trim numa dena (N - 1) numd dend
  let n := r.1 + 1
  let numd := a2c_f32 fl numa r.2.1 n T
  let dend := a2c_f32 fl dena r.2.2 n T
  normalize_f32 fl n numd dend

/-- Source macro `F2Qn(fval, qn)` (f2q.h:35) on a `float` argument:
`((long long)(1 + fval*(0x02LL<<qn))>>1)`. The product and the sum are `float`
operations, the cast truncates toward zero, the shift applies to the integer. -/
def F2Qn_f32 (fl : ℚ → ℚ) (fval : ℚ) (qn : Nat) : Int :=
  (truncToInt (fl (1 + fl (fval * ((2 * 2 ^ qn : Int) : ℚ))))) >>> (1 : Nat)

/-- Source `IIRFilter1::setFreq` (filter.cpp:52) in `float` arithmetic. The
arguments `wp` and `T` are the `float` values of
`bilinear_prewarp(2*M_PI*cutoff, T)` and of `1.0/sample_freq`, which this model
does not compute. A failing `assert` ends the call with `Except.error` and the
object as it is at that point. -/
def IIRFilter1.setFreq_f32 (fl : ℚ → ℚ) (f : IIR1DirectFormI) (wp T : ℚ) (type : Int) :
    Except IIR1DirectFormI IIR1DirectFormI :=
  match IIRFilter1.numa wp type with
  | none => Except.error f
  | some numa =>
    let dena := arr [wp, 1]
    let r := bilinear_f32 fl (arr []) (arr []) numa dena 2 T
    let f := { f with b0 := wrap16 (F2Qn_f32 fl (r.1 0) 15) }
    let f := { f with b1 := wrap16 (F2Qn_f32 fl (r.1 1) 15) }
    Except.ok { f with a1 := wrap16 (F2Qn_f32 fl (-(r.2 1)) 15) }

/-! ## Specification side of the Goertzel block recursion -/

/-- Specification side of the Goertzel recursion, one sample: from the
accumulators `(y0, y1)` and the status,
`acc = L_sub(L_shl(L_mult(round_fx(y0), coef), 1), y1); y1 = y0;
y0 = L_mac(acc, att, sample)`. -/
def goertzelSpecStep (coef att : Int) (st : Int × Int × Status) (sample : Int) :
    Int × Int × Status :=
  let r := round_fx st.1 st.2.2
  let m := L_mult r.1 coef r.2
  let sh := L_shl m.1 1 m.2
  let acc := L_sub sh.1 st.2.1 sh.2
  let y := L_mac acc.1 att sample acc.2
  (y.1, st.1, y.2)

/-- Specification side of a Goertzel block: both accumulators start at zero and
`goertzelSpecStep` is applied to the samples in order. -/
def goertzelSpecBlock (coef att : Int) (samples : List Int) (s : Status) :
    Int × Int × Status :=
  samples.foldl (goertzelSpecStep coef att) (0, 0, s)

/-! ## Defined behaviour of the carry adder -/

/-- The two signed additions of `L_add_c` (basic_op.c:736, 738),
`L_v1 + L_v2 + Carry` and `L_v1 + L_v2`, stay in the range of `int32_t`. Outside
this condition the additions overflow, which C leaves undefined, and the tests
of `L_add_c` on the sign of `L_test` have no defined outcome. -/
def L_add_c_in_range (L_v1 L_v2 : Int) (s : Status) : Prop :=
  isInt32 (L_v1 + L_v2) ∧ isInt32 (L_v1 + L_v2 + s.Carry)

instance (L_v1 L_v2 : Int) (s : Status) : Decidable (L_add_c_in_range L_v1 L_v2 s) := by
  unfold L_add_c_in_range
  exact inferInstance

/-! ## Specification-side relations on the status -/

/-- Relation between the status before and after a call that at most sets
`Overflow`: the status is unchanged, or only `Overflow` has become true. -/
def OverflowOnly (s t : Status) : Prop := t = s ∨ t = { s with Overflow := true }

/-- A result whose status differs from the status `s` before the call at most by
`Overflow` having been set. -/
def ResOnly (s : Status) (x : Int × Status) : Prop := ∃ v t, x = (v, t) ∧ OverflowOnly s t

/-- The first `N` entries of `buf` are the coefficients of the polynomial `p`,
whose degree is at most `d`. -/
def BufPoly (N d : Nat) (buf : Nat → ℚ) (p : Polynomial ℚ) : Prop :=
  (∀ i, i < N → buf i = p.coeff i) ∧ ∀ i, d < i → p.coeff i = 0

/-! ## Helper lemmas on machine integers -/

theorem wrap16_of_isInt16 {x : Int} (h : isInt16 x) : wrap16 x = x := by
  unfold isInt16 at h
  unfold wrap16
  omega

theorem wrap32_of_isInt32 {x : Int} (h : isInt32 x) : wrap32 x = x := by
  unfold isInt32 at h
  unfold wrap32
  omega

theorem isInt32_of_isInt16 {x : Int} (h : isInt16 x) : isInt32 x := by
  unfold isInt16 at h
  unfold isInt32
  omega

theorem saturate_fst (L : Int) (s : Status) : (saturate L s).1 = clamp16 L := by
  unfold saturate clamp16 extract_l wrap16
  split
  · simp only [INT16_MAX] at *
    omega
  · split
    · simp only [INT16_MIN] at *
      omega
    · simp only [INT16_MAX, INT16_MIN] at *
      omega

theorem saturate_overflow (L : Int) (s : Status) :
    ((saturate L s).2.Overflow = true ↔
      (s.Overflow = true ∨ L < -32768 ∨ 32767 < L)) := by
  unfold saturate
  split
  · simp only [INT16_MAX] at *
    simp
    omega
  · split
    · simp only [INT16_MIN] at *
      simp
      omega
    · simp only [INT16_MAX, INT16_MIN] at *
      constructor
      · intro h
        exact Or.inl h
      · rintro (h | h | h)
        · exact h
        · omega
        · omega

theorem saturate_carry (L : Int) (s : Status) : (saturate L s).2.Carry = s.Carry := by
  unfold saturate
  split
  · rfl
  · split <;> rfl

theorem isInt32_wrap32 (x : Int) : isInt32 (wrap32 x) := by
  unfold isInt32 wrap32
  omega

theorem isInt16_wrap16 (x : Int) : isInt16 (wrap16 x) := by
  unfold isInt16 wrap16
  omega

theorem shiftRight_eq_div (x : Int) (n : Nat) : x >>> n = x / 2 ^ n := by
  rw [Int.shiftRight_eq_div_pow]
  norm_cast

theorem not_eq_neg_sub_one (x : Int) : ~~~x = -x - 1 := by
  cases x with
  | ofNat n =>
    show Int.negSucc n = -(n : Int) - 1
    rw [Int.negSucc_eq]
    omega
  | negSucc n =>
    show Int.ofNat n = -(Int.negSucc n) - 1
    rw [Int.negSucc_eq]
    simp only [Int.ofNat_eq_coe]
    omega

theorem toU32_lt (x : Int) : toU32 x < 4294967296 := by
  unfold toU32
  omega

theorem toU32_wrap32_ofNat {n : Nat} (h : n < 4294967296) :
    toU32 (wrap32 (Int.ofNat n)) = n := by
  unfold toU32 wrap32
  simp only [Int.ofNat_eq_coe]
  omega

/-- Bit 31 of a 32-bit pattern is clear exactly below `2^31`. -/
theorem land_sign_eq_zero_iff (n : Nat) (h : n < 4294967296) :
    Nat.land 0x80000000 n = 0 ↔ n < 2147483648 := by
  show (2147483648 &&& n = 0) ↔ _
  have hb : Nat.testBit n 31 = decide (n / 2 ^ 31 % 2 = 1) := Nat.testBit_to_div_mod
  constructor
  · intro h0
    have h1 : Nat.testBit (2147483648 &&& n) 31 = false := by
      rw [h0]
      simp
    rw [Nat.testBit_and] at h1
    have h2 : Nat.testBit 2147483648 31 = true := by decide
    rw [h2, Bool.true_and, hb] at h1
    simp at h1
    omega
  · intro hlt
    apply Nat.eq_of_testBit_eq
    intro i
    rw [Nat.testBit_and, Nat.zero_testBit]
    by_cases hi : i = 31
    · subst hi
      rw [hb]
      have : ¬ (n / 2 ^ 31 % 2 = 1) := by omega
      rw [decide_eq_false this, Bool.and_false]
    · have : Nat.testBit 2147483648 i = false := by
        have := @Nat.testBit_two_pow_of_ne 31 i (fun h => hi h.symm)
        simpa using this
      rw [this, Bool.false_and]

theorem testBit_31 (n : Nat) (h : n < 4294967296) :
    n.testBit 31 = decide (2147483648 ≤ n) := by
  rw [Nat.testBit_to_div_mod]
  apply decide_eq_decide.mpr
  omega

theorem toU32_testBit_31 {a : Int} (h : isInt32 a) :
    (toU32 a).testBit 31 = decide (a < 0) := by
  rw [testBit_31 _ (toU32_lt a)]
  apply decide_eq_decide.mpr
  unfold isInt32 at h
  unfold toU32
  omega

theorem toU32_xor32 (a b : Int) : toU32 (xor32 a b) = toU32 a ^^^ toU32 b := by
  unfold xor32
  apply toU32_wrap32_ofNat
  exact Nat.xor_lt_two_pow (n := 32) (toU32_lt a) (toU32_lt b)

/-- The test `0x80000000L & (a ^ b)` of the source sees whether the signs differ. -/
theorem sign_xor32_eq_zero_iff {a b : Int} (ha : isInt32 a) (hb : isInt32 b) :
    Nat.land 0x80000000 (toU32 (xor32 a b)) = 0 ↔ (a < 0 ↔ b < 0) := by
  rw [land_sign_eq_zero_iff _ (toU32_lt _)]
  have hx : (toU32 (xor32 a b)).testBit 31 = decide (2147483648 ≤ toU32 (xor32 a b)) :=
    testBit_31 _ (toU32_lt _)
  rw [toU32_xor32, Nat.testBit_xor, toU32_testBit_31 ha, toU32_testBit_31 hb] at hx
  rw [toU32_xor32]
  by_cases h1 : a < 0 <;> by_cases h2 : b < 0 <;> simp [h1, h2] at hx ⊢ <;> omega

/-- Function `L_add` on 32-bit operands: the exact sum when it is representable, otherwise
the bound on the side of `L_v1` with `Overflow` set. -/
theorem L_add_eq {a b : Int} (ha : isInt32 a) (hb : isInt32 b) (s : Status) :
    L_add a b s =
      if isInt32 (a + b) then (a + b, s)
      else (if a < 0 then INT32_MIN else INT32_MAX, { s with Overflow := true }) := by
  unfold L_add
  simp only [ne_eq, eq_comm (a := (0 : Nat)),
    sign_xor32_eq_zero_iff ha hb, sign_xor32_eq_zero_iff (isInt32_wrap32 (a + b)) ha]
  unfold isInt32 at *
  unfold wrap32
  by_cases hr : -2147483648 ≤ a + b ∧ a + b ≤ 2147483647
  · have hw : (a + b + 2147483648) % 4294967296 - 2147483648 = a + b := by omega
    rw [if_pos hr, hw]
    split_ifs <;> first | rfl | omega
  · rw [if_neg hr]
    have h1 : (a < 0 ↔ b < 0) := by omega
    have h2 : ¬ ((a + b + 2147483648) % 4294967296 - 2147483648 < 0 ↔ a < 0) := by omega
    rw [if_pos h1, if_pos h2]

/-- Function `L_sub` on 32-bit operands: the exact difference when it is representable,
otherwise the bound on the side of `L_v1` with `Overflow` set. -/
theorem L_sub_eq {a b : Int} (ha : isInt32 a) (hb : isInt32 b) (s : Status) :
    L_sub a b s =
      if isInt32 (a - b) then (a - b, s)
      else (if a < 0 then INT32_MIN else INT32_MAX, { s with Overflow := true }) := by
  unfold L_sub
  simp only [ne_eq, eq_comm (a := (0 : Nat)),
    sign_xor32_eq_zero_iff ha hb, sign_xor32_eq_zero_iff (isInt32_wrap32 (a - b)) ha]
  unfold isInt32 at *
  unfold wrap32
  by_cases hr : -2147483648 ≤ a - b ∧ a - b ≤ 2147483647
  · have hw : (a - b + 2147483648) % 4294967296 - 2147483648 = a - b := by omega
    rw [if_pos hr, hw]
    split_ifs <;> first | rfl | omega
  · rw [if_neg hr]
    have h1 : ¬ (a < 0 ↔ b < 0) := by omega
    have h2 : ¬ ((a - b + 2147483648) % 4294967296 - 2147483648 < 0 ↔ a < 0) := by omega
    rw [if_pos h1, if_pos h2]

/-- Bounds of a product of two 16-bit values; the second one is tight enough to
single out `(-32768) * (-32768)` as the only product reaching `2^30`. -/
theorem mul_int16_bounds {v1 v2 : Int} (h1 : isInt16 v1) (h2 : isInt16 v2) :
    -1073709056 ≤ v1 * v2 ∧ 2 * (v1 * v2) + v1 + v2 ≤ 2147418112 := by
  unfold isInt16 at h1 h2
  obtain ⟨a1, b1⟩ := h1
  obtain ⟨a2, b2⟩ := h2
  constructor
  · nlinarith [mul_nonneg (sub_nonneg.mpr a1) (sub_nonneg.mpr a2),
      mul_nonneg (sub_nonneg.mpr b1) (sub_nonneg.mpr b2)]
  · nlinarith [mul_nonneg (sub_nonneg.mpr a1) (sub_nonneg.mpr b2),
      mul_nonneg (sub_nonneg.mpr b1) (sub_nonneg.mpr a2)]

/-- Function `L_mult` away from `(-32768, -32768)`: the exact doubled product, status
untouched. -/
theorem L_mult_of_ne {v1 v2 : Int} (h1 : isInt16 v1) (h2 : isInt16 v2)
    (hne : ¬ (v1 = -32768 ∧ v2 = -32768)) (s : Status) :
    L_mult v1 v2 s = (2 * v1 * v2, s) := by
  obtain ⟨hlo, hhi⟩ := mul_int16_bounds h1 h2
  have e2 : 2 * v1 * v2 = 2 * (v1 * v2) := by ring
  unfold isInt16 at h1 h2
  have hw : wrap32 (v1 * v2) = v1 * v2 := by
    unfold wrap32
    omega
  have hp : ¬ v1 * v2 = 1073741824 := by omega
  have hw2 : wrap32 (v1 * v2 * 2) = 2 * (v1 * v2) := by
    unfold wrap32
    omega
  unfold L_mult
  simp only [hw, pow_one, ne_eq]
  rw [if_pos hp, hw2, e2]

theorem L_mult_min (s : Status) :
    L_mult (-32768) (-32768) s = (2147483647, { s with Overflow := true }) := by
  rfl

theorem L_mult_isInt32 {v1 v2 : Int} (h1 : isInt16 v1) (h2 : isInt16 v2) (s : Status) :
    isInt32 (L_mult v1 v2 s).1 := by
  by_cases hne : v1 = -32768 ∧ v2 = -32768
  · obtain ⟨rfl, rfl⟩ := hne
    rw [L_mult_min]
    show isInt32 2147483647
    decide
  · rw [L_mult_of_ne h1 h2 hne]
    obtain ⟨hlo, hhi⟩ := mul_int16_bounds h1 h2
    have e2 : 2 * v1 * v2 = 2 * (v1 * v2) := by ring
    unfold isInt16 at h1 h2
    unfold isInt32
    dsimp only
    rw [e2]
    omega

theorem extract_h_eq {L : Int} (h : isInt32 L) : extract_h L = L / 65536 := by
  unfold extract_h
  rw [shiftRight_eq_div]
  unfold isInt32 at h
  unfold wrap16
  norm_num
  omega

/-- Function `L_add` on 32-bit operands as a pair: the clamped sum, `Overflow` set exactly
when the sum is not representable. -/
theorem L_add_pair {a b : Int} (ha : isInt32 a) (hb : isInt32 b) (s : Status) :
    L_add a b s =
      (clamp32 (a + b), if isInt32 (a + b) then s else { s with Overflow := true }) := by
  rw [L_add_eq ha hb]
  by_cases hr : isInt32 (a + b)
  · rw [if_pos hr, if_pos hr]
    congr 1
    unfold isInt32 at hr
    unfold clamp32
    omega
  · rw [if_neg hr, if_neg hr]
    congr 1
    unfold isInt32 at *
    unfold clamp32
    simp only [INT32_MIN, INT32_MAX]
    split_ifs <;> omega

/-- Function `L_sub` on 32-bit operands as a pair: the clamped difference, `Overflow` set
exactly when the difference is not representable. -/
theorem L_sub_pair {a b : Int} (ha : isInt32 a) (hb : isInt32 b) (s : Status) :
    L_sub a b s =
      (clamp32 (a - b), if isInt32 (a - b) then s else { s with Overflow := true }) := by
  rw [L_sub_eq ha hb]
  by_cases hr : isInt32 (a - b)
  · rw [if_pos hr, if_pos hr]
    congr 1
    unfold isInt32 at hr
    unfold clamp32
    omega
  · rw [if_neg hr, if_neg hr]
    congr 1
    unfold isInt32 at *
    unfold clamp32
    simp only [INT32_MIN, INT32_MAX]
    split_ifs <;> omega

/-- Function `round_fx` on a 32-bit value, as a pair of result and status. -/
theorem round_fx_pair {L : Int} (h : isInt32 L) (s : Status) :
    round_fx L s =
      (min 32767 ((L + 32768) / 65536),
        if L > INT32_MAX - 32768 then { s with Overflow := true } else s) := by
  have h8 : isInt32 0x8000 := by decide
  unfold round_fx
  rw [L_add_eq h h8]
  simp only [INT32_MAX, INT32_MIN]
  by_cases hc : L > 2147483647 - 32768
  · have hi : ¬ isInt32 (L + 32768) := by
      unfold isInt32
      omega
    have hn : ¬ L < 0 := by omega
    rw [if_neg hi, if_neg hn, if_pos hc]
    have he : extract_h 2147483647 = 32767 := by decide
    dsimp only
    rw [he]
    congr 1
    omega
  · have hi : isInt32 (L + 32768) := by
      unfold isInt32 at *
      omega
    rw [if_pos hi, if_neg hc]
    dsimp only
    rw [extract_h_eq hi]
    congr 1
    unfold isInt32 at h
    omega

theorem L_deposit_h_eq {v : Int} (hv : isInt16 v) : L_deposit_h v = v * 65536 := by
  unfold isInt16 at hv
  unfold L_deposit_h wrap32
  norm_num
  omega

theorem and_two_pow_eq_zero_iff (n k : Nat) : n &&& 2 ^ k = 0 ↔ n.testBit k = false := by
  constructor
  · intro h0
    have h1 : Nat.testBit (n &&& 2 ^ k) k = false := by
      rw [h0]
      exact Nat.zero_testBit k
    rw [Nat.testBit_and, Nat.testBit_two_pow_self, Bool.and_true] at h1
    exact h1
  · intro hb
    apply Nat.eq_of_testBit_eq
    intro i
    rw [Nat.testBit_and, Nat.zero_testBit]
    by_cases hi : k = i
    · subst hi
      rw [hb, Bool.false_and]
    · rw [Nat.testBit_two_pow_of_ne hi, Bool.and_false]

/-- Masking with `n & 0xffff8000` clears the low 15 bits of a 32-bit pattern. -/
theorem land_mask15 (n : Nat) (h : n < 4294967296) :
    Nat.land n 0xffff8000 = n - n % 32768 := by
  show n &&& 4294934528 = n - n % 32768
  have hn : n = 2 ^ 15 * (n / 32768) + n % 32768 := by norm_num; omega
  have hm : 4294934528 = 2 ^ 15 * (2 ^ 17 - 1) + 0 := by norm_num
  have hr : n - n % 32768 = 2 ^ 15 * (n / 32768) + 0 := by norm_num; omega
  have hb : n % 32768 < 2 ^ 15 := by norm_num; omega
  have ha : n / 32768 < 2 ^ 17 := by norm_num; omega
  rw [hr]
  apply Nat.eq_of_testBit_eq
  intro j
  rw [Nat.testBit_and, Nat.testBit_mul_pow_two_add _ (Nat.two_pow_pos 15)]
  conv_lhs => rw [hn, hm]
  rw [Nat.testBit_mul_pow_two_add _ hb, Nat.testBit_mul_pow_two_add _ (Nat.two_pow_pos 15)]
  by_cases hj : j < 15
  · simp [hj]
  · simp only [hj, if_false, Nat.testBit_two_pow_sub_one]
    by_cases hk : j - 15 < 17
    · simp [hk]
    · have : Nat.testBit (n / 32768) (j - 15) = false := by
        apply Nat.testBit_lt_two_pow
        calc n / 32768 < 2 ^ 17 := ha
          _ ≤ 2 ^ (j - 15) := Nat.pow_le_pow_right (by norm_num) (by omega)
      simp [this]

/-- Or-ing with `n | 0xffff0000` leaves a pattern whose top 17 bits are all set unchanged. -/
theorem lor_high16 (n : Nat) (h1 : 4294934528 ≤ n) (h2 : n < 4294967296) :
    Nat.lor n 0xffff0000 = n := by
  show n ||| 4294901760 = n
  have hn : n = 2 ^ 15 * (2 ^ 17 - 1) + n % 32768 := by norm_num; omega
  have hm : 4294901760 = 2 ^ 15 * (2 ^ 17 - (1 + 1)) + 0 := by norm_num
  have hb : n % 32768 < 2 ^ 15 := by norm_num; omega
  apply Nat.eq_of_testBit_eq
  intro j
  rw [Nat.testBit_or]
  conv_lhs => rw [hn, hm]
  conv_rhs => rw [hn]
  rw [Nat.testBit_mul_pow_two_add _ hb, Nat.testBit_mul_pow_two_add _ (Nat.two_pow_pos 15)]
  by_cases hj : j < 15
  · simp [hj]
  · simp only [hj, if_false, Nat.testBit_two_pow_sub_one]
    rw [Nat.testBit_two_pow_sub_succ (by norm_num)]
    cases decide (j - 15 < 17) <;> simp

/-- The masked and shifted product of `mult_r` is the rounded quotient. -/
theorem mult_r_shifted_eq {v1 v2 : Int} (h1 : isInt16 v1) (h2 : isInt16 v2) :
    mult_r_shifted v1 v2 = (v1 * v2 + 16384) / 2 ^ 15 := by
  obtain ⟨hlo, hhi⟩ := mul_int16_bounds h1 h2
  unfold isInt16 at h1 h2
  have hw : wrap32 (v1 * v2) = v1 * v2 := by
    unfold wrap32
    omega
  have hw2 : wrap32 (v1 * v2 + 16384) = v1 * v2 + 16384 := by
    unfold wrap32
    omega
  unfold mult_r_shifted
  simp only [hw, hw2, Int.ofNat_eq_coe]
  rw [land_mask15 _ (toU32_lt _), shiftRight_eq_div]
  have hu := toU32_lt (v1 * v2 + 16384)
  have hsub : ((toU32 (v1 * v2 + 16384) - toU32 (v1 * v2 + 16384) % 32768 : Nat) : Int)
      = (toU32 (v1 * v2 + 16384) : Int) - (toU32 (v1 * v2 + 16384) : Int) % 32768 := by
    omega
  rw [hsub]
  have hT : (toU32 (v1 * v2 + 16384) : Int) = (v1 * v2 + 16384) % 4294967296 := by
    unfold toU32
    omega
  rw [hT]
  unfold wrap32
  norm_num
  omega

/-- The sign-extension fix-up of `mult_r` is the identity on `[-32768, 32768]`. -/
theorem mult_r_sign_extend_eq {x : Int} (h0 : -32768 ≤ x) (h1 : x ≤ 32768) :
    mult_r_sign_extend x = x := by
  unfold mult_r_sign_extend
  split
  · rename_i hb
    have hneg : x < 0 := by
      by_contra hx
      apply hb
      show toU32 x &&& 2 ^ 16 = 0
      rw [and_two_pow_eq_zero_iff]
      apply Nat.testBit_lt_two_pow
      unfold toU32
      omega
    rw [lor_high16 _ (by unfold toU32; omega) (toU32_lt x)]
    unfold wrap32 toU32
    simp only [Int.ofNat_eq_coe]
    omega
  · rfl

theorem mult_r_shifted_range {v1 v2 : Int} (h1 : isInt16 v1) (h2 : isInt16 v2) :
    -32768 ≤ mult_r_shifted v1 v2 ∧ mult_r_shifted v1 v2 ≤ 32768 := by
  rw [mult_r_shifted_eq h1 h2]
  obtain ⟨hlo, hhi⟩ := mul_int16_bounds h1 h2
  unfold isInt16 at h1 h2
  norm_num
  omega

/-! ### Shifts -/

theorem two_pow_pos_int (n : Nat) : (0 : Int) < 2 ^ n := by positivity

theorem two_pow_le_int {m n : Nat} (h : m ≤ n) : (2 : Int) ^ m ≤ 2 ^ n :=
  pow_le_pow_right₀ (by norm_num) h

/-- Function `shr` with a non-negative count takes the `else` branch, whatever the budget. -/
theorem shr_rec_nonneg (d : Nat) (v1 v2 : Int) (s : Status) (h : 0 ≤ v2) :
    shr_rec (d + 1) v1 v2 s =
      if v2 ≥ 15 then (if v1 < 0 then -1 else 0, s) else (wrap16 (v1 >>> v2.toNat), s) := by
  rw [shr_rec, if_neg (by omega)]

/-- Function `shl` with a non-negative count takes the `else` branch, whatever the budget. -/
theorem shl_rec_nonneg (d : Nat) (v1 v2 : Int) (s : Status) (h : 0 ≤ v2) :
    shl_rec (d + 1) v1 v2 s =
      if (v2 > 15 ∧ v1 ≠ 0) ∨
          wrap32 (v1 * wrap32 (1 * 2 ^ v2.toNat)) ≠
            wrap32 (wrap16 (wrap32 (v1 * wrap32 (1 * 2 ^ v2.toNat)))) then
        (if v1 > 0 then INT16_MAX else INT16_MIN, { s with Overflow := true })
      else
        (extract_l (wrap32 (v1 * wrap32 (1 * 2 ^ v2.toNat))), s) := by
  rw [shl_rec, if_neg (by omega)]

/-- The count handed over when a negative count reverses the direction. -/
theorem flip_count16 {n : Int} (h : n < 0) (hn : isInt16 n) :
    wrap16 (-(if n < -16 then -16 else n)) = min (-n) 16 := by
  unfold isInt16 at hn
  unfold wrap16
  split <;> omega

theorem shl_neg (v n : Int) (s : Status) (h : n < 0) (hn : isInt16 n) :
    shl v n s = shr v (min (-n) 16) s := by
  unfold shl shr
  rw [shl_rec, if_pos h]
  dsimp only
  rw [flip_count16 h hn, shr_rec_nonneg 0 _ _ _ (by omega), shr_rec_nonneg 1 _ _ _ (by omega)]

theorem shr_neg (v n : Int) (s : Status) (h : n < 0) (hn : isInt16 n) :
    shr v n s = shl v (min (-n) 16) s := by
  unfold shl shr
  rw [shr_rec, if_pos h]
  dsimp only
  rw [flip_count16 h hn, shl_rec_nonneg 0 _ _ _ (by omega), shl_rec_nonneg 1 _ _ _ (by omega)]

/-- Arithmetic right shift of a 16-bit value: floor division, status untouched. -/
theorem shr_nonneg_pair {v n : Int} (hv : isInt16 v) (h0 : 0 ≤ n) (s : Status) :
    shr v n s = (v / 2 ^ n.toNat, s) := by
  unfold shr
  rw [shr_rec_nonneg 1 _ _ _ h0]
  have hp := two_pow_pos_int n.toNat
  unfold isInt16 at hv
  by_cases h15 : n ≥ 15
  · rw [if_pos h15]
    have hp15 : (2 : Int) ^ 15 ≤ 2 ^ n.toNat := two_pow_le_int (by omega)
    norm_num at hp15
    congr 1
    by_cases hneg : v < 0
    · rw [if_pos hneg]
      apply le_antisymm
      · rw [Int.le_ediv_iff_mul_le hp]
        omega
      · have : v / 2 ^ n.toNat < 0 := by
          rw [Int.ediv_lt_iff_lt_mul hp]
          omega
        omega
    · rw [if_neg hneg]
      exact (Int.ediv_eq_zero_of_lt (by omega) (by omega)).symm
  · rw [if_neg h15, shiftRight_eq_div]
    congr 1
    have h1 : -32768 ≤ v / 2 ^ n.toNat := by
      rw [Int.le_ediv_iff_mul_le hp]
      omega
    have h2 : v / 2 ^ n.toNat < 32768 := by
      rw [Int.ediv_lt_iff_lt_mul hp]
      omega
    unfold wrap16
    omega

/-- Left shift by 16 or more: zero stays zero, anything else saturates. -/
theorem shl_ge16 {v n : Int} (h : 16 ≤ n) (s : Status) :
    shl v n s =
      if v = 0 then (0, s)
      else (if v > 0 then INT16_MAX else INT16_MIN, { s with Overflow := true }) := by
  unfold shl
  rw [shl_rec_nonneg 1 _ _ _ (by omega)]
  by_cases hv : v = 0
  · subst hv
    rw [if_pos rfl, zero_mul]
    have hc : ¬ (((n > 15 ∧ (0 : Int) ≠ 0)) ∨ wrap32 0 ≠ wrap32 (wrap16 (wrap32 0))) := by
      have : wrap32 0 = wrap32 (wrap16 (wrap32 0)) := by decide
      intro hh
      rcases hh with ⟨-, h0⟩ | h0
      · exact h0 rfl
      · exact h0 this
    rw [if_neg hc]
    rfl
  · rw [if_neg hv, if_pos (Or.inl ⟨by omega, hv⟩)]

/-- Left shift of a 16-bit value by a non-negative count: the clamped exact value,
`Overflow` set exactly when the exact value is not representable. -/
theorem shl_nonneg_pair {v n : Int} (hv : isInt16 v) (h0 : 0 ≤ n) (s : Status) :
    shl v n s =
      (clamp16 (v * 2 ^ n.toNat),
        if isInt16 (v * 2 ^ n.toNat) then s else { s with Overflow := true }) := by
  have hp := two_pow_pos_int n.toNat
  unfold isInt16 at hv
  by_cases h16 : 16 ≤ n
  · rw [shl_ge16 h16]
    have hp16 : (2 : Int) ^ 16 ≤ 2 ^ n.toNat := two_pow_le_int (by omega)
    norm_num at hp16
    by_cases hz : v = 0
    · subst hz
      rw [if_pos rfl, zero_mul, if_pos (by decide)]
      rfl
    · rw [if_neg hz]
      by_cases hpos : v > 0
      · have hx : 2 ^ n.toNat ≤ v * 2 ^ n.toNat := le_mul_of_one_le_left hp.le (by omega)
        have hni : ¬ isInt16 (v * 2 ^ n.toNat) := by
          unfold isInt16
          omega
        rw [if_pos hpos, if_neg hni]
        congr 1
        unfold clamp16
        simp only [INT16_MAX]
        omega
      · have hx : v * 2 ^ n.toNat ≤ -(2 ^ n.toNat) := by
          have : (-v) * 2 ^ n.toNat ≥ 1 * 2 ^ n.toNat :=
            mul_le_mul_of_nonneg_right (by omega) hp.le
          linarith
        have hni : ¬ isInt16 (v * 2 ^ n.toNat) := by
          unfold isInt16
          omega
        rw [if_neg hpos, if_neg hni]
        congr 1
        unfold clamp16
        simp only [INT16_MIN]
        omega
  · unfold shl
    rw [shl_rec_nonneg 1 _ _ _ h0]
    have hp15 : (2 : Int) ^ n.toNat ≤ 2 ^ 15 := two_pow_le_int (by omega)
    norm_num at hp15
    have hw1 : wrap32 (1 * 2 ^ n.toNat) = 2 ^ n.toNat := by
      rw [one_mul]
      unfold wrap32
      omega
    have hub : v * 2 ^ n.toNat ≤ 32767 * 2 ^ n.toNat :=
      mul_le_mul_of_nonneg_right hv.2 hp.le
    have hlb : -32768 * 2 ^ n.toNat ≤ v * 2 ^ n.toNat :=
      mul_le_mul_of_nonneg_right hv.1 hp.le
    have hsgn1 : 0 < v → 0 < v * 2 ^ n.toNat := fun h => mul_pos h hp
    have hsgn2 : v ≤ 0 → v * 2 ^ n.toNat ≤ 0 := fun h =>
      mul_nonpos_of_nonpos_of_nonneg h hp.le
    have hw2 : wrap32 (v * 2 ^ n.toNat) = v * 2 ^ n.toNat := by
      unfold wrap32
      omega
    rw [hw1, hw2]
    by_cases hi : isInt16 (v * 2 ^ n.toNat)
    · have hc : ¬ ((n > 15 ∧ v ≠ 0) ∨
          v * 2 ^ n.toNat ≠ wrap32 (wrap16 (v * 2 ^ n.toNat))) := by
        rw [wrap16_of_isInt16 hi, wrap32_of_isInt32 (isInt32_of_isInt16 hi)]
        intro hh
        rcases hh with ⟨h1, -⟩ | h1
        · omega
        · exact h1 rfl
      rw [if_neg hc, if_pos hi]
      unfold extract_l
      rw [wrap16_of_isInt16 hi]
      congr 1
      unfold isInt16 at hi
      unfold clamp16
      omega
    · have hc : (n > 15 ∧ v ≠ 0) ∨
          v * 2 ^ n.toNat ≠ wrap32 (wrap16 (v * 2 ^ n.toNat)) := by
        right
        intro heq
        apply hi
        have := isInt16_wrap16 (v * 2 ^ n.toNat)
        rw [wrap32_of_isInt32 (isInt32_of_isInt16 this)] at heq
        rw [heq]
        exact this
      rw [if_pos hc, if_neg hi]
      unfold isInt16 at hi
      congr 1
      unfold clamp16
      simp only [INT16_MAX, INT16_MIN]
      split_ifs <;> omega

theorem L_shr_rec_nonneg (d : Nat) (L v2 : Int) (s : Status) (h : 0 ≤ v2) :
    L_shr_rec (d + 1) L v2 s =
      if v2 ≥ 31 then (if L < 0 then -1 else 0, s)
      else if L < 0 then (~~~((~~~L) >>> v2.toNat), s)
      else (L >>> v2.toNat, s) := by
  rw [L_shr_rec, if_neg (by omega)]

theorem L_shl_rec_pos (d : Nat) (L v2 : Int) (s : Status) (h : 0 < v2) :
    L_shl_rec (d + 1) L v2 s = L_shl_loop v2.toNat L 0 s := by
  rw [L_shl_rec, if_neg (by omega)]

theorem flip_count32 {n : Int} (h : n ≤ 0) (hn : isInt16 n) :
    wrap16 (-(if n < -32 then -32 else n)) = min (-n) 32 := by
  unfold isInt16 at hn
  unfold wrap16
  split <;> omega

theorem L_shl_nonpos (L n : Int) (s : Status) (h : n ≤ 0) (hn : isInt16 n) :
    L_shl L n s = L_shr L (min (-n) 32) s := by
  unfold L_shl L_shr
  rw [L_shl_rec, if_pos h]
  dsimp only
  rw [flip_count32 h hn, L_shr_rec_nonneg 0 _ _ _ (by omega),
    L_shr_rec_nonneg 1 _ _ _ (by omega)]

theorem L_shr_neg (L n : Int) (s : Status) (h : n < 0) (hn : isInt16 n) :
    L_shr L n s = L_shl L (min (-n) 32) s := by
  unfold L_shl L_shr
  rw [L_shr_rec, if_pos h]
  dsimp only
  rw [flip_count32 (by omega) hn, L_shl_rec_pos 0 _ _ _ (by omega),
    L_shl_rec_pos 1 _ _ _ (by omega)]

/-- The source's `~((~L) >> n)` for negative `L` is the arithmetic shift of `L`. -/
theorem not_shiftRight_not {L : Int} (h : L < 0) (n : Nat) : ~~~((~~~L) >>> n) = L >>> n := by
  cases L with
  | ofNat m =>
    exfalso
    have : (0 : Int) ≤ Int.ofNat m := Int.ofNat_nonneg m
    omega
  | negSucc m => rfl

/-- Arithmetic right shift of a 32-bit value: floor division, status untouched. -/
theorem L_shr_nonneg_pair {L n : Int} (hL : isInt32 L) (h0 : 0 ≤ n) (s : Status) :
    L_shr L n s = (L / 2 ^ n.toNat, s) := by
  unfold L_shr
  rw [L_shr_rec_nonneg 1 _ _ _ h0]
  have hp := two_pow_pos_int n.toNat
  unfold isInt32 at hL
  by_cases h31 : n ≥ 31
  · rw [if_pos h31]
    have hp31 : (2 : Int) ^ 31 ≤ 2 ^ n.toNat := two_pow_le_int (by omega)
    norm_num at hp31
    congr 1
    by_cases hneg : L < 0
    · rw [if_pos hneg]
      apply le_antisymm
      · rw [Int.le_ediv_iff_mul_le hp]
        omega
      · have : L / 2 ^ n.toNat < 0 := by
          rw [Int.ediv_lt_iff_lt_mul hp]
          omega
        omega
    · rw [if_neg hneg]
      exact (Int.ediv_eq_zero_of_lt (by omega) (by omega)).symm
  · rw [if_neg h31]
    by_cases hneg : L < 0
    · rw [if_pos hneg, not_shiftRight_not hneg, shiftRight_eq_div]
    · rw [if_neg hneg, shiftRight_eq_div]

/-- The loop of `L_shl` run at least once: the clamped exact value, `Overflow` set
exactly when the exact value is not representable. -/
theorem L_shl_loop_succ (k : Nat) : ∀ (L out : Int) (s : Status), isInt32 L →
    L_shl_loop (k + 1) L out s =
      (clamp32 (L * 2 ^ (k + 1)),
        if isInt32 (L * 2 ^ (k + 1)) then s else { s with Overflow := true }) := by
  have hc : wrap32 0xc0000000 = -1073741824 := by decide
  induction k with
  | zero =>
    intro L out s hL
    unfold isInt32 at hL
    rw [L_shl_loop, hc]
    simp only [zero_add, pow_one, INT32_MAX, INT32_MIN]
    by_cases h1 : L > 0x3fffffff
    · have hi : ¬ isInt32 (L * 2) := by
        unfold isInt32
        omega
      rw [if_pos h1, if_neg hi]
      congr 1
      unfold clamp32
      omega
    · rw [if_neg h1]
      by_cases h2 : L < -1073741824
      · have hi : ¬ isInt32 (L * 2) := by
          unfold isInt32
          omega
        rw [if_pos h2, if_neg hi]
        congr 1
        unfold clamp32
        omega
      · have hi : isInt32 (L * 2) := by
          unfold isInt32
          omega
        rw [if_neg h2, if_pos hi, wrap32_of_isInt32 hi, L_shl_loop]
        congr 1
        unfold isInt32 at hi
        unfold clamp32
        omega
  | succ k ih =>
    intro L out s hL
    unfold isInt32 at hL
    have hp := two_pow_pos_int (k + 1)
    have he : L * 2 ^ (k + 1 + 1) = L * 2 * 2 ^ (k + 1) := by ring
    rw [L_shl_loop, hc]
    simp only [INT32_MAX, INT32_MIN]
    by_cases h1 : L > 0x3fffffff
    · have hx : L * 2 * 1 ≤ L * 2 * 2 ^ (k + 1) :=
        mul_le_mul_of_nonneg_left (by omega) (by omega)
      have hi : ¬ isInt32 (L * 2 ^ (k + 1 + 1)) := by
        rw [he]
        unfold isInt32
        omega
      rw [if_pos h1, if_neg hi, he]
      congr 1
      unfold clamp32
      omega
    · rw [if_neg h1]
      by_cases h2 : L < -1073741824
      · have hx : (-(L * 2)) * 1 ≤ (-(L * 2)) * 2 ^ (k + 1) :=
          mul_le_mul_of_nonneg_left (by omega) (by omega)
        have hx2 : (-(L * 2)) * 2 ^ (k + 1) = -(L * 2 * 2 ^ (k + 1)) := by ring
        have hi : ¬ isInt32 (L * 2 ^ (k + 1 + 1)) := by
          rw [he]
          unfold isInt32
          omega
        rw [if_pos h2, if_neg hi, he]
        congr 1
        unfold clamp32
        omega
      · have hi : isInt32 (L * 2) := by
          unfold isInt32
          omega
        rw [if_neg h2, wrap32_of_isInt32 hi, ih _ _ _ hi, he]

/-- Left shift of a 32-bit value by a positive count. -/
theorem L_shl_pos_pair {L n : Int} (hL : isInt32 L) (h0 : 0 < n) (s : Status) :
    L_shl L n s =
      (clamp32 (L * 2 ^ n.toNat),
        if isInt32 (L * 2 ^ n.toNat) then s else { s with Overflow := true }) := by
  unfold L_shl
  rw [L_shl_rec_pos 1 _ _ _ h0]
  obtain ⟨k, hk⟩ : ∃ k, n.toNat = k + 1 := ⟨n.toNat - 1, by omega⟩
  rw [hk]
  exact L_shl_loop_succ k L 0 s hL

/-- Left shift of a 32-bit value by 32 or more: zero stays zero, anything else
saturates. -/
theorem L_shl_ge32 {L n : Int} (hL : isInt32 L) (h : 32 ≤ n) (s : Status) :
    L_shl L n s =
      if L = 0 then (0, s)
      else (if L > 0 then INT32_MAX else INT32_MIN, { s with Overflow := true }) := by
  rw [L_shl_pos_pair hL (by omega)]
  have hp := two_pow_pos_int n.toNat
  have hp32 : (2 : Int) ^ 32 ≤ 2 ^ n.toNat := two_pow_le_int (by omega)
  norm_num at hp32
  unfold isInt32 at hL
  by_cases hz : L = 0
  · subst hz
    rw [if_pos rfl, zero_mul, if_pos (by decide)]
    rfl
  · rw [if_neg hz]
    by_cases hpos : L > 0
    · have hx : 2 ^ n.toNat ≤ L * 2 ^ n.toNat := le_mul_of_one_le_left hp.le (by omega)
      have hni : ¬ isInt32 (L * 2 ^ n.toNat) := by
        unfold isInt32
        omega
      rw [if_pos hpos, if_neg hni]
      congr 1
      unfold clamp32
      simp only [INT32_MAX]
      omega
    · have hx : L * 2 ^ n.toNat ≤ -(2 ^ n.toNat) := by
        have : (-L) * 2 ^ n.toNat ≥ 1 * 2 ^ n.toNat :=
          mul_le_mul_of_nonneg_right (by omega) hp.le
        linarith
      have hni : ¬ isInt32 (L * 2 ^ n.toNat) := by
        unfold isInt32
        omega
      rw [if_neg hpos, if_neg hni]
      congr 1
      unfold clamp32
      simp only [INT32_MIN]
      omega

theorem shr_ge15 {n : Int} (v : Int) (h : 15 ≤ n) (s : Status) :
    shr v n s = (if v < 0 then -1 else 0, s) := by
  have h15 : n ≥ 15 := h
  unfold shr
  rw [shr_rec_nonneg 1 _ _ _ (by omega), if_pos h15]

theorem L_shr_ge31 {n : Int} (L : Int) (h : 31 ≤ n) (s : Status) :
    L_shr L n s = (if L < 0 then -1 else 0, s) := by
  have h31 : n ≥ 31 := h
  unfold L_shr
  rw [L_shr_rec_nonneg 1 _ _ _ (by omega), if_pos h31]

/-- A 16-bit value with its low `n ≤ 15` bits cleared is still a 16-bit value. -/
theorem clear_low_bits_isInt16 {v : Int} (hv : isInt16 v) {k : Nat} (hk : k ≤ 15) :
    (v / 2 ^ k) * 2 ^ k = v - v % 2 ^ k ∧ isInt16 (v / 2 ^ k) ∧
      isInt16 ((v / 2 ^ k) * 2 ^ k) := by
  have hp := two_pow_pos_int k
  have hm := two_pow_pos_int (15 - k)
  have hpm : (2 : Int) ^ (15 - k) * 2 ^ k = 32768 := by
    rw [← pow_add]
    have : 15 - k + k = 15 := by omega
    rw [this]
    norm_num
  have hdef : v % 2 ^ k = v - 2 ^ k * (v / 2 ^ k) := Int.emod_def v (2 ^ k)
  have hr0 : 0 ≤ v % 2 ^ k := Int.emod_nonneg v hp.ne'
  have heq : (v / 2 ^ k) * 2 ^ k = v - v % 2 ^ k := by
    rw [hdef]
    ring
  unfold isInt16 at hv
  have hq : -(2 : Int) ^ (15 - k) ≤ v / 2 ^ k := by
    rw [Int.le_ediv_iff_mul_le hp]
    have : -(2 : Int) ^ (15 - k) * 2 ^ k = -32768 := by
      rw [neg_mul, hpm]
    omega
  have hlow : -32768 ≤ (v / 2 ^ k) * 2 ^ k := by
    have := mul_le_mul_of_nonneg_right hq hp.le
    rw [neg_mul, hpm] at this
    exact this
  have h1 : -32768 ≤ v / 2 ^ k := by
    rw [Int.le_ediv_iff_mul_le hp]
    omega
  have h2 : v / 2 ^ k < 32768 := by
    rw [Int.ediv_lt_iff_lt_mul hp]
    omega
  refine ⟨heq, ?_, ?_⟩
  · unfold isInt16
    omega
  · unfold isInt16
    omega

/-- The budget of `shl` is never exhausted: any larger budget gives the same
result. -/
theorem shl_rec_budget (d : Nat) (v n : Int) (s : Status) (hn : isInt16 n) :
    shl_rec (d + 2) v n s = shl v n s := by
  unfold shl
  by_cases h : n < 0
  · rw [shl_rec, if_pos h, shl_rec, if_pos h]
    dsimp only
    rw [flip_count16 h hn, shr_rec_nonneg d _ _ _ (by omega),
      shr_rec_nonneg 0 _ _ _ (by omega)]
  · rw [shl_rec_nonneg (d + 1) _ _ _ (by omega), shl_rec_nonneg 1 _ _ _ (by omega)]

/-- The budget of `shr` is never exhausted. -/
theorem shr_rec_budget (d : Nat) (v n : Int) (s : Status) (hn : isInt16 n) :
    shr_rec (d + 2) v n s = shr v n s := by
  unfold shr
  by_cases h : n < 0
  · rw [shr_rec, if_pos h, shr_rec, if_pos h]
    dsimp only
    rw [flip_count16 h hn, shl_rec_nonneg d _ _ _ (by omega),
      shl_rec_nonneg 0 _ _ _ (by omega)]
  · rw [shr_rec_nonneg (d + 1) _ _ _ (by omega), shr_rec_nonneg 1 _ _ _ (by omega)]

/-- The budget of `L_shl` is never exhausted. -/
theorem L_shl_rec_budget (d : Nat) (L n : Int) (s : Status) (hn : isInt16 n) :
    L_shl_rec (d + 2) L n s = L_shl L n s := by
  unfold L_shl
  by_cases h : n ≤ 0
  · rw [L_shl_rec, if_pos h, L_shl_rec, if_pos h]
    dsimp only
    rw [flip_count32 h hn, L_shr_rec_nonneg d _ _ _ (by omega),
      L_shr_rec_nonneg 0 _ _ _ (by omega)]
  · rw [L_shl_rec_pos (d + 1) _ _ _ (by omega), L_shl_rec_pos 1 _ _ _ (by omega)]

/-- The budget of `L_shr` is never exhausted. -/
theorem L_shr_rec_budget (d : Nat) (L n : Int) (s : Status) (hn : isInt16 n) :
    L_shr_rec (d + 2) L n s = L_shr L n s := by
  unfold L_shr
  by_cases h : n < 0
  · rw [L_shr_rec, if_pos h, L_shr_rec, if_pos h]
    dsimp only
    rw [flip_count32 (by omega) hn, L_shl_rec_pos d _ _ _ (by omega),
      L_shl_rec_pos 0 _ _ _ (by omega)]
  · rw [L_shr_rec_nonneg (d + 1) _ _ _ (by omega), L_shr_rec_nonneg 1 _ _ _ (by omega)]

theorem negate_eq {v : Int} (h : isInt16 v) : negate v = clamp16 (-v) := by
  unfold isInt16 at h
  unfold negate clamp16 wrap16
  simp only [INT16_MIN, INT16_MAX]
  split <;> omega

theorem abs_s_eq {v : Int} (h : isInt16 v) : abs_s v = clamp16 |v| := by
  unfold isInt16 at h
  unfold abs_s clamp16 wrap16
  simp only [INT16_MIN, INT16_MAX]
  rcases abs_cases v with ⟨ha, _⟩ | ⟨ha, _⟩ <;> rw [ha] <;> split_ifs <;> omega

theorem L_negate_eq {L : Int} (h : isInt32 L) : L_negate L = clamp32 (-L) := by
  unfold isInt32 at h
  unfold L_negate clamp32 wrap32
  simp only [INT32_MIN, INT32_MAX]
  split <;> omega

theorem L_abs_eq {L : Int} (h : isInt32 L) : L_abs L = clamp32 |L| := by
  unfold isInt32 at h
  unfold L_abs clamp32 wrap32
  simp only [INT32_MIN, INT32_MAX]
  rcases abs_cases L with ⟨ha, _⟩ | ⟨ha, _⟩ <;> rw [ha] <;> split_ifs <;> omega

/-- Function `add` when the exact sum is representable: the sum, status untouched. -/
theorem add_of_isInt16 {a b : Int} (h : isInt16 (a + b)) (s : Status) :
    add a b s = (a + b, s) := by
  unfold isInt16 at h
  have hw : wrap32 (a + b) = a + b := by
    unfold wrap32
    omega
  unfold add saturate
  rw [hw]
  simp only [INT16_MAX, INT16_MIN]
  rw [if_neg (by omega), if_neg (by omega)]
  unfold extract_l wrap16
  congr 1
  omega

/-- One pass of the `div_s` loop on a remainder below the denominator. -/
theorem div_s_step_eq {d q r : Int} (hd0 : 0 < d) (hd : d ≤ 32767) (hr0 : 0 ≤ r)
    (hr : r < d) (hq0 : 0 ≤ q) (hq : 2 * q + 1 ≤ 32767) (s : Status) :
    div_s_step d q r s =
      if 2 * r ≥ d then (2 * q + 1, 2 * r - d, s) else (2 * q, 2 * r, s) := by
  have hw1 : wrap16 (q * 2 ^ 1) = 2 * q := by
    unfold wrap16
    omega
  have hw2 : wrap32 (r * 2 ^ 1) = 2 * r := by
    unfold wrap32
    omega
  unfold div_s_step
  rw [hw1, hw2]
  by_cases hc : 2 * r ≥ d
  · have hi : isInt32 (2 * r - d) := by
      unfold isInt32
      omega
    rw [if_pos hc, if_pos hc, L_sub_pair (by unfold isInt32; omega) (by unfold isInt32; omega),
      if_pos hi]
    dsimp only
    rw [add_of_isInt16 (by unfold isInt16; omega)]
    dsimp only
    congr 2
    unfold isInt32 at hi
    unfold clamp32
    omega
  · rw [if_neg hc, if_neg hc]

/-- The `div_s` loop is restoring long division: `k` passes append the next `k`
quotient bits of `r / d` to `q`. -/
theorem div_s_loop_eq (k : Nat) : ∀ (d q r : Int) (s : Status), 0 < d → d ≤ 32767 →
    0 ≤ r → r < d → 0 ≤ q → q * 2 ^ k + 2 ^ k ≤ 32768 →
    div_s_loop k d q r s = (q * 2 ^ k + (r * 2 ^ k) / d, s) := by
  induction k with
  | zero =>
    intro d q r s hd0 hd hr0 hr hq0 hq
    rw [div_s_loop]
    simp only [pow_zero, mul_one]
    rw [Int.ediv_eq_zero_of_lt hr0 hr, add_zero]
  | succ k ih =>
    intro d q r s hd0 hd hr0 hr hq0 hq
    have hp := two_pow_pos_int k
    have e1 : q * 2 ^ (k + 1) = 2 * (q * 2 ^ k) := by ring
    have e2 : (2 : Int) ^ (k + 1) = 2 * 2 ^ k := by ring
    rw [e1, e2] at hq
    have hX : 0 ≤ q * 2 ^ k := mul_nonneg hq0 hp.le
    have hq1 : 2 * q + 1 ≤ 32767 := by
      have : (q + 1) * 1 ≤ (q + 1) * 2 ^ k :=
        mul_le_mul_of_nonneg_left (by omega) (by omega)
      have e3 : (q + 1) * 2 ^ k = q * 2 ^ k + 2 ^ k := by ring
      omega
    rw [div_s_loop, div_s_step_eq hd0 hd hr0 hr hq0 hq1]
    by_cases hc : 2 * r ≥ d
    · rw [if_pos hc]
      dsimp only
      have e4 : (2 * q + 1) * 2 ^ k + 2 ^ k = 2 * (q * 2 ^ k) + 2 * 2 ^ k := by ring
      rw [ih d (2 * q + 1) (2 * r - d) s hd0 hd (by omega) (by omega) (by omega)
        (by rw [e4]; exact hq)]
      congr 1
      have e5 : (2 * r - d) * 2 ^ k = r * (2 * 2 ^ k) + d * (-(2 ^ k)) := by ring
      rw [e5, Int.add_mul_ediv_left _ _ hd0.ne', e1, e2]
      ring
    · rw [if_neg hc]
      dsimp only
      have e4 : 2 * q * 2 ^ k + 2 ^ k ≤ 32768 := by
        have : 2 * q * 2 ^ k = 2 * (q * 2 ^ k) := by ring
        omega
      rw [ih d (2 * q) (2 * r) s hd0 hd (by omega) (by omega) (by omega) e4]
      congr 1
      have e5 : 2 * r * 2 ^ k = r * (2 * 2 ^ k) := by ring
      have e6 : 2 * q * 2 ^ k = 2 * (q * 2 ^ k) := by ring
      rw [e5, e6, e1, e2]

/-- The loop of `norm_s` ends within `fuel + 1` tests when `v * 2^fuel` reaches
`0x4000`: it returns the count `c + k` of the first `k` with `v * 2^k ≥ 0x4000`. -/
theorem norm_s_loop_some (fuel : Nat) : ∀ (v c : Int), 1 ≤ v → v ≤ 32767 → 0 ≤ c →
    c + fuel ≤ 32767 → 16384 ≤ v * 2 ^ fuel →
    ∃ k : Nat, k ≤ fuel ∧ norm_s_loop (fuel + 1) v c = some (c + k) ∧
      16384 ≤ v * 2 ^ k ∧ v * 2 ^ k ≤ 32767 := by
  induction fuel with
  | zero =>
    intro v c h1 h2 hc0 hc hv
    simp only [pow_zero, mul_one] at hv
    refine ⟨0, le_refl 0, ?_, by simpa using hv, by simpa using h2⟩
    rw [norm_s_loop, if_neg (by omega)]
    simp
  | succ fuel ih =>
    intro v c h1 h2 hc0 hc hv
    by_cases hlt : v < 0x4000
    · have hw1 : wrap16 (v * 2 ^ 1) = 2 * v := by
        unfold wrap16
        omega
      have hw2 : wrap16 (c + 1) = c + 1 := by
        unfold wrap16
        omega
      have e : v * 2 ^ (fuel + 1) = 2 * v * 2 ^ fuel := by ring
      obtain ⟨k, hk, hloop, hlo, hhi⟩ :=
        ih (2 * v) (c + 1) (by omega) (by omega) (by omega) (by push_cast at hc ⊢; omega)
          (by rw [← e]; exact hv)
      refine ⟨k + 1, by omega, ?_, ?_, ?_⟩
      · rw [norm_s_loop, if_pos hlt, hw1, hw2, hloop]
        congr 1
        push_cast
        ring
      · have e2 : v * 2 ^ (k + 1) = 2 * v * 2 ^ k := by ring
        rw [e2]
        exact hlo
      · have e2 : v * 2 ^ (k + 1) = 2 * v * 2 ^ k := by ring
        rw [e2]
        exact hhi
    · refine ⟨0, by omega, ?_, by simp; omega, by simpa using h2⟩
      rw [norm_s_loop, if_neg hlt]
      simp

/-- A shift count `k` with `v * 2^k` still a 16-bit value, `v ≥ 1`, is below 15. -/
theorem shift_count_lt_15 {v : Int} {k : Nat} (h1 : 1 ≤ v) (h : v * 2 ^ k ≤ 32767) :
    k < 15 := by
  by_contra hk
  have hp : (2 : Int) ^ 15 ≤ 2 ^ k := two_pow_le_int (by omega)
  have hpos := two_pow_pos_int k
  have : 1 * 2 ^ k ≤ v * 2 ^ k := mul_le_mul_of_nonneg_right h1 hpos.le
  norm_num at hp
  omega

/-- More fuel does not change a result of the `norm_s` loop. -/
theorem norm_s_loop_mono (f : Nat) : ∀ (g : Nat) (v c r : Int), f ≤ g →
    norm_s_loop f v c = some r → norm_s_loop g v c = some r := by
  induction f with
  | zero =>
    intro g v c r _ h
    rw [norm_s_loop] at h
    exact Option.noConfusion h
  | succ f ih =>
    intro g v c r hfg h
    obtain ⟨g', rfl⟩ : ∃ g', g = g' + 1 := ⟨g - 1, by omega⟩
    rw [norm_s_loop] at h ⊢
    by_cases hlt : v < 0x4000
    · rw [if_pos hlt] at h ⊢
      exact ih g' _ _ r (by omega) h
    · rw [if_neg hlt] at h ⊢
      exact h

/-- The loop of `norm_s` from a value in `[1, 32767]`, with 15 tests or more. -/
theorem norm_s_loop_result {v : Int} (h1 : 1 ≤ v) (h2 : v ≤ 32767) :
    ∃ k : Nat, k < 15 ∧ (∀ fuel, 15 ≤ fuel → norm_s_loop fuel v 0 = some (k : Int)) ∧
      16384 ≤ v * 2 ^ k ∧ v * 2 ^ k ≤ 32767 := by
  have hv14 : 16384 ≤ v * 2 ^ 14 := by
    norm_num
    omega
  obtain ⟨k, -, hloop, hlo, hhi⟩ :=
    norm_s_loop_some 14 v 0 h1 h2 (le_refl 0) (by norm_num) hv14
  rw [zero_add] at hloop
  exact ⟨k, shift_count_lt_15 h1 hhi,
    fun fuel hf => norm_s_loop_mono 15 fuel v 0 k hf hloop, hlo, hhi⟩

/-- Function `norm_s` on a value other than `0` and `-1` runs the loop. -/
theorem norm_s_eq_loop {v : Int} (h0 : v ≠ 0) (h1 : v ≠ -1) (fuel : Nat) :
    norm_s fuel v = norm_s_loop fuel (if v < 0 then wrap16 (~~~v) else v) 0 := by
  have hm1 : wrap16 0xffff = -1 := by decide
  unfold norm_s
  rw [if_neg h0, hm1, if_neg h1]

/-- Function `norm_s` on a non-zero 16-bit value: the count, the same for every
fuel from 15 on, and the range of the normalised value. -/
theorem norm_s_result {v : Int} (hv : isInt16 v) (hne : v ≠ 0) :
    ∃ k : Nat, k ≤ 15 ∧ (∀ fuel, 15 ≤ fuel → norm_s fuel v = some (k : Int)) ∧
      (0 < v → 16384 ≤ v * 2 ^ k ∧ v * 2 ^ k ≤ 32767) ∧
      (v < 0 → -32768 ≤ v * 2 ^ k ∧ v * 2 ^ k ≤ -16384) := by
  unfold isInt16 at hv
  by_cases hm1 : v = -1
  · subst hm1
    refine ⟨15, le_refl 15, ?_, fun h => absurd h (by decide), fun _ => by norm_num⟩
    intro fuel _
    unfold norm_s
    rw [if_neg (by decide), if_pos (by decide)]
    rfl
  · by_cases hpos : 0 < v
    · obtain ⟨k, hk, hloop, hlo, hhi⟩ := norm_s_loop_result (v := v) (by omega) hv.2
      refine ⟨k, by omega, ?_, fun _ => ⟨hlo, hhi⟩, fun h => absurd h (by omega)⟩
      intro fuel hf
      rw [norm_s_eq_loop hne hm1, if_neg (by omega)]
      exact hloop fuel hf
    · have hneg : v < 0 := by omega
      have hw : wrap16 (~~~v) = -v - 1 := by
        rw [not_eq_neg_sub_one]
        unfold wrap16
        omega
      obtain ⟨k, hk, hloop, hlo, hhi⟩ :=
        norm_s_loop_result (v := -v - 1) (by omega) (by omega)
      refine ⟨k, by omega, ?_, fun h => absurd h (by omega), fun _ => ?_⟩
      · intro fuel hf
        rw [norm_s_eq_loop hne hm1, if_pos hneg, hw]
        exact hloop fuel hf
      · have hp := two_pow_pos_int k
        have hm := two_pow_pos_int (15 - k)
        have hpm : (2 : Int) ^ (15 - k) * 2 ^ k = 32768 := by
          rw [← pow_add]
          have : 15 - k + k = 15 := by omega
          rw [this]
          norm_num
        have hlt : -v - 1 < 2 ^ (15 - k) := by
          by_contra hge
          have : 2 ^ (15 - k) * 2 ^ k ≤ (-v - 1) * 2 ^ k :=
            mul_le_mul_of_nonneg_right (by omega) hp.le
          omega
        have hle : (-v) * 2 ^ k ≤ 2 ^ (15 - k) * 2 ^ k :=
          mul_le_mul_of_nonneg_right (by omega) hp.le
        have e1 : (-v - 1) * 2 ^ k = -(v * 2 ^ k) - 2 ^ k := by ring
        have e2 : (-v) * 2 ^ k = -(v * 2 ^ k) := by ring
        constructor
        · omega
        · omega

/-- The loop of `norm_l` started at `0` never leaves: `0 << 1` is `0`. -/
theorem norm_l_loop_zero (fuel : Nat) : ∀ c : Int, norm_l_loop fuel 0 c = none := by
  induction fuel with
  | zero =>
    intro c
    rfl
  | succ fuel ih =>
    intro c
    have hw : wrap32 (0 * 2 ^ 1) = 0 := by decide
    rw [norm_l_loop, if_pos (by decide), hw]
    exact ih _

/-- Sign of `a ^ b` on 32-bit operands. -/
theorem xor32_neg_iff {a b : Int} (ha : isInt32 a) (hb : isInt32 b) :
    xor32 a b < 0 ↔ ¬ (a < 0 ↔ b < 0) := by
  have h := sign_xor32_eq_zero_iff ha hb
  rw [land_sign_eq_zero_iff _ (toU32_lt _), toU32_xor32] at h
  have hlt : toU32 a ^^^ toU32 b < 4294967296 :=
    Nat.xor_lt_two_pow (n := 32) (toU32_lt a) (toU32_lt b)
  unfold xor32 wrap32
  simp only [Int.ofNat_eq_coe]
  show ((((toU32 a ^^^ toU32 b : Nat) : Int) + 2147483648) % 4294967296 - 2147483648 < 0) ↔ _
  rw [← h]
  omega

theorem toU32_cast (x : Int) : (toU32 x : Int) = x % 4294967296 := by
  unfold toU32
  omega

/-- Function `L_add_c` on 32-bit operands with `Carry` 0 or 1: the wrapped sum and
the carry out of bit 31. -/
theorem L_add_c_value_carry {a b : Int} (ha : isInt32 a) (hb : isInt32 b) (s : Status)
    (hc : s.Carry = 0 ∨ s.Carry = 1) :
    (L_add_c a b s).1 = wrap32 (a + b + s.Carry) ∧
    ((L_add_c a b s).2.Carry = 0 ∨ (L_add_c a b s).2.Carry = 1) ∧
    (L_add_c a b s).2.Carry * 4294967296 + (toU32 (L_add_c a b s).1 : Int) =
      (toU32 a : Int) + (toU32 b : Int) + s.Carry := by
  have hx := xor32_neg_iff ha hb
  unfold isInt32 at ha hb
  have hm1 : wrap32 0xFFFFFFFF = -1 := by decide
  unfold L_add_c
  rw [hm1]
  simp only [INT32_MAX, ne_eq, ge_iff_le, gt_iff_lt, hx, toU32_cast]
  unfold wrap32
  rcases hc with hc | hc
  · rw [hc]
    rw [if_neg (by decide)]
    split_ifs <;> refine ⟨?_, ?_, ?_⟩ <;> dsimp only <;> omega
  · rw [hc]
    rw [if_pos (by decide)]
    split_ifs <;> refine ⟨?_, ?_, ?_⟩ <;> dsimp only <;> omega

theorem overflowOnly_refl (s : Status) : OverflowOnly s s := Or.inl rfl

theorem overflowOnly_set (s : Status) : OverflowOnly s { s with Overflow := true } :=
  Or.inr rfl

theorem overflowOnly_trans {s t u : Status} (h1 : OverflowOnly s t) (h2 : OverflowOnly t u) :
    OverflowOnly s u := by
  unfold OverflowOnly at *
  rcases h1 with rfl | rfl
  · exact h2
  · rcases h2 with rfl | rfl
    · exact Or.inr rfl
    · exact Or.inr rfl

theorem overflowOnly_sticky {s t : Status} (h : OverflowOnly s t) (hs : s.Overflow = true) :
    t.Overflow = true := by
  rcases h with rfl | rfl
  · exact hs
  · rfl

theorem resOnly_same (v : Int) (s : Status) : ResOnly s (v, s) :=
  ⟨v, s, rfl, overflowOnly_refl s⟩

theorem resOnly_set (v : Int) (s : Status) : ResOnly s (v, { s with Overflow := true }) :=
  ⟨v, _, rfl, overflowOnly_set s⟩

theorem resOnly_ite {s : Status} {c : Prop} [Decidable c] {x y : Int × Status}
    (hx : ResOnly s x) (hy : ResOnly s y) : ResOnly s (if c then x else y) := by
  by_cases h : c
  · rw [if_pos h]
    exact hx
  · rw [if_neg h]
    exact hy

/-- Sequencing: a call fed with the value and status of a previous call. -/
theorem resOnly_comp {s : Status} {x : Int × Status} (hx : ResOnly s x)
    (g : Int → Status → Int × Status) (hg : ∀ v t, ResOnly t (g v t)) :
    ResOnly s (g x.1 x.2) := by
  obtain ⟨v, t, rfl, ht⟩ := hx
  obtain ⟨w, u, hw, hu⟩ := hg v t
  exact ⟨w, u, hw, overflowOnly_trans ht hu⟩

/-- A result that keeps the status of a previous call and replaces the value. -/
theorem resOnly_map {s : Status} {x : Int × Status} (hx : ResOnly s x) (g : Int → Int) :
    ResOnly s (g x.1, x.2) := by
  obtain ⟨v, t, rfl, ht⟩ := hx
  exact ⟨g v, t, rfl, ht⟩

theorem saturate_only (L : Int) (s : Status) : ResOnly s (saturate L s) := by
  unfold saturate
  exact resOnly_ite (resOnly_set _ s) (resOnly_ite (resOnly_set _ s) (resOnly_same _ s))

theorem add_only (a b : Int) (s : Status) : ResOnly s (add a b s) :=
  saturate_only _ s

theorem sub_only (a b : Int) (s : Status) : ResOnly s (sub a b s) :=
  saturate_only _ s

theorem i_mult_only (a b : Int) (s : Status) : ResOnly s (i_mult a b s) :=
  saturate_only _ s

theorem mult_r_only (a b : Int) (s : Status) : ResOnly s (mult_r a b s) :=
  saturate_only _ s

theorem shl_shr_rec_only (d : Nat) :
    (∀ (v n : Int) (s : Status), ResOnly s (shl_rec d v n s)) ∧
    (∀ (v n : Int) (s : Status), ResOnly s (shr_rec d v n s)) := by
  induction d with
  | zero =>
    constructor
    · intro v n s
      rw [shl_rec]
      exact resOnly_same _ s
    · intro v n s
      rw [shr_rec]
      exact resOnly_same _ s
  | succ d ih =>
    constructor
    · intro v n s
      rw [shl_rec]
      exact resOnly_ite (ih.2 _ _ _) (resOnly_ite (resOnly_set _ s) (resOnly_same _ s))
    · intro v n s
      rw [shr_rec]
      exact resOnly_ite (ih.1 _ _ _) (resOnly_ite (resOnly_same _ s) (resOnly_same _ s))

theorem shl_only (v n : Int) (s : Status) : ResOnly s (shl v n s) :=
  (shl_shr_rec_only 2).1 v n s

theorem shr_only (v n : Int) (s : Status) : ResOnly s (shr v n s) :=
  (shl_shr_rec_only 2).2 v n s

theorem L_add_only (a b : Int) (s : Status) : ResOnly s (L_add a b s) := by
  unfold L_add
  exact resOnly_ite (resOnly_ite (resOnly_set _ s) (resOnly_same _ s)) (resOnly_same _ s)

theorem L_sub_only (a b : Int) (s : Status) : ResOnly s (L_sub a b s) := by
  unfold L_sub
  exact resOnly_ite (resOnly_ite (resOnly_set _ s) (resOnly_same _ s)) (resOnly_same _ s)

theorem L_shl_loop_only (k : Nat) : ∀ (L out : Int) (s : Status),
    ResOnly s (L_shl_loop k L out s) := by
  induction k with
  | zero =>
    intro L out s
    rw [L_shl_loop]
    exact resOnly_same _ s
  | succ k ih =>
    intro L out s
    rw [L_shl_loop]
    exact resOnly_ite (resOnly_set _ s) (resOnly_ite (resOnly_set _ s) (ih _ _ _))

theorem L_shl_shr_rec_only (d : Nat) :
    (∀ (L n : Int) (s : Status), ResOnly s (L_shl_rec d L n s)) ∧
    (∀ (L n : Int) (s : Status), ResOnly s (L_shr_rec d L n s)) := by
  induction d with
  | zero =>
    constructor
    · intro L n s
      rw [L_shl_rec]
      exact resOnly_same _ s
    · intro L n s
      rw [L_shr_rec]
      exact resOnly_same _ s
  | succ d ih =>
    constructor
    · intro L n s
      rw [L_shl_rec]
      exact resOnly_ite (ih.2 _ _ _) (L_shl_loop_only _ _ _ _)
    · intro L n s
      rw [L_shr_rec]
      exact resOnly_ite (ih.1 _ _ _)
        (resOnly_ite (resOnly_same _ s) (resOnly_ite (resOnly_same _ s) (resOnly_same _ s)))

theorem L_shl_only (L n : Int) (s : Status) : ResOnly s (L_shl L n s) :=
  (L_shl_shr_rec_only 2).1 L n s

theorem L_shr_only (L n : Int) (s : Status) : ResOnly s (L_shr L n s) :=
  (L_shl_shr_rec_only 2).2 L n s

theorem L_mult_only (a b : Int) (s : Status) : ResOnly s (L_mult a b s) := by
  unfold L_mult
  exact resOnly_ite (resOnly_same _ s) (resOnly_set _ s)

theorem L_mac_only (a v1 v2 : Int) (s : Status) : ResOnly s (L_mac a v1 v2 s) := by
  unfold L_mac
  exact resOnly_comp (L_mult_only v1 v2 s) (fun v t => L_add a v t) (fun v t => L_add_only a v t)

theorem L_msu_only (a v1 v2 : Int) (s : Status) : ResOnly s (L_msu a v1 v2 s) := by
  unfold L_msu
  exact resOnly_comp (L_mult_only v1 v2 s) (fun v t => L_sub a v t) (fun v t => L_sub_only a v t)

theorem L_mac0_only (a v1 v2 : Int) (s : Status) : ResOnly s (L_mac0 a v1 v2 s) :=
  L_add_only _ _ s

theorem L_msu0_only (a v1 v2 : Int) (s : Status) : ResOnly s (L_msu0 a v1 v2 s) :=
  L_sub_only _ _ s

theorem round_fx_only (L : Int) (s : Status) : ResOnly s (round_fx L s) := by
  unfold round_fx
  exact resOnly_map (L_add_only L _ s) extract_h

theorem mac_r_only (a v1 v2 : Int) (s : Status) : ResOnly s (mac_r a v1 v2 s) := by
  unfold mac_r
  exact resOnly_comp (L_mac_only a v1 v2 s) (fun v t => round_fx v t)
    (fun v t => round_fx_only v t)

theorem msu_r_only (a v1 v2 : Int) (s : Status) : ResOnly s (msu_r a v1 v2 s) := by
  unfold msu_r
  exact resOnly_comp (L_msu_only a v1 v2 s) (fun v t => round_fx v t)
    (fun v t => round_fx_only v t)

theorem shr_r_only (v1 v2 : Int) (s : Status) : ResOnly s (shr_r v1 v2 s) := by
  unfold shr_r
  have hx := shr_only v1 v2 s
  exact resOnly_ite (resOnly_same _ s)
    (resOnly_ite (resOnly_ite (resOnly_map hx (fun v => wrap16 (v + 1))) hx) hx)

theorem L_shr_r_only (L v2 : Int) (s : Status) : ResOnly s (L_shr_r L v2 s) := by
  unfold L_shr_r
  have hx := L_shr_only L v2 s
  exact resOnly_ite (resOnly_same _ s)
    (resOnly_ite (resOnly_ite (resOnly_map hx (fun v => wrap32 (v + 1))) hx) hx)

theorem L_mls_only (Lv v : Int) (s : Status) : ResOnly s (L_mls Lv v s) := by
  unfold L_mls
  exact resOnly_comp (L_shr_only _ 15 s) (fun w t => L_mac w v (extract_h Lv) t)
    (fun w t => L_mac_only w v (extract_h Lv) t)

theorem div_s_step_only (d q r : Int) (s : Status) :
    ∃ q' r' t, div_s_step d q r s = (q', r', t) ∧ OverflowOnly s t := by
  unfold div_s_step
  dsimp only
  by_cases hc : wrap32 (r * 2 ^ 1) ≥ d
  · rw [if_pos hc]
    obtain ⟨v, t, hv, ht⟩ := L_sub_only (wrap32 (r * 2 ^ 1)) d s
    rw [hv]
    dsimp only
    obtain ⟨w, u, hw, hu⟩ := add_only (wrap16 (q * 2 ^ 1)) 1 t
    rw [hw]
    exact ⟨w, v, u, rfl, overflowOnly_trans ht hu⟩
  · rw [if_neg hc]
    exact ⟨_, _, s, rfl, overflowOnly_refl s⟩

theorem div_s_loop_only (k : Nat) : ∀ (d q r : Int) (s : Status),
    ResOnly s (div_s_loop k d q r s) := by
  induction k with
  | zero =>
    intro d q r s
    rw [div_s_loop]
    exact resOnly_same _ s
  | succ k ih =>
    intro d q r s
    rw [div_s_loop]
    obtain ⟨q', r', t, hst, ht⟩ := div_s_step_only d q r s
    rw [hst]
    dsimp only
    obtain ⟨v, u, hv, hu⟩ := ih d q' r' t
    exact ⟨v, u, hv, overflowOnly_trans ht hu⟩

theorem div_s_only (v1 v2 : Int) (s : Status) (x : Int × Status)
    (h : div_s v1 v2 s = some x) : ResOnly s x := by
  unfold div_s at h
  by_cases h1 : ¬ (v1 ≤ v2)
  · rw [if_pos h1] at h
    exact Option.noConfusion h
  rw [if_neg h1] at h
  by_cases h2 : ¬ (0 ≤ v1)
  · rw [if_pos h2] at h
    exact Option.noConfusion h
  rw [if_neg h2] at h
  by_cases h3 : ¬ (0 < v2)
  · rw [if_pos h3] at h
    exact Option.noConfusion h
  rw [if_neg h3] at h
  by_cases h4 : 0 = v1
  · rw [if_pos h4] at h
    rw [← Option.some.inj h]
    exact resOnly_same _ s
  rw [if_neg h4] at h
  by_cases h5 : v1 = v2
  · rw [if_pos h5] at h
    rw [← Option.some.inj h]
    exact resOnly_same _ s
  rw [if_neg h5] at h
  rw [← Option.some.inj h]
  exact div_s_loop_only _ _ _ _ _

theorem div_l_step_only (d q r : Int) (s : Status) :
    ∃ q' r' t, div_l_step d q r s = (q', r', t) ∧ OverflowOnly s t := by
  unfold div_l_step
  obtain ⟨v, t, hv, ht⟩ := shl_only q 1 s
  rw [hv]
  dsimp only
  obtain ⟨n, u, hn, hu⟩ := L_shl_only r 1 t
  rw [hn]
  dsimp only
  have hsu := overflowOnly_trans ht hu
  by_cases hc : n ≥ d
  · rw [if_pos hc]
    obtain ⟨w, u2, hw, hu2⟩ := L_sub_only n d u
    rw [hw]
    dsimp only
    obtain ⟨a, u3, ha, hu3⟩ := add_only v 1 u2
    rw [ha]
    exact ⟨a, w, u3, rfl, overflowOnly_trans hsu (overflowOnly_trans hu2 hu3)⟩
  · rw [if_neg hc]
    exact ⟨v, n, u, rfl, hsu⟩

theorem div_l_loop_only (k : Nat) : ∀ (d q r : Int) (s : Status),
    ResOnly s (div_l_loop k d q r s) := by
  induction k with
  | zero =>
    intro d q r s
    rw [div_l_loop]
    exact resOnly_same _ s
  | succ k ih =>
    intro d q r s
    rw [div_l_loop]
    obtain ⟨q', r', t, hst, ht⟩ := div_l_step_only d q r s
    rw [hst]
    dsimp only
    obtain ⟨v, u, hv, hu⟩ := ih d q' r' t
    exact ⟨v, u, hv, overflowOnly_trans ht hu⟩

theorem div_l_only (L den : Int) (s : Status) (x : Int × Status)
    (h : div_l L den s = some x) : ResOnly s x := by
  unfold div_l at h
  by_cases h1 : ¬ (0 < den)
  · rw [if_pos h1] at h
    exact Option.noConfusion h
  rw [if_neg h1] at h
  by_cases h2 : ¬ (0 ≤ L)
  · rw [if_pos h2] at h
    exact Option.noConfusion h
  rw [if_neg h2] at h
  dsimp only at h
  by_cases h3 : L ≥ L_deposit_h den
  · rw [if_pos h3] at h
    rw [← Option.some.inj h]
    exact resOnly_same _ s
  rw [if_neg h3] at h
  obtain ⟨n, t, hn, ht⟩ := L_shr_only L 1 s
  rw [hn] at h
  dsimp only at h
  obtain ⟨d, u, hd, hu⟩ := L_shr_only (L_deposit_h den) 1 t
  rw [hd] at h
  dsimp only at h
  rw [← Option.some.inj h]
  obtain ⟨v, w, hv, hw⟩ := div_l_loop_only 15 d 0 n u
  exact ⟨v, w, hv, overflowOnly_trans (overflowOnly_trans ht hu) hw⟩

theorem sticky_of_resOnly {s : Status} {x : Int × Status} (h : ResOnly s x)
    (hs : s.Overflow = true) : x.2.Overflow = true := by
  obtain ⟨v, t, rfl, ht⟩ := h
  exact overflowOnly_sticky ht hs

/-- A result pair of the shape "clamped value, `Overflow` set unless the exact
value is representable": when the value differs from the exact one, `Overflow` is
true. -/
theorem clamp_pair_sets {x : Int × Status} {c e : Int} {p : Prop} [Decidable p] {s : Status}
    (hx : x = (c, if p then s else { s with Overflow := true })) (hp : p → c = e) :
    x.1 ≠ e → x.2.Overflow = true := by
  subst hx
  intro hne
  by_cases h : p
  · exact absurd (hp h) hne
  · show (if p then s else { s with Overflow := true }).Overflow = true
    rw [if_neg h]

theorem clamp16_of_isInt16 {x : Int} (h : isInt16 x) : clamp16 x = x := by
  unfold isInt16 at h
  unfold clamp16
  omega

theorem clamp32_of_isInt32 {x : Int} (h : isInt32 x) : clamp32 x = x := by
  unfold isInt32 at h
  unfold clamp32
  omega

/-- Function `saturate` as a pair. -/
theorem saturate_pair (L : Int) (s : Status) :
    saturate L s = (clamp16 L, if isInt16 L then s else { s with Overflow := true }) := by
  unfold saturate
  simp only [INT16_MAX, INT16_MIN]
  by_cases h1 : 32767 < L
  · rw [if_pos h1, if_neg (by unfold isInt16; omega)]
    congr 1
    unfold clamp16
    omega
  · rw [if_neg h1]
    by_cases h2 : L < -32768
    · rw [if_pos h2, if_neg (by unfold isInt16; omega)]
      congr 1
      unfold clamp16
      omega
    · have hi : isInt16 L := by
        unfold isInt16
        omega
      rw [if_neg h2, if_pos hi, clamp16_of_isInt16 hi]
      unfold extract_l
      rw [wrap16_of_isInt16 hi]

/-- Function `L_mult` from a known result: the value is a 32-bit value, and when
`Overflow` is false afterwards it is the exact doubled product. -/
theorem L_mult_spec {v1 v2 m : Int} {s t : Status} (h1 : isInt16 v1) (h2 : isInt16 v2)
    (h : L_mult v1 v2 s = (m, t)) :
    isInt32 m ∧ OverflowOnly s t ∧ (t.Overflow = false → m = 2 * v1 * v2) := by
  have hi := L_mult_isInt32 h1 h2 s
  rw [h] at hi
  refine ⟨hi, ?_, ?_⟩
  · obtain ⟨v, u, hv, hu⟩ := L_mult_only v1 v2 s
    rw [h] at hv
    rw [(Prod.mk.inj hv).2]
    exact hu
  · intro hf
    by_cases hne : v1 = -32768 ∧ v2 = -32768
    · obtain ⟨rfl, rfl⟩ := hne
      rw [L_mult_min] at h
      rw [← (Prod.mk.inj h).2] at hf
      exact Bool.noConfusion hf
    · rw [L_mult_of_ne h1 h2 hne] at h
      exact (Prod.mk.inj h).1.symm

/-- Function `L_add` from a known result. -/
theorem L_add_spec {a b m : Int} {s t : Status} (ha : isInt32 a) (hb : isInt32 b)
    (h : L_add a b s = (m, t)) :
    isInt32 m ∧ OverflowOnly s t ∧ (t.Overflow = false → m = a + b) := by
  rw [L_add_pair ha hb] at h
  obtain ⟨hm, ht⟩ := Prod.mk.inj h
  refine ⟨?_, ?_, ?_⟩
  · rw [← hm]
    unfold clamp32 isInt32
    omega
  · rw [← ht]
    by_cases hr : isInt32 (a + b)
    · rw [if_pos hr]
      exact overflowOnly_refl s
    · rw [if_neg hr]
      exact overflowOnly_set s
  · intro hf
    by_cases hr : isInt32 (a + b)
    · rw [← hm, clamp32_of_isInt32 hr]
    · rw [if_neg hr] at ht
      rw [← ht] at hf
      exact Bool.noConfusion hf

/-- Function `L_mac` from a known result: the accumulator is a 32-bit value, and
when `Overflow` is false afterwards it is the exact `a + 2 * v1 * v2`. -/
theorem L_mac_spec {a v1 v2 m : Int} {s t : Status} (ha : isInt32 a) (h1 : isInt16 v1)
    (h2 : isInt16 v2) (h : L_mac a v1 v2 s = (m, t)) :
    isInt32 m ∧ OverflowOnly s t ∧ (t.Overflow = false → m = a + 2 * v1 * v2) := by
  unfold L_mac at h
  rcases hm : L_mult v1 v2 s with ⟨p, u⟩
  rw [hm] at h
  dsimp only at h
  obtain ⟨hp, hsu, hpe⟩ := L_mult_spec h1 h2 hm
  obtain ⟨hmi, hut, hme⟩ := L_add_spec ha hp h
  refine ⟨hmi, overflowOnly_trans hsu hut, ?_⟩
  intro hf
  have hu : u.Overflow = false := by
    by_contra hne
    have := overflowOnly_sticky hut (by simpa using hne)
    rw [hf] at this
    exact Bool.noConfusion this
  rw [hme hf, hpe hu]

/-- Function `round_fx` from a known result: the value is a 16-bit value. -/
theorem round_fx_spec {L r : Int} {s t : Status} (h : round_fx L s = (r, t)) :
    isInt16 r ∧ OverflowOnly s t := by
  constructor
  · unfold round_fx at h
    rw [← (Prod.mk.inj h).1]
    exact isInt16_wrap16 _
  · obtain ⟨v, u, hv, hu⟩ := round_fx_only L s
    rw [h] at hv
    rw [(Prod.mk.inj hv).2]
    exact hu

/-- Function `IIR1DirectFormI.convol` from the results of its four calls. -/
theorem convol_of (f : IIR1DirectFormI) (x : Int) (s : Status)
    {rv m0 m1 m2 : Int} {rs s0 s1 s2 : Status}
    (hr : round_fx f.fb0 s = (rv, rs)) (h0 : L_mult rv f.a1 rs = (m0, s0))
    (h1 : L_mac m0 f.ff0 f.b1 s0 = (m1, s1)) (h2 : L_mac m1 x f.b0 s1 = (m2, s2)) :
    f.convol x s = (m2, { f with ff0 := x, fb0 := m2 }, s2) := by
  unfold IIR1DirectFormI.convol
  rw [hr]
  dsimp only
  rw [h0]
  dsimp only
  rw [h1]
  dsimp only
  rw [h2]

/-- One term of the second-order sum: `L_shl (L_mult v1 v2) (15 - 14)` is
`4 * v1 * v2` clamped to 32 bits. -/
theorem shl_mult_term {v1 v2 : Int} (h1 : isInt16 v1) (h2 : isInt16 v2) (s : Status) :
    ∃ m s1 s2, L_mult v1 v2 s = (m, s1) ∧
      L_shl m (15 - 14) s1 = (clamp32 (4 * v1 * v2), s2) ∧ OverflowOnly s s2 := by
  by_cases hmin : v1 = -32768 ∧ v2 = -32768
  · obtain ⟨e1, e2⟩ := hmin
    subst e1
    subst e2
    refine ⟨2147483647, { s with Overflow := true }, { s with Overflow := true },
      L_mult_min s, ?_, Or.inr rfl⟩
    rw [L_shl_pos_pair (by decide) (by decide)]
    have hp : (2 : Int) ^ (15 - 14 : Int).toNat = 2 := by decide
    rw [hp, if_neg (by decide)]
    rfl
  · have hm := L_mult_of_ne h1 h2 hmin s
    have hr : isInt32 (2 * v1 * v2) := by
      have := L_mult_isInt32 h1 h2 s
      rw [hm] at this
      exact this
    have hp : (2 : Int) ^ (15 - 14 : Int).toNat = 2 := by decide
    have e : 2 * v1 * v2 * 2 = 4 * v1 * v2 := by ring
    have hs := L_shl_pos_pair hr (show (0 : Int) < 15 - 14 by decide) s
    rw [hp, e] at hs
    by_cases hi : isInt32 (4 * v1 * v2)
    · rw [if_pos hi] at hs
      exact ⟨2 * v1 * v2, s, s, hm, hs, Or.inl rfl⟩
    · rw [if_neg hi] at hs
      exact ⟨2 * v1 * v2, s, { s with Overflow := true }, hm, hs, Or.inr rfl⟩

theorem isInt32_clamp32 (x : Int) : isInt32 (clamp32 x) := by
  unfold isInt32 clamp32
  omega

/-- Function `IIR2DirectFormI.convol` from the results of its calls. -/
theorem convol2_of (f : IIR2DirectFormI) (x : Int) (s : Status)
    {r1 m1 t1 r0 m0 t0 a0 m2 t2 a2 m3 t3 a3 m4 t4 a4 : Int}
    {sr1 sm1 st1 sr0 sm0 st0 sa0 sm2 st2 sa2 sm3 st3 sa3 sm4 st4 sa4 : Status}
    (hr1 : round_fx f.fb1 s = (r1, sr1)) (hm1 : L_mult r1 f.a2 sr1 = (m1, sm1))
    (ht1 : L_shl m1 (15 - 14) sm1 = (t1, st1))
    (hr0 : round_fx f.fb0 st1 = (r0, sr0)) (hm0 : L_mult r0 f.a1 sr0 = (m0, sm0))
    (ht0 : L_shl m0 (15 - 14) sm0 = (t0, st0)) (ha0 : L_add t1 t0 st0 = (a0, sa0))
    (hm2 : L_mult f.ff1 f.b2 sa0 = (m2, sm2)) (ht2 : L_shl m2 (15 - 14) sm2 = (t2, st2))
    (ha2 : L_add a0 t2 st2 = (a2, sa2))
    (hm3 : L_mult f.ff0 f.b1 sa2 = (m3, sm3)) (ht3 : L_shl m3 (15 - 14) sm3 = (t3, st3))
    (ha3 : L_add a2 t3 st3 = (a3, sa3))
    (hm4 : L_mult x f.b0 sa3 = (m4, sm4)) (ht4 : L_shl m4 (15 - 14) sm4 = (t4, st4))
    (ha4 : L_add a3 t4 st4 = (a4, sa4)) :
    f.convol x s =
      (a4, { f with ff1 := f.ff0, ff0 := x, fb1 := f.fb0, fb0 := a4 }, sa4) := by
  unfold IIR2DirectFormI.convol
  rw [hr1]
  dsimp only
  rw [hm1]
  dsimp only
  rw [ht1]
  dsimp only
  rw [hr0]
  dsimp only
  rw [hm0]
  dsimp only
  rw [ht0]
  dsimp only
  rw [ha0]
  dsimp only
  rw [hm2]
  dsimp only
  rw [ht2]
  dsimp only
  rw [ha2]
  dsimp only
  rw [hm3]
  dsimp only
  rw [ht3]
  dsimp only
  rw [ha3]
  dsimp only
  rw [hm4]
  dsimp only
  rw [ht4]
  dsimp only
  rw [ha4]

/-- Value of `round_fx` on a 32-bit argument. -/
theorem round_fx_value {L r : Int} {s t : Status} (hL : isInt32 L)
    (h : round_fx L s = (r, t)) : r = min 32767 ((L + 32768) / 65536) := by
  rw [round_fx_pair hL] at h
  exact (Prod.mk.inj h).1.symm

theorem L_add_value {a b m : Int} {s t : Status} (ha : isInt32 a) (hb : isInt32 b)
    (h : L_add a b s = (m, t)) : m = clamp32 (a + b) := by
  rw [L_add_pair ha hb] at h
  exact (Prod.mk.inj h).1.symm

theorem filter1_q15_append (A B : List Int) :
    ∀ (f : IIR1DirectFormI) (s : Status),
      f.filter_q15 (A ++ B) s =
        ((f.filter_q15 A s).1 ++
            ((f.filter_q15 A s).2.1.filter_q15 B (f.filter_q15 A s).2.2).1,
          ((f.filter_q15 A s).2.1.filter_q15 B (f.filter_q15 A s).2.2).2) := by
  induction A with
  | nil => intro f s; rfl
  | cons x xs ih =>
    intro f s
    rw [List.cons_append, IIR1DirectFormI.filter_q15, IIR1DirectFormI.filter_q15]
    simp only [ih, List.cons_append]

theorem filter1_q31_append (A B : List Int) :
    ∀ (f : IIR1DirectFormI) (s : Status),
      f.filter_q31 (A ++ B) s =
        ((f.filter_q31 A s).1 ++
            ((f.filter_q31 A s).2.1.filter_q31 B (f.filter_q31 A s).2.2).1,
          ((f.filter_q31 A s).2.1.filter_q31 B (f.filter_q31 A s).2.2).2) := by
  induction A with
  | nil => intro f s; rfl
  | cons x xs ih =>
    intro f s
    rw [List.cons_append, IIR1DirectFormI.filter_q31, IIR1DirectFormI.filter_q31]
    simp only [ih, List.cons_append]

theorem filter2_q15_append (A B : List Int) :
    ∀ (f : IIR2DirectFormI) (s : Status),
      f.filter_q15 (A ++ B) s =
        ((f.filter_q15 A s).1 ++
            ((f.filter_q15 A s).2.1.filter_q15 B (f.filter_q15 A s).2.2).1,
          ((f.filter_q15 A s).2.1.filter_q15 B (f.filter_q15 A s).2.2).2) := by
  induction A with
  | nil => intro f s; rfl
  | cons x xs ih =>
    intro f s
    rw [List.cons_append, IIR2DirectFormI.filter_q15, IIR2DirectFormI.filter_q15]
    simp only [ih, List.cons_append]

theorem filter2_q31_append (A B : List Int) :
    ∀ (f : IIR2DirectFormI) (s : Status),
      f.filter_q31 (A ++ B) s =
        ((f.filter_q31 A s).1 ++
            ((f.filter_q31 A s).2.1.filter_q31 B (f.filter_q31 A s).2.2).1,
          ((f.filter_q31 A s).2.1.filter_q31 B (f.filter_q31 A s).2.2).2) := by
  induction A with
  | nil => intro f s; rfl
  | cons x xs ih =>
    intro f s
    rw [List.cons_append, IIR2DirectFormI.filter_q31, IIR2DirectFormI.filter_q31]
    simp only [ih, List.cons_append]

/-- Coefficients of a first-order object. -/
theorem convol1_coeffs (f : IIR1DirectFormI) (x : Int) (s : Status) :
    (f.convol x s).2.1.b0 = f.b0 ∧ (f.convol x s).2.1.b1 = f.b1 ∧
      (f.convol x s).2.1.a1 = f.a1 :=
  ⟨rfl, rfl, rfl⟩

theorem convol2_coeffs (f : IIR2DirectFormI) (x : Int) (s : Status) :
    (f.convol x s).2.1.b0 = f.b0 ∧ (f.convol x s).2.1.b1 = f.b1 ∧
      (f.convol x s).2.1.b2 = f.b2 ∧ (f.convol x s).2.1.a1 = f.a1 ∧
      (f.convol x s).2.1.a2 = f.a2 :=
  ⟨rfl, rfl, rfl, rfl, rfl⟩

theorem filter1_q15_coeffs (A : List Int) :
    ∀ (f : IIR1DirectFormI) (s : Status),
      (f.filter_q15 A s).2.1.b0 = f.b0 ∧ (f.filter_q15 A s).2.1.b1 = f.b1 ∧
        (f.filter_q15 A s).2.1.a1 = f.a1 := by
  induction A with
  | nil => intro f s; exact ⟨rfl, rfl, rfl⟩
  | cons x xs ih =>
    intro f s
    rw [IIR1DirectFormI.filter_q15]
    obtain ⟨h0, h1, h2⟩ := ih (f.convol x s).2.1 (round_fx (f.convol x s).1 (f.convol x s).2.2).2
    obtain ⟨c0, c1, c2⟩ := convol1_coeffs f x s
    exact ⟨h0.trans c0, h1.trans c1, h2.trans c2⟩

theorem filter1_q31_coeffs (A : List Int) :
    ∀ (f : IIR1DirectFormI) (s : Status),
      (f.filter_q31 A s).2.1.b0 = f.b0 ∧ (f.filter_q31 A s).2.1.b1 = f.b1 ∧
        (f.filter_q31 A s).2.1.a1 = f.a1 := by
  induction A with
  | nil => intro f s; exact ⟨rfl, rfl, rfl⟩
  | cons x xs ih =>
    intro f s
    rw [IIR1DirectFormI.filter_q31]
    obtain ⟨h0, h1, h2⟩ := ih (f.convol x s).2.1 (f.convol x s).2.2
    obtain ⟨c0, c1, c2⟩ := convol1_coeffs f x s
    exact ⟨h0.trans c0, h1.trans c1, h2.trans c2⟩

theorem filter2_q15_coeffs (A : List Int) :
    ∀ (f : IIR2DirectFormI) (s : Status),
      (f.filter_q15 A s).2.1.b0 = f.b0 ∧ (f.filter_q15 A s).2.1.b1 = f.b1 ∧
        (f.filter_q15 A s).2.1.b2 = f.b2 ∧ (f.filter_q15 A s).2.1.a1 = f.a1 ∧
        (f.filter_q15 A s).2.1.a2 = f.a2 := by
  induction A with
  | nil => intro f s; exact ⟨rfl, rfl, rfl, rfl, rfl⟩
  | cons x xs ih =>
    intro f s
    rw [IIR2DirectFormI.filter_q15]
    obtain ⟨h0, h1, h2, h3, h4⟩ :=
      ih (f.convol x s).2.1 (round_fx (f.convol x s).1 (f.convol x s).2.2).2
    obtain ⟨c0, c1, c2, c3, c4⟩ := convol2_coeffs f x s
    exact ⟨h0.trans c0, h1.trans c1, h2.trans c2, h3.trans c3, h4.trans c4⟩

theorem filter2_q31_coeffs (A : List Int) :
    ∀ (f : IIR2DirectFormI) (s : Status),
      (f.filter_q31 A s).2.1.b0 = f.b0 ∧ (f.filter_q31 A s).2.1.b1 = f.b1 ∧
        (f.filter_q31 A s).2.1.b2 = f.b2 ∧ (f.filter_q31 A s).2.1.a1 = f.a1 ∧
        (f.filter_q31 A s).2.1.a2 = f.a2 := by
  induction A with
  | nil => intro f s; exact ⟨rfl, rfl, rfl, rfl, rfl⟩
  | cons x xs ih =>
    intro f s
    rw [IIR2DirectFormI.filter_q31]
    obtain ⟨h0, h1, h2, h3, h4⟩ := ih (f.convol x s).2.1 (f.convol x s).2.2
    obtain ⟨c0, c1, c2, c3, c4⟩ := convol2_coeffs f x s
    exact ⟨h0.trans c0, h1.trans c1, h2.trans c2, h3.trans c3, h4.trans c4⟩

theorem filter_input_nonpos (input : Nat → Int) {num : Int} (h : num ≤ 0) :
    filter_input input num = [] := by
  unfold filter_input
  rw [Int.toNat_eq_zero.mpr h]
  rfl

/-- Function `IIRFilter1.setFreq` when the `switch` reaches `assert(false)`. -/
theorem setFreq1_of_none (f : IIR1DirectFormI) (wp fs : ℚ) {type : Int}
    (h : IIRFilter1.numa wp type = none) :
    IIRFilter1.setFreq f wp fs type = Except.error f := by
  unfold IIRFilter1.setFreq
  rw [h]

/-- Function `IIRFilter1.setFreq` when the `switch` leaves through a `break`. -/
theorem setFreq1_of_some (f : IIR1DirectFormI) (wp fs : ℚ) {type : Int} {numa : Nat → ℚ}
    (h : IIRFilter1.numa wp type = some numa) :
    ∃ g, IIRFilter1.setFreq f wp fs type = Except.ok g := by
  unfold IIRFilter1.setFreq
  rw [h]
  exact ⟨_, rfl⟩

/-- Function `IIRFilter2.setFreq` when the `switch` reaches `assert(false)`. -/
theorem setFreq2_of_none (f : IIR2DirectFormI) (wp fs Q : ℚ) {type : Int}
    (h : IIRFilter2.numa wp Q type = none) :
    IIRFilter2.setFreq f wp fs type Q = Except.error f := by
  unfold IIRFilter2.setFreq
  rw [h]

/-- Function `IIRFilter2.setFreq` when the `switch` leaves through a `break`. -/
theorem setFreq2_of_some (f : IIR2DirectFormI) (wp fs Q : ℚ) {type : Int} {numa : Nat → ℚ}
    (h : IIRFilter2.numa wp Q type = some numa) :
    ∃ g, IIRFilter2.setFreq f wp fs type Q = Except.ok g := by
  unfold IIRFilter2.setFreq
  rw [h]
  exact ⟨_, rfl⟩

theorem numa1_eq_none_iff (wp : ℚ) (type : Int) :
    IIRFilter1.numa wp type = none ↔ type ≠ FILTER_TYPE_LPF ∧ type ≠ FILTER_TYPE_HPF := by
  unfold IIRFilter1.numa
  by_cases h0 : type = FILTER_TYPE_LPF
  · rw [if_pos h0]
    simp [h0]
  · rw [if_neg h0]
    by_cases h1 : type = FILTER_TYPE_HPF
    · rw [if_pos h1]
      simp [h1]
    · rw [if_neg h1]
      simp [h0, h1]

theorem numa2_eq_none_iff (wp Q : ℚ) (type : Int) :
    IIRFilter2.numa wp Q type = none ↔
      type ≠ FILTER_TYPE_LPF ∧ type ≠ FILTER_TYPE_BPF ∧ type ≠ FILTER_TYPE_HPF := by
  unfold IIRFilter2.numa
  by_cases h0 : type = FILTER_TYPE_LPF
  · rw [if_pos h0]
    simp [h0]
  · rw [if_neg h0]
    by_cases h1 : type = FILTER_TYPE_BPF
    · rw [if_pos h1]
      simp [h1]
    · rw [if_neg h1]
      by_cases h2 : type = FILTER_TYPE_HPF
      · rw [if_pos h2]
        simp [h2]
      · rw [if_neg h2]
        simp [h0, h1, h2]

theorem shiftRight_one (z : Int) : z >>> (1 : Nat) = z / 2 := by
  rw [Int.shiftRight_eq_div_pow]
  rfl

/-- Function `F2Qn` in terms of the exact product `v = fval * 2 ^ qn`. -/
theorem F2Qn_eq (fval : ℚ) (qn : Nat) :
    F2Qn fval qn = truncToInt (1 + 2 * (fval * 2 ^ qn)) / 2 := by
  unfold F2Qn
  rw [shiftRight_one]
  congr 2
  push_cast
  ring

theorem F2Qn_of_nonneg {fval : ℚ} {qn : Nat} (h : 0 ≤ 1 + 2 * (fval * 2 ^ qn)) :
    F2Qn fval qn = ⌊fval * 2 ^ qn + 1 / 2⌋ := by
  rw [F2Qn_eq]
  unfold truncToInt
  rw [if_pos h]
  generalize fval * 2 ^ qn = v
  symm
  rw [Int.floor_eq_iff]
  have h1 := Int.floor_le (1 + 2 * v)
  have h2 := Int.lt_floor_add_one (1 + 2 * v)
  have h3q : ((⌊1 + 2 * v⌋ / 2 : Int) : ℚ) * 2 ≤ (⌊1 + 2 * v⌋ : ℚ) := by
    have : (⌊1 + 2 * v⌋ / 2 : Int) * 2 ≤ ⌊1 + 2 * v⌋ := by omega
    exact_mod_cast this
  have h4q : (⌊1 + 2 * v⌋ : ℚ) + 1 ≤ ((⌊1 + 2 * v⌋ / 2 : Int) : ℚ) * 2 + 2 := by
    have : ⌊1 + 2 * v⌋ + 1 ≤ (⌊1 + 2 * v⌋ / 2 : Int) * 2 + 2 := by omega
    exact_mod_cast this
  constructor <;> linarith

theorem F2Qn_of_neg {fval : ℚ} {qn : Nat} {m : Int}
    (h1 : (m : ℚ) - 1 < fval * 2 ^ qn) (h2 : fval * 2 ^ qn < (m : ℚ) - 1 / 2)
    (hm : m ≤ 0) :
    F2Qn fval qn = m ∧ ⌊fval * 2 ^ qn + 1 / 2⌋ = m - 1 := by
  rw [F2Qn_eq]
  unfold truncToInt
  generalize fval * 2 ^ qn = v at h1 h2
  have hmq : (m : ℚ) ≤ 0 := by exact_mod_cast hm
  have hneg : ¬ (0 ≤ 1 + 2 * v) := by
    intro h
    linarith
  rw [if_neg hneg]
  have hc : ⌈1 + 2 * v⌉ = 2 * m := by
    rw [Int.ceil_eq_iff]
    push_cast
    constructor <;> linarith
  rw [hc]
  constructor
  · omega
  · rw [Int.floor_eq_iff]
    push_cast
    constructor <;> linarith

/-- Closed form of the inner loop of `a2c` started at index `m`. -/
theorem a2c_mul_apply (c0 c1 : ℚ) :
    ∀ (m : Nat) (buf : Nat → ℚ) (i : Nat),
      a2c_mul c0 c1 m buf i =
        if i < m then c0 * buf i + (if i = 0 then 0 else c1 * buf (i - 1))
        else if i = m then (if m = 0 then buf 0 else buf m + c1 * buf (m - 1))
        else buf i := by
  intro m
  induction m with
  | zero =>
    intro buf i
    rw [a2c_mul]
    by_cases h : i = 0
    · subst h
      simp
    · simp [h]
  | succ m ih =>
    intro buf i
    rw [a2c_mul, ih]
    simp only [Function.update_apply]
    rcases Nat.lt_trichotomy i m with h | h | h
    · have h1 : i ≠ m := by omega
      have h2 : i ≠ m + 1 := by omega
      have h3 : i - 1 ≠ m := by omega
      have h4 : i - 1 ≠ m + 1 := by omega
      have h5 : i < m + 1 := by omega
      simp only [h, h1, h2, h3, h4, h5, if_true, if_false]
    · subst h
      have h3 : i - 1 ≠ i + 1 := by omega
      have h5 : i < i + 1 := by omega
      by_cases h0 : i = 0
      · subst h0
        simp
        ring
      · have h4 : i - 1 ≠ i := by omega
        have h6 : i ≠ i + 1 := by omega
        simp only [h0, h3, h4, h5, h6, if_true, if_false, lt_irrefl]
        ring
    · have h1 : ¬ i < m := by omega
      have h2 : i ≠ m := by omega
      have h3 : ¬ i < m + 1 := by omega
      by_cases h5 : i = m + 1
      · subst h5
        simp
      · simp only [h1, h2, h3, h5, if_false]

theorem coeff_lin_mul (c0 c1 : ℚ) (p : Polynomial ℚ) (i : Nat) :
    ((Polynomial.C c0 + Polynomial.C c1 * Polynomial.X) * p).coeff i =
      c0 * p.coeff i + (if i = 0 then 0 else c1 * p.coeff (i - 1)) := by
  rw [add_mul, Polynomial.coeff_add, Polynomial.coeff_C_mul, mul_assoc, Polynomial.coeff_C_mul]
  cases i with
  | zero => simp
  | succ j => simp [Polynomial.coeff_X_mul]

/-- One pass of the inner loop of `a2c` multiplies the polynomial held in `buf`
by `c0 + c1 * X`, provided its degree is below `N - 1`. -/
theorem bufPoly_mul (c0 c1 : ℚ) {N d : Nat} {buf : Nat → ℚ} {p : Polynomial ℚ}
    (h : BufPoly N d buf p) (hd : d + 1 < N) :
    BufPoly N (d + 1) (a2c_mul c0 c1 (N - 1) buf) ((Polynomial.C c0 + Polynomial.C c1 * Polynomial.X) * p) := by
  obtain ⟨hb, hdeg⟩ := h
  constructor
  · intro i hi
    rw [a2c_mul_apply, coeff_lin_mul]
    by_cases h1 : i < N - 1
    · rw [if_pos h1, hb i hi]
      by_cases h0 : i = 0
      · rw [if_pos h0, if_pos h0]
      · rw [if_neg h0, if_neg h0, hb (i - 1) (by omega)]
    · have h2 : i = N - 1 := by omega
      have h3 : N - 1 ≠ 0 := by omega
      rw [if_neg h1, if_pos h2, if_neg h3, if_neg (by omega), h2, hb (N - 1) (by omega),
        hb (N - 1 - 1) (by omega), hdeg (N - 1) (by omega)]
      ring
  · intro i hi
    rw [coeff_lin_mul, if_neg (by omega), hdeg i (by omega), hdeg (i - 1) (by omega)]
    ring

theorem bufPoly_rep (c0 c1 : ℚ) {N : Nat} :
    ∀ (cnt d : Nat) (buf : Nat → ℚ) (p : Polynomial ℚ), BufPoly N d buf p → d + cnt < N →
      BufPoly N (d + cnt) (a2c_rep c0 c1 N cnt buf) ((Polynomial.C c0 + Polynomial.C c1 * Polynomial.X) ^ cnt * p) := by
  intro cnt
  induction cnt with
  | zero =>
    intro d buf p h _
    rw [a2c_rep, pow_zero, one_mul]
    exact h
  | succ cnt ih =>
    intro d buf p h hd
    rw [a2c_rep, pow_succ, mul_assoc]
    have := ih (d + 1) _ _ (bufPoly_mul c0 c1 h (by omega)) (by omega)
    rw [show d + (cnt + 1) = d + 1 + cnt by omega]
    exact this

/-- The buffer of `a2c` for the term `k` holds the expansion of
`a[k] * (2 * (1 - X)) ^ k * (T * (1 + X)) ^ (N - 1 - k)`. -/
theorem a2c_buf_coeff (a : Nat → ℚ) {N : Nat} (T : ℚ) {k : Nat} (hk : k < N) {i : Nat}
    (hi : i < N) :
    a2c_buf a N T k i =
      (Polynomial.C (a k) * (Polynomial.C 2 * (1 - Polynomial.X)) ^ k * (Polynomial.C T * (1 + Polynomial.X)) ^ (N - 1 - k)).coeff i := by
  have h0 : BufPoly N 0 (fun j => if j = 0 then a k else 0) (Polynomial.C (a k)) := by
    constructor
    · intro j _
      rw [Polynomial.coeff_C]
    · intro j hj
      rw [Polynomial.coeff_C, if_neg (by omega)]
  have h1 := bufPoly_rep 2 (-2) k 0 _ _ h0 (by omega)
  have h2 := bufPoly_rep T T (N - (k + 1)) (0 + k) _ _ h1 (by omega)
  unfold a2c_buf
  rw [h2.1 i hi]
  congr 1
  rw [show N - (k + 1) = N - 1 - k by omega]
  have e1 : (Polynomial.C (2 : ℚ) + Polynomial.C (-2 : ℚ) * Polynomial.X) = Polynomial.C 2 * (1 - Polynomial.X) := by
    rw [map_neg]
    ring
  have e2 : (Polynomial.C T + Polynomial.C T * Polynomial.X) = Polynomial.C T * (1 + Polynomial.X) := by ring
  rw [e1, e2]
  ring

theorem foldl_add_apply (N : Nat) (g : Nat → Nat → ℚ) :
    ∀ (n : Nat) (c : Nat → ℚ) (i : Nat),
      (List.range n).foldl (fun c k => fun i => if i < N then c i + g k i else c i) c i =
        if i < N then c i + ∑ k in Finset.range n, g k i else c i := by
  intro n
  induction n with
  | zero =>
    intro c i
    simp
  | succ n ih =>
    intro c i
    rw [List.range_succ, List.foldl_append, List.foldl_cons, List.foldl_nil, ih]
    by_cases h : i < N
    · simp only [if_pos h, Finset.sum_range_succ]
      ring
    · simp only [if_neg h]

/-- Source `a2c`: entry `i < N` of the result is the coefficient of `X ^ i` in
the sum over `k` of `a[k] * (2 * (1 - X)) ^ k * (T * (1 + X)) ^ (N - 1 - k)`;
entries from `N` on are those of `c`. -/
theorem a2c_apply (a c : Nat → ℚ) (N : Nat) (T : ℚ) (i : Nat) :
    a2c a c N T i =
      if i < N then
        (∑ k in Finset.range N,
          Polynomial.C (a k) * (Polynomial.C 2 * (1 - Polynomial.X)) ^ k * (Polynomial.C T * (1 + Polynomial.X)) ^ (N - 1 - k)).coeff i
      else c i := by
  unfold a2c
  rw [foldl_add_apply]
  by_cases h : i < N
  · rw [if_pos h, if_pos h, if_pos h, zero_add, Polynomial.finset_sum_coeff]
    apply Finset.sum_congr rfl
    intro k hk
    exact a2c_buf_coeff a T (Finset.mem_range.mp hk) h
  · rw [if_neg h, if_neg h, if_neg h]

/-- Closed form of `normalize`. -/
theorem normalize_apply :
    ∀ (cnt : Nat) (num den : Nat → ℚ),
      normalize cnt num den =
        (fun i => if i < cnt then num i / den 0 else num i,
          fun i => if i < cnt then den i / den 0 else den i) := by
  intro cnt
  induction cnt with
  | zero =>
    intro num den
    rw [normalize]
    simp
  | succ cnt ih =>
    intro num den
    rw [normalize, ih]
    by_cases h0 : cnt = 0
    · subst h0
      refine Prod.ext ?_ ?_ <;> funext i <;> simp only [Function.update_apply] <;>
        by_cases hi : i = 0 <;> simp [hi]
    · have hd : Function.update den cnt (den cnt / den 0) 0 = den 0 := by
        rw [Function.update_apply, if_neg (Ne.symm h0)]
      refine Prod.ext ?_ ?_ <;> funext i <;> simp only [hd, Function.update_apply]
      · rcases Nat.lt_trichotomy i cnt with h | h | h
        · rw [if_pos h, if_neg (by omega), if_pos (by omega)]
        · subst h
          rw [if_neg (by omega), if_pos rfl, if_pos (by omega)]
        · rw [if_neg (by omega), if_neg (by omega), if_neg (by omega)]
      · rcases Nat.lt_trichotomy i cnt with h | h | h
        · rw [if_pos h, if_neg (by omega), if_pos (by omega)]
        · subst h
          rw [if_neg (by omega), if_pos rfl, if_pos (by omega)]
        · rw [if_neg (by omega), if_neg (by omega), if_neg (by omega)]

/-- The first loop of `bilinear` writes no entry above its start index. -/
theorem trim_keeps (numa dena : Nat → ℚ) :
    ∀ (n : Nat) (numd dend : Nat → ℚ) (j : Nat), n < j →
      (bilinear_trim numa dena n numd dend).2.1 j = numd j ∧
        (bilinear_trim numa dena n numd dend).2.2 j = dend j := by
  intro n
  induction n with
  | zero =>
    intro numd dend j _
    rw [bilinear_trim]
    exact ⟨rfl, rfl⟩
  | succ n ih =>
    intro numd dend j hj
    rw [bilinear_trim]
    by_cases h : 0 = numa (n + 1) ∧ 0 = dena (n + 1)
    · rw [if_pos h]
      obtain ⟨i1, i2⟩ := ih (Function.update numd (n + 1) 0) (Function.update dend (n + 1) 0)
        j (by omega)
      rw [i1, i2, Function.update_apply, Function.update_apply, if_neg (by omega),
        if_neg (by omega)]
      exact ⟨rfl, rfl⟩
    · rw [if_neg h]
      exact ⟨rfl, rfl⟩

/-- The first loop of `bilinear`: the final index is the largest index up to the
start at which `numa` or `dena` is not zero (or `0`), and the output entries
above it are set to zero. -/
theorem bilinear_trim_spec (numa dena : Nat → ℚ) :
    ∀ (n : Nat) (numd dend : Nat → ℚ),
      (bilinear_trim numa dena n numd dend).1 ≤ n ∧
      (∀ j, (bilinear_trim numa dena n numd dend).1 < j → j ≤ n →
        numa j = 0 ∧ dena j = 0 ∧ (bilinear_trim numa dena n numd dend).2.1 j = 0 ∧
          (bilinear_trim numa dena n numd dend).2.2 j = 0) ∧
      ((bilinear_trim numa dena n numd dend).1 = 0 ∨
        ¬ (numa (bilinear_trim numa dena n numd dend).1 = 0 ∧
          dena (bilinear_trim numa dena n numd dend).1 = 0)) := by
  intro n
  induction n with
  | zero =>
    intro numd dend
    rw [bilinear_trim]
    exact ⟨le_refl _, fun j h1 h2 => absurd h1 (by omega), Or.inl rfl⟩
  | succ n ih =>
    intro numd dend
    rw [bilinear_trim]
    by_cases h : 0 = numa (n + 1) ∧ 0 = dena (n + 1)
    · rw [if_pos h]
      obtain ⟨i1, i2, i3⟩ := ih (Function.update numd (n + 1) 0) (Function.update dend (n + 1) 0)
      refine ⟨by omega, ?_, i3⟩
      intro j hj1 hj2
      by_cases hj : j = n + 1
      · subst hj
        refine ⟨h.1.symm, h.2.symm, ?_, ?_⟩
        · exact (trim_keeps numa dena n _ _ (n + 1) (by omega)).1.trans (by simp)
        · exact (trim_keeps numa dena n _ _ (n + 1) (by omega)).2.trans (by simp)
      · exact i2 j hj1 (by omega)
    · rw [if_neg h]
      refine ⟨le_refl _, fun j h1 h2 => absurd h1 (by omega), Or.inr ?_⟩
      intro h2
      exact h ⟨h2.1.symm, h2.2.symm⟩

/-- The count `n` used by `bilinear` after its first loop, characterised: all
pairs of entries from `n` up to `N - 1` are zero, and the pair at `n - 1` is not
(or `n = 1`). -/
theorem bilinear_count_eq (numd dend numa dena : Nat → ℚ) {N n : Nat}
    (h1 : 1 ≤ n) (hN : n ≤ N) (hz : ∀ j, n ≤ j → j < N → numa j = 0 ∧ dena j = 0)
    (htop : n = 1 ∨ numa (n - 1) ≠ 0 ∨ dena (n - 1) ≠ 0) :
    (bilinear_trim numa dena (N - 1) numd dend).1 + 1 = n := by
  obtain ⟨i1, i2, i3⟩ := bilinear_trim_spec numa dena (N - 1) numd dend
  generalize (bilinear_trim numa dena (N - 1) numd dend).1 = r at i1 i2 i3
  rcases Nat.lt_trichotomy (r + 1) n with h | h | h
  · exfalso
    obtain ⟨z1, z2, -, -⟩ := i2 (n - 1) (by omega) (by omega)
    rcases htop with e | e | e
    · omega
    · exact e z1
    · exact e z2
  · exact h
  · exfalso
    obtain ⟨z1, z2⟩ := hz r (by omega) (by omega)
    rcases i3 with e | e
    · omega
    · exact e ⟨z1, z2⟩

/-- Source `bilinear` from the count `n` left by its first loop. -/
theorem bilinear_of_count (numd dend numa dena : Nat → ℚ) (N n : Nat) (T : ℚ)
    (h1 : 1 ≤ n) (hN : n ≤ N) (hz : ∀ j, n ≤ j → j < N → numa j = 0 ∧ dena j = 0)
    (htop : n = 1 ∨ numa (n - 1) ≠ 0 ∨ dena (n - 1) ≠ 0)
    (hden : (∑ k in Finset.range n,
      Polynomial.C (dena k) * (Polynomial.C 2 * (1 - Polynomial.X)) ^ k * (Polynomial.C T * (1 + Polynomial.X)) ^ (n - 1 - k)).coeff 0 ≠ 0) :
    (∀ j, j < n →
      (bilinear numd dend numa dena N T).1 j =
          (∑ k in Finset.range n,
            Polynomial.C (numa k) * (Polynomial.C 2 * (1 - Polynomial.X)) ^ k * (Polynomial.C T * (1 + Polynomial.X)) ^ (n - 1 - k)).coeff j /
          (∑ k in Finset.range n,
            Polynomial.C (dena k) * (Polynomial.C 2 * (1 - Polynomial.X)) ^ k * (Polynomial.C T * (1 + Polynomial.X)) ^ (n - 1 - k)).coeff 0 ∧
        (bilinear numd dend numa dena N T).2 j =
          (∑ k in Finset.range n,
            Polynomial.C (dena k) * (Polynomial.C 2 * (1 - Polynomial.X)) ^ k * (Polynomial.C T * (1 + Polynomial.X)) ^ (n - 1 - k)).coeff j /
          (∑ k in Finset.range n,
            Polynomial.C (dena k) * (Polynomial.C 2 * (1 - Polynomial.X)) ^ k * (Polynomial.C T * (1 + Polynomial.X)) ^ (n - 1 - k)).coeff 0) ∧
    (bilinear numd dend numa dena N T).2 0 = 1 ∧
    (∀ j, n ≤ j → j < N →
      (bilinear numd dend numa dena N T).1 j = 0 ∧
        (bilinear numd dend numa dena N T).2 j = 0) := by
  have hc := bilinear_count_eq numd dend numa dena h1 hN hz htop
  obtain ⟨-, i2, -⟩ := bilinear_trim_spec numa dena (N - 1) numd dend
  have hb : bilinear numd dend numa dena N T =
      normalize n (a2c numa (bilinear_trim numa dena (N - 1) numd dend).2.1 n T)
        (a2c dena (bilinear_trim numa dena (N - 1) numd dend).2.2 n T) := by
    unfold bilinear
    simp only [hc]
  rw [hb, normalize_apply]
  have h0 : (0 : Nat) < n := by omega
  refine ⟨?_, ?_, ?_⟩
  · intro j hj
    simp only [a2c_apply, if_pos hj, if_pos h0]
    exact ⟨trivial, trivial⟩
  · simp only [a2c_apply, if_pos h0]
    exact div_self hden
  · intro j hj1 hj2
    have hj : ¬ j < n := by omega
    simp only [a2c_apply, if_neg hj]
    obtain ⟨-, -, z1, z2⟩ := i2 j (by omega) (by omega)
    exact ⟨z1, z2⟩

theorem truncToInt_bounds (x : ℚ) :
    x - 1 < (truncToInt x : ℚ) ∧ (truncToInt x : ℚ) < x + 1 ∧
      (0 ≤ x → (truncToInt x : ℚ) ≤ x) := by
  unfold truncToInt
  by_cases h : 0 ≤ x
  · rw [if_pos h]
    have h1 := Int.floor_le x
    have h2 := Int.lt_floor_add_one x
    exact ⟨by linarith, by linarith, fun _ => h1⟩
  · rw [if_neg h]
    have h1 := Int.le_ceil x
    have h2 := Int.ceil_lt_add_one x
    exact ⟨by linarith, h2, fun h0 => absurd h0 h⟩

/-- The value returned by `L_add` is a 32-bit value, whatever the arguments. -/
theorem L_add_result_isInt32 {a b m : Int} {s t : Status} (h : L_add a b s = (m, t)) :
    isInt32 m := by
  unfold L_add at h
  by_cases c1 : 0 = Nat.land 0x80000000 (toU32 (xor32 a b))
  · rw [if_pos c1] at h
    by_cases c2 : Nat.land 0x80000000 (toU32 (xor32 (wrap32 (a + b)) a)) ≠ 0
    · rw [if_pos c2] at h
      have hm := (Prod.mk.inj h).1
      rw [← hm]
      by_cases c3 : a < 0
      · rw [if_pos c3]
        decide
      · rw [if_neg c3]
        decide
    · rw [if_neg c2] at h
      rw [← (Prod.mk.inj h).1]
      exact isInt32_wrap32 _
  · rw [if_neg c1] at h
    rw [← (Prod.mk.inj h).1]
    exact isInt32_wrap32 _

theorem L_mac_result_isInt32 {a v1 v2 m : Int} {s t : Status}
    (h : L_mac a v1 v2 s = (m, t)) : isInt32 m := by
  unfold L_mac at h
  exact L_add_result_isInt32 h

/-- Function `Goertzel.compute_step` from the results of its calls. -/
theorem compute_step_of (g : Goertzel) (x : Int) (s : Status)
    {r m sh acc y : Int} {sr sm ssh sacc sy : Status}
    (hr : round_fx g.y0 s = (r, sr)) (hm : L_mult r g.coef sr = (m, sm))
    (hsh : L_shl m (15 - 14) sm = (sh, ssh)) (hacc : L_sub sh g.y1 ssh = (acc, sacc))
    (hy : L_mac acc g.att x sacc = (y, sy)) :
    g.compute_step x s = ({ g with y1 := g.y0, y0 := y }, sy) := by
  unfold Goertzel.compute_step
  rw [hr]
  dsimp only
  rw [hm]
  dsimp only
  rw [hsh]
  dsimp only
  rw [hacc]
  dsimp only
  rw [hy]

/-- One step of `Goertzel::compute` keeps `N`, `coef` and `att`, and leaves 32-bit
values in `y[0]` and `y[1]` when `y[0]` held one. -/
theorem compute_step_inv (g : Goertzel) (x : Int) (s : Status) (h0 : isInt32 g.y0) :
    ∃ h t, g.compute_step x s = (h, t) ∧ isInt32 h.y0 ∧ isInt32 h.y1 ∧ h.N = g.N ∧
      h.coef = g.coef ∧ h.att = g.att := by
  rcases hr : round_fx g.y0 s with ⟨r, sr⟩
  rcases hm : L_mult r g.coef sr with ⟨m, sm⟩
  rcases hsh : L_shl m (15 - 14) sm with ⟨sh, ssh⟩
  rcases hacc : L_sub sh g.y1 ssh with ⟨acc, sacc⟩
  rcases hy : L_mac acc g.att x sacc with ⟨y, sy⟩
  exact ⟨_, _, compute_step_of g x s hr hm hsh hacc hy, L_mac_result_isInt32 hy, h0, rfl,
    rfl, rfl⟩

theorem compute_loop_inv (input : Nat → Int) :
    ∀ (n : Nat) (g : Goertzel) (s : Status), isInt32 g.y0 → isInt32 g.y1 →
      ∃ h t, Goertzel.compute_loop input n g s = (h, t) ∧ isInt32 h.y0 ∧ isInt32 h.y1 ∧
        h.N = g.N ∧ h.coef = g.coef ∧ h.att = g.att := by
  intro n
  induction n with
  | zero =>
    intro g s h0 h1
    exact ⟨g, s, rfl, h0, h1, rfl, rfl, rfl⟩
  | succ n ih =>
    intro g s h0 h1
    obtain ⟨h, t, e, i0, i1, iN, ic, ia⟩ := ih g s h0 h1
    obtain ⟨h2, t2, e2, j0, j1, jN, jc, ja⟩ := compute_step_inv h (input n) t i0
    refine ⟨h2, t2, ?_, j0, j1, jN.trans iN, jc.trans ic, ja.trans ia⟩
    rw [Goertzel.compute_loop, e]
    exact e2

/-- Source `Goertzel::compute` leaves 32-bit accumulators and keeps the
configuration. -/
theorem compute_inv (g : Goertzel) (input : Nat → Int) (s : Status) :
    ∃ c sc, g.compute input s = (c, sc) ∧ isInt32 c.y0 ∧ isInt32 c.y1 ∧ c.N = g.N ∧
      c.coef = g.coef ∧ c.att = g.att := by
  unfold Goertzel.compute
  exact compute_loop_inv input _ _ s (show isInt32 0 by decide) (show isInt32 0 by decide)

/-- Source `Goertzel::compute` does not read the accumulators left by an
earlier call. -/
theorem compute_reset (g : Goertzel) (Y0 Y1 : Int) (input : Nat → Int) (s : Status) :
    Goertzel.compute { g with y0 := Y0, y1 := Y1 } input s = g.compute input s := rfl

/-- Function `mult` away from its saturating case. -/
theorem mult_of_ne {v1 v2 : Int} (h1 : isInt16 v1) (h2 : isInt16 v2)
    (hne : ¬ (v1 = -32768 ∧ v2 = -32768)) :
    mult v1 v2 = v1 * v2 / 32768 ∧ isInt16 (mult v1 v2) := by
  obtain ⟨hlo, hhi⟩ := mul_int16_bounds h1 h2
  unfold isInt16 at h1 h2
  have hc : ¬ (-32768 = v1 ∧ -32768 = v2) := by omega
  have hw : wrap32 (v1 * v2) = v1 * v2 := by
    unfold wrap32
    omega
  have hw2 : wrap32 (v1 * v2 * 2) = v1 * v2 * 2 := by
    unfold wrap32
    omega
  have hm : mult v1 v2 = v1 * v2 / 32768 := by
    unfold mult
    rw [if_neg hc]
    simp only [hw, pow_one, hw2, extract_h]
    rw [shiftRight_eq_div]
    unfold wrap16
    norm_num
    omega
  rw [hm]
  refine ⟨rfl, ?_⟩
  unfold isInt16
  omega

/-- Function `L_mac` when neither the product nor the sum saturates. -/
theorem L_mac_exact {a v1 v2 : Int} (ha : isInt32 a) (h1 : isInt16 v1) (h2 : isInt16 v2)
    (hne : ¬ (v1 = -32768 ∧ v2 = -32768)) (hs : isInt32 (a + 2 * v1 * v2)) (s : Status) :
    L_mac a v1 v2 s = (a + 2 * v1 * v2, s) := by
  have hp : isInt32 (2 * v1 * v2) := by
    have := L_mult_isInt32 h1 h2 s
    rw [L_mult_of_ne h1 h2 hne] at this
    exact this
  unfold L_mac
  rw [L_mult_of_ne h1 h2 hne]
  dsimp only
  rw [L_add_pair ha hp, if_pos hs, clamp32_of_isInt32 hs]

/-- Function `Goertzel.getSquaredMagnitude` from the results of its calls. -/
theorem getSquaredMagnitude_of (g : Goertzel) (input : Nat → Int) (s : Status)
    {c : Goertzel} {y0 y1 m sh a1 a0 : Int} {sc s0 s1 sm ssh sa1 sa0 : Status}
    (hc : g.compute input s = (c, sc)) (h0 : round_fx c.y0 sc = (y0, s0))
    (h1 : round_fx c.y1 s0 = (y1, s1))
    (hm : L_mult (wrap16 (mult y0 y1)) c.coef s1 = (m, sm))
    (hsh : L_shl m (15 - 14) sm = (sh, ssh))
    (ha1 : L_mac (L_negate sh) y1 y1 ssh = (a1, sa1))
    (ha0 : L_mac a1 y0 y0 sa1 = (a0, sa0)) :
    g.getSquaredMagnitude input s = (a0, c, sa0) := by
  unfold Goertzel.getSquaredMagnitude
  rw [hc]
  dsimp only
  rw [h0]
  dsimp only
  rw [h1]
  dsimp only
  rw [hm]
  dsimp only
  rw [hsh]
  dsimp only
  rw [ha1]
  dsimp only
  rw [ha0]

/-- A block of two samples `20000` with `coef = 16384` and `att = 16384`: the
accumulators after `Goertzel::compute`. -/
theorem compute_example :
    (Goertzel.mk 2 7 (-9) 16384 16384).compute (fun _ => 20000) Status.init =
      (Goertzel.mk 2 1310720000 655360000 16384 16384, Status.init) := by
  have s1 : (Goertzel.mk 2 0 0 16384 16384).compute_step 20000 Status.init =
      (Goertzel.mk 2 655360000 0 16384 16384, Status.init) := by decide
  have s2 : (Goertzel.mk 2 655360000 0 16384 16384).compute_step 20000 Status.init =
      (Goertzel.mk 2 1310720000 655360000 16384 16384, Status.init) := by decide
  show Goertzel.compute_loop (fun _ => 20000) 2 (Goertzel.mk 2 0 0 16384 16384) Status.init = _
  rw [Goertzel.compute_loop, Goertzel.compute_loop, Goertzel.compute_loop]
  dsimp only
  rw [s1]
  dsimp only
  rw [s2]

/-- The value stored through `out` by `Agc.process_sample`, from the results of
the three calls that produce it. -/
theorem process_sample_out_of (a : Agc) (x : Int) (s : Status) {m sh o : Int}
    {sm ssh so : Status} (hm : L_mult x (extract_h a.gain) s = (m, sm))
    (hsh : L_shl m (15 - AGC_GAIN_Qn) sm = (sh, ssh)) (ho : round_fx sh ssh = (o, so)) :
    (a.process_sample x s).1 = o := by
  unfold Agc.process_sample
  rw [hm]
  dsimp only
  rw [hsh]
  dsimp only
  rw [ho]

/-- The arithmetic of the AGC output: rounding the clamped `64 * p` to its high
word is rounding `p` at bit 10 and clamping to 16 bits. -/
theorem agc_round_clamp (p : Int) :
    min 32767 ((clamp32 (2 * p * 32) + 32768) / 65536) = clamp16 ((p + 512) / 1024) := by
  unfold clamp32 clamp16
  omega

theorem process_sample_out (a : Agc) (x : Int) (s : Status) (hx : isInt16 x)
    (hg : isInt32 a.gain) :
    (a.process_sample x s).1 = clamp16 ((x * (a.gain / 2 ^ 16) + 512) / 1024) := by
  have hp : (2 : Int) ^ 16 = 65536 := by norm_num
  have hq : (2 : Int) ^ (15 - AGC_GAIN_Qn : Int).toNat = 32 := by decide
  rw [hp]
  have hgi : isInt16 (a.gain / 65536) := by
    unfold isInt32 at hg
    unfold isInt16
    omega
  have he := extract_h_eq hg
  by_cases hmin : x = -32768 ∧ a.gain / 65536 = -32768
  · obtain ⟨e1, e2⟩ := hmin
    have hm : L_mult x (extract_h a.gain) s = (2147483647, { s with Overflow := true }) := by
      rw [he, e1, e2]
      exact L_mult_min s
    have hsh := L_shl_pos_pair (show isInt32 2147483647 by decide)
      (show (0 : Int) < 15 - AGC_GAIN_Qn by decide) { s with Overflow := true }
    have ho := round_fx_pair (isInt32_clamp32 (2147483647 * 2 ^ (15 - AGC_GAIN_Qn : Int).toNat))
      (if isInt32 (2147483647 * 2 ^ (15 - AGC_GAIN_Qn : Int).toNat) then
        { s with Overflow := true } else { { s with Overflow := true } with Overflow := true })
    rw [process_sample_out_of a x s hm hsh ho, e1, e2, hq]
    decide
  · have hm : L_mult x (extract_h a.gain) s = (2 * x * (a.gain / 65536), s) := by
      rw [he]
      exact L_mult_of_ne hx hgi hmin s
    have hmi : isInt32 (2 * x * (a.gain / 65536)) := by
      have := L_mult_isInt32 hx hgi s
      rw [L_mult_of_ne hx hgi hmin s] at this
      exact this
    have hsh := L_shl_pos_pair hmi (show (0 : Int) < 15 - AGC_GAIN_Qn by decide) s
    have ho := round_fx_pair
      (isInt32_clamp32 (2 * x * (a.gain / 65536) * 2 ^ (15 - AGC_GAIN_Qn : Int).toNat))
      (if isInt32 (2 * x * (a.gain / 65536) * 2 ^ (15 - AGC_GAIN_Qn : Int).toNat) then s
        else { s with Overflow := true })
    rw [process_sample_out_of a x s hm hsh ho, hq, mul_assoc 2 x]
    exact agc_round_clamp (x * (a.gain / 65536))

/-- Function `Agc.process_sample` on the attack branch, from the results of its
calls. -/
theorem process_sample_attack_of (a : Agc) (x : Int) (s : Status) {m sh o r g : Int}
    {sm ssh so sr sg : Status} (hm : L_mult x (extract_h a.gain) s = (m, sm))
    (hsh : L_shl m (15 - AGC_GAIN_Qn) sm = (sh, ssh)) (ho : round_fx sh ssh = (o, so))
    (hb : a.target < abs_s o) (hr : round_fx a.gain so = (r, sr))
    (hg : L_mult r a.attack sr = (g, sg)) :
    a.process_sample x s =
      (o, { a with gain := L_max (L_deposit_h a.minGain) (L_min (L_deposit_h a.maxGain) g) },
        sg) := by
  unfold Agc.process_sample
  rw [hm]
  dsimp only
  rw [hsh]
  dsimp only
  rw [ho]
  dsimp only
  rw [if_pos hb, hr]
  dsimp only
  rw [hg]

/-- Function `Agc.process_sample` on the release branch, from the results of its
calls. -/
theorem process_sample_release_of (a : Agc) (x : Int) (s : Status) {m sh o r d q g : Int}
    {sm ssh so sr sd sq sg : Status} (hm : L_mult x (extract_h a.gain) s = (m, sm))
    (hsh : L_shl m (15 - AGC_GAIN_Qn) sm = (sh, ssh)) (ho : round_fx sh ssh = (o, so))
    (hb : ¬ a.target < abs_s o) (hr : round_fx a.gain so = (r, sr))
    (hd : sub INT16_MAX r sr = (d, sd)) (hq : shr d 2 sd = (q, sq))
    (hg : L_mac a.gain q a.release sq = (g, sg)) :
    a.process_sample x s =
      (o, { a with gain := L_max (L_deposit_h a.minGain) (L_min (L_deposit_h a.maxGain) g) },
        sg) := by
  unfold Agc.process_sample
  rw [hm]
  dsimp only
  rw [hsh]
  dsimp only
  rw [ho]
  dsimp only
  rw [if_neg hb, hr]
  dsimp only
  rw [hd]
  dsimp only
  rw [hq]
  dsimp only
  rw [hg]

/-- Function `Agc.process_sample` writes `gain` only, and writes it through the
clamp `L_max(L_deposit_h(minGain), L_min(L_deposit_h(maxGain), .))`. -/
theorem process_sample_clamped (a : Agc) (x : Int) (s : Status) :
    ∃ o g t, a.process_sample x s =
      (o, { a with gain := L_max (L_deposit_h a.minGain) (L_min (L_deposit_h a.maxGain) g) },
        t) := by
  rcases hm : L_mult x (extract_h a.gain) s with ⟨m, sm⟩
  rcases hsh : L_shl m (15 - AGC_GAIN_Qn) sm with ⟨sh, ssh⟩
  rcases ho : round_fx sh ssh with ⟨o, so⟩
  rcases hr : round_fx a.gain so with ⟨r, sr⟩
  by_cases hb : a.target < abs_s o
  · rcases hg : L_mult r a.attack sr with ⟨g, sg⟩
    exact ⟨o, g, sg, process_sample_attack_of a x s hm hsh ho hb hr hg⟩
  · rcases hd : sub INT16_MAX r sr with ⟨d, sd⟩
    rcases hq : shr d 2 sd with ⟨q, sq⟩
    rcases hg : L_mac a.gain q a.release sq with ⟨g, sg⟩
    exact ⟨o, g, sg, process_sample_release_of a x s hm hsh ho hb hr hd hq hg⟩

/-- The gain clamp of `Agc::process` (agc.cpp:57) as `max` and `min`. -/
theorem gain_clamp_eq {lo hi : Int} (hlo : isInt16 lo) (hhi : isInt16 hi) (g : Int) :
    L_max (L_deposit_h lo) (L_min (L_deposit_h hi) g) =
      max (lo * 65536) (min (hi * 65536) g) := by
  rw [L_deposit_h_eq hlo, L_deposit_h_eq hhi]
  unfold L_max L_min
  split_ifs <;> omega

theorem process_sample_bounds (a : Agc) (x : Int) (s : Status) (hlo : isInt16 a.minGain)
    (hhi : isInt16 a.maxGain) (hle : a.minGain ≤ a.maxGain) :
    ∃ o b t, a.process_sample x s = (o, b, t) ∧ b.target = a.target ∧
      b.maxGain = a.maxGain ∧ b.attack = a.attack ∧ b.release = a.release ∧
      b.minGain = a.minGain ∧ a.minGain * 2 ^ 16 ≤ b.gain ∧ b.gain ≤ a.maxGain * 2 ^ 16 := by
  obtain ⟨o, g, t, h⟩ := process_sample_clamped a x s
  refine ⟨o, _, t, h, rfl, rfl, rfl, rfl, rfl, ?_, ?_⟩
  · show a.minGain * 2 ^ 16 ≤ L_max (L_deposit_h a.minGain) (L_min (L_deposit_h a.maxGain) g)
    rw [gain_clamp_eq hlo hhi]
    norm_num
  · show L_max (L_deposit_h a.minGain) (L_min (L_deposit_h a.maxGain) g) ≤ a.maxGain * 2 ^ 16
    rw [gain_clamp_eq hlo hhi]
    norm_num
    omega

theorem process_bounds (xs : List Int) :
    ∀ (a : Agc) (x : Int) (s : Status), isInt16 a.minGain → isInt16 a.maxGain →
      a.minGain ≤ a.maxGain →
      ∃ os b t, a.process (x :: xs) s = (os, b, t) ∧ b.maxGain = a.maxGain ∧
        b.minGain = a.minGain ∧ a.minGain * 2 ^ 16 ≤ b.gain ∧ b.gain ≤ a.maxGain * 2 ^ 16 := by
  induction xs with
  | nil =>
    intro a x s hlo hhi hle
    obtain ⟨o, b, t, h, -, e1, -, -, e2, h1, h2⟩ := process_sample_bounds a x s hlo hhi hle
    refine ⟨[o], b, t, ?_, e1, e2, h1, h2⟩
    rw [Agc.process, h]
    rfl
  | cons y ys ih =>
    intro a x s hlo hhi hle
    obtain ⟨o, b, t, h, -, e1, -, -, e2, -, -⟩ := process_sample_bounds a x s hlo hhi hle
    obtain ⟨os, c, u, h', f1, f2, k1, k2⟩ := ih b y t (e2 ▸ hlo) (e1 ▸ hhi) (by rw [e1, e2]; exact hle)
    refine ⟨o :: os, c, u, ?_, f1.trans e1, f2.trans e2, ?_, ?_⟩
    · rw [Agc.process, h]
      dsimp only
      rw [h']
    · rw [← e2]
      exact k1
    · rw [← e1]
      exact k2

/-- Function `round_fx` on a 32-bit value that is not above `32767 * 2 ^ 16`. -/
theorem round_fx_no_sat {L : Int} (h0 : -2147483648 ≤ L) (h1 : L ≤ 2147418112) (s : Status) :
    round_fx L s = ((L + 32768) / 65536, s) := by
  rw [round_fx_pair ⟨h0, by omega⟩]
  simp only [INT32_MAX]
  rw [if_neg (by omega)]
  congr 1
  omega

/-- Function `sub` on 16-bit operands. -/
theorem sub_pair {a b : Int} (ha : isInt16 a) (hb : isInt16 b) (s : Status) :
    sub a b s = (clamp16 (a - b), if isInt16 (a - b) then s else { s with Overflow := true }) := by
  unfold isInt16 at ha hb
  have hw : wrap32 (a - b) = a - b := by
    unfold wrap32
    omega
  unfold sub
  rw [hw, saturate_pair]

/-- The attack branch of `Agc::process` for a gain in `[0, maxGain * 2 ^ 16]` and
`0 <= attack <= 32767`. -/
theorem process_sample_attack (a : Agc) (x : Int) (s : Status) (o : Int)
    (hlo : isInt16 a.minGain) (hhi : isInt16 a.maxGain)
    (hg0 : 0 ≤ a.gain) (hg2 : a.gain ≤ a.maxGain * 2 ^ 16)
    (ha0 : 0 ≤ a.attack) (ha1 : a.attack ≤ 32767)
    (ho : (a.process_sample x s).1 = o) (hb : a.target < abs_s o) :
    ∃ g t, g = max (a.minGain * 2 ^ 16) (2 * ((a.gain + 32768) / 65536) * a.attack) ∧
      a.process_sample x s = (o, { a with gain := g }, t) ∧
      ∀ u, L_mult ((a.gain + 32768) / 65536) a.attack u =
        (2 * ((a.gain + 32768) / 65536) * a.attack, u) := by
  have hp : (2 : Int) ^ 16 = 65536 := by norm_num
  rw [hp] at hg2 ⊢
  rcases hm : L_mult x (extract_h a.gain) s with ⟨m, sm⟩
  rcases hsh : L_shl m (15 - AGC_GAIN_Qn) sm with ⟨sh, ssh⟩
  rcases hro : round_fx sh ssh with ⟨o', so⟩
  have ho' : o' = o := by
    rw [← ho]
    exact (process_sample_out_of a x s hm hsh hro).symm
  subst ho'
  have hhi' := hhi
  unfold isInt16 at hhi'
  have hr := round_fx_no_sat (L := a.gain) (by omega) (by omega) so
  have hri : isInt16 ((a.gain + 32768) / 65536) := by
    unfold isInt16
    omega
  have hai : isInt16 a.attack := by
    unfold isInt16
    omega
  have hM : ∀ u, L_mult ((a.gain + 32768) / 65536) a.attack u =
      (2 * ((a.gain + 32768) / 65536) * a.attack, u) :=
    fun u => L_mult_of_ne hri hai (by omega) u
  refine ⟨_, so, rfl, ?_, hM⟩
  rw [process_sample_attack_of a x s hm hsh hro hb hr (hM so), gain_clamp_eq hlo hhi]
  congr 3
  have h1 : 0 ≤ (a.gain + 32768) / 65536 := by omega
  have h2 : (a.gain + 32768) / 65536 ≤ a.maxGain := by omega
  have h3 : (a.gain + 32768) / 65536 * a.attack ≤ (a.gain + 32768) / 65536 * 32767 :=
    mul_le_mul_of_nonneg_left ha1 h1
  rw [mul_assoc]
  generalize (a.gain + 32768) / 65536 * a.attack = q at h3 ⊢
  omega

/-- The output for the sample `32767` at gain `1024 * 2 ^ 16` (unity). -/
theorem attack_example_out :
    ((Agc.mk 10 10240 31959 100 67108864 717).process_sample 32767 Status.init).1 = 32767 := by
  have hm : L_mult 32767 (extract_h (Agc.mk 10 10240 31959 100 67108864 717).gain)
      Status.init = (67106816, Status.init) := by decide
  have hsh : L_shl 67106816 (15 - AGC_GAIN_Qn) Status.init = (2147418112, Status.init) := by
    decide
  have ho : round_fx 2147418112 Status.init = (32767, Status.init) := by decide
  exact process_sample_out_of _ _ _ hm hsh ho

/-- The release branch of `Agc::process`: the value given to the gain clamp is
not below the gain before, when `release` is not negative. -/
theorem release_chain (a : Agc) (so : Status) (hg : isInt32 a.gain) (hr0 : 0 ≤ a.release)
    (hr1 : isInt16 a.release) :
    ∃ r sr d sd q sq g t, round_fx a.gain so = (r, sr) ∧ sub INT16_MAX r sr = (d, sd) ∧
      shr d 2 sd = (q, sq) ∧ L_mac a.gain q a.release sq = (g, t) ∧ a.gain ≤ g := by
  rcases hr : round_fx a.gain so with ⟨r, sr⟩
  obtain ⟨hri, -⟩ := round_fx_spec hr
  have hd := sub_pair (show isInt16 INT16_MAX by decide) hri sr
  have hdi : isInt16 (clamp16 (INT16_MAX - r)) := by
    unfold isInt16 clamp16
    omega
  have hq := shr_nonneg_pair hdi (show (0 : Int) ≤ 2 by decide)
    (if isInt16 (INT16_MAX - r) then sr else { sr with Overflow := true })
  have hp : (2 : Int) ^ (2 : Int).toNat = 4 := by decide
  rw [hp] at hq
  have hq0 : 0 ≤ clamp16 (INT16_MAX - r) / 4 := by
    unfold isInt16 at hri
    unfold clamp16
    simp only [INT16_MAX]
    omega
  have hqi : isInt16 (clamp16 (INT16_MAX - r) / 4) := by
    unfold isInt16 at hdi ⊢
    omega
  rcases hm : L_mac a.gain (clamp16 (INT16_MAX - r) / 4) a.release
    (if isInt16 (INT16_MAX - r) then sr else { sr with Overflow := true }) with ⟨g, t⟩
  refine ⟨r, sr, _, _, _, _, g, t, rfl, hd, hq, hm, ?_⟩
  have hne : ¬ (clamp16 (INT16_MAX - r) / 4 = -32768 ∧ a.release = -32768) := by
    rintro ⟨h, -⟩
    omega
  have hpi : isInt32 (2 * (clamp16 (INT16_MAX - r) / 4) * a.release) := by
    have := L_mult_isInt32 hqi hr1 so
    rw [L_mult_of_ne hqi hr1 hne] at this
    exact this
  unfold L_mac at hm
  rw [L_mult_of_ne hqi hr1 hne] at hm
  dsimp only at hm
  rw [L_add_pair hg hpi] at hm
  have hv := (Prod.mk.inj hm).1
  have hnn : 0 ≤ clamp16 (INT16_MAX - r) / 4 * a.release := mul_nonneg hq0 hr0
  rw [← hv, mul_assoc]
  generalize clamp16 (INT16_MAX - r) / 4 * a.release = p at hnn
  unfold isInt32 at hg
  unfold clamp32
  omega

/-- The output for the sample `100` at gain `1024 * 2 ^ 16` (unity). -/
theorem release_example_out :
    ((Agc.mk 23170 10240 31959 100 67108864 717).process_sample 100 Status.init).1 = 100 := by
  have hm : L_mult 100 (extract_h (Agc.mk 23170 10240 31959 100 67108864 717).gain)
      Status.init = (204800, Status.init) := by decide
  have hsh : L_shl 204800 (15 - AGC_GAIN_Qn) Status.init = (6553600, Status.init) := by
    decide
  have ho : round_fx 6553600 Status.init = (100, Status.init) := by decide
  exact process_sample_out_of _ _ _ hm hsh ho

/-- Function `Smoother.smooth_sample` from the results of its calls. -/
theorem smooth_sample_of (m : Smoother) (x : Int) (s : Status) {r b o : Int}
    {sr sb so : Status} (hr : round_fx m.buf s = (r, sr))
    (hb : L_mac m.buf (wrap16 (x - r))
      (if 0 ≤ wrap16 (x - r) then m.up_coef else m.down_coef) sr = (b, sb))
    (ho : round_fx b sb = (o, so)) :
    m.smooth_sample x s = (o, { m with buf := b }, so) := by
  unfold Smoother.smooth_sample
  rw [hr]
  dsimp only
  rw [hb]
  dsimp only
  rw [ho]

/-- Function `L_mac` with a coefficient in `[0, 32767]`: the product does not
saturate and the sum is clamped. -/
theorem L_mac_coef {a d c : Int} (ha : isInt32 a) (hd : isInt16 d) (hc0 : 0 ≤ c)
    (hc1 : c ≤ 32767) (s : Status) :
    ∃ t, L_mac a d c s = (clamp32 (a + 2 * (d * c)), t) := by
  have hci : isInt16 c := by
    unfold isInt16
    omega
  have hne : ¬ (d = -32768 ∧ c = -32768) := by
    rintro ⟨-, h⟩
    omega
  have hp : isInt32 (2 * d * c) := by
    have := L_mult_isInt32 hd hci s
    rw [L_mult_of_ne hd hci hne] at this
    exact this
  unfold L_mac
  rw [L_mult_of_ne hd hci hne]
  dsimp only
  rw [L_add_pair ha hp, mul_assoc]
  exact ⟨_, rfl⟩

/-- One step of the smoother when the difference `x - current` fits in 16 bits. -/
theorem smooth_sample_toward (m : Smoother) (x : Int) (s : Status) (hbuf : isInt32 m.buf)
    (hx : isInt16 x) (hu0 : 0 ≤ m.up_coef) (hu1 : m.up_coef ≤ 32767)
    (hd0 : 0 ≤ m.down_coef) (hd1 : m.down_coef ≤ 32767)
    (hnw : isInt16 (x - min 32767 ((m.buf + 32768) / 65536))) :
    ∃ sr b sb o so, round_fx m.buf s = (min 32767 ((m.buf + 32768) / 65536), sr) ∧
      L_mac m.buf (x - min 32767 ((m.buf + 32768) / 65536))
        (if min 32767 ((m.buf + 32768) / 65536) ≤ x then m.up_coef else m.down_coef) sr =
        (b, sb) ∧
      round_fx b sb = (o, so) ∧
      m.smooth_sample x s = (o, { m with buf := b }, so) ∧
      min (min 32767 ((m.buf + 32768) / 65536)) x ≤ o ∧
      o ≤ max (min 32767 ((m.buf + 32768) / 65536)) x := by
  have hr := round_fx_pair hbuf s
  generalize hcur : min 32767 ((m.buf + 32768) / 65536) = cur at hr hnw ⊢
  generalize (if m.buf > INT32_MAX - 32768 then { s with Overflow := true } else s) = sr at hr
  have hw := wrap16_of_isInt16 hnw
  have hif : (if 0 ≤ x - cur then m.up_coef else m.down_coef) =
      (if cur ≤ x then m.up_coef else m.down_coef) := by
    by_cases h : cur ≤ x
    · rw [if_pos h, if_pos (by omega)]
    · rw [if_neg h, if_neg (by omega)]
  have hc0 : 0 ≤ (if cur ≤ x then m.up_coef else m.down_coef) := by
    split_ifs <;> assumption
  have hc1 : (if cur ≤ x then m.up_coef else m.down_coef) ≤ 32767 := by
    split_ifs <;> assumption
  obtain ⟨sb, hb⟩ := L_mac_coef hbuf hnw hc0 hc1 sr
  have hbi := isInt32_clamp32
    (m.buf + 2 * ((x - cur) * (if cur ≤ x then m.up_coef else m.down_coef)))
  have ho := round_fx_pair hbi sb
  refine ⟨sr, _, sb, _, _, hr, hb, ho, ?_, ?_⟩
  · apply smooth_sample_of m x s hr _ ho
    rw [hw, hif]
    exact hb
  · generalize (if cur ≤ x then m.up_coef else m.down_coef) = c at hc0 hc1
    unfold isInt32 at hbuf
    unfold isInt16 at hx hnw
    unfold clamp32
    by_cases hd : 0 ≤ x - cur
    · have h1 : 0 ≤ (x - cur) * c := mul_nonneg hd hc0
      have h2 : (x - cur) * c ≤ (x - cur) * 32767 := mul_le_mul_of_nonneg_left hc1 hd
      generalize (x - cur) * c = q at h1 h2
      constructor <;> omega
    · have hd' : x - cur ≤ 0 := by omega
      have h1 : (x - cur) * c ≤ 0 := mul_nonpos_of_nonpos_of_nonneg hd' hc0
      have h2 : (x - cur) * 32767 ≤ (x - cur) * c := mul_le_mul_of_nonpos_left hc1 hd'
      generalize (x - cur) * c = q at h1 h2
      constructor <;> omega

/-- The step of the smoother for `buf = -65536` (level `-1`), input `32767` and
`down_coef = 16384`: the difference `32768` does not fit the 16-bit variable
`dat` and becomes `-32768`, so `down_coef` is applied and the output is `-16385`. -/
theorem smooth_sample_wraps :
    (Smoother.mk 16384 16384 (-65536)).smooth_sample 32767 Status.init =
      (-16385, Smoother.mk 16384 16384 (-1073807360), Status.init) := by
  have hr : round_fx (Smoother.mk 16384 16384 (-65536)).buf Status.init = (-1, Status.init) := by
    decide
  have hb : L_mac (Smoother.mk 16384 16384 (-65536)).buf (wrap16 (32767 - -1))
      (if 0 ≤ wrap16 (32767 - -1) then (Smoother.mk 16384 16384 (-65536)).up_coef
        else (Smoother.mk 16384 16384 (-65536)).down_coef) Status.init =
      (-1073807360, Status.init) := by decide
  have ho : round_fx (-1073807360) Status.init = (-16385, Status.init) := by decide
  exact smooth_sample_of _ _ _ hr hb ho

theorem L_mult_zero_left (c : Int) (s : Status) : L_mult 0 c s = (0, s) := by
  unfold L_mult
  rw [zero_mul]
  have h : (wrap32 0 : Int) = 0 := by decide
  rw [h, if_pos (by decide)]
  have h2 : wrap32 (0 * 2 ^ 1) = 0 := by decide
  rw [h2]

theorem L_mult_zero_right (c : Int) (s : Status) : L_mult c 0 s = (0, s) := by
  unfold L_mult
  rw [mul_zero]
  have h : (wrap32 0 : Int) = 0 := by decide
  rw [h, if_pos (by decide)]
  have h2 : wrap32 (0 * 2 ^ 1) = 0 := by decide
  rw [h2]

theorem L_add_zero_zero (s : Status) : L_add 0 0 s = (0, s) := by
  rw [L_add_pair (show isInt32 0 by decide) (show isInt32 0 by decide)]
  rfl

theorem L_sub_zero_zero (s : Status) : L_sub 0 0 s = (0, s) := by
  rw [L_sub_pair (show isInt32 0 by decide) (show isInt32 0 by decide)]
  rfl

theorem round_fx_zero (s : Status) : round_fx 0 s = (0, s) :=
  round_fx_no_sat (by decide) (by decide) s

theorem L_shl_zero {n : Int} (h : 0 < n) (s : Status) : L_shl 0 n s = (0, s) := by
  rw [L_shl_pos_pair (show isInt32 0 by decide) h, zero_mul]
  rfl

theorem L_mac_zero_left (c : Int) (s : Status) : L_mac 0 0 c s = (0, s) := by
  unfold L_mac
  rw [L_mult_zero_left]
  exact L_add_zero_zero s

theorem L_mac_zero_right (c : Int) (s : Status) : L_mac 0 c 0 s = (0, s) := by
  unfold L_mac
  rw [L_mult_zero_right]
  exact L_add_zero_zero s

/-- A cleared first-order filter maps the sample `0` to `0` and stays cleared. -/
theorem convol1_zero (b0 b1 a1 : Int) (s : Status) :
    (IIR1DirectFormI.ctor b0 b1 a1).convol 0 s = (0, IIR1DirectFormI.ctor b0 b1 a1, s) :=
  convol_of (IIR1DirectFormI.ctor b0 b1 a1) 0 s (round_fx_zero s) (L_mult_zero_left _ s)
    (L_mac_zero_left _ s) (L_mac_zero_left _ s)

/-- A cleared second-order filter maps the sample `0` to `0` and stays cleared. -/
theorem convol2_zero (b0 b1 b2 a1 a2 : Int) (s : Status) :
    (IIR2DirectFormI.ctor b0 b1 b2 a1 a2).convol 0 s =
      (0, IIR2DirectFormI.ctor b0 b1 b2 a1 a2, s) :=
  convol2_of (IIR2DirectFormI.ctor b0 b1 b2 a1 a2) 0 s (round_fx_zero s)
    (L_mult_zero_left _ s) (L_shl_zero (by decide) s) (round_fx_zero s) (L_mult_zero_left _ s)
    (L_shl_zero (by decide) s) (L_add_zero_zero s) (L_mult_zero_left _ s)
    (L_shl_zero (by decide) s) (L_add_zero_zero s) (L_mult_zero_left _ s)
    (L_shl_zero (by decide) s) (L_add_zero_zero s) (L_mult_zero_left _ s)
    (L_shl_zero (by decide) s) (L_add_zero_zero s)

theorem filter1_zero (b0 b1 a1 : Int) (s : Status) (n : Nat) :
    (IIR1DirectFormI.ctor b0 b1 a1).filter_q15 (List.replicate n 0) s =
      (List.replicate n 0, IIR1DirectFormI.ctor b0 b1 a1, s) ∧
    (IIR1DirectFormI.ctor b0 b1 a1).filter_q31 (List.replicate n 0) s =
      (List.replicate n 0, IIR1DirectFormI.ctor b0 b1 a1, s) := by
  induction n with
  | zero => exact ⟨rfl, rfl⟩
  | succ n ih =>
    constructor
    · rw [List.replicate_succ, IIR1DirectFormI.filter_q15, convol1_zero]
      dsimp only
      rw [round_fx_zero]
      dsimp only
      rw [ih.1]
    · rw [List.replicate_succ, IIR1DirectFormI.filter_q31, convol1_zero]
      dsimp only
      rw [ih.2]

theorem filter2_zero (b0 b1 b2 a1 a2 : Int) (s : Status) (n : Nat) :
    (IIR2DirectFormI.ctor b0 b1 b2 a1 a2).filter_q15 (List.replicate n 0) s =
      (List.replicate n 0, IIR2DirectFormI.ctor b0 b1 b2 a1 a2, s) ∧
    (IIR2DirectFormI.ctor b0 b1 b2 a1 a2).filter_q31 (List.replicate n 0) s =
      (List.replicate n 0, IIR2DirectFormI.ctor b0 b1 b2 a1 a2, s) := by
  induction n with
  | zero => exact ⟨rfl, rfl⟩
  | succ n ih =>
    constructor
    · rw [List.replicate_succ, IIR2DirectFormI.filter_q15, convol2_zero]
      dsimp only
      rw [round_fx_zero]
      dsimp only
      rw [ih.1]
    · rw [List.replicate_succ, IIR2DirectFormI.filter_q31, convol2_zero]
      dsimp only
      rw [ih.2]

/-- A cleared smoother maps the sample `0` to `0` and stays cleared. -/
theorem smooth_sample_zero (up down : Int) (s : Status) :
    (Smoother.ctor up down).smooth_sample 0 s = (0, Smoother.ctor up down, s) := by
  have hb : L_mac (Smoother.ctor up down).buf (wrap16 (0 - 0))
      (if 0 ≤ wrap16 (0 - 0) then (Smoother.ctor up down).up_coef
        else (Smoother.ctor up down).down_coef) s = (0, s) := by
    have hw : wrap16 (0 - 0) = 0 := by decide
    rw [hw]
    exact L_mac_zero_left _ s
  exact smooth_sample_of (Smoother.ctor up down) 0 s (round_fx_zero s) hb (round_fx_zero s)

theorem smooth_zero (up down : Int) (s : Status) (n : Nat) :
    (Smoother.ctor up down).smooth (List.replicate n 0) s =
      (List.replicate n 0, Smoother.ctor up down, s) := by
  induction n with
  | zero => rfl
  | succ n ih =>
    rw [List.replicate_succ, Smoother.smooth, smooth_sample_zero]
    dsimp only
    rw [ih]

/-- One step of `Goertzel::compute` on cleared accumulators and the sample `0`. -/
theorem compute_step_zero (N coef att : Int) (s : Status) :
    (Goertzel.mk N 0 0 coef att).compute_step 0 s = (Goertzel.mk N 0 0 coef att, s) :=
  compute_step_of (Goertzel.mk N 0 0 coef att) 0 s (round_fx_zero s) (L_mult_zero_left _ s)
    (L_shl_zero (by decide) s) (L_sub_zero_zero s) (L_mac_zero_right _ s)

theorem compute_loop_zero (input : Nat → Int) (N coef att : Int) (s : Status) :
    ∀ n : Nat, (∀ i, i < n → input i = 0) →
      Goertzel.compute_loop input n (Goertzel.mk N 0 0 coef att) s =
        (Goertzel.mk N 0 0 coef att, s) := by
  intro n
  induction n with
  | zero =>
    intro _
    rfl
  | succ n ih =>
    intro hz
    rw [Goertzel.compute_loop, ih (fun i hi => hz i (by omega))]
    dsimp only
    rw [hz n (by omega)]
    exact compute_step_zero N coef att s

/-- An all-zero block has squared magnitude `0`, and the status is untouched. -/
theorem getSquaredMagnitude_zero (g : Goertzel) (input : Nat → Int) (s : Status)
    (hz : ∀ i, i < g.N.toNat → input i = 0) :
    g.getSquaredMagnitude input s = (0, Goertzel.mk g.N 0 0 g.coef g.att, s) := by
  have hc : g.compute input s = (Goertzel.mk g.N 0 0 g.coef g.att, s) :=
    compute_loop_zero input g.N g.coef g.att s g.N.toNat hz
  have hm : L_mult (wrap16 (mult 0 0)) (Goertzel.mk g.N 0 0 g.coef g.att).coef s = (0, s) := by
    have h : wrap16 (mult 0 0) = 0 := by decide
    rw [h]
    exact L_mult_zero_left _ s
  have ha : L_mac (L_negate 0) 0 0 s = (0, s) := by
    have h : L_negate 0 = 0 := by decide
    rw [h]
    exact L_mac_zero_left _ s
  exact getSquaredMagnitude_of g input s hc (round_fx_zero s) (round_fx_zero s) hm
    (L_shl_zero (by decide) s) ha (L_mac_zero_left _ s)

/-- The output of `Agc::process` for the sample `0` is `0`, for every object. -/
theorem process_sample_zero_out (a : Agc) (s : Status) : (a.process_sample 0 s).1 = 0 :=
  process_sample_out_of a 0 s (L_mult_zero_left _ s) (L_shl_zero (by decide) s)
    (round_fx_zero s)

theorem process_zero_out (n : Nat) :
    ∀ (a : Agc) (s : Status), (a.process (List.replicate n 0) s).1 = List.replicate n 0 := by
  induction n with
  | zero =>
    intro a s
    rfl
  | succ n ih =>
    intro a s
    obtain ⟨o, g, t, h⟩ := process_sample_clamped a 0 s
    have ho : o = 0 := by
      have := process_sample_zero_out a s
      rw [h] at this
      exact this
    rw [List.replicate_succ, Agc.process, h]
    dsimp only
    rw [ho, ih]

/-- The sample `0` leaves the status untouched when `0 <= minGain` and the gain
is in `[0, 32767 * 2 ^ 16]`, and the gain stays in that range. -/
theorem process_sample_zero_status (a : Agc) (s : Status) (hlo : isInt16 a.minGain)
    (hhi : isInt16 a.maxGain) (hat : isInt16 a.attack) (hre : isInt16 a.release)
    (hm0 : 0 ≤ a.minGain) (hg0 : 0 ≤ a.gain) (hg1 : a.gain ≤ 2147418112) :
    ∃ g, a.process_sample 0 s = (0, { a with gain := g }, s) ∧ 0 ≤ g ∧ g ≤ 2147418112 := by
  have hm := L_mult_zero_left (extract_h a.gain) s
  have hsh : L_shl 0 (15 - AGC_GAIN_Qn) s = (0, s) := L_shl_zero (by decide) s
  have ho := round_fx_zero s
  have hr := round_fx_no_sat (L := a.gain) (by omega) hg1 s
  have hri : isInt16 ((a.gain + 32768) / 65536) := by
    unfold isInt16
    omega
  have hlo' := hlo
  have hhi' := hhi
  unfold isInt16 at hlo' hhi'
  by_cases hb : a.target < abs_s 0
  · have hg := L_mult_of_ne hri hat (by omega) s
    refine ⟨L_max (L_deposit_h a.minGain) (L_min (L_deposit_h a.maxGain)
      (2 * ((a.gain + 32768) / 65536) * a.attack)),
      process_sample_attack_of a 0 s hm hsh ho hb hr hg, ?_, ?_⟩
    · rw [gain_clamp_eq hlo hhi]
      omega
    · rw [gain_clamp_eq hlo hhi]
      omega
  · have hdi : isInt16 (INT16_MAX - (a.gain + 32768) / 65536) := by
      unfold isInt16
      simp only [INT16_MAX]
      omega
    have hd := sub_pair (show isInt16 INT16_MAX by decide) hri s
    rw [if_pos hdi, clamp16_of_isInt16 hdi] at hd
    have hq := shr_nonneg_pair hdi (show (0 : Int) ≤ 2 by decide) s
    have hp : (2 : Int) ^ (2 : Int).toNat = 4 := by decide
    rw [hp] at hq
    have hq0 : 0 ≤ (INT16_MAX - (a.gain + 32768) / 65536) / 4 := by
      simp only [INT16_MAX]
      omega
    have hqi : isInt16 ((INT16_MAX - (a.gain + 32768) / 65536) / 4) := by
      unfold isInt16
      simp only [INT16_MAX]
      omega
    have hre' := hre
    unfold isInt16 at hre'
    have h1 : (INT16_MAX - (a.gain + 32768) / 65536) / 4 * a.release ≤
        (INT16_MAX - (a.gain + 32768) / 65536) / 4 * 32767 :=
      mul_le_mul_of_nonneg_left hre'.2 hq0
    have h2 : (INT16_MAX - (a.gain + 32768) / 65536) / 4 * (-32768) ≤
        (INT16_MAX - (a.gain + 32768) / 65536) / 4 * a.release :=
      mul_le_mul_of_nonneg_left hre'.1 hq0
    have hsum : isInt32 (a.gain +
        2 * ((INT16_MAX - (a.gain + 32768) / 65536) / 4) * a.release) := by
      rw [mul_assoc]
      generalize (INT16_MAX - (a.gain + 32768) / 65536) / 4 * a.release = p at h1 h2
      simp only [INT16_MAX] at h1 h2
      unfold isInt32
      omega
    have hg := L_mac_exact (show isInt32 a.gain by unfold isInt32; omega) hqi hre
      (by omega) hsum s
    refine ⟨L_max (L_deposit_h a.minGain) (L_min (L_deposit_h a.maxGain)
      (a.gain + 2 * ((INT16_MAX - (a.gain + 32768) / 65536) / 4) * a.release)),
      process_sample_release_of a 0 s hm hsh ho hb hr hd hq hg, ?_, ?_⟩
    · rw [gain_clamp_eq hlo hhi]
      omega
    · rw [gain_clamp_eq hlo hhi]
      omega

theorem process_zero_status (n : Nat) :
    ∀ (a : Agc) (s : Status), isInt16 a.minGain → isInt16 a.maxGain → isInt16 a.attack →
      isInt16 a.release → 0 ≤ a.minGain → 0 ≤ a.gain → a.gain ≤ 2147418112 →
      ∃ b, a.process (List.replicate n 0) s = (List.replicate n 0, b, s) := by
  induction n with
  | zero =>
    intro a s _ _ _ _ _ _ _
    exact ⟨a, rfl⟩
  | succ n ih =>
    intro a s hlo hhi hat hre hm0 hg0 hg1
    obtain ⟨g, h, k0, k1⟩ := process_sample_zero_status a s hlo hhi hat hre hm0 hg0 hg1
    obtain ⟨b, hb⟩ := ih { a with gain := g } s hlo hhi hat hre hm0 k0 k1
    refine ⟨b, ?_⟩
    rw [List.replicate_succ, Agc.process, h]
    dsimp only
    rw [hb]

/-- Conversion `truncToInt` of a value in `[k, k + 1)` with `0 <= k`. -/
theorem truncToInt_of_floor {x : ℚ} {k : Int} (h0 : 0 ≤ x) (h1 : (k : ℚ) ≤ x)
    (h2 : x < (k : ℚ) + 1) : truncToInt x = k := by
  unfold truncToInt
  rw [if_pos h0]
  exact Int.floor_eq_iff.mpr ⟨h1, h2⟩

/-- Conversion `truncToInt` of a negative value in `(k - 1, k]`. -/
theorem truncToInt_of_ceil {x : ℚ} {k : Int} (h0 : x < 0) (h1 : (k : ℚ) - 1 < x)
    (h2 : x ≤ (k : ℚ)) : truncToInt x = k := by
  unfold truncToInt
  rw [if_neg (not_le.mpr h0)]
  exact Int.ceil_eq_iff.mpr ⟨h1, h2⟩

/-- The scale `1 << AGC_GAIN_Qn` of the gain limits. -/
theorem agc_gain_scale : ((2 ^ AGC_GAIN_Qn.toNat : Int) : ℚ) = 1024 := by
  rw [show AGC_GAIN_Qn.toNat = 10 from rfl]
  norm_num

/-- The constructor leaves `gain = 0` and `minGain = 717` (`0.7` in Q10), and every
16-bit member holds a 16-bit value. -/
theorem agc_ctor_fields (tq mq ac rc : ℚ) :
    (Agc.ctor tq mq ac rc).gain = 0 ∧ (Agc.ctor tq mq ac rc).minGain = 717 ∧
    isInt16 (Agc.ctor tq mq ac rc).maxGain ∧ isInt16 (Agc.ctor tq mq ac rc).attack ∧
    isInt16 (Agc.ctor tq mq ac rc).release ∧ isInt16 (Agc.ctor tq mq ac rc).target := by
  have h : truncToInt (((2 ^ AGC_GAIN_Qn.toNat : Int) : ℚ) * (7 / 10) + 1 / 2) = 717 := by
    rw [agc_gain_scale]
    apply truncToInt_of_floor <;> norm_num
  refine ⟨rfl, ?_, isInt16_wrap16 _, isInt16_wrap16 _, isInt16_wrap16 _, isInt16_wrap16 _⟩
  show wrap16 (truncToInt (((2 ^ AGC_GAIN_Qn.toNat : Int) : ℚ) * (7 / 10) + 1 / 2)) = 717
  rw [h]
  decide

/-- With `0 <= minGain`, every buffer leaves the gain in `[0, 32767 * 2 ^ 16]` and
the other members as they were. -/
theorem process_keeps_range (xs : List Int) :
    ∀ (a : Agc) (s : Status), isInt16 a.minGain → isInt16 a.maxGain → 0 ≤ a.minGain →
      0 ≤ a.gain → a.gain ≤ 2147418112 →
      ∃ os g t, a.process xs s = (os, { a with gain := g }, t) ∧ 0 ≤ g ∧ g ≤ 2147418112 := by
  induction xs with
  | nil =>
    intro a s _ _ _ hg0 hg1
    exact ⟨[], a.gain, s, rfl, hg0, hg1⟩
  | cons x xs ih =>
    intro a s hlo hhi hm0 _ _
    obtain ⟨o, g, t, h⟩ := process_sample_clamped a x s
    have hlo' := hlo
    have hhi' := hhi
    unfold isInt16 at hlo' hhi'
    have k0 : 0 ≤ L_max (L_deposit_h a.minGain) (L_min (L_deposit_h a.maxGain) g) := by
      rw [gain_clamp_eq hlo hhi]
      omega
    have k1 : L_max (L_deposit_h a.minGain) (L_min (L_deposit_h a.maxGain) g) ≤ 2147418112 := by
      rw [gain_clamp_eq hlo hhi]
      omega
    obtain ⟨os, g2, u, h2, m0, m1⟩ := ih
      { a with gain := L_max (L_deposit_h a.minGain) (L_min (L_deposit_h a.maxGain) g) } t
      hlo hhi hm0 k0 k1
    refine ⟨o :: os, g2, u, ?_, m0, m1⟩
    rw [Agc.process, h]
    dsimp only
    rw [h2]

/-- An object built by the constructor and fed any buffer `xs` maps a following
all-zero buffer to an all-zero buffer and leaves the status as it was. -/
theorem ctor_process_zero (tq mq ac rc : ℚ) (xs : List Int) (s0 s : Status) (n : Nat) :
    ∃ os b t c, (Agc.ctor tq mq ac rc).process xs s0 = (os, b, t) ∧
      b.process (List.replicate n 0) s = (List.replicate n 0, c, s) := by
  obtain ⟨e0, e1, i1, i2, i3, -⟩ := agc_ctor_fields tq mq ac rc
  have hlo : isInt16 (Agc.ctor tq mq ac rc).minGain := by
    rw [e1]
    decide
  obtain ⟨os, g, t, h, k0, k1⟩ := process_keeps_range xs (Agc.ctor tq mq ac rc) s0 hlo i1
    (by rw [e1]; decide) (by rw [e0]) (by rw [e0]; decide)
  obtain ⟨c, hc⟩ := process_zero_status n { (Agc.ctor tq mq ac rc) with gain := g } s
    hlo i1 i2 i3 (by show 0 ≤ (Agc.ctor tq mq ac rc).minGain; rw [e1]; decide) k0 k1
  exact ⟨os, _, t, c, h, hc⟩

/-- The sample `0` at gain `INT32_MAX`: `round_fx(gain)` saturates and sets
`Overflow`. -/
theorem zero_sample_max_gain :
    (Agc.mk 23170 10240 31959 100 2147483647 717).process_sample 0 Status.init =
      (0, Agc.mk 23170 10240 31959 100 671088640 717, { Overflow := true, Carry := 0 }) := by
  have hm : L_mult 0 (extract_h (Agc.mk 23170 10240 31959 100 2147483647 717).gain)
      Status.init = (0, Status.init) := L_mult_zero_left _ _
  have hsh : L_shl 0 (15 - AGC_GAIN_Qn) Status.init = (0, Status.init) :=
    L_shl_zero (by decide) _
  have ho : round_fx 0 Status.init = (0, Status.init) := round_fx_zero _
  have hb : ¬ (Agc.mk 23170 10240 31959 100 2147483647 717).target < abs_s 0 := by decide
  have hr : round_fx (Agc.mk 23170 10240 31959 100 2147483647 717).gain Status.init =
      (32767, { Overflow := true, Carry := 0 }) := by decide
  have hd : sub INT16_MAX 32767 { Overflow := true, Carry := 0 } =
      (0, { Overflow := true, Carry := 0 }) := by decide
  have hq : shr 0 2 { Overflow := true, Carry := 0 } =
      (0, { Overflow := true, Carry := 0 }) := by decide
  have hg : L_mac (Agc.mk 23170 10240 31959 100 2147483647 717).gain 0
      (Agc.mk 23170 10240 31959 100 2147483647 717).release { Overflow := true, Carry := 0 } =
      (2147483647, { Overflow := true, Carry := 0 }) := by decide
  rw [process_sample_release_of _ 0 _ hm hsh ho hb hr hd hq hg]
  decide

/-- The sample `0` at gain `-9 * 2 ^ 16`: `sub(INT16_MAX, round_fx(gain))`
saturates and sets `Overflow`. -/
theorem zero_sample_negative_gain :
    (Agc.mk 22937 (-9) 16384 128 (-589824) (-1023)).process_sample 0 Status.init =
      (0, Agc.mk 22937 (-9) 16384 128 (-589824) (-1023), { Overflow := true, Carry := 0 }) := by
  have hm : L_mult 0 (extract_h (Agc.mk 22937 (-9) 16384 128 (-589824) (-1023)).gain)
      Status.init = (0, Status.init) := L_mult_zero_left _ _
  have hsh : L_shl 0 (15 - AGC_GAIN_Qn) Status.init = (0, Status.init) :=
    L_shl_zero (by decide) _
  have ho : round_fx 0 Status.init = (0, Status.init) := round_fx_zero _
  have hb : ¬ (Agc.mk 22937 (-9) 16384 128 (-589824) (-1023)).target < abs_s 0 := by decide
  have hr : round_fx (Agc.mk 22937 (-9) 16384 128 (-589824) (-1023)).gain Status.init =
      (-9, Status.init) := by decide
  have hd : sub INT16_MAX (-9) Status.init = (32767, { Overflow := true, Carry := 0 }) := by
    decide
  have hq : shr 32767 2 { Overflow := true, Carry := 0 } =
      (8191, { Overflow := true, Carry := 0 }) := by decide
  have hg : L_mac (Agc.mk 22937 (-9) 16384 128 (-589824) (-1023)).gain 8191
      (Agc.mk 22937 (-9) 16384 128 (-589824) (-1023)).release { Overflow := true, Carry := 0 } =
      (1507072, { Overflow := true, Carry := 0 }) := by decide
  rw [process_sample_release_of _ 0 _ hm hsh ho hb hr hd hq hg]
  decide

/-- The object `Agc(0.7, 20.0, ..)` after `setMaxGain(-0.01)` and `setMinGain(-1)`,
with `ms2CoefA1` values `1/2` and `1023/1024`. -/
theorem agc_negative_limits :
    ((Agc.ctor (7 / 10) 20 (1 / 2) (1023 / 1024)).setMaxGain (-1 / 100)).setMinGain (-1) =
      Agc.mk 22937 (-9) 16384 128 0 (-1023) := by
  have h1 : truncToInt ((INT16_MAX : ℚ) * (7 / 10) + 1 / 2) = 22937 := by
    apply truncToInt_of_floor <;> norm_num [INT16_MAX]
  have h2 : truncToInt (32768 * (1 / 2 : ℚ) + 1 / 2) = 16384 := by
    apply truncToInt_of_floor <;> norm_num
  have h3 : truncToInt (((2 ^ 2 : Int) : ℚ) * 32768 * (1 - 1023 / 1024) + 1 / 2) = 128 := by
    apply truncToInt_of_floor <;> norm_num
  have h4 : truncToInt (((2 ^ AGC_GAIN_Qn.toNat : Int) : ℚ) * (-1 / 100) + 1 / 2) = -9 := by
    rw [agc_gain_scale]
    apply truncToInt_of_ceil <;> norm_num
  have h5 : truncToInt (((2 ^ AGC_GAIN_Qn.toNat : Int) : ℚ) * (-1) + 1 / 2) = -1023 := by
    rw [agc_gain_scale]
    apply truncToInt_of_ceil <;> norm_num
  unfold Agc.ctor Agc.setMinGain Agc.setMaxGain Agc.setReleaseTime Agc.setAttackTime
    Agc.setTargetLevel
  dsimp only
  rw [h1, h2, h3, h4, h5]
  decide

/-- The first sample `0` of the object of `agc_negative_limits`. -/
theorem zero_sample_negative_limits :
    (Agc.mk 22937 (-9) 16384 128 0 (-1023)).process_sample 0 Status.init =
      (0, Agc.mk 22937 (-9) 16384 128 (-589824) (-1023), Status.init) := by
  have hm : L_mult 0 (extract_h (Agc.mk 22937 (-9) 16384 128 0 (-1023)).gain)
      Status.init = (0, Status.init) := L_mult_zero_left _ _
  have hsh : L_shl 0 (15 - AGC_GAIN_Qn) Status.init = (0, Status.init) :=
    L_shl_zero (by decide) _
  have ho : round_fx 0 Status.init = (0, Status.init) := round_fx_zero _
  have hb : ¬ (Agc.mk 22937 (-9) 16384 128 0 (-1023)).target < abs_s 0 := by decide
  have hr : round_fx (Agc.mk 22937 (-9) 16384 128 0 (-1023)).gain Status.init =
      (0, Status.init) := round_fx_zero _
  have hd : sub INT16_MAX 0 Status.init = (32767, Status.init) := by decide
  have hq : shr 32767 2 Status.init = (8191, Status.init) := by decide
  have hg : L_mac (Agc.mk 22937 (-9) 16384 128 0 (-1023)).gain 8191
      (Agc.mk 22937 (-9) 16384 128 0 (-1023)).release Status.init =
      (2096896, Status.init) := by decide
  rw [process_sample_release_of _ 0 _ hm hsh ho hb hr hd hq hg]
  decide

/-- Function `L_sub_c` on 32-bit operands with `Carry` 0 or 1: the returned value
is `L_v1 - L_v2 - (1 - Carry)` wrapped modulo `2 ^ 32`. -/
theorem L_sub_c_value {a b : Int} (ha : isInt32 a) (hb : isInt32 b) (s : Status)
    (hc : s.Carry = 0 ∨ s.Carry = 1) :
    (L_sub_c a b s).1 = wrap32 (a - b - (1 - s.Carry)) := by
  rcases hc with hc | hc
  · unfold L_sub_c
    rw [if_neg (by rw [hc]; decide), hc]
    dsimp only
    split_ifs <;> dsimp only <;> unfold wrap32 <;> omega
  · unfold L_sub_c
    rw [if_pos (by rw [hc]; decide), hc]
    dsimp only
    by_cases hm : b = INT32_MIN
    · rw [if_neg (not_not.mpr hm)]
      split_ifs <;> dsimp only <;> unfold wrap32 <;> omega
    · rw [if_pos hm]
      have hb' := hb
      unfold isInt32 at hb'
      simp only [INT32_MIN] at hm
      have hn : isInt32 (-b) := by
        unfold isInt32
        omega
      rw [wrap32_of_isInt32 hn]
      rw [(L_add_c_value_carry ha hn { s with Carry := 0 } (Or.inl rfl)).1]
      show wrap32 (a + -b + 0) = wrap32 (a - b - (1 - 1))
      have e : a + -b + 0 = a - b - (1 - 1) := by omega
      rw [e]

/-- The mask `Lv & 0x0000ffff` is the low 16-bit word of the pattern. -/
theorem land_low_word (n : Nat) : Nat.land n 0x0000ffff = n % 65536 := by
  show n &&& (2 ^ 16 - 1) = n % 2 ^ 16
  exact Nat.and_pow_two_sub_one_eq_mod n 16

/-- The first three statements of `L_mls`: the low word times `v`, shifted right
by 15. -/
theorem L_mls_low (Lv : Int) {v : Int} (hv : isInt16 v) (s : Status) :
    L_shr (wrap32 (wrap32 (Int.ofNat (Nat.land (toU32 Lv) 0x0000ffff)) * v)) 15 s =
      (Lv % 65536 * v / 32768, s) := by
  have h1 : (Int.ofNat (Nat.land (toU32 Lv) 0x0000ffff)) = Lv % 65536 := by
    rw [land_low_word]
    show ((toU32 Lv % 65536 : Nat) : Int) = Lv % 65536
    push_cast
    rw [toU32_cast]
    omega
  rw [h1]
  have ha0 : 0 ≤ Lv % 65536 := by omega
  have ha1 : Lv % 65536 ≤ 65535 := by omega
  rw [wrap32_of_isInt32 (show isInt32 (Lv % 65536) by unfold isInt32; omega)]
  unfold isInt16 at hv
  have hp : isInt32 (Lv % 65536 * v) := by
    have e1 : Lv % 65536 * v ≤ Lv % 65536 * 32767 := mul_le_mul_of_nonneg_left hv.2 ha0
    have e2 : Lv % 65536 * (-32768) ≤ Lv % 65536 * v := mul_le_mul_of_nonneg_left hv.1 ha0
    unfold isInt32
    omega
  rw [wrap32_of_isInt32 hp, L_shr_nonneg_pair hp (by decide)]
  rfl

/-- Function `L_mls` where `L_mult` does not saturate: the clamped floor of
`v * Lv / 2 ^ 15`. -/
theorem L_mls_value {Lv v : Int} (hL : isInt32 Lv) (hv : isInt16 v)
    (hne : ¬ (v = -32768 ∧ Lv / 65536 = -32768)) (s : Status) :
    L_mls Lv v s = (clamp32 (v * Lv / 32768),
      if isInt32 (v * Lv / 32768) then s else { s with Overflow := true }) := by
  have hL' := hL
  have hv' := hv
  unfold isInt32 at hL'
  unfold isInt16 at hv'
  have hb : isInt16 (Lv / 65536) := by
    unfold isInt16
    omega
  have ha0 : 0 ≤ Lv % 65536 := by omega
  have hr : isInt32 (Lv % 65536 * v / 32768) := by
    have e1 : Lv % 65536 * v ≤ Lv % 65536 * 32767 := mul_le_mul_of_nonneg_left hv'.2 ha0
    have e2 : Lv % 65536 * (-32768) ≤ Lv % 65536 * v := mul_le_mul_of_nonneg_left hv'.1 ha0
    unfold isInt32
    omega
  have hm : isInt32 (2 * v * (Lv / 65536)) := by
    have := L_mult_isInt32 hv hb s
    rw [L_mult_of_ne hv hb hne] at this
    exact this
  have hsum : Lv % 65536 * v / 32768 + 2 * v * (Lv / 65536) = v * Lv / 32768 := by
    have e : v * Lv = Lv % 65536 * v + 2 * v * (Lv / 65536) * 32768 := by
      have := Int.emod_add_ediv Lv 65536
      nlinarith
    rw [e, Int.add_mul_ediv_right _ _ (by decide)]
  unfold L_mls
  dsimp only
  rw [L_mls_low Lv hv, extract_h_eq hL]
  unfold L_mac
  rw [L_mult_of_ne hv hb hne]
  dsimp only
  rw [L_add_pair hr hm, hsum]

/-- The clamped floor of `v * Lv / 2 ^ 15` at `Lv = INT32_MIN`, `v = -32768`. -/
theorem L_mls_min_min (s : Status) :
    L_mls (-2147483648) (-32768) s = (2147483647, { s with Overflow := true }) := by
  have hl := L_mls_low (-2147483648) (v := -32768) (by decide) s
  unfold L_mls
  dsimp only
  rw [hl]
  have e1 : (-2147483648 : Int) % 65536 * -32768 / 32768 = 0 := by decide
  have e2 : extract_h (-2147483648) = -32768 := by decide
  rw [e1, e2]
  unfold L_mac
  rw [L_mult_min]
  dsimp only
  rw [L_add_pair (by decide) (by decide)]
  rfl

/-- The failing case: `Lv = INT32_MIN + 1`, `v = -32768`. -/
theorem L_mls_example (s : Status) :
    L_mls (-2147483647) (-32768) s = (2147483646, { s with Overflow := true }) := by
  have hl := L_mls_low (-2147483647) (v := -32768) (by decide) s
  unfold L_mls
  dsimp only
  rw [hl]
  have e1 : (-2147483647 : Int) % 65536 * -32768 / 32768 = -1 := by decide
  have e2 : extract_h (-2147483647) = -32768 := by decide
  rw [e1, e2]
  unfold L_mac
  rw [L_mult_min]
  dsimp only
  rw [L_add_pair (by decide) (by decide)]
  rfl

/-- The floor of `n / 2 ^ 15` over the rationals is the integer quotient. -/
theorem floor_div_two_pow_15 (n : Int) : ⌊(n : ℚ) / 2 ^ 15⌋ = n / 32768 := by
  have h := Rat.floor_intCast_div_natCast n 32768
  have e : ((32768 : Nat) : ℚ) = 2 ^ 15 := by norm_num
  rw [e] at h
  rw [h]
  rfl

/-- Function `L_add_c` on 32-bit operands with `Carry = 0`: the wrapped sum,
`Overflow` set exactly when the sum is out of range, `Carry` 0 above the range
and 1 below it. -/
theorem L_add_c_no_carry {a b : Int} (ha : isInt32 a) (hb : isInt32 b) (s : Status)
    (hc : s.Carry = 0) :
    ∃ o c, L_add_c a b s = (wrap32 (a + b), { Overflow := o, Carry := c }) ∧
      (o = true ↔ ¬ isInt32 (a + b)) ∧ (2147483647 < a + b → c = 0) ∧
      (a + b < -2147483648 → c = 1) := by
  have hx := xor32_neg_iff ha hb
  unfold isInt32 at ha hb
  unfold L_add_c
  rw [hc]
  simp only [INT32_MAX, ne_eq, ge_iff_le, gt_iff_lt, hx, not_true_eq_false, if_false,
    add_zero]
  have hw : wrap32 (wrap32 (a + b)) = wrap32 (a + b) := by
    unfold wrap32
    omega
  rw [hw]
  unfold isInt32
  by_cases h1 : 2147483647 < a + b
  · have c1 : 0 < a ∧ 0 < b ∧ wrap32 (a + b) < 0 := by
      unfold wrap32
      omega
    rw [if_pos c1]
    exact ⟨true, 0, rfl, by simp; omega, fun _ => rfl, fun h => by omega⟩
  · have c1 : ¬ (0 < a ∧ 0 < b ∧ wrap32 (a + b) < 0) := by
      unfold wrap32
      omega
    rw [if_neg c1]
    by_cases h2 : a + b < -2147483648
    · have c2 : a < 0 ∧ b < 0 := by omega
      have c3 : 0 ≤ wrap32 (a + b) := by
        unfold wrap32
        omega
      rw [if_pos c2, if_pos c3]
      exact ⟨true, 1, rfl, by simp; omega, fun h => by omega, fun _ => rfl⟩
    · by_cases c2 : a < 0 ∧ b < 0
      · have c3 : ¬ 0 ≤ wrap32 (a + b) := by
          unfold wrap32
          omega
        rw [if_pos c2, if_neg c3]
        exact ⟨false, 1, rfl, by simp; omega, fun h => by omega, fun h => by omega⟩
      · rw [if_neg c2]
        split_ifs
        · exact ⟨false, 1, rfl, by simp; omega, fun h => by omega, fun h => by omega⟩
        · exact ⟨false, 0, rfl, by simp; omega, fun h => by omega, fun h => by omega⟩

/-- The carry adder followed by `L_sat`, as a pair. -/
theorem L_sat_L_add_c_pair {a b : Int} (ha : isInt32 a) (hb : isInt32 b) (s : Status)
    (hc : s.Carry = 0) :
    ∃ c, L_sat (L_add_c a b s).1 (L_add_c a b s).2 =
        (clamp32 (a + b), { Overflow := false, Carry := c }) ∧
      (¬ isInt32 (a + b) → c = 0) := by
  obtain ⟨o, c, h, ho, h1, h2⟩ := L_add_c_no_carry ha hb s hc
  rw [h]
  unfold isInt32 at ha hb ho
  cases o with
  | true =>
    have hr := ho.mp rfl
    by_cases hp : 2147483647 < a + b
    · rw [h1 hp]
      refine ⟨0, ?_, fun _ => rfl⟩
      show L_sat (wrap32 (a + b)) { Overflow := true, Carry := 0 } = _
      unfold L_sat
      rw [if_pos rfl, if_neg (by decide)]
      congr 1
      unfold clamp32
      simp only [INT32_MAX, INT32_MIN]
      omega
    · rw [h2 (by omega)]
      refine ⟨0, ?_, fun _ => rfl⟩
      show L_sat (wrap32 (a + b)) { Overflow := true, Carry := 1 } = _
      unfold L_sat
      rw [if_pos rfl, if_pos (by decide)]
      congr 1
      unfold clamp32
      simp only [INT32_MAX, INT32_MIN]
      omega
  | false =>
    have hr : -2147483648 ≤ a + b ∧ a + b ≤ 2147483647 := by
      by_contra hn
      exact Bool.false_ne_true (ho.mpr hn)
    refine ⟨c, ?_, fun hn => absurd hr hn⟩
    show L_sat (wrap32 (a + b)) { Overflow := false, Carry := c } = _
    unfold L_sat
    rw [if_neg (show ¬ (false = true) by decide)]
    congr 1
    unfold clamp32 wrap32
    omega

/-- The quantised `maxGain` of an object built by the constructor. -/
theorem agc_ctor_maxGain (tq mq ac rc : ℚ) :
    (Agc.ctor tq mq ac rc).maxGain = wrap16 (truncToInt (1024 * mq + 1 / 2)) := by
  show wrap16 (truncToInt (((2 ^ AGC_GAIN_Qn.toNat : Int) : ℚ) * mq + 1 / 2)) = _
  rw [agc_gain_scale]

/-- The first sample of an object built by the constructor: the output is `0`
and the gain becomes the clamp of some value. -/
theorem ctor_first_sample (tq mq ac rc : ℚ) (x : Int) (s : Status) :
    ∃ g t, (Agc.ctor tq mq ac rc).process_sample x s =
        (0, { (Agc.ctor tq mq ac rc) with gain := g }, t) ∧ 717 * 2 ^ 16 ≤ g ∧
      (717 ≤ (Agc.ctor tq mq ac rc).maxGain → g ≤ (Agc.ctor tq mq ac rc).maxGain * 2 ^ 16) ∧
      ((Agc.ctor tq mq ac rc).maxGain < 717 → g = 717 * 2 ^ 16) := by
  obtain ⟨-, e1, i1, -, -, -⟩ := agc_ctor_fields tq mq ac rc
  have hlo : isInt16 (Agc.ctor tq mq ac rc).minGain := by
    rw [e1]
    decide
  obtain ⟨o, g, t, h⟩ := process_sample_clamped (Agc.ctor tq mq ac rc) x s
  have ho : o = 0 := by
    have hm : L_mult x (extract_h (Agc.ctor tq mq ac rc).gain) s = (0, s) :=
      L_mult_zero_right x s
    have := process_sample_out_of (Agc.ctor tq mq ac rc) x s hm (L_shl_zero (by decide) s)
      (round_fx_zero s)
    rw [h] at this
    exact this
  rw [ho] at h
  have hi := i1
  unfold isInt16 at hi
  refine ⟨L_max (L_deposit_h (Agc.ctor tq mq ac rc).minGain)
    (L_min (L_deposit_h (Agc.ctor tq mq ac rc).maxGain) g), t, h, ?_, ?_, ?_⟩
  · rw [gain_clamp_eq hlo i1, e1]
    omega
  · intro hle
    rw [gain_clamp_eq hlo i1, e1]
    omega
  · intro hlt
    rw [gain_clamp_eq hlo i1, e1]
    omega

/-- The first sample and the rest of a buffer, for an object built by the
constructor with `717 <= maxGain`. -/
theorem ctor_process_bounds (tq mq ac rc : ℚ) (x : Int) (xs : List Int) (s : Status)
    (hle : 717 ≤ (Agc.ctor tq mq ac rc).maxGain) :
    ∃ os b t, (Agc.ctor tq mq ac rc).process (x :: xs) s = (0 :: os, b, t) ∧
      b.minGain = 717 ∧ b.maxGain = (Agc.ctor tq mq ac rc).maxGain ∧
      b.minGain * 2 ^ 16 ≤ b.gain ∧ b.gain ≤ b.maxGain * 2 ^ 16 := by
  obtain ⟨-, e1, i1, -, -, -⟩ := agc_ctor_fields tq mq ac rc
  obtain ⟨g, t, h, k0, k1, -⟩ := ctor_first_sample tq mq ac rc x s
  cases xs with
  | nil =>
    refine ⟨[], { (Agc.ctor tq mq ac rc) with gain := g }, t, ?_, e1, rfl, ?_, k1 hle⟩
    · rw [Agc.process, h]
      rfl
    · show (Agc.ctor tq mq ac rc).minGain * 2 ^ 16 ≤ g
      rw [e1]
      exact k0
  | cons y ys =>
    obtain ⟨os, b, u, h2, f1, f2, m0, m1⟩ := process_bounds ys
      { (Agc.ctor tq mq ac rc) with gain := g } y t (by rw [e1]; decide) i1
      (by show (Agc.ctor tq mq ac rc).minGain ≤ _; rw [e1]; exact hle)
    refine ⟨os, b, u, ?_, f2.trans e1, f1, ?_, ?_⟩
    · rw [Agc.process, h]
      dsimp only
      rw [h2]
    · rw [f2]
      exact m0
    · rw [f1]
      exact m1

/-- The quantised `maxGain` for the factor `20.0` is `20480`. -/
theorem agc_ctor_maxGain_20 (tq ac rc : ℚ) : (Agc.ctor tq 20 ac rc).maxGain = 20480 := by
  have h : truncToInt (1024 * (20 : ℚ) + 1 / 2) = 20480 := by
    apply truncToInt_of_floor <;> norm_num
  rw [agc_ctor_maxGain, h]
  decide

/-- The quantised `maxGain` for the factor `0.5` is `512`. -/
theorem agc_ctor_maxGain_half (tq ac rc : ℚ) : (Agc.ctor tq (1 / 2) ac rc).maxGain = 512 := by
  have h : truncToInt (1024 * (1 / 2 : ℚ) + 1 / 2) = 512 := by
    apply truncToInt_of_floor <;> norm_num
  rw [agc_ctor_maxGain, h]
  decide

/-- A block of two samples `-2` with `coef = -32768` and `att = 16384`: the
accumulators after `Goertzel::compute`. -/
theorem compute_negative_example :
    (Goertzel.mk 2 0 0 (-32768) 16384).compute (fun _ => -2) Status.init =
      (Goertzel.mk 2 65536 (-65536) (-32768) 16384, Status.init) := by
  have s1 : (Goertzel.mk 2 0 0 (-32768) 16384).compute_step (-2) Status.init =
      (Goertzel.mk 2 (-65536) 0 (-32768) 16384, Status.init) := by decide
  have s2 : (Goertzel.mk 2 (-65536) 0 (-32768) 16384).compute_step (-2) Status.init =
      (Goertzel.mk 2 65536 (-65536) (-32768) 16384, Status.init) := by decide
  show Goertzel.compute_loop (fun _ => -2) 2 (Goertzel.mk 2 0 0 (-32768) 16384) Status.init = _
  rw [Goertzel.compute_loop, Goertzel.compute_loop, Goertzel.compute_loop]
  dsimp only
  rw [s1]
  dsimp only
  rw [s2]

/-- The squared magnitude of the block of `compute_negative_example`. -/
theorem getSquaredMagnitude_negative_example :
    (Goertzel.mk 2 0 0 (-32768) 16384).getSquaredMagnitude (fun _ => -2) Status.init =
      (-131068, Goertzel.mk 2 65536 (-65536) (-32768) 16384, Status.init) := by
  have h0 : round_fx (Goertzel.mk 2 65536 (-65536) (-32768) 16384).y0 Status.init =
      (1, Status.init) := by decide
  have h1 : round_fx (Goertzel.mk 2 65536 (-65536) (-32768) 16384).y1 Status.init =
      (-1, Status.init) := by decide
  have hm : L_mult (wrap16 (mult 1 (-1))) (Goertzel.mk 2 65536 (-65536) (-32768) 16384).coef
      Status.init = (65536, Status.init) := by decide
  have hsh : L_shl 65536 (15 - 14) Status.init = (131072, Status.init) := by decide
  have ha1 : L_mac (L_negate 131072) (-1) (-1) Status.init = (-131070, Status.init) := by
    decide
  have ha0 : L_mac (-131070) 1 1 Status.init = (-131068, Status.init) := by decide
  exact getSquaredMagnitude_of _ _ _ compute_negative_example h0 h1 hm hsh ha1 ha0

/-- The clamp `L_max(., 1)` of `Goertzel::getMagnitude` gives at least `1`. -/
theorem getMagnitude_magSq_ge_one (g : Goertzel) (input : Nat → Int) (s : Status) :
    1 ≤ (g.getMagnitude_magSq input s).1 := by
  show 1 ≤ L_max (g.getSquaredMagnitude input s).1 1
  generalize (g.getSquaredMagnitude input s).1 = v
  unfold L_max
  split_ifs <;> omega

/-- The clamped value for the block of `compute_negative_example` is `1`. -/
theorem getMagnitude_magSq_example :
    (Goertzel.mk 2 0 0 (-32768) 16384).getMagnitude_magSq (fun _ => -2) Status.init =
      (1, Goertzel.mk 2 65536 (-65536) (-32768) 16384, Status.init) := by
  unfold Goertzel.getMagnitude_magSq
  rw [getSquaredMagnitude_negative_example]
  rfl

/-- The argument of the square root is the clamped value over `2 ^ 31`. -/
theorem getMagnitude_sqrt_arg_eq (g : Goertzel) (input : Nat → Int) (s : Status) :
    g.getMagnitude_sqrt_arg input s = ((g.getMagnitude_magSq input s).1 : ℚ) / 2 ^ 31 := by
  unfold Goertzel.getMagnitude_sqrt_arg
  norm_num

theorem floatRounding_zero {fl : ℚ → ℚ} (h : FloatRounding fl) : fl 0 = 0 := by
  have := h.2.1 0 (by norm_num)
  simpa using this

/-- Source `bilinear` in `float` arithmetic on the first-order low-pass prototype
`wp / (wp + s)`: with `p = fl (wp * T)`, `d0 = fl (p + 2)` and `d1 = fl (p - 2)`
the results are `numd = {fl (p / d0), fl (p / d0)}` and `dend[1] = fl (d1 / d0)`. -/
theorem bilinear_f32_lpf1 {fl : ℚ → ℚ} (h : FloatRounding fl) (wp T : ℚ) :
    (bilinear_f32 fl (arr []) (arr []) (arr [wp, 0]) (arr [wp, 1]) 2 T).1 0 =
      fl (fl (wp * T) / fl (fl (wp * T) + 2)) ∧
    (bilinear_f32 fl (arr []) (arr []) (arr [wp, 0]) (arr [wp, 1]) 2 T).1 1 =
      fl (fl (wp * T) / fl (fl (wp * T) + 2)) ∧
    (bilinear_f32 fl (arr []) (arr []) (arr [wp, 0]) (arr [wp, 1]) 2 T).2 1 =
      fl (fl (fl (wp * T) - 2) / fl (fl (wp * T) + 2)) := by
  have h0 := floatRounding_zero h
  have hid := h.1
  have h2 : fl 2 = 2 := by
    have := h.2.1 2 (by norm_num)
    simpa using this
  have hm2 : fl (-2) = -2 := by
    have := h.2.1 (-2) (by norm_num)
    simpa using this
  have ht : bilinear_trim (arr [wp, 0]) (arr [wp, 1]) (2 - 1) (arr []) (arr []) =
      (1, arr [], arr []) := by
    show bilinear_trim (arr [wp, 0]) (arr [wp, 1]) (0 + 1) (arr []) (arr []) = _
    unfold bilinear_trim
    rw [if_neg]
    intro hc
    have : (0 : ℚ) = arr [wp, 1] 1 := hc.2
    norm_num [arr] at this
  unfold bilinear_f32
  rw [ht]
  simp only [a2c_f32, a2c_buf_f32, a2c_rep_f32, a2c_mul_f32, normalize_f32, List.range_succ,
    List.range_zero, List.nil_append, List.cons_append, List.foldl_cons, List.foldl_nil,
    Function.update_apply, arr]
  norm_num [h0, hid, h2, hm2, mul_comm T wp, sub_eq_add_neg]

/-- The rounding error in two-sided form, for `|x| <= B`. -/
theorem floatRounding_err {fl : ℚ → ℚ} (h : FloatRounding fl) {x B : ℚ} (hx : |x| ≤ B)
    (hB : B ≤ 2 ^ 100) :
    x - (B / 2 ^ 24 + 1 / 2 ^ 40) ≤ fl x ∧ fl x ≤ x + (B / 2 ^ 24 + 1 / 2 ^ 40) := by
  have h1 := h.2.2 x (le_trans hx hB)
  have h2 : |x| / 2 ^ 24 ≤ B / 2 ^ 24 := div_le_div_of_nonneg_right hx (by positivity)
  have h3 := abs_le.mp (le_trans h1 (add_le_add_right h2 _))
  constructor <;> linarith [h3.1, h3.2]

/-- The two `float` operations of `F2Q15` on an argument with `|x| <= 2`: the
rounded `1 + x * 65536` is within `1 / 50` of the exact value. -/
theorem F2Q15_f32_noise {fl : ℚ → ℚ} (h : FloatRounding fl) {x : ℚ} (hx : |x| ≤ 2) :
    1 + 65536 * x - 1 / 50 ≤ fl (1 + fl (x * ((2 * 2 ^ 15 : Int) : ℚ))) ∧
    fl (1 + fl (x * ((2 * 2 ^ 15 : Int) : ℚ))) ≤ 1 + 65536 * x + 1 / 50 := by
  have hc : (((2 * 2 ^ 15 : Int)) : ℚ) = 65536 := by norm_num
  rw [hc]
  obtain ⟨x1, x2⟩ := abs_le.mp hx
  have ht : |x * 65536| ≤ 131072 := by
    rw [abs_le]
    constructor <;> linarith
  obtain ⟨t1, t2⟩ := floatRounding_err h ht (by norm_num)
  have hz : |1 + fl (x * 65536)| ≤ 131074 := by
    rw [abs_le]
    constructor <;> norm_num at t1 t2 ⊢ <;> linarith
  obtain ⟨z1, z2⟩ := floatRounding_err h hz (by norm_num)
  constructor <;> norm_num at t1 t2 z1 z2 ⊢ <;> linarith

/-- The `float` values of the first-order low-pass design for `p = fl (wp * T)` in
`[3/10, 65536]`: ranges of `q = fl (p / d0)` and `r = fl (d1 / d0)`, with
`d0 = fl (p + 2)` and `d1 = fl (p - 2)`, and the distance of `2 * q` from `1 + r`. -/
theorem lpf1_f32_errors {fl : ℚ → ℚ} (h : FloatRounding fl) {p : ℚ} (hlo : 3 / 10 ≤ p)
    (hhi : p ≤ 65536) :
    (0 ≤ fl (p / fl (p + 2)) ∧ fl (p / fl (p + 2)) ≤ 1 - 1 / 40000) ∧
    (-(741 / 1000) ≤ fl (fl (p - 2) / fl (p + 2)) ∧
      fl (fl (p - 2) / fl (p + 2)) ≤ 1 + 1 / 100000) ∧
    (-(1 / 2 ^ 20) ≤ 2 * fl (p / fl (p + 2)) - 1 - fl (fl (p - 2) / fl (p + 2)) ∧
      2 * fl (p / fl (p + 2)) - 1 - fl (fl (p - 2) / fl (p + 2)) ≤ 1 / 2 ^ 20) := by
  have hs : |p + 2| ≤ p + 2 := by
    rw [abs_of_nonneg (by linarith)]
  have hm : |p - 2| ≤ p + 2 := by
    rw [abs_le]
    constructor <;> linarith
  obtain ⟨a1, a2⟩ := floatRounding_err h hs (by norm_num; linarith)
  obtain ⟨b1, b2⟩ := floatRounding_err h hm (by norm_num; linarith)
  generalize fl (p + 2) = d0 at a1 a2 ⊢
  generalize fl (p - 2) = d1 at b1 b2 ⊢
  norm_num at a1 a2 b1 b2
  have hd0 : 0 < d0 := by linarith
  have hq : p / d0 * d0 = p := div_mul_cancel₀ p (ne_of_gt hd0)
  have hr : d1 / d0 * d0 = d1 := div_mul_cancel₀ d1 (ne_of_gt hd0)
  have q0 : 1 / 10 ≤ p / d0 := by
    rw [le_div_iff₀ hd0]
    linarith
  have q1 : p / d0 ≤ 1 - 1 / 35000 := by
    rw [div_le_iff₀ hd0]
    linarith
  have r0 : -(7405 / 10000) ≤ d1 / d0 := by
    rw [le_div_iff₀ hd0]
    linarith
  have r1 : d1 / d0 ≤ 1 := by
    rw [div_le_iff₀ hd0]
    linarith
  have k0 : -(1 / 2 ^ 22) ≤ 2 * (p / d0) - 1 - d1 / d0 := by
    have e : 2 * (p / d0) - 1 - d1 / d0 = (2 * p - d0 - d1) / d0 := by
      field_simp
    rw [e, le_div_iff₀ hd0]
    norm_num
    linarith
  have k1 : 2 * (p / d0) - 1 - d1 / d0 ≤ 1 / 2 ^ 22 := by
    have e : 2 * (p / d0) - 1 - d1 / d0 = (2 * p - d0 - d1) / d0 := by
      field_simp
    rw [e, div_le_iff₀ hd0]
    norm_num
    linarith
  have hqa : |p / d0| ≤ 1 := by
    rw [abs_le]
    constructor <;> linarith
  have hra : |d1 / d0| ≤ 1 := by
    rw [abs_le]
    constructor <;> linarith
  obtain ⟨c1, c2⟩ := floatRounding_err h hqa (by norm_num)
  obtain ⟨e1, e2⟩ := floatRounding_err h hra (by norm_num)
  generalize fl (p / d0) = qf at c1 c2 ⊢
  generalize fl (d1 / d0) = rf at e1 e2 ⊢
  generalize p / d0 = xq at q0 q1 k0 k1 c1 c2
  generalize d1 / d0 = xr at r0 r1 k0 k1 e1 e2
  norm_num at c1 c2 e1 e2 k0 k1 ⊢
  refine ⟨⟨?_, ?_⟩, ⟨?_, ?_⟩, ?_, ?_⟩ <;> linarith

/-- Function `IIRFilter1.setFreq_f32` for `FILTER_TYPE_LPF`: the coefficients are
the conversions of `q = fl (p / d0)` (twice) and of `-fl (d1 / d0)`, with
`p = fl (wp * T)`, `d0 = fl (p + 2)` and `d1 = fl (p - 2)`. -/
theorem setFreq1_f32_lpf {fl : ℚ → ℚ} (h : FloatRounding fl) (f : IIR1DirectFormI)
    (wp T : ℚ) :
    IIRFilter1.setFreq_f32 fl f wp T FILTER_TYPE_LPF =
      Except.ok { f with
        b0 := wrap16 (F2Qn_f32 fl (fl (fl (wp * T) / fl (fl (wp * T) + 2))) 15),
        b1 := wrap16 (F2Qn_f32 fl (fl (fl (wp * T) / fl (fl (wp * T) + 2))) 15),
        a1 := wrap16 (F2Qn_f32 fl
          (-fl (fl (fl (wp * T) - 2) / fl (fl (wp * T) + 2))) 15) } := by
  obtain ⟨e0, e1, e2⟩ := bilinear_f32_lpf1 h wp T
  have hn : IIRFilter1.numa wp FILTER_TYPE_LPF = some (arr [wp, 0]) := by
    unfold IIRFilter1.numa
    rw [if_pos rfl]
  unfold IIRFilter1.setFreq_f32
  rw [hn]
  simp only [e0, e1, e2]

/-- Quantisation of the `float` low-pass coefficients: for `q <= 1 - 1 / 40000`
and `-0.741 <= r` with `2 * q` within `2 ^ (-20)` of `1 + r`, the integers
`b = F2Q15(q)` and `a = F2Q15(-r)` are 16-bit values, `2 * b - (32768 - a)` is in
`[-1, 2]`, it is at most `1` when `a` is positive, and `32768 - a >= 8192`. -/
theorem lpf1_f32_quantised {fl : ℚ → ℚ} (h : FloatRounding fl) {q r : ℚ}
    (hq1 : q ≤ 1 - 1 / 40000) (hr0 : -(741 / 1000) ≤ r)
    (hd0 : -(1 / 2 ^ 20) ≤ 2 * q - 1 - r)
    (hd1 : 2 * q - 1 - r ≤ 1 / 2 ^ 20) :
    isInt16 (F2Qn_f32 fl q 15) ∧ isInt16 (F2Qn_f32 fl (-r) 15) ∧
    -1 ≤ 2 * F2Qn_f32 fl q 15 - (32768 - F2Qn_f32 fl (-r) 15) ∧
    2 * F2Qn_f32 fl q 15 - (32768 - F2Qn_f32 fl (-r) 15) ≤ 2 ∧
    (1 ≤ F2Qn_f32 fl (-r) 15 →
      2 * F2Qn_f32 fl q 15 - (32768 - F2Qn_f32 fl (-r) 15) ≤ 1) ∧
    8192 ≤ 32768 - F2Qn_f32 fl (-r) 15 := by
  have hqa : |q| ≤ 2 := by
    rw [abs_le]
    constructor <;> linarith
  have hra : |-r| ≤ 2 := by
    rw [abs_le]
    constructor <;> linarith
  obtain ⟨b1, b2⟩ := F2Q15_f32_noise h hqa
  obtain ⟨a1, a2⟩ := F2Q15_f32_noise h hra
  unfold F2Qn_f32
  rw [shiftRight_one, shiftRight_one]
  generalize fl (1 + fl (q * ((2 * 2 ^ 15 : Int) : ℚ))) = zb at b1 b2 ⊢
  generalize fl (1 + fl (-r * ((2 * 2 ^ 15 : Int) : ℚ))) = za at a1 a2 ⊢
  obtain ⟨p1, p2, p3⟩ := truncToInt_bounds zb
  obtain ⟨t1, t2, t3⟩ := truncToInt_bounds za
  have p3 := p3 (by linarith)
  generalize truncToInt zb = P at p1 p2 p3 ⊢
  generalize truncToInt za = Tt at t1 t2 t3 ⊢
  norm_num at hd0 hd1
  have hP0 : (0 : Int) ≤ P := by
    have : (-1 : ℚ) < (P : ℚ) := by linarith
    have : (-1 : Int) < P := by exact_mod_cast this
    omega
  have hP1 : P ≤ 65535 := by
    have : (P : ℚ) < 65536 := by linarith
    have : P < (65536 : Int) := by exact_mod_cast this
    omega
  have hT0 : -65537 < Tt := by
    have : (-65537 : ℚ) < (Tt : ℚ) := by linarith
    exact_mod_cast this
  have hT1 : Tt < 48566 := by
    have : (Tt : ℚ) < 48566 := by linarith
    exact_mod_cast this
  have k1 : 65535 < 2 * P + Tt := by
    have : (65535 : ℚ) < ((2 * P + Tt : Int) : ℚ) := by
      push_cast
      linarith
    exact_mod_cast this
  have k2 : 2 * P + Tt < 65541 := by
    have : ((2 * P + Tt : Int) : ℚ) < 65541 := by
      push_cast
      linarith
    exact_mod_cast this
  have k3 : 2 ≤ Tt → 2 * P + Tt < 65540 := by
    intro ht
    have hz : (0 : ℚ) ≤ za := by
      have : (2 : ℚ) ≤ (Tt : ℚ) := by exact_mod_cast ht
      linarith
    have t3 := t3 hz
    have : ((2 * P + Tt : Int) : ℚ) < 65540 := by
      push_cast
      linarith
    exact_mod_cast this
  unfold isInt16
  refine ⟨⟨?_, ?_⟩, ⟨?_, ?_⟩, ?_, ?_, ?_, ?_⟩
  · omega
  · omega
  · omega
  · omega
  · omega
  · omega
  · intro ha
    have := k3 (by omega)
    omega
  · omega

/-- Exact arithmetic is one admissible rounding. -/
theorem floatRounding_id : FloatRounding id := by
  unfold FloatRounding
  refine ⟨?_, ?_, ?_⟩
  · intro x
    rfl
  · intro n _
    rfl
  · intro x _
    rw [id, sub_self, abs_zero]
    exact add_nonneg (div_nonneg (abs_nonneg x) (by norm_num)) (by norm_num)

/-- Source `IIRFilter1::setFreq` in `float` arithmetic for the low-pass type,
with the `float` product `fl (wp * T)` in `[3/10, 65536]`. -/
theorem setFreq1_f32_lpf_gain {fl : ℚ → ℚ} (h : FloatRounding fl) (f : IIR1DirectFormI)
    (wp T : ℚ) (hlo : 3 / 10 ≤ fl (wp * T)) (hhi : fl (wp * T) ≤ 65536) :
    ∃ g, IIRFilter1.setFreq_f32 fl f wp T FILTER_TYPE_LPF = Except.ok g ∧ g.b0 = g.b1 ∧
      -1 ≤ (g.b0 + g.b1) - (32768 - g.a1) ∧ (g.b0 + g.b1) - (32768 - g.a1) ≤ 2 ∧
      8192 ≤ 32768 - g.a1 ∧
      8192 * |(g.b0 + g.b1) - (32768 - g.a1)| ≤ 32768 - g.a1 ∧
      |((g.b0 : ℚ) + (g.b1 : ℚ)) / (32768 - (g.a1 : ℚ)) - 1| ≤ 1 / 2 ^ 13 := by
  obtain ⟨⟨-, q1⟩, ⟨r0, -⟩, d0, d1⟩ := lpf1_f32_errors h hlo hhi
  obtain ⟨ib, ia, k0, k1, k2, k3⟩ := lpf1_f32_quantised h q1 r0 d0 d1
  refine ⟨_, setFreq1_f32_lpf h f wp T, rfl, ?_⟩
  simp only [wrap16_of_isInt16 ib, wrap16_of_isInt16 ia]
  generalize F2Qn_f32 fl (fl (fl (wp * T) / fl (fl (wp * T) + 2))) 15 = b at ib k0 k1 k2 k3
  generalize F2Qn_f32 fl (-fl (fl (fl (wp * T) - 2) / fl (fl (wp * T) + 2))) 15 = a
    at ia k0 k1 k2 k3
  have hD : 8192 * |b + b - (32768 - a)| ≤ 32768 - a := by
    rcases abs_cases (b + b - (32768 - a)) with ⟨e, -⟩ | ⟨e, -⟩
    · rw [e]
      by_cases ha : 1 ≤ a
      · have := k2 ha
        omega
      · omega
    · rw [e]
      omega
  refine ⟨by omega, by omega, k3, hD, ?_⟩
  have hd : (0 : ℚ) < 32768 - (a : ℚ) := by
    have : (8192 : ℚ) ≤ ((32768 - a : Int) : ℚ) := by exact_mod_cast k3
    push_cast at this
    linarith
  have hDq : 8192 * |(b : ℚ) + (b : ℚ) - (32768 - (a : ℚ))| ≤ 32768 - (a : ℚ) := by
    have : ((8192 * |b + b - (32768 - a)| : Int) : ℚ) ≤ ((32768 - a : Int) : ℚ) := by
      exact_mod_cast hD
    push_cast at this
    exact this
  have e : ((b : ℚ) + (b : ℚ)) / (32768 - (a : ℚ)) - 1 =
      ((b : ℚ) + (b : ℚ) - (32768 - (a : ℚ))) / (32768 - (a : ℚ)) := by
    field_simp
  rw [e, abs_div, abs_of_pos hd, div_le_iff₀ hd]
  norm_num
  linarith

/-- The `float` low-pass coefficients for a product `p = fl (wp * T)` near
`0.0023562`: `b0 = b1 = 39` and `a1 = 32691` for every admissible rounding. -/
theorem lpf1_f32_low {fl : ℚ → ℚ} (h : FloatRounding fl) {p : ℚ}
    (hlo : 2356 / 1000000 ≤ p) (hhi : p ≤ 23563 / 10000000) :
    F2Qn_f32 fl (fl (p / fl (p + 2))) 15 = 39 ∧
    F2Qn_f32 fl (-fl (fl (p - 2) / fl (p + 2))) 15 = 32691 := by
  have hs : |p + 2| ≤ 3 := by
    rw [abs_le]
    constructor <;> linarith
  have hm : |p - 2| ≤ 2 := by
    rw [abs_le]
    constructor <;> linarith
  obtain ⟨a1, a2⟩ := floatRounding_err h hs (by norm_num)
  obtain ⟨b1, b2⟩ := floatRounding_err h hm (by norm_num)
  generalize fl (p + 2) = d0 at a1 a2 ⊢
  generalize fl (p - 2) = d1 at b1 b2 ⊢
  norm_num at a1 a2 b1 b2
  have hd0 : 0 < d0 := by linarith
  have q0 : 11760 / 10000000 ≤ p / d0 := by
    rw [le_div_iff₀ hd0]
    linarith
  have q1 : p / d0 ≤ 11775 / 10000000 := by
    rw [div_le_iff₀ hd0]
    linarith
  have r0 : -(997649 / 1000000) ≤ d1 / d0 := by
    rw [le_div_iff₀ hd0]
    linarith
  have r1 : d1 / d0 ≤ -(99764 / 100000) := by
    rw [div_le_iff₀ hd0]
    linarith
  have hqa : |p / d0| ≤ 1 := by
    rw [abs_le]
    constructor <;> linarith
  have hra : |d1 / d0| ≤ 1 := by
    rw [abs_le]
    constructor <;> linarith
  obtain ⟨c1, c2⟩ := floatRounding_err h hqa (by norm_num)
  obtain ⟨e1, e2⟩ := floatRounding_err h hra (by norm_num)
  generalize fl (p / d0) = qf at c1 c2 ⊢
  generalize fl (d1 / d0) = rf at e1 e2 ⊢
  generalize p / d0 = xq at q0 q1 c1 c2
  generalize d1 / d0 = xr at r0 r1 e1 e2
  norm_num at c1 c2 e1 e2
  have hq2 : |qf| ≤ 2 := by
    rw [abs_le]
    constructor <;> linarith
  have hr2 : |-rf| ≤ 2 := by
    rw [abs_le]
    constructor <;> linarith
  obtain ⟨zb1, zb2⟩ := F2Q15_f32_noise h hq2
  obtain ⟨za1, za2⟩ := F2Q15_f32_noise h hr2
  unfold F2Qn_f32
  rw [shiftRight_one, shiftRight_one]
  generalize fl (1 + fl (qf * ((2 * 2 ^ 15 : Int) : ℚ))) = zb at zb1 zb2 ⊢
  generalize fl (1 + fl (-rf * ((2 * 2 ^ 15 : Int) : ℚ))) = za at za1 za2 ⊢
  have tb : truncToInt zb = 78 := by
    apply truncToInt_of_floor <;> norm_num <;> linarith
  have ta : truncToInt za = 65382 := by
    apply truncToInt_of_floor <;> norm_num <;> linarith
  rw [tb, ta]
  exact ⟨by decide, by decide⟩

/-- One sample through the first-order `filter`: one call of `convol`, which
stores the sample in `ff0` and the accumulator in `fb0`, then the rest of the
buffer on the advanced object. -/
theorem filter1_cons (f : IIR1DirectFormI) (x : Int) (xs : List Int) (s : Status) :
    ∃ acc t o u, f.convol x s = (acc, { f with ff0 := x, fb0 := acc }, t) ∧
      round_fx acc t = (o, u) ∧
      f.filter_q15 (x :: xs) s =
        (o :: (IIR1DirectFormI.filter_q15 { f with ff0 := x, fb0 := acc } xs u).1,
          (IIR1DirectFormI.filter_q15 { f with ff0 := x, fb0 := acc } xs u).2) ∧
      f.filter_q31 (x :: xs) s =
        (acc :: (IIR1DirectFormI.filter_q31 { f with ff0 := x, fb0 := acc } xs t).1,
          (IIR1DirectFormI.filter_q31 { f with ff0 := x, fb0 := acc } xs t).2) := by
  rcases hr : round_fx f.fb0 s with ⟨rv, rs⟩
  rcases h0 : L_mult rv f.a1 rs with ⟨m0, s0⟩
  rcases h1 : L_mac m0 f.ff0 f.b1 s0 with ⟨m1, s1⟩
  rcases h2 : L_mac m1 x f.b0 s1 with ⟨m2, s2⟩
  have hc := convol_of f x s hr h0 h1 h2
  rcases ho : round_fx m2 s2 with ⟨o, u⟩
  refine ⟨m2, s2, o, u, hc, ho, ?_, ?_⟩
  · rw [IIR1DirectFormI.filter_q15, hc]
    dsimp only
    rw [ho]
  · rw [IIR1DirectFormI.filter_q31, hc]

/-- One sample through `filter` on a second-order object: one call of `convol`,
which shifts `ff0` to `ff1` and `fb0` to `fb1` and stores the sample in `ff0` and
the accumulator in `fb0`, then the rest of the buffer on the advanced object. -/
theorem filter2_cons (f : IIR2DirectFormI) (x : Int) (xs : List Int) (s : Status) :
    ∃ acc t o u,
      f.convol x s =
        (acc, { f with ff1 := f.ff0, ff0 := x, fb1 := f.fb0, fb0 := acc }, t) ∧
      round_fx acc t = (o, u) ∧
      f.filter_q15 (x :: xs) s =
        (o :: (IIR2DirectFormI.filter_q15
            { f with ff1 := f.ff0, ff0 := x, fb1 := f.fb0, fb0 := acc } xs u).1,
          (IIR2DirectFormI.filter_q15
            { f with ff1 := f.ff0, ff0 := x, fb1 := f.fb0, fb0 := acc } xs u).2) ∧
      f.filter_q31 (x :: xs) s =
        (acc :: (IIR2DirectFormI.filter_q31
            { f with ff1 := f.ff0, ff0 := x, fb1 := f.fb0, fb0 := acc } xs t).1,
          (IIR2DirectFormI.filter_q31
            { f with ff1 := f.ff0, ff0 := x, fb1 := f.fb0, fb0 := acc } xs t).2) := by
  rcases hr1 : round_fx f.fb1 s with ⟨r1, sr1⟩
  rcases hm1 : L_mult r1 f.a2 sr1 with ⟨m1, sm1⟩
  rcases ht1 : L_shl m1 (15 - 14) sm1 with ⟨t1, st1⟩
  rcases hr0 : round_fx f.fb0 st1 with ⟨r0, sr0⟩
  rcases hm0 : L_mult r0 f.a1 sr0 with ⟨m0, sm0⟩
  rcases ht0 : L_shl m0 (15 - 14) sm0 with ⟨t0, st0⟩
  rcases ha0 : L_add t1 t0 st0 with ⟨a0, sa0⟩
  rcases hm2 : L_mult f.ff1 f.b2 sa0 with ⟨m2, sm2⟩
  rcases ht2 : L_shl m2 (15 - 14) sm2 with ⟨t2, st2⟩
  rcases ha2 : L_add a0 t2 st2 with ⟨a2, sa2⟩
  rcases hm3 : L_mult f.ff0 f.b1 sa2 with ⟨m3, sm3⟩
  rcases ht3 : L_shl m3 (15 - 14) sm3 with ⟨t3, st3⟩
  rcases ha3 : L_add a2 t3 st3 with ⟨a3, sa3⟩
  rcases hm4 : L_mult x f.b0 sa3 with ⟨m4, sm4⟩
  rcases ht4 : L_shl m4 (15 - 14) sm4 with ⟨t4, st4⟩
  rcases ha4 : L_add a3 t4 st4 with ⟨a4, sa4⟩
  have hc := convol2_of f x s hr1 hm1 ht1 hr0 hm0 ht0 ha0 hm2 ht2 ha2 hm3 ht3 ha3 hm4 ht4 ha4
  rcases ho : round_fx a4 sa4 with ⟨o, u⟩
  refine ⟨a4, sa4, o, u, hc, ho, ?_, ?_⟩
  · rw [IIR2DirectFormI.filter_q15, hc]
    dsimp only
    rw [ho]
  · rw [IIR2DirectFormI.filter_q31, hc]

/-- Function `filter` writes one output per input sample. -/
theorem filter1_length (A : List Int) :
    ∀ (f : IIR1DirectFormI) (s : Status),
      (f.filter_q15 A s).1.length = A.length ∧ (f.filter_q31 A s).1.length = A.length := by
  induction A with
  | nil => intro f s; exact ⟨rfl, rfl⟩
  | cons x xs ih =>
    intro f s
    obtain ⟨acc, t, o, u, -, -, h15, h31⟩ := filter1_cons f x xs s
    rw [h15, h31]
    exact ⟨congrArg Nat.succ (ih _ u).1, congrArg Nat.succ (ih _ t).2⟩

theorem filter2_length (A : List Int) :
    ∀ (f : IIR2DirectFormI) (s : Status),
      (f.filter_q15 A s).1.length = A.length ∧ (f.filter_q31 A s).1.length = A.length := by
  induction A with
  | nil => intro f s; exact ⟨rfl, rfl⟩
  | cons x xs ih =>
    intro f s
    obtain ⟨acc, t, o, u, -, -, h15, h31⟩ := filter2_cons f x xs s
    rw [h15, h31]
    exact ⟨congrArg Nat.succ (ih _ u).1, congrArg Nat.succ (ih _ t).2⟩

/-- After a buffer that ends with the sample `x`, a first-order object holds `x`
in `ff0`, and after the 32-bit `filter` it holds the last output in `fb0`. -/
theorem filter1_last (A : List Int) (x : Int) (f : IIR1DirectFormI) (s : Status) :
    (f.filter_q15 (A ++ [x]) s).2.1.ff0 = x ∧ (f.filter_q31 (A ++ [x]) s).2.1.ff0 = x ∧
    (f.filter_q31 (A ++ [x]) s).1.getLast? = some (f.filter_q31 (A ++ [x]) s).2.1.fb0 := by
  rw [filter1_q15_append, filter1_q31_append]
  rcases h15 : f.filter_q15 A s with ⟨o15, g15, s15⟩
  rcases h31 : f.filter_q31 A s with ⟨o31, g31, s31⟩
  dsimp only
  obtain ⟨acc, t, o, u, -, -, e15, -⟩ := filter1_cons g15 x [] s15
  obtain ⟨acc', t', o', u', -, -, -, e31⟩ := filter1_cons g31 x [] s31
  rw [e15, e31]
  refine ⟨rfl, rfl, ?_⟩
  show (o31 ++ [acc']).getLast? = some acc'
  simp

/-- After a buffer that ends with the samples `x`, `y`, a second-order object
holds `y` in `ff0` and `x` in `ff1`, and after the 32-bit `filter` it holds the
last two outputs in `fb1` and `fb0`. -/
theorem filter2_last (A : List Int) (x y : Int) (f : IIR2DirectFormI) (s : Status) :
    ((f.filter_q15 (A ++ [x, y]) s).2.1.ff0 = y ∧
      (f.filter_q15 (A ++ [x, y]) s).2.1.ff1 = x) ∧
    ((f.filter_q31 (A ++ [x, y]) s).2.1.ff0 = y ∧
      (f.filter_q31 (A ++ [x, y]) s).2.1.ff1 = x) ∧
    ∃ os, (f.filter_q31 (A ++ [x, y]) s).1 =
      os ++ [(f.filter_q31 (A ++ [x, y]) s).2.1.fb1, (f.filter_q31 (A ++ [x, y]) s).2.1.fb0] := by
  rw [filter2_q15_append, filter2_q31_append]
  rcases h15 : f.filter_q15 A s with ⟨o15, g15, s15⟩
  rcases h31 : f.filter_q31 A s with ⟨o31, g31, s31⟩
  dsimp only
  obtain ⟨a1, t1, o1, u1, -, -, e1, -⟩ := filter2_cons g15 x [y] s15
  obtain ⟨a2, t2, o2, u2, -, -, e2, -⟩ := filter2_cons
    { g15 with ff1 := g15.ff0, ff0 := x, fb1 := g15.fb0, fb0 := a1 } y [] u1
  obtain ⟨b1, v1, p1, w1, -, -, -, d1⟩ := filter2_cons g31 x [y] s31
  obtain ⟨b2, v2, p2, w2, -, -, -, d2⟩ := filter2_cons
    { g31 with ff1 := g31.ff0, ff0 := x, fb1 := g31.fb0, fb0 := b1 } y [] v1
  rw [e1, e2, d1, d2]
  exact ⟨⟨rfl, rfl⟩, ⟨rfl, rfl⟩, o31, rfl⟩

/-- One pass of the loop of `Goertzel::compute` is one step of the specified
recursion. -/
theorem compute_step_refines (g : Goertzel) (x : Int) (s : Status) :
    ∃ y t, goertzelSpecStep g.coef g.att (g.y0, g.y1, s) x = (y, g.y0, t) ∧
      g.compute_step x s = (Goertzel.mk g.N y g.y0 g.coef g.att, t) := by
  rcases hr : round_fx g.y0 s with ⟨r, sr⟩
  rcases hm : L_mult r g.coef sr with ⟨m, sm⟩
  rcases hsh : L_shl m (15 - 14) sm with ⟨sh, ssh⟩
  rcases hacc : L_sub sh g.y1 ssh with ⟨acc, sacc⟩
  rcases hy : L_mac acc g.att x sacc with ⟨y, sy⟩
  refine ⟨y, sy, ?_, compute_step_of g x s hr hm hsh hacc hy⟩
  have e : (15 - 14 : Int) = 1 := by decide
  rw [e] at hsh
  unfold goertzelSpecStep
  dsimp only
  rw [hr]
  dsimp only
  rw [hm]
  dsimp only
  rw [hsh]
  dsimp only
  rw [hacc]
  dsimp only
  rw [hy]

/-- The first `n` passes of the loop of `Goertzel::compute` are the specified
recursion on the first `n` samples, from the accumulators of the object. -/
theorem compute_loop_refines (input : Nat → Int) (g : Goertzel) (s : Status) :
    ∀ n : Nat, ∃ y0 y1 t,
      ((List.range n).map input).foldl (goertzelSpecStep g.coef g.att) (g.y0, g.y1, s) =
        (y0, y1, t) ∧
      Goertzel.compute_loop input n g s = (Goertzel.mk g.N y0 y1 g.coef g.att, t) := by
  intro n
  induction n with
  | zero => exact ⟨g.y0, g.y1, s, rfl, rfl⟩
  | succ n ih =>
    obtain ⟨y0, y1, t, hf, hl⟩ := ih
    obtain ⟨y, u, hs, hc⟩ := compute_step_refines (Goertzel.mk g.N y0 y1 g.coef g.att)
      (input n) t
    refine ⟨y, y0, u, ?_, ?_⟩
    · rw [List.range_succ, List.map_append, List.foldl_append, hf]
      exact hs
    · rw [Goertzel.compute_loop, hl]
      exact hc

/-- Function `Goertzel::compute` leaves the accumulators of the specified block
recursion, whatever the accumulators held before. -/
theorem compute_refines (g : Goertzel) (Y0 Y1 : Int) (input : Nat → Int) (s : Status) :
    ∃ y0 y1 t,
      goertzelSpecBlock g.coef g.att ((List.range g.N.toNat).map input) s = (y0, y1, t) ∧
      Goertzel.compute { g with y0 := Y0, y1 := Y1 } input s =
        (Goertzel.mk g.N y0 y1 g.coef g.att, t) := by
  obtain ⟨y0, y1, t, hf, hl⟩ :=
    compute_loop_refines input (Goertzel.mk g.N 0 0 g.coef g.att) s g.N.toNat
  exact ⟨y0, y1, t, hf, hl⟩

/-- The value returned by `getSquaredMagnitude` is computed from the accumulators
of the specified block recursion. -/
theorem getSquaredMagnitude_refines (g : Goertzel) (Y0 Y1 : Int) (input : Nat → Int)
    (s : Status) :
    ∃ y0 y1 t r0 s0 r1 s1 m sm sh ssh a1 sa1 a0 sa0,
      goertzelSpecBlock g.coef g.att ((List.range g.N.toNat).map input) s = (y0, y1, t) ∧
      Goertzel.compute { g with y0 := Y0, y1 := Y1 } input s =
        (Goertzel.mk g.N y0 y1 g.coef g.att, t) ∧
      round_fx y0 t = (r0, s0) ∧ round_fx y1 s0 = (r1, s1) ∧
      L_mult (wrap16 (mult r0 r1)) g.coef s1 = (m, sm) ∧ L_shl m 1 sm = (sh, ssh) ∧
      L_mac (L_negate sh) r1 r1 ssh = (a1, sa1) ∧ L_mac a1 r0 r0 sa1 = (a0, sa0) ∧
      Goertzel.getSquaredMagnitude { g with y0 := Y0, y1 := Y1 } input s =
        (a0, Goertzel.mk g.N y0 y1 g.coef g.att, sa0) := by
  obtain ⟨y0, y1, t, hb, hc⟩ := compute_refines g Y0 Y1 input s
  rcases h0 : round_fx y0 t with ⟨r0, s0⟩
  rcases h1 : round_fx y1 s0 with ⟨r1, s1⟩
  rcases hm : L_mult (wrap16 (mult r0 r1)) g.coef s1 with ⟨m, sm⟩
  rcases hsh : L_shl m (15 - 14) sm with ⟨sh, ssh⟩
  rcases ha1 : L_mac (L_negate sh) r1 r1 ssh with ⟨a1, sa1⟩
  rcases ha0 : L_mac a1 r0 r0 sa1 with ⟨a0, sa0⟩
  have hg := getSquaredMagnitude_of { g with y0 := Y0, y1 := Y1 } input s hc h0 h1 hm hsh
    ha1 ha0
  have e : (15 - 14 : Int) = 1 := by decide
  rw [e] at hsh
  exact ⟨y0, y1, t, r0, s0, r1, s1, m, sm, sh, ssh, a1, sa1, a0, sa0, hb, hc, h0, h1, hm, hsh,
    ha1, ha0, hg⟩

/-- The carry adder followed by `L_sat` where the additions do not overflow. -/
theorem L_sat_L_add_c_in_range {a b : Int} (ha : isInt32 a) (hb : isInt32 b) (s : Status)
    (hc : s.Carry = 0) (hr : isInt32 (a + b)) :
    ∃ c, L_sat (L_add_c a b s).1 (L_add_c a b s).2 =
      (a + b, { Overflow := false, Carry := c }) := by
  obtain ⟨c, h, -⟩ := L_sat_L_add_c_pair ha hb s hc
  rw [clamp32_of_isInt32 hr] at h
  exact ⟨c, h⟩

/-! ## Claims -/

/-- C1: for 16-bit `v1`, `v2`, `add v1 v2` returns `v1 + v2` clamped to
`[-32768, 32767]`; `Overflow` is true afterwards exactly when it was true before
or `v1 + v2` lies outside that range (so from `Overflow = false` it is set iff
clamping occurred, and an already-true flag stays true); `Carry` is untouched. -/
theorem add_eq_clamp (v1 v2 : Int) (s : Status) (h1 : isInt16 v1) (h2 : isInt16 v2) :
    (add v1 v2 s).1 = clamp16 (v1 + v2) ∧
    ((add v1 v2 s).2.Overflow = true ↔
      (s.Overflow = true ∨ v1 + v2 < -32768 ∨ 32767 < v1 + v2)) ∧
    (add v1 v2 s).2.Carry = s.Carry := by
  have hw : wrap32 (v1 + v2) = v1 + v2 := by
    apply wrap32_of_isInt32
    unfold isInt16 at h1 h2
    unfold isInt32
    omega
  unfold add
  rw [hw]
  exact ⟨saturate_fst _ _, saturate_overflow _ _, saturate_carry _ _⟩

theorem add_eq_clamp_witness :
    (add 30000 10000 Status.init).1 = clamp16 (30000 + 10000) ∧
    ((add 30000 10000 Status.init).2.Overflow = true ↔
      (Status.init.Overflow = true ∨ (30000 : Int) + 10000 < -32768 ∨
        32767 < (30000 : Int) + 10000)) ∧
    (add 30000 10000 Status.init).2.Carry = Status.init.Carry :=
  add_eq_clamp 30000 10000 Status.init (by decide) (by decide)

/-- C2: for 16-bit `v1`, `v2` other than `(-32768, -32768)`, `L_mult` returns
exactly `2 * v1 * v2` and leaves `Overflow` and `Carry` as they were; for
`v1 = v2 = -32768` it returns `INT32_MAX = 2147483647` and sets `Overflow`; in both
cases the result is a 32-bit value (never a wrapped product). -/
theorem L_mult_exact (v1 v2 : Int) (s : Status) (h1 : isInt16 v1) (h2 : isInt16 v2) :
    (¬ (v1 = -32768 ∧ v2 = -32768) → L_mult v1 v2 s = (2 * v1 * v2, s)) ∧
    (v1 = -32768 ∧ v2 = -32768 →
      L_mult v1 v2 s = (2147483647, { s with Overflow := true })) ∧
    isInt32 (L_mult v1 v2 s).1 := by
  refine ⟨fun hne => L_mult_of_ne h1 h2 hne s, ?_, L_mult_isInt32 h1 h2 s⟩
  rintro ⟨rfl, rfl⟩
  exact L_mult_min s

theorem L_mult_exact_witness :
    (¬ ((-32768 : Int) = -32768 ∧ (32767 : Int) = -32768) →
      L_mult (-32768) 32767 Status.init = (2 * (-32768) * 32767, Status.init)) ∧
    ((-32768 : Int) = -32768 ∧ (32767 : Int) = -32768 →
      L_mult (-32768) 32767 Status.init =
        (2147483647, { Status.init with Overflow := true })) ∧
    isInt32 (L_mult (-32768) 32767 Status.init).1 :=
  L_mult_exact (-32768) 32767 Status.init (by decide) (by decide)

/-- C3: for 16-bit `v1`, `v2` other than `(-32768, -32768)`, `mult` returns
`floor (v1 * v2 / 2^15)` and that value is a 16-bit value; and
`mult (-32768) (-32768) = 32767`. -/
theorem mult_eq_floor (v1 v2 : Int) (h1 : isInt16 v1) (h2 : isInt16 v2) :
    (¬ (v1 = -32768 ∧ v2 = -32768) →
      mult v1 v2 = (v1 * v2) / 2 ^ 15 ∧ isInt16 (mult v1 v2)) ∧
    mult (-32768) (-32768) = 32767 := by
  refine ⟨?_, by decide⟩
  intro hne
  obtain ⟨hlo, hhi⟩ := mul_int16_bounds h1 h2
  unfold isInt16 at h1 h2
  have hc : ¬ (-32768 = v1 ∧ -32768 = v2) := by omega
  have hw : wrap32 (v1 * v2) = v1 * v2 := by
    unfold wrap32
    omega
  have hw2 : wrap32 (v1 * v2 * 2) = v1 * v2 * 2 := by
    unfold wrap32
    omega
  have hm : mult v1 v2 = (v1 * v2) / 2 ^ 15 := by
    unfold mult
    rw [if_neg hc]
    simp only [hw, pow_one, hw2, extract_h]
    rw [shiftRight_eq_div]
    unfold wrap16
    norm_num
    omega
  rw [hm]
  refine ⟨rfl, ?_⟩
  unfold isInt16
  norm_num
  omega

theorem mult_eq_floor_witness :
    (¬ ((-3 : Int) = -32768 ∧ (5 : Int) = -32768) →
      mult (-3) 5 = ((-3) * 5) / 2 ^ 15 ∧ isInt16 (mult (-3) 5)) ∧
    mult (-32768) (-32768) = 32767 :=
  mult_eq_floor (-3) 5 (by decide) (by decide)

/-- C4: for 16-bit `v1`, `v2`, `mult_r` returns `floor ((v1 * v2 + 16384) / 2^15)`
clamped to `[-32768, 32767]`; the value after the `>>= 15` of the source is exactly
that rounded quotient and the sign-extension fix-up leaves it unchanged; and
`mult_r (-32768) (-32768) = 32767`. -/
theorem mult_r_rounds (v1 v2 : Int) (s : Status) (h1 : isInt16 v1) (h2 : isInt16 v2) :
    (mult_r v1 v2 s).1 = clamp16 ((v1 * v2 + 16384) / 2 ^ 15) ∧
    mult_r_shifted v1 v2 = (v1 * v2 + 16384) / 2 ^ 15 ∧
    mult_r_sign_extend (mult_r_shifted v1 v2) = mult_r_shifted v1 v2 ∧
    (mult_r (-32768) (-32768) s).1 = 32767 := by
  have hs := mult_r_shifted_eq h1 h2
  obtain ⟨hlo, hhi⟩ := mult_r_shifted_range h1 h2
  have hfix := mult_r_sign_extend_eq hlo hhi
  refine ⟨?_, hs, hfix, ?_⟩
  · unfold mult_r
    rw [hfix, saturate_fst, hs]
  · unfold mult_r
    rw [saturate_fst]
    decide

theorem mult_r_rounds_witness :
    (mult_r 3 16384 Status.init).1 = clamp16 ((3 * 16384 + 16384) / 2 ^ 15) ∧
    mult_r_shifted 3 16384 = (3 * 16384 + 16384) / 2 ^ 15 ∧
    mult_r_sign_extend (mult_r_shifted 3 16384) = mult_r_shifted 3 16384 ∧
    (mult_r (-32768) (-32768) Status.init).1 = 32767 :=
  mult_r_rounds 3 16384 Status.init (by decide) (by decide)

/-- C5: for every 32-bit `L`, `round_fx L` is `extract_h` of `L_add L 0x8000`, its
value is `min 32767 (floor ((L + 32768) / 65536))`, it sets `Overflow` exactly when
`L > INT32_MAX - 32768` (otherwise the status is unchanged), and
`round_fx (L_deposit_h v) = v` with the status unchanged for every 16-bit `v`. -/
theorem round_fx_eq (L : Int) (s : Status) (h : isInt32 L) :
    round_fx L s = (extract_h (L_add L 0x8000 s).1, (L_add L 0x8000 s).2) ∧
    round_fx L s =
      (min 32767 ((L + 32768) / 65536),
        if L > INT32_MAX - 32768 then { s with Overflow := true } else s) ∧
    ∀ v : Int, isInt16 v → round_fx (L_deposit_h v) s = (v, s) := by
  refine ⟨rfl, round_fx_pair h s, ?_⟩
  intro v hv
  have hi : isInt32 (v * 65536) := by
    unfold isInt16 at hv
    unfold isInt32
    omega
  rw [L_deposit_h_eq hv, round_fx_pair hi]
  unfold isInt16 at hv
  have hc : ¬ v * 65536 > INT32_MAX - 32768 := by
    simp only [INT32_MAX]
    omega
  rw [if_neg hc]
  congr 1
  omega

theorem round_fx_eq_witness :
    round_fx 98304 Status.init =
      (extract_h (L_add 98304 0x8000 Status.init).1, (L_add 98304 0x8000 Status.init).2) ∧
    round_fx 98304 Status.init =
      (min 32767 ((98304 + 32768) / 65536),
        if (98304 : Int) > INT32_MAX - 32768 then { Status.init with Overflow := true }
        else Status.init) ∧
    ∀ v : Int, isInt16 v → round_fx (L_deposit_h v) Status.init = (v, Status.init) :=
  round_fx_eq 98304 Status.init (by decide)

/-- C6: for every 32-bit `a` and 16-bit `v1`, `v2` other than `(-32768, -32768)`,
`L_mac a v1 v2` is `a + 2 * v1 * v2` clamped to the 32-bit range and `L_msu a v1 v2`
is `a - 2 * v1 * v2` clamped to the 32-bit range (`Overflow` set exactly when the
exact value is out of range); `L_mac` / `L_msu` are `L_add` / `L_sub` applied to
`L_mult v1 v2`, `mac_r` / `msu_r` are `round_fx` of them, and `L_macNs` /
`L_msuNs` are `L_add_c` / `L_sub_c` applied to `L_mult v1 v2`. -/
theorem mac_msu_eq (a v1 v2 : Int) (s : Status) (ha : isInt32 a) (h1 : isInt16 v1)
    (h2 : isInt16 v2) (hne : ¬ (v1 = -32768 ∧ v2 = -32768)) :
    L_mac a v1 v2 s =
      (clamp32 (a + 2 * v1 * v2),
        if isInt32 (a + 2 * v1 * v2) then s else { s with Overflow := true }) ∧
    L_msu a v1 v2 s =
      (clamp32 (a - 2 * v1 * v2),
        if isInt32 (a - 2 * v1 * v2) then s else { s with Overflow := true }) ∧
    L_mac a v1 v2 s = L_add a (L_mult v1 v2 s).1 (L_mult v1 v2 s).2 ∧
    L_msu a v1 v2 s = L_sub a (L_mult v1 v2 s).1 (L_mult v1 v2 s).2 ∧
    mac_r a v1 v2 s = round_fx (L_mac a v1 v2 s).1 (L_mac a v1 v2 s).2 ∧
    msu_r a v1 v2 s = round_fx (L_msu a v1 v2 s).1 (L_msu a v1 v2 s).2 ∧
    L_macNs a v1 v2 s = L_add_c a (L_mult v1 v2 s).1 (L_mult v1 v2 s).2 ∧
    L_msuNs a v1 v2 s = L_sub_c a (L_mult v1 v2 s).1 (L_mult v1 v2 s).2 := by
  have hm := L_mult_of_ne h1 h2 hne s
  have hr : isInt32 (2 * v1 * v2) := by
    have := L_mult_isInt32 h1 h2 s
    rw [hm] at this
    exact this
  refine ⟨?_, ?_, rfl, rfl, rfl, rfl, rfl, rfl⟩
  · unfold L_mac
    rw [hm]
    exact L_add_pair ha hr s
  · unfold L_msu
    rw [hm]
    exact L_sub_pair ha hr s

theorem mac_msu_eq_witness :
    L_mac 2147483000 300 200 Status.init =
      (clamp32 (2147483000 + 2 * 300 * 200),
        if isInt32 (2147483000 + 2 * 300 * 200) then Status.init
        else { Status.init with Overflow := true }) ∧
    L_msu 2147483000 300 200 Status.init =
      (clamp32 (2147483000 - 2 * 300 * 200),
        if isInt32 (2147483000 - 2 * 300 * 200) then Status.init
        else { Status.init with Overflow := true }) ∧
    L_mac 2147483000 300 200 Status.init =
      L_add 2147483000 (L_mult 300 200 Status.init).1 (L_mult 300 200 Status.init).2 ∧
    L_msu 2147483000 300 200 Status.init =
      L_sub 2147483000 (L_mult 300 200 Status.init).1 (L_mult 300 200 Status.init).2 ∧
    mac_r 2147483000 300 200 Status.init =
      round_fx (L_mac 2147483000 300 200 Status.init).1
        (L_mac 2147483000 300 200 Status.init).2 ∧
    msu_r 2147483000 300 200 Status.init =
      round_fx (L_msu 2147483000 300 200 Status.init).1
        (L_msu 2147483000 300 200 Status.init).2 ∧
    L_macNs 2147483000 300 200 Status.init =
      L_add_c 2147483000 (L_mult 300 200 Status.init).1 (L_mult 300 200 Status.init).2 ∧
    L_msuNs 2147483000 300 200 Status.init =
      L_sub_c 2147483000 (L_mult 300 200 Status.init).1 (L_mult 300 200 Status.init).2 :=
  mac_msu_eq 2147483000 300 200 Status.init (by decide) (by decide) (by decide) (by decide)

/-- C7: left shift saturates. For every 16-bit `v` and every count `0 ≤ n`,
`shl v n` is `v * 2^n` clamped to `[-32768, 32767]`; for every 32-bit `L` and
every count `0 < n`, `L_shl L n` is `L * 2^n` clamped to `[INT32_MIN, INT32_MAX]`;
in both, `Overflow` is set exactly when the exact value is out of range, and the
status is otherwise returned unchanged. -/
theorem shl_saturates (v L n : Int) (s : Status) (hv : isInt16 v) (hL : isInt32 L)
    (h0 : 0 ≤ n) :
    shl v n s =
      (clamp16 (v * 2 ^ n.toNat),
        if isInt16 (v * 2 ^ n.toNat) then s else { s with Overflow := true }) ∧
    (0 < n →
      L_shl L n s =
        (clamp32 (L * 2 ^ n.toNat),
          if isInt32 (L * 2 ^ n.toNat) then s else { s with Overflow := true })) :=
  ⟨shl_nonneg_pair hv h0 s, fun hpos => L_shl_pos_pair hL hpos s⟩

theorem shl_saturates_witness :
    shl 3 14 Status.init =
      (clamp16 (3 * 2 ^ (14 : Int).toNat),
        if isInt16 (3 * 2 ^ (14 : Int).toNat) then Status.init
        else { Status.init with Overflow := true }) ∧
    ((0 : Int) < 14 →
      L_shl (-5) 14 Status.init =
        (clamp32 (-5 * 2 ^ (14 : Int).toNat),
          if isInt32 (-5 * 2 ^ (14 : Int).toNat) then Status.init
          else { Status.init with Overflow := true })) :=
  shl_saturates 3 (-5) 14 Status.init (by decide) (by decide) (by decide)

/-- C8: right shift is arithmetic for every non-negative count. For every 16-bit
`v`, 32-bit `L` and count `0 ≤ n`, `shr v n = floor (v / 2^n)` and
`L_shr L n = floor (L / 2^n)`, both with the status (hence `Overflow`) unchanged;
for `n ≥ 15` (resp. `n ≥ 31`) the result is `-1` for a negative and `0` for a
non-negative input. -/
theorem shr_floor (v L n : Int) (s : Status) (hv : isInt16 v) (hL : isInt32 L)
    (h0 : 0 ≤ n) :
    shr v n s = (v / 2 ^ n.toNat, s) ∧
    L_shr L n s = (L / 2 ^ n.toNat, s) ∧
    (15 ≤ n → shr v n s = (if v < 0 then -1 else 0, s)) ∧
    (31 ≤ n → L_shr L n s = (if L < 0 then -1 else 0, s)) := by
  exact ⟨shr_nonneg_pair hv h0 s, L_shr_nonneg_pair hL h0 s,
    fun h15 => shr_ge15 v h15 s, fun h31 => L_shr_ge31 L h31 s⟩

theorem shr_floor_witness :
    shr (-5) 1 Status.init = (-5 / 2 ^ (1 : Int).toNat, Status.init) ∧
    L_shr (-70000) 1 Status.init = (-70000 / 2 ^ (1 : Int).toNat, Status.init) ∧
    ((15 : Int) ≤ 1 → shr (-5) 1 Status.init = (if (-5 : Int) < 0 then -1 else 0, Status.init)) ∧
    ((31 : Int) ≤ 1 →
      L_shr (-70000) 1 Status.init = (if (-70000 : Int) < 0 then -1 else 0, Status.init)) :=
  shr_floor (-5) (-70000) 1 Status.init (by decide) (by decide) (by decide)

/-- C9: a negative count reverses the direction and counts are clamped before
use. For every 16-bit count `n` (including `-32768` and counts beyond `±16`) and
every `v`, `shl v n = shl v (clamp n (-16) 16)`, `shr v n = shr v (clamp n (-16) 16)`,
and for `n < 0`, `shl v n = shr v (min (-n) 16)` and `shr v n = shl v (min (-n) 16)`;
likewise for `L_shl` and `L_shr` on a 32-bit `L` with the bound 32. -/
theorem shift_count_clamped (v L n : Int) (s : Status) (hL : isInt32 L) (hn : isInt16 n) :
    shl v n s = shl v (max (-16) (min 16 n)) s ∧
    shr v n s = shr v (max (-16) (min 16 n)) s ∧
    (n < 0 → shl v n s = shr v (min (-n) 16) s ∧ shr v n s = shl v (min (-n) 16) s) ∧
    L_shl L n s = L_shl L (max (-32) (min 32 n)) s ∧
    L_shr L n s = L_shr L (max (-32) (min 32 n)) s ∧
    (n < 0 →
      L_shl L n s = L_shr L (min (-n) 32) s ∧ L_shr L n s = L_shl L (min (-n) 32) s) := by
  have hm16 : isInt16 (-16) := by decide
  have hm32 : isInt16 (-32) := by decide
  refine ⟨?_, ?_, fun h => ⟨shl_neg v n s h hn, shr_neg v n s h hn⟩, ?_, ?_,
    fun h => ⟨L_shl_nonpos L n s (by omega) hn, L_shr_neg L n s h hn⟩⟩
  · by_cases h1 : n < -16
    · have e : max (-16) (min 16 n) = -16 := by omega
      have e2 : min (-n) 16 = min (-(-16)) 16 := by omega
      rw [e, shl_neg v n s (by omega) hn, shl_neg v (-16) s (by omega) hm16, e2]
    · by_cases h2 : n ≤ 16
      · have e : max (-16) (min 16 n) = n := by omega
        rw [e]
      · have e : max (-16) (min 16 n) = 16 := by omega
        rw [e, shl_ge16 (by omega), shl_ge16 (by omega)]
  · by_cases h1 : n < -16
    · have e : max (-16) (min 16 n) = -16 := by omega
      have e2 : min (-n) 16 = min (-(-16)) 16 := by omega
      rw [e, shr_neg v n s (by omega) hn, shr_neg v (-16) s (by omega) hm16, e2]
    · by_cases h2 : n ≤ 16
      · have e : max (-16) (min 16 n) = n := by omega
        rw [e]
      · have e : max (-16) (min 16 n) = 16 := by omega
        rw [e, shr_ge15 v (by omega), shr_ge15 v (by omega)]
  · by_cases h1 : n < -32
    · have e : max (-32) (min 32 n) = -32 := by omega
      have e2 : min (-n) 32 = min (-(-32)) 32 := by omega
      rw [e, L_shl_nonpos L n s (by omega) hn, L_shl_nonpos L (-32) s (by omega) hm32, e2]
    · by_cases h2 : n ≤ 32
      · have e : max (-32) (min 32 n) = n := by omega
        rw [e]
      · have e : max (-32) (min 32 n) = 32 := by omega
        rw [e, L_shl_ge32 hL (by omega), L_shl_ge32 hL (by omega)]
  · by_cases h1 : n < -32
    · have e : max (-32) (min 32 n) = -32 := by omega
      have e2 : min (-n) 32 = min (-(-32)) 32 := by omega
      rw [e, L_shr_neg L n s (by omega) hn, L_shr_neg L (-32) s (by omega) hm32, e2]
    · by_cases h2 : n ≤ 32
      · have e : max (-32) (min 32 n) = n := by omega
        rw [e]
      · have e : max (-32) (min 32 n) = 32 := by omega
        rw [e, L_shr_ge31 L (by omega), L_shr_ge31 L (by omega)]

theorem shift_count_clamped_witness :
    shl 5 (-32768) Status.init = shl 5 (max (-16) (min 16 (-32768))) Status.init ∧
    shr 5 (-32768) Status.init = shr 5 (max (-16) (min 16 (-32768))) Status.init ∧
    ((-32768 : Int) < 0 →
      shl 5 (-32768) Status.init = shr 5 (min (-(-32768)) 16) Status.init ∧
      shr 5 (-32768) Status.init = shl 5 (min (-(-32768)) 16) Status.init) ∧
    L_shl 7 (-32768) Status.init = L_shl 7 (max (-32) (min 32 (-32768))) Status.init ∧
    L_shr 7 (-32768) Status.init = L_shr 7 (max (-32) (min 32 (-32768))) Status.init ∧
    ((-32768 : Int) < 0 →
      L_shl 7 (-32768) Status.init = L_shr 7 (min (-(-32768)) 32) Status.init ∧
      L_shr 7 (-32768) Status.init = L_shl 7 (min (-(-32768)) 32) Status.init) :=
  shift_count_clamped 5 7 (-32768) Status.init (by decide) (by decide)

/-- C10 (amended): for every 16-bit `v` and every `n` in `[0, 15]`, and for
`n = 16` when `v ≥ 0`, `shl (shr v n) n` is `v` with its low `n` bits cleared and
the status is unchanged (`Overflow` is not set). -/
theorem shl_shr_clears (v n : Int) (s : Status) (hv : isInt16 v) (h0 : 0 ≤ n)
    (h : n ≤ 15 ∨ (n = 16 ∧ 0 ≤ v)) :
    shl_shr_clears_low_bits v n s := by
  unfold shl_shr_clears_low_bits
  rw [shr_nonneg_pair hv h0]
  dsimp only
  rcases h with h15 | ⟨rfl, hpos⟩
  · obtain ⟨heq, hi1, hi2⟩ := clear_low_bits_isInt16 hv (k := n.toNat) (by omega)
    rw [shl_nonneg_pair hi1 h0, if_pos hi2, heq]
    congr 1
    rw [heq] at hi2
    unfold isInt16 at hi2
    unfold clamp16
    omega
  · unfold isInt16 at hv
    have hp : (2 : Int) ^ (16 : Int).toNat = 65536 := by decide
    have hq : v / 2 ^ (16 : Int).toNat = 0 :=
      Int.ediv_eq_zero_of_lt hpos (by rw [hp]; omega)
    have hr : v % 2 ^ (16 : Int).toNat = v :=
      Int.emod_eq_of_lt hpos (by rw [hp]; omega)
    rw [hq, hr, shl_ge16 (le_refl 16), if_pos rfl, sub_self]

theorem shl_shr_clears_witness : shl_shr_clears_low_bits (-32768) 15 Status.init :=
  shl_shr_clears (-32768) 15 Status.init (by decide) (by decide) (by decide)

/-- C10 (as stated) fails at `n = 16` for a negative `v`: `shr (-1) 16 = -1` and
`shl (-1) 16` saturates to `-32768` with `Overflow` set. -/
theorem shl_shr_16_neg_overflows :
    ¬ shl_shr_clears_low_bits (-1) 16 Status.init ∧
    shl (shr (-1) 16 Status.init).1 16 (shr (-1) 16 Status.init).2 =
      (-32768, { Overflow := true, Carry := 0 }) := by
  decide

/-- C11: negation and absolute value saturate only the single unrepresentable
case. For every 16-bit `v`, `negate v = clamp16 (-v)` and `abs_s v = clamp16 |v|`,
with `negate (-32768) = abs_s (-32768) = 32767` and `abs_s v ≥ 0`; for every 32-bit
`L`, `L_negate L = clamp32 (-L)` and `L_abs L = clamp32 |L|`; and
`negate (negate v) = v` for every 16-bit `v` other than `-32768`. -/
theorem negate_abs_saturate (v L : Int) (hv : isInt16 v) (hL : isInt32 L) :
    negate v = clamp16 (-v) ∧ abs_s v = clamp16 |v| ∧
    negate (-32768) = 32767 ∧ abs_s (-32768) = 32767 ∧ 0 ≤ abs_s v ∧
    L_negate L = clamp32 (-L) ∧ L_abs L = clamp32 |L| ∧
    (v ≠ -32768 → negate (negate v) = v) := by
  refine ⟨negate_eq hv, abs_s_eq hv, by decide, by decide, ?_, L_negate_eq hL,
    L_abs_eq hL, ?_⟩
  · rw [abs_s_eq hv]
    have := abs_nonneg v
    unfold clamp16
    omega
  · intro hne
    unfold isInt16 at hv
    have h1 : negate v = -v := by
      rw [negate_eq (by unfold isInt16; omega)]
      unfold clamp16
      omega
    rw [h1, negate_eq (by unfold isInt16; omega)]
    unfold clamp16
    omega

theorem negate_abs_saturate_witness :
    negate (-5) = clamp16 (-(-5)) ∧ abs_s (-5) = clamp16 |(-5 : Int)| ∧
    negate (-32768) = 32767 ∧ abs_s (-32768) = 32767 ∧ 0 ≤ abs_s (-5) ∧
    L_negate (-2147483648) = clamp32 (-(-2147483648)) ∧
    L_abs (-2147483648) = clamp32 |(-2147483648 : Int)| ∧
    ((-5 : Int) ≠ -32768 → negate (negate (-5)) = -5) :=
  negate_abs_saturate (-5) (-2147483648) (by decide) (by decide)

/-- C12: under the precondition `0 ≤ v1 ≤ v2`, `v2 > 0`, `div_s` returns a value
(no assertion fails): `floor (v1 * 2^15 / v2)` when `v1 < v2` and `32767` when
`v1 = v2`; the result lies in `[0, 32767]` and the status is returned unchanged
(no `add` / `L_sub` in the loop saturates, `Overflow` is not set). -/
theorem div_s_quotient (v1 v2 : Int) (s : Status) (h2 : isInt16 v2) (h0 : 0 ≤ v1)
    (h12 : v1 ≤ v2) (hpos : 0 < v2) :
    div_s v1 v2 s = some (if v1 = v2 then 32767 else v1 * 2 ^ 15 / v2, s) ∧
    0 ≤ (if v1 = v2 then 32767 else v1 * 2 ^ 15 / v2) ∧
    (if v1 = v2 then 32767 else v1 * 2 ^ 15 / v2) ≤ 32767 := by
  unfold isInt16 at h2
  have hnn : 0 ≤ v1 * 2 ^ 15 / v2 := Int.ediv_nonneg (by positivity) hpos.le
  have hlt : v1 < v2 → v1 * 2 ^ 15 / v2 < 32768 := by
    intro h
    rw [Int.ediv_lt_iff_lt_mul hpos]
    norm_num
    omega
  refine ⟨?_, ?_, ?_⟩
  · unfold div_s
    rw [if_neg (by omega), if_neg (by omega), if_neg (by omega)]
    by_cases hz : 0 = v1
    · subst hz
      rw [if_pos rfl, if_neg (by omega)]
      simp
    · rw [if_neg hz]
      by_cases he : v1 = v2
      · rw [if_pos he, if_pos he]
      · rw [if_neg he, if_neg he]
        unfold L_deposit_l
        dsimp only
        rw [div_s_loop_eq 15 v2 0 v1 s hpos h2.2 h0 (by omega) (le_refl 0) (by norm_num)]
        simp
  · split
    · omega
    · exact hnn
  · split
    · omega
    · have := hlt (by omega)
      omega

theorem div_s_quotient_witness :
    div_s 1 3 Status.init =
      some (if (1 : Int) = 3 then 32767 else 1 * 2 ^ 15 / 3, Status.init) ∧
    (0 : Int) ≤ (if (1 : Int) = 3 then 32767 else 1 * 2 ^ 15 / 3) ∧
    (if (1 : Int) = 3 then 32767 else 1 * 2 ^ 15 / 3) ≤ (32767 : Int) :=
  div_s_quotient 1 3 Status.init (by decide) (by decide) (by decide) (by decide)

/-- C13: `div_s` fails fast on a precondition violation: it ends in a failed
assertion (`none`) if and only if `v1 > v2` or `v1 < 0` or `v2 ≤ 0`, and returns a
quotient otherwise. -/
theorem div_s_asserts (v1 v2 : Int) (s : Status) :
    (div_s v1 v2 s = none ↔ (v1 > v2 ∨ v1 < 0 ∨ v2 ≤ 0)) ∧
    (¬ (v1 > v2 ∨ v1 < 0 ∨ v2 ≤ 0) → ∃ q, div_s v1 v2 s = some q) := by
  have hsome : ¬ (v1 > v2 ∨ v1 < 0 ∨ v2 ≤ 0) → ∃ q, div_s v1 v2 s = some q := by
    intro h
    unfold div_s
    rw [if_neg (by omega), if_neg (by omega), if_neg (by omega)]
    split_ifs <;> exact ⟨_, rfl⟩
  refine ⟨⟨?_, ?_⟩, hsome⟩
  · intro hn
    by_contra h
    obtain ⟨q, hq⟩ := hsome h
    rw [hq] at hn
    exact Option.noConfusion hn
  · intro h
    unfold div_s
    by_cases h1 : ¬ (v1 ≤ v2)
    · rw [if_pos h1]
    · rw [if_neg h1]
      by_cases h2 : ¬ (0 ≤ v1)
      · rw [if_pos h2]
      · rw [if_neg h2, if_pos (by omega)]

/-- C14: `norm_s` returns the number of left shifts needed to normalise.
`norm_s 0 = 0`; for every non-zero 16-bit `v` the loop ends (every fuel from 15 on
gives the same count `k`), `0 ≤ k ≤ 15`, `v * 2^k` lies in `[16384, 32767]` when
`v > 0` and in `[-32768, -16384]` when `v < 0`, and `shl v k` returns exactly
`v * 2^k` with the status unchanged (`Overflow` is not set). -/
theorem norm_s_normalises (v : Int) (s : Status) (hv : isInt16 v) :
    (∀ fuel, norm_s fuel 0 = some 0) ∧
    (v ≠ 0 → ∃ k : Nat, k ≤ 15 ∧
      (∀ fuel, 15 ≤ fuel → norm_s fuel v = some (k : Int)) ∧
      (0 < v → 16384 ≤ v * 2 ^ k ∧ v * 2 ^ k ≤ 32767) ∧
      (v < 0 → -32768 ≤ v * 2 ^ k ∧ v * 2 ^ k ≤ -16384) ∧
      shl v k s = (v * 2 ^ k, s)) := by
  refine ⟨fun fuel => rfl, ?_⟩
  intro hne
  obtain ⟨k, hk, hf, hp, hn⟩ := norm_s_result hv hne
  refine ⟨k, hk, hf, hp, hn, ?_⟩
  have hi : isInt16 (v * 2 ^ k) := by
    unfold isInt16
    rcases lt_or_gt_of_ne hne with h | h
    · have := hn h
      omega
    · have := hp h
      omega
  rw [shl_nonneg_pair hv (by omega), Int.toNat_ofNat, if_pos hi]
  congr 1
  unfold isInt16 at hi
  unfold clamp16
  omega

theorem norm_s_normalises_witness :
    (∀ fuel, norm_s fuel 0 = some 0) ∧
    ((-3 : Int) ≠ 0 → ∃ k : Nat, k ≤ 15 ∧
      (∀ fuel, 15 ≤ fuel → norm_s fuel (-3) = some (k : Int)) ∧
      ((0 : Int) < -3 → 16384 ≤ (-3 : Int) * 2 ^ k ∧ (-3 : Int) * 2 ^ k ≤ 32767) ∧
      ((-3 : Int) < 0 → -32768 ≤ (-3 : Int) * 2 ^ k ∧ (-3 : Int) * 2 ^ k ≤ -16384) ∧
      shl (-3) k Status.init = (-3 * 2 ^ k, Status.init)) :=
  norm_s_normalises (-3) Status.init (by decide)

/-- C15 (as stated) fails at `INT32_MIN`: `norm_l` returns 31 for it, although
`INT32_MIN * 2^31` is far below `-2^31`, and `L_shl INT32_MIN 31` saturates and
sets `Overflow`. -/
theorem norm_l_int32_min :
    (∀ fuel, norm_l fuel (-2147483648) = some 31) ∧
    ¬ (-2147483648 ≤ (-2147483648 : Int) * 2 ^ 31) ∧
    L_shl (-2147483648) 31 Status.init = (-2147483648, { Overflow := true, Carry := 0 }) := by
  refine ⟨fun fuel => rfl, by norm_num, by decide⟩

/-- C16 (as stated) fails at `norm_l (-1)`: `~(-1)` is `0`, the loop test
`L_v1 < 0x40000000` holds for ever, and no amount of fuel yields a result. -/
theorem norm_l_neg_one_never_returns : ∀ fuel, norm_l fuel (-1) = none := by
  intro fuel
  have hw : wrap32 (~~~(-1 : Int)) = 0 := by decide
  unfold norm_l
  rw [if_neg (by decide), if_neg (by decide)]
  dsimp only
  rw [if_pos (by decide), hw]
  exact norm_l_loop_zero fuel 0

/-- C17: `L_add_c` is a 32-bit full adder that never saturates. For 32-bit
`L_v1`, `L_v2` and an incoming `Carry` of 0 or 1, the result is
`L_v1 + L_v2 + Carry` wrapped modulo `2^32`, the outgoing `Carry` is 0 or 1, and
`Carry_out * 2^32 + unsigned(result) = unsigned(L_v1) + unsigned(L_v2) + Carry_in`. -/
theorem L_add_c_full_adder (a b : Int) (s : Status) (ha : isInt32 a) (hb : isInt32 b)
    (hc : s.Carry = 0 ∨ s.Carry = 1) :
    (L_add_c a b s).1 = wrap32 (a + b + s.Carry) ∧
    ((L_add_c a b s).2.Carry = 0 ∨ (L_add_c a b s).2.Carry = 1) ∧
    (L_add_c a b s).2.Carry * 4294967296 + (toU32 (L_add_c a b s).1 : Int) =
      (toU32 a : Int) + (toU32 b : Int) + s.Carry :=
  L_add_c_value_carry ha hb s hc

theorem L_add_c_full_adder_witness :
    (L_add_c (-1) 1 { Overflow := false, Carry := 1 }).1 =
      wrap32 (-1 + 1 + ({ Overflow := false, Carry := 1 } : Status).Carry) ∧
    ((L_add_c (-1) 1 { Overflow := false, Carry := 1 }).2.Carry = 0 ∨
      (L_add_c (-1) 1 { Overflow := false, Carry := 1 }).2.Carry = 1) ∧
    (L_add_c (-1) 1 { Overflow := false, Carry := 1 }).2.Carry * 4294967296 +
        (toU32 (L_add_c (-1) 1 { Overflow := false, Carry := 1 }).1 : Int) =
      (toU32 (-1) : Int) + (toU32 1 : Int) + ({ Overflow := false, Carry := 1 } : Status).Carry :=
  L_add_c_full_adder (-1) 1 { Overflow := false, Carry := 1 } (by decide) (by decide)
    (by decide)

/-- C18 (amended): `Overflow` is sticky for every primitive that has the globals in
reach, other than `L_sat` and the carry operations `L_add_c`, `L_sub_c`, `L_macNs`,
`L_msuNs`: if `Overflow` is true before the call it is true after it, for every
input (for `div_s` / `div_l`: whenever they return). -/
theorem overflow_sticky (a b c : Int) (s : Status) (hs : s.Overflow = true) :
    (saturate a s).2.Overflow = true ∧ (add a b s).2.Overflow = true ∧
    (sub a b s).2.Overflow = true ∧ (shl a b s).2.Overflow = true ∧
    (shr a b s).2.Overflow = true ∧ (L_add a b s).2.Overflow = true ∧
    (L_sub a b s).2.Overflow = true ∧ (L_shl a b s).2.Overflow = true ∧
    (L_shr a b s).2.Overflow = true ∧ (L_mult a b s).2.Overflow = true ∧
    (mult_r a b s).2.Overflow = true ∧ (L_mac a b c s).2.Overflow = true ∧
    (L_mac0 a b c s).2.Overflow = true ∧ (L_msu a b c s).2.Overflow = true ∧
    (L_msu0 a b c s).2.Overflow = true ∧ (mac_r a b c s).2.Overflow = true ∧
    (msu_r a b c s).2.Overflow = true ∧ (round_fx a s).2.Overflow = true ∧
    (shr_r a b s).2.Overflow = true ∧ (L_shr_r a b s).2.Overflow = true ∧
    (i_mult a b s).2.Overflow = true ∧ (L_mls a b s).2.Overflow = true ∧
    (∀ x, div_s a b s = some x → x.2.Overflow = true) ∧
    (∀ x, div_l a b s = some x → x.2.Overflow = true) :=
  ⟨sticky_of_resOnly (saturate_only a s) hs, sticky_of_resOnly (add_only a b s) hs,
    sticky_of_resOnly (sub_only a b s) hs, sticky_of_resOnly (shl_only a b s) hs,
    sticky_of_resOnly (shr_only a b s) hs, sticky_of_resOnly (L_add_only a b s) hs,
    sticky_of_resOnly (L_sub_only a b s) hs, sticky_of_resOnly (L_shl_only a b s) hs,
    sticky_of_resOnly (L_shr_only a b s) hs, sticky_of_resOnly (L_mult_only a b s) hs,
    sticky_of_resOnly (mult_r_only a b s) hs, sticky_of_resOnly (L_mac_only a b c s) hs,
    sticky_of_resOnly (L_mac0_only a b c s) hs, sticky_of_resOnly (L_msu_only a b c s) hs,
    sticky_of_resOnly (L_msu0_only a b c s) hs, sticky_of_resOnly (mac_r_only a b c s) hs,
    sticky_of_resOnly (msu_r_only a b c s) hs, sticky_of_resOnly (round_fx_only a s) hs,
    sticky_of_resOnly (shr_r_only a b s) hs, sticky_of_resOnly (L_shr_r_only a b s) hs,
    sticky_of_resOnly (i_mult_only a b s) hs, sticky_of_resOnly (L_mls_only a b s) hs,
    fun x h => sticky_of_resOnly (div_s_only a b s x h) hs,
    fun x h => sticky_of_resOnly (div_l_only a b s x h) hs⟩

theorem overflow_sticky_witness :
    (saturate 30000 { Overflow := true, Carry := 0 }).2.Overflow = true ∧ (add 30000 3 { Overflow := true, Carry := 0 }).2.Overflow = true ∧
    (sub 30000 3 { Overflow := true, Carry := 0 }).2.Overflow = true ∧ (shl 30000 3 { Overflow := true, Carry := 0 }).2.Overflow = true ∧
    (shr 30000 3 { Overflow := true, Carry := 0 }).2.Overflow = true ∧ (L_add 30000 3 { Overflow := true, Carry := 0 }).2.Overflow = true ∧
    (L_sub 30000 3 { Overflow := true, Carry := 0 }).2.Overflow = true ∧ (L_shl 30000 3 { Overflow := true, Carry := 0 }).2.Overflow = true ∧
    (L_shr 30000 3 { Overflow := true, Carry := 0 }).2.Overflow = true ∧ (L_mult 30000 3 { Overflow := true, Carry := 0 }).2.Overflow = true ∧
    (mult_r 30000 3 { Overflow := true, Carry := 0 }).2.Overflow = true ∧ (L_mac 30000 3 5 { Overflow := true, Carry := 0 }).2.Overflow = true ∧
    (L_mac0 30000 3 5 { Overflow := true, Carry := 0 }).2.Overflow = true ∧ (L_msu 30000 3 5 { Overflow := true, Carry := 0 }).2.Overflow = true ∧
    (L_msu0 30000 3 5 { Overflow := true, Carry := 0 }).2.Overflow = true ∧ (mac_r 30000 3 5 { Overflow := true, Carry := 0 }).2.Overflow = true ∧
    (msu_r 30000 3 5 { Overflow := true, Carry := 0 }).2.Overflow = true ∧ (round_fx 30000 { Overflow := true, Carry := 0 }).2.Overflow = true ∧
    (shr_r 30000 3 { Overflow := true, Carry := 0 }).2.Overflow = true ∧ (L_shr_r 30000 3 { Overflow := true, Carry := 0 }).2.Overflow = true ∧
    (i_mult 30000 3 { Overflow := true, Carry := 0 }).2.Overflow = true ∧ (L_mls 30000 3 { Overflow := true, Carry := 0 }).2.Overflow = true ∧
    (∀ x, div_s 30000 3 { Overflow := true, Carry := 0 } = some x → x.2.Overflow = true) ∧
    (∀ x, div_l 30000 3 { Overflow := true, Carry := 0 } = some x → x.2.Overflow = true) :=
  overflow_sticky 30000 3 5 { Overflow := true, Carry := 0 } rfl

/-- C18 (as stated) fails for `L_add_c`: called with `Overflow` true and
`Carry = 0` on `1 + 1`, it assigns `Overflow = false`. -/
theorem L_add_c_clears_overflow :
    ({ Overflow := true, Carry := 0 } : Status).Overflow = true ∧
    (L_add_c 1 1 { Overflow := true, Carry := 0 }).2.Overflow = false := by
  decide

/-- C19 (amended): the saturating primitives that have the globals in reach set
`Overflow` whenever they clamp. For `saturate`, `add`, `sub`, `shl` (count `≥ 0`),
`L_add`, `L_sub`, `L_shl` (count `> 0`), `L_mult` and `mult_r` on in-range
operands: if the returned value differs from the exact mathematical result,
`Overflow` is true afterwards. The inline `negate`, `abs_s`, `L_negate` and `L_abs`
have no access to the globals: a call leaves the status as it was. -/
theorem clamp_sets_overflow (v1 v2 a b n : Int) (s : Status) (h1 : isInt16 v1)
    (h2 : isInt16 v2) (ha : isInt32 a) (hb : isInt32 b) :
    ((saturate a s).1 ≠ a → (saturate a s).2.Overflow = true) ∧
    ((add v1 v2 s).1 ≠ v1 + v2 → (add v1 v2 s).2.Overflow = true) ∧
    ((sub v1 v2 s).1 ≠ v1 - v2 → (sub v1 v2 s).2.Overflow = true) ∧
    (0 ≤ n → (shl v1 n s).1 ≠ v1 * 2 ^ n.toNat → (shl v1 n s).2.Overflow = true) ∧
    ((L_add a b s).1 ≠ a + b → (L_add a b s).2.Overflow = true) ∧
    ((L_sub a b s).1 ≠ a - b → (L_sub a b s).2.Overflow = true) ∧
    (0 < n → (L_shl a n s).1 ≠ a * 2 ^ n.toNat → (L_shl a n s).2.Overflow = true) ∧
    ((L_mult v1 v2 s).1 ≠ 2 * v1 * v2 → (L_mult v1 v2 s).2.Overflow = true) ∧
    ((mult_r v1 v2 s).1 ≠ (v1 * v2 + 16384) / 2 ^ 15 →
      (mult_r v1 v2 s).2.Overflow = true) ∧
    call_pure (negate v1) s = (negate v1, s) ∧ call_pure (abs_s v1) s = (abs_s v1, s) ∧
    call_pure (L_negate a) s = (L_negate a, s) ∧ call_pure (L_abs a) s = (L_abs a, s) := by
  have hw1 : wrap32 (v1 + v2) = v1 + v2 := by
    unfold isInt16 at h1 h2
    unfold wrap32
    omega
  have hw2 : wrap32 (v1 - v2) = v1 - v2 := by
    unfold isInt16 at h1 h2
    unfold wrap32
    omega
  refine ⟨?_, ?_, ?_, ?_, ?_, ?_, ?_, ?_, ?_, rfl, rfl, rfl, rfl⟩
  · exact clamp_pair_sets (saturate_pair a s) clamp16_of_isInt16
  · unfold add
    rw [hw1]
    exact clamp_pair_sets (saturate_pair _ s) clamp16_of_isInt16
  · unfold sub
    rw [hw2]
    exact clamp_pair_sets (saturate_pair _ s) clamp16_of_isInt16
  · intro h0
    exact clamp_pair_sets (shl_nonneg_pair h1 h0 s) clamp16_of_isInt16
  · exact clamp_pair_sets (L_add_pair ha hb s) clamp32_of_isInt32
  · exact clamp_pair_sets (L_sub_pair ha hb s) clamp32_of_isInt32
  · intro h0
    exact clamp_pair_sets (L_shl_pos_pair ha h0 s) clamp32_of_isInt32
  · by_cases hne : v1 = -32768 ∧ v2 = -32768
    · obtain ⟨rfl, rfl⟩ := hne
      rw [L_mult_min]
      intro _
      rfl
    · rw [L_mult_of_ne h1 h2 hne]
      intro h
      exact absurd rfl h
  · obtain ⟨hlo, hhi⟩ := mult_r_shifted_range h1 h2
    unfold mult_r
    rw [mult_r_sign_extend_eq hlo hhi, mult_r_shifted_eq h1 h2]
    exact clamp_pair_sets (saturate_pair _ s) clamp16_of_isInt16

theorem clamp_sets_overflow_witness :
    ((saturate 40000 Status.init).1 ≠ 40000 → (saturate 40000 Status.init).2.Overflow = true) ∧
    ((add 30000 30000 Status.init).1 ≠ 30000 + 30000 →
      (add 30000 30000 Status.init).2.Overflow = true) ∧
    ((sub 30000 30000 Status.init).1 ≠ 30000 - 30000 →
      (sub 30000 30000 Status.init).2.Overflow = true) ∧
    ((0 : Int) ≤ 2 → (shl 30000 2 Status.init).1 ≠ 30000 * 2 ^ (2 : Int).toNat →
      (shl 30000 2 Status.init).2.Overflow = true) ∧
    ((L_add 40000 2147483647 Status.init).1 ≠ 40000 + 2147483647 →
      (L_add 40000 2147483647 Status.init).2.Overflow = true) ∧
    ((L_sub 40000 2147483647 Status.init).1 ≠ 40000 - 2147483647 →
      (L_sub 40000 2147483647 Status.init).2.Overflow = true) ∧
    ((0 : Int) < 2 → (L_shl 40000 2 Status.init).1 ≠ 40000 * 2 ^ (2 : Int).toNat →
      (L_shl 40000 2 Status.init).2.Overflow = true) ∧
    ((L_mult 30000 30000 Status.init).1 ≠ 2 * 30000 * 30000 →
      (L_mult 30000 30000 Status.init).2.Overflow = true) ∧
    ((mult_r 30000 30000 Status.init).1 ≠ (30000 * 30000 + 16384) / 2 ^ 15 →
      (mult_r 30000 30000 Status.init).2.Overflow = true) ∧
    call_pure (negate 30000) Status.init = (negate 30000, Status.init) ∧
    call_pure (abs_s 30000) Status.init = (abs_s 30000, Status.init) ∧
    call_pure (L_negate 40000) Status.init = (L_negate 40000, Status.init) ∧
    call_pure (L_abs 40000) Status.init = (L_abs 40000, Status.init) :=
  clamp_sets_overflow 30000 30000 40000 2147483647 2 Status.init (by decide) (by decide)
    (by decide) (by decide)

/-- C19 (as stated) fails for the primitives that clamp without access to the
globals: `negate (-32768)` returns `32767`, not the exact `32768`, and `Overflow`
is still false after the call; likewise `mult (-32768) (-32768)` returns `32767`
where the exact scaled product is `32768`. -/
theorem negate_clamps_without_overflow :
    negate (-32768) = 32767 ∧ negate (-32768) ≠ -(-32768) ∧
    (call_pure (negate (-32768)) Status.init).2.Overflow = false ∧
    mult (-32768) (-32768) = 32767 ∧ mult (-32768) (-32768) ≠ (-32768 * -32768) / 2 ^ 15 ∧
    (call_pure (mult (-32768) (-32768)) Status.init).2.Overflow = false := by
  decide

/-- C20: first-order direct-form-I step. Whenever `convol` returns the accumulator
`acc`, the object `f'` and the status `t`: `acc` is
`L_mac (L_mac (L_mult (round_fx fb0) a1) ff0 b1) x b0` (the four calls chained
through the status); if `Overflow` is false before and after, i.e. no step
saturated, `acc = 2 * (a1 * round_fx fb0 + b1 * ff0 + b0 * x)`; afterwards
`ff0 = x` and `fb0 = acc` with the coefficients unchanged; the 32-bit filter emits
`acc` and the 16-bit filter emits `round_fx acc` for the same state and input. -/
theorem convol_first_order (f : IIR1DirectFormI) (x : Int) (s : Status) (acc : Int)
    (f' : IIR1DirectFormI) (t : Status) (hff : isInt16 f.ff0) (hb0 : isInt16 f.b0)
    (hb1 : isInt16 f.b1) (ha1 : isInt16 f.a1) (hx : isInt16 x)
    (h : f.convol x s = (acc, f', t)) :
    (∃ rv rs m0 s0 m1 s1, round_fx f.fb0 s = (rv, rs) ∧ L_mult rv f.a1 rs = (m0, s0) ∧
      L_mac m0 f.ff0 f.b1 s0 = (m1, s1) ∧ L_mac m1 x f.b0 s1 = (acc, t) ∧
      (s.Overflow = false → t.Overflow = false →
        acc = 2 * (f.a1 * rv + f.b1 * f.ff0 + f.b0 * x))) ∧
    f' = { f with ff0 := x, fb0 := acc } ∧
    f.filter_q31 [x] s = ([acc], f', t) ∧
    (∀ o u, round_fx acc t = (o, u) → f.filter_q15 [x] s = ([o], f', u)) := by
  rcases hr : round_fx f.fb0 s with ⟨rv, rs⟩
  rcases h0 : L_mult rv f.a1 rs with ⟨m0, s0⟩
  rcases h1 : L_mac m0 f.ff0 f.b1 s0 with ⟨m1, s1⟩
  rcases h2 : L_mac m1 x f.b0 s1 with ⟨m2, s2⟩
  have hc := convol_of f x s hr h0 h1 h2
  rw [hc] at h
  obtain ⟨hacc, hrest⟩ := Prod.mk.inj h
  obtain ⟨hf', ht⟩ := Prod.mk.inj hrest
  subst hacc
  subst ht
  obtain ⟨hrv, -⟩ := round_fx_spec hr
  obtain ⟨hm0, -, he0⟩ := L_mult_spec hrv ha1 h0
  obtain ⟨hm1, hs01, he1⟩ := L_mac_spec hm0 hff hb1 h1
  obtain ⟨-, hs12, he2⟩ := L_mac_spec hm1 hx hb0 h2
  refine ⟨⟨rv, rs, m0, s0, m1, s1, rfl, h0, h1, h2, ?_⟩, hf'.symm, ?_, ?_⟩
  · intro _ hf
    have hs1 : s1.Overflow = false := by
      by_contra hne
      have := overflowOnly_sticky hs12 (by simpa using hne)
      rw [hf] at this
      exact Bool.noConfusion this
    have hs0 : s0.Overflow = false := by
      by_contra hne
      have := overflowOnly_sticky hs01 (by simpa using hne)
      rw [hs1] at this
      exact Bool.noConfusion this
    rw [he2 hf, he1 hs1, he0 hs0]
    ring
  · rw [IIR1DirectFormI.filter_q31, hc]
    dsimp only
    rw [IIR1DirectFormI.filter_q31, hf']
  · intro o u ho
    rw [IIR1DirectFormI.filter_q15, hc]
    dsimp only
    rw [ho]
    dsimp only
    rw [IIR1DirectFormI.filter_q15, hf']

theorem convol_first_order_witness :
    (∃ rv rs m0 s0 m1 s1,
      round_fx (IIR1DirectFormI.mk 16384 100 200 3 65536).fb0 Status.init = (rv, rs) ∧
      L_mult rv (IIR1DirectFormI.mk 16384 100 200 3 65536).a1 rs = (m0, s0) ∧
      L_mac m0 (IIR1DirectFormI.mk 16384 100 200 3 65536).ff0
        (IIR1DirectFormI.mk 16384 100 200 3 65536).b1 s0 = (m1, s1) ∧
      L_mac m1 1000 (IIR1DirectFormI.mk 16384 100 200 3 65536).b0 s1 =
        (32769000, Status.init) ∧
      (Status.init.Overflow = false → Status.init.Overflow = false →
        (32769000 : Int) = 2 * ((IIR1DirectFormI.mk 16384 100 200 3 65536).a1 * rv +
          (IIR1DirectFormI.mk 16384 100 200 3 65536).b1 *
            (IIR1DirectFormI.mk 16384 100 200 3 65536).ff0 +
          (IIR1DirectFormI.mk 16384 100 200 3 65536).b0 * 1000))) ∧
    IIR1DirectFormI.mk 16384 100 200 1000 32769000 =
      { IIR1DirectFormI.mk 16384 100 200 3 65536 with ff0 := 1000, fb0 := 32769000 } ∧
    (IIR1DirectFormI.mk 16384 100 200 3 65536).filter_q31 [1000] Status.init =
      ([32769000], IIR1DirectFormI.mk 16384 100 200 1000 32769000, Status.init) ∧
    (∀ o u, round_fx 32769000 Status.init = (o, u) →
      (IIR1DirectFormI.mk 16384 100 200 3 65536).filter_q15 [1000] Status.init =
        ([o], IIR1DirectFormI.mk 16384 100 200 1000 32769000, u)) :=
  convol_first_order (IIR1DirectFormI.mk 16384 100 200 3 65536) 1000 Status.init 32769000
    (IIR1DirectFormI.mk 16384 100 200 1000 32769000) Status.init
    (by decide) (by decide) (by decide) (by decide) (by decide) (by decide)

/-- C21: for 16-bit coefficients, feed-forward taps and input and 32-bit feedback
accumulators, `IIR2DirectFormI.convol` returns the saturating sum, taken in the
order `a2`, `a1`, `b2`, `b1`, `b0`, of the five terms `clamp32 (4 * coef * tap)`
with taps `round_fx fb1`, `round_fx fb0`, `ff1`, `ff0`, `x`; afterwards
`ff1` is the old `ff0`, `ff0 = x`, `fb1` is the old `fb0`, `fb0` is the returned
accumulator, and the coefficients are unchanged. -/
theorem convol_second_order (f : IIR2DirectFormI) (x : Int) (s : Status)
    (hb0 : isInt16 f.b0) (hb1 : isInt16 f.b1) (hb2 : isInt16 f.b2) (ha1 : isInt16 f.a1)
    (ha2 : isInt16 f.a2) (hff0 : isInt16 f.ff0) (hff1 : isInt16 f.ff1)
    (hfb0 : isInt32 f.fb0) (hfb1 : isInt32 f.fb1) (hx : isInt16 x) :
    ∃ acc t,
      acc = clamp32 (clamp32 (clamp32 (clamp32
          (clamp32 (4 * min 32767 ((f.fb1 + 32768) / 65536) * f.a2) +
            clamp32 (4 * min 32767 ((f.fb0 + 32768) / 65536) * f.a1)) +
          clamp32 (4 * f.ff1 * f.b2)) +
          clamp32 (4 * f.ff0 * f.b1)) +
          clamp32 (4 * x * f.b0)) ∧
      f.convol x s =
        (acc, { f with ff1 := f.ff0, ff0 := x, fb1 := f.fb0, fb0 := acc }, t) := by
  rcases hr1 : round_fx f.fb1 s with ⟨r1, sr1⟩
  obtain ⟨hr1i, -⟩ := round_fx_spec hr1
  obtain ⟨m1, sm1, st1, hm1, ht1, -⟩ := shl_mult_term hr1i ha2 sr1
  rcases hr0 : round_fx f.fb0 st1 with ⟨r0, sr0⟩
  obtain ⟨hr0i, -⟩ := round_fx_spec hr0
  obtain ⟨m0, sm0, st0, hm0, ht0, -⟩ := shl_mult_term hr0i ha1 sr0
  rcases hA0 : L_add (clamp32 (4 * r1 * f.a2)) (clamp32 (4 * r0 * f.a1)) st0 with ⟨a0, sa0⟩
  obtain ⟨m2, sm2, st2, hm2, ht2, -⟩ := shl_mult_term hff1 hb2 sa0
  rcases hA2 : L_add a0 (clamp32 (4 * f.ff1 * f.b2)) st2 with ⟨a2, sa2⟩
  obtain ⟨m3, sm3, st3, hm3, ht3, -⟩ := shl_mult_term hff0 hb1 sa2
  rcases hA3 : L_add a2 (clamp32 (4 * f.ff0 * f.b1)) st3 with ⟨a3, sa3⟩
  obtain ⟨m4, sm4, st4, hm4, ht4, -⟩ := shl_mult_term hx hb0 sa3
  rcases hA4 : L_add a3 (clamp32 (4 * x * f.b0)) st4 with ⟨a4, sa4⟩
  have hc := convol2_of f x s hr1 hm1 ht1 hr0 hm0 ht0 hA0 hm2 ht2 hA2 hm3 ht3 hA3 hm4 ht4 hA4
  have e0 := L_add_value (isInt32_clamp32 _) (isInt32_clamp32 _) hA0
  have e2 := L_add_value (e0 ▸ isInt32_clamp32 _) (isInt32_clamp32 _) hA2
  have e3 := L_add_value (e2 ▸ isInt32_clamp32 _) (isInt32_clamp32 _) hA3
  have e4 := L_add_value (e3 ▸ isInt32_clamp32 _) (isInt32_clamp32 _) hA4
  refine ⟨a4, sa4, ?_, hc⟩
  rw [e4, e3, e2, e0, round_fx_value hfb1 hr1, round_fx_value hfb0 hr0]

theorem convol_second_order_witness :
    ∃ acc t,
      acc = clamp32 (clamp32 (clamp32 (clamp32
          (clamp32 (4 * min 32767 (((IIR2DirectFormI.mk (IIR1DirectFormI.mk 8192 100 (-200) 3 65536) 50 (-32768) 7 (-2147483648)).fb1 + 32768) / 65536) *
              (IIR2DirectFormI.mk (IIR1DirectFormI.mk 8192 100 (-200) 3 65536) 50 (-32768) 7 (-2147483648)).a2) +
            clamp32 (4 * min 32767 (((IIR2DirectFormI.mk (IIR1DirectFormI.mk 8192 100 (-200) 3 65536) 50 (-32768) 7 (-2147483648)).fb0 + 32768) / 65536) *
              (IIR2DirectFormI.mk (IIR1DirectFormI.mk 8192 100 (-200) 3 65536) 50 (-32768) 7 (-2147483648)).a1)) +
          clamp32 (4 * (IIR2DirectFormI.mk (IIR1DirectFormI.mk 8192 100 (-200) 3 65536) 50 (-32768) 7 (-2147483648)).ff1 *
            (IIR2DirectFormI.mk (IIR1DirectFormI.mk 8192 100 (-200) 3 65536) 50 (-32768) 7 (-2147483648)).b2)) +
          clamp32 (4 * (IIR2DirectFormI.mk (IIR1DirectFormI.mk 8192 100 (-200) 3 65536) 50 (-32768) 7 (-2147483648)).ff0 *
            (IIR2DirectFormI.mk (IIR1DirectFormI.mk 8192 100 (-200) 3 65536) 50 (-32768) 7 (-2147483648)).b1)) +
          clamp32 (4 * 1000 * (IIR2DirectFormI.mk (IIR1DirectFormI.mk 8192 100 (-200) 3 65536) 50 (-32768) 7 (-2147483648)).b0)) ∧
      (IIR2DirectFormI.mk (IIR1DirectFormI.mk 8192 100 (-200) 3 65536) 50 (-32768) 7 (-2147483648)).convol 1000 Status.init =
        (acc, { IIR2DirectFormI.mk (IIR1DirectFormI.mk 8192 100 (-200) 3 65536) 50 (-32768) 7 (-2147483648) with
          ff1 := (IIR2DirectFormI.mk (IIR1DirectFormI.mk 8192 100 (-200) 3 65536) 50 (-32768) 7 (-2147483648)).ff0,
          ff0 := 1000,
          fb1 := (IIR2DirectFormI.mk (IIR1DirectFormI.mk 8192 100 (-200) 3 65536) 50 (-32768) 7 (-2147483648)).fb0,
          fb0 := acc }, t) :=
  convol_second_order (IIR2DirectFormI.mk (IIR1DirectFormI.mk 8192 100 (-200) 3 65536) 50 (-32768) 7 (-2147483648))
    1000 Status.init (by decide) (by decide) (by decide) (by decide) (by decide) (by decide)
    (by decide) (by decide) (by decide) (by decide)

/-- C22: for a first-order object `f1` and a second-order object `f2`, and for
both output widths, filtering `A` and then `B` gives the outputs and the final
object and status of one call on `A ++ B`; a call whose count `num` is not
positive reads no sample, writes no output and returns the object (coefficients
and delay line) as it was; after a call on any buffer the coefficients are those
before the call. The delay line is advanced once per sample: a call on `x :: B`
is one call of `convol` on `x`, which stores `x` in `ff0` and the accumulator in
`fb0` (second order: after moving `ff0` to `ff1` and `fb0` to `fb1`), followed by
the call on `B` with the advanced object; every call writes one output per
sample; after a buffer ending with `x` (second order: with `x`, `y`) the object
holds these samples in `ff0` (`ff1`, `ff0`) and, for the 32-bit output, the last
output (the last two outputs) in `fb0` (`fb1`, `fb0`). -/
theorem filter_state_persists (f1 : IIR1DirectFormI) (f2 : IIR2DirectFormI)
    (A B : List Int) (input : Nat → Int) (num : Int) (s : Status) (x y : Int) :
    (f1.filter_q15 (A ++ B) s =
        ((f1.filter_q15 A s).1 ++
            ((f1.filter_q15 A s).2.1.filter_q15 B (f1.filter_q15 A s).2.2).1,
          ((f1.filter_q15 A s).2.1.filter_q15 B (f1.filter_q15 A s).2.2).2) ∧
      f1.filter_q31 (A ++ B) s =
        ((f1.filter_q31 A s).1 ++
            ((f1.filter_q31 A s).2.1.filter_q31 B (f1.filter_q31 A s).2.2).1,
          ((f1.filter_q31 A s).2.1.filter_q31 B (f1.filter_q31 A s).2.2).2) ∧
      f2.filter_q15 (A ++ B) s =
        ((f2.filter_q15 A s).1 ++
            ((f2.filter_q15 A s).2.1.filter_q15 B (f2.filter_q15 A s).2.2).1,
          ((f2.filter_q15 A s).2.1.filter_q15 B (f2.filter_q15 A s).2.2).2) ∧
      f2.filter_q31 (A ++ B) s =
        ((f2.filter_q31 A s).1 ++
            ((f2.filter_q31 A s).2.1.filter_q31 B (f2.filter_q31 A s).2.2).1,
          ((f2.filter_q31 A s).2.1.filter_q31 B (f2.filter_q31 A s).2.2).2)) ∧
    (num ≤ 0 →
      f1.filter_q15 (filter_input input num) s = ([], f1, s) ∧
      f1.filter_q31 (filter_input input num) s = ([], f1, s) ∧
      f2.filter_q15 (filter_input input num) s = ([], f2, s) ∧
      f2.filter_q31 (filter_input input num) s = ([], f2, s)) ∧
    ((f1.filter_q15 A s).2.1.b0 = f1.b0 ∧ (f1.filter_q15 A s).2.1.b1 = f1.b1 ∧
        (f1.filter_q15 A s).2.1.a1 = f1.a1) ∧
    ((f1.filter_q31 A s).2.1.b0 = f1.b0 ∧ (f1.filter_q31 A s).2.1.b1 = f1.b1 ∧
        (f1.filter_q31 A s).2.1.a1 = f1.a1) ∧
    ((f2.filter_q15 A s).2.1.b0 = f2.b0 ∧ (f2.filter_q15 A s).2.1.b1 = f2.b1 ∧
        (f2.filter_q15 A s).2.1.b2 = f2.b2 ∧ (f2.filter_q15 A s).2.1.a1 = f2.a1 ∧
        (f2.filter_q15 A s).2.1.a2 = f2.a2) ∧
    ((f2.filter_q31 A s).2.1.b0 = f2.b0 ∧ (f2.filter_q31 A s).2.1.b1 = f2.b1 ∧
        (f2.filter_q31 A s).2.1.b2 = f2.b2 ∧ (f2.filter_q31 A s).2.1.a1 = f2.a1 ∧
        (f2.filter_q31 A s).2.1.a2 = f2.a2) ∧
    (∃ acc t o u, f1.convol x s = (acc, { f1 with ff0 := x, fb0 := acc }, t) ∧
      round_fx acc t = (o, u) ∧
      f1.filter_q15 (x :: B) s =
        (o :: (IIR1DirectFormI.filter_q15 { f1 with ff0 := x, fb0 := acc } B u).1,
          (IIR1DirectFormI.filter_q15 { f1 with ff0 := x, fb0 := acc } B u).2) ∧
      f1.filter_q31 (x :: B) s =
        (acc :: (IIR1DirectFormI.filter_q31 { f1 with ff0 := x, fb0 := acc } B t).1,
          (IIR1DirectFormI.filter_q31 { f1 with ff0 := x, fb0 := acc } B t).2)) ∧
    (∃ acc t o u,
      f2.convol x s =
        (acc, { f2 with ff1 := f2.ff0, ff0 := x, fb1 := f2.fb0, fb0 := acc }, t) ∧
      round_fx acc t = (o, u) ∧
      f2.filter_q15 (x :: B) s =
        (o :: (IIR2DirectFormI.filter_q15
            { f2 with ff1 := f2.ff0, ff0 := x, fb1 := f2.fb0, fb0 := acc } B u).1,
          (IIR2DirectFormI.filter_q15
            { f2 with ff1 := f2.ff0, ff0 := x, fb1 := f2.fb0, fb0 := acc } B u).2) ∧
      f2.filter_q31 (x :: B) s =
        (acc :: (IIR2DirectFormI.filter_q31
            { f2 with ff1 := f2.ff0, ff0 := x, fb1 := f2.fb0, fb0 := acc } B t).1,
          (IIR2DirectFormI.filter_q31
            { f2 with ff1 := f2.ff0, ff0 := x, fb1 := f2.fb0, fb0 := acc } B t).2)) ∧
    ((f1.filter_q15 A s).1.length = A.length ∧ (f1.filter_q31 A s).1.length = A.length) ∧
    ((f2.filter_q15 A s).1.length = A.length ∧ (f2.filter_q31 A s).1.length = A.length) ∧
    ((f1.filter_q15 (A ++ [x]) s).2.1.ff0 = x ∧ (f1.filter_q31 (A ++ [x]) s).2.1.ff0 = x ∧
      (f1.filter_q31 (A ++ [x]) s).1.getLast? =
        some (f1.filter_q31 (A ++ [x]) s).2.1.fb0) ∧
    (((f2.filter_q15 (A ++ [x, y]) s).2.1.ff0 = y ∧
        (f2.filter_q15 (A ++ [x, y]) s).2.1.ff1 = x) ∧
      ((f2.filter_q31 (A ++ [x, y]) s).2.1.ff0 = y ∧
        (f2.filter_q31 (A ++ [x, y]) s).2.1.ff1 = x) ∧
      ∃ os, (f2.filter_q31 (A ++ [x, y]) s).1 =
        os ++ [(f2.filter_q31 (A ++ [x, y]) s).2.1.fb1,
          (f2.filter_q31 (A ++ [x, y]) s).2.1.fb0]) := by
  refine ⟨⟨filter1_q15_append A B f1 s, filter1_q31_append A B f1 s,
    filter2_q15_append A B f2 s, filter2_q31_append A B f2 s⟩, ?_,
    filter1_q15_coeffs A f1 s, filter1_q31_coeffs A f1 s, filter2_q15_coeffs A f2 s,
    filter2_q31_coeffs A f2 s, filter1_cons f1 x B s, filter2_cons f2 x B s,
    filter1_length A f1 s, filter2_length A f2 s, filter1_last A x f1 s,
    filter2_last A x y f2 s⟩
  intro h
  rw [filter_input_nonpos input h]
  exact ⟨rfl, rfl, rfl, rfl⟩

theorem filter_state_persists_witness :
    ((IIR1DirectFormI.mk 16384 100 200 3 65536).filter_q15
        (filter_input (fun i => 100 * (i : Int)) (-3)) Status.init =
      ([], IIR1DirectFormI.mk 16384 100 200 3 65536, Status.init) ∧
    (IIR1DirectFormI.mk 16384 100 200 3 65536).filter_q31
        (filter_input (fun i => 100 * (i : Int)) (-3)) Status.init =
      ([], IIR1DirectFormI.mk 16384 100 200 3 65536, Status.init) ∧
    (IIR2DirectFormI.mk (IIR1DirectFormI.mk 8192 100 (-200) 3 65536) 50 (-300) 7
        131072).filter_q15 (filter_input (fun i => 100 * (i : Int)) (-3)) Status.init =
      ([], IIR2DirectFormI.mk (IIR1DirectFormI.mk 8192 100 (-200) 3 65536) 50 (-300) 7
        131072, Status.init) ∧
    (IIR2DirectFormI.mk (IIR1DirectFormI.mk 8192 100 (-200) 3 65536) 50 (-300) 7
        131072).filter_q31 (filter_input (fun i => 100 * (i : Int)) (-3)) Status.init =
      ([], IIR2DirectFormI.mk (IIR1DirectFormI.mk 8192 100 (-200) 3 65536) 50 (-300) 7
        131072, Status.init)) ∧
    ((IIR1DirectFormI.mk 16384 100 200 3 65536).filter_q15 ([1, 2] ++ [40]) Status.init).2.1.ff0 =
      40 ∧
    ((IIR2DirectFormI.mk (IIR1DirectFormI.mk 8192 100 (-200) 3 65536) 50 (-300) 7
        131072).filter_q15 ([1, 2] ++ [40, 50]) Status.init).2.1.ff1 = 40 :=
  ⟨(filter_state_persists (IIR1DirectFormI.mk 16384 100 200 3 65536)
      (IIR2DirectFormI.mk (IIR1DirectFormI.mk 8192 100 (-200) 3 65536) 50 (-300) 7 131072)
      [1, 2] [3] (fun i => 100 * (i : Int)) (-3) Status.init 40 50).2.1 (by decide),
    (filter_state_persists (IIR1DirectFormI.mk 16384 100 200 3 65536)
      (IIR2DirectFormI.mk (IIR1DirectFormI.mk 8192 100 (-200) 3 65536) 50 (-300) 7 131072)
      [1, 2] [3] (fun i => 100 * (i : Int)) (-3) Status.init 40 50).2.2.2.2.2.2.2.2.2.2.1.1,
    (filter_state_persists (IIR1DirectFormI.mk 16384 100 200 3 65536)
      (IIR2DirectFormI.mk (IIR1DirectFormI.mk 8192 100 (-200) 3 65536) 50 (-300) 7 131072)
      [1, 2] [3] (fun i => 100 * (i : Int)) (-3) Status.init 40 50).2.2.2.2.2.2.2.2.2.2.2.1.2⟩

/-- C23: in the source, `IIRFilter2::setFreq` with `FILTER_TYPE_BEF` does not
complete: for every object, prewarped frequency, sample rate and `Q` the call
ends in the failing `assert(false)` of the `default` label with the coefficients
as they were, because the `FILTER_TYPE_BEF` case has no `break`. -/
theorem setFreq_bef_reaches_assert (f : IIR2DirectFormI) (wp fs Q : ℚ) :
    IIRFilter2.setFreq f wp fs FILTER_TYPE_BEF Q = Except.error f :=
  setFreq2_of_none f wp fs Q
    ((numa2_eq_none_iff wp Q FILTER_TYPE_BEF).mpr ⟨by decide, by decide, by decide⟩)

/-- C24: `IIRFilter1.setFreq` ends in the failing `assert` exactly when the type
is neither `FILTER_TYPE_LPF` nor `FILTER_TYPE_HPF`, and completes otherwise;
`IIRFilter2.setFreq` completes for `FILTER_TYPE_LPF`, `FILTER_TYPE_BPF` and
`FILTER_TYPE_HPF`, and ends in the failing `assert` for `FILTER_TYPE_APF` and for
every selector that is not a case label of its `switch`; where the `assert`
fails the object still has the coefficients it had before the call. -/
theorem setFreq_fails_fast (f1 : IIR1DirectFormI) (f2 : IIR2DirectFormI) (wp fs Q : ℚ)
    (type : Int) :
    (IIRFilter1.setFreq f1 wp fs type = Except.error f1 ↔
      (type ≠ FILTER_TYPE_LPF ∧ type ≠ FILTER_TYPE_HPF)) ∧
    ((∃ g, IIRFilter1.setFreq f1 wp fs type = Except.ok g) ↔
      (type = FILTER_TYPE_LPF ∨ type = FILTER_TYPE_HPF)) ∧
    ((type = FILTER_TYPE_LPF ∨ type = FILTER_TYPE_BPF ∨ type = FILTER_TYPE_HPF) →
      ∃ g, IIRFilter2.setFreq f2 wp fs type Q = Except.ok g) ∧
    IIRFilter2.setFreq f2 wp fs FILTER_TYPE_APF Q = Except.error f2 ∧
    (type ≠ FILTER_TYPE_LPF → type ≠ FILTER_TYPE_BPF → type ≠ FILTER_TYPE_HPF →
      type ≠ FILTER_TYPE_BEF → IIRFilter2.setFreq f2 wp fs type Q = Except.error f2) := by
  have key1 : ∀ t : Int, (type ≠ FILTER_TYPE_LPF ∧ type ≠ FILTER_TYPE_HPF) ∨
      (type = FILTER_TYPE_LPF ∨ type = FILTER_TYPE_HPF) := by
    intro _
    by_cases h0 : type = FILTER_TYPE_LPF
    · exact Or.inr (Or.inl h0)
    · by_cases h1 : type = FILTER_TYPE_HPF
      · exact Or.inr (Or.inr h1)
      · exact Or.inl ⟨h0, h1⟩
  refine ⟨?_, ?_, ?_, ?_, ?_⟩
  · constructor
    · intro h
      by_contra hn
      rcases hs : IIRFilter1.numa wp type with _ | numa
      · exact hn ((numa1_eq_none_iff wp type).mp hs)
      · obtain ⟨g, hg⟩ := setFreq1_of_some f1 wp fs hs
        rw [hg] at h
        exact Except.noConfusion h
    · intro h
      exact setFreq1_of_none f1 wp fs ((numa1_eq_none_iff wp type).mpr h)
  · constructor
    · rintro ⟨g, hg⟩
      rcases key1 0 with h | h
      · rw [setFreq1_of_none f1 wp fs ((numa1_eq_none_iff wp type).mpr h)] at hg
        exact Except.noConfusion hg
      · exact h
    · intro h
      rcases hs : IIRFilter1.numa wp type with _ | numa
      · obtain ⟨a, b⟩ := (numa1_eq_none_iff wp type).mp hs
        rcases h with h | h
        · exact absurd h a
        · exact absurd h b
      · exact setFreq1_of_some f1 wp fs hs
  · intro h
    rcases hs : IIRFilter2.numa wp Q type with _ | numa
    · obtain ⟨a, b, c⟩ := (numa2_eq_none_iff wp Q type).mp hs
      rcases h with h | h | h
      · exact absurd h a
      · exact absurd h b
      · exact absurd h c
    · exact setFreq2_of_some f2 wp fs Q hs
  · exact setFreq2_of_none f2 wp fs Q
      ((numa2_eq_none_iff wp Q FILTER_TYPE_APF).mpr ⟨by decide, by decide, by decide⟩)
  · intro a b c _
    exact setFreq2_of_none f2 wp fs Q ((numa2_eq_none_iff wp Q type).mpr ⟨a, b, c⟩)

theorem setFreq_fails_fast_witness :
    (∃ g, IIRFilter2.setFreq
        (IIR2DirectFormI.mk (IIR1DirectFormI.mk 32767 0 0 0 0) 0 0 0 0) 1000 8000
        FILTER_TYPE_BPF 4 = Except.ok g) ∧
    IIRFilter2.setFreq (IIR2DirectFormI.mk (IIR1DirectFormI.mk 32767 0 0 0 0) 0 0 0 0)
        1000 8000 NUMOF_FILTER_TYPE 4 =
      Except.error (IIR2DirectFormI.mk (IIR1DirectFormI.mk 32767 0 0 0 0) 0 0 0 0) :=
  ⟨(setFreq_fails_fast (IIR1DirectFormI.mk 32767 0 0 0 0)
      (IIR2DirectFormI.mk (IIR1DirectFormI.mk 32767 0 0 0 0) 0 0 0 0) 1000 8000 4
      FILTER_TYPE_BPF).2.2.1 (Or.inr (Or.inl rfl)),
    (setFreq_fails_fast (IIR1DirectFormI.mk 32767 0 0 0 0)
      (IIR2DirectFormI.mk (IIR1DirectFormI.mk 32767 0 0 0 0) 0 0 0 0) 1000 8000 4
      NUMOF_FILTER_TYPE).2.2.2.2 (by decide) (by decide) (by decide) (by decide)⟩

/-- C27: the value of `F2Qn fval qn` against `floor (fval * 2 ^ qn + 1 / 2)`. The
two agree whenever `1 + fval * 2 ^ (qn + 1)`, the value that is converted to
`long long`, is not negative. They differ for negative values: when
`m - 1 < fval * 2 ^ qn < m - 1 / 2` for an integer `m <= 0`, the conversion
truncates toward zero and `F2Qn` returns `m`, while round-half-up gives `m - 1`. -/
theorem F2Qn_truncates_toward_zero (fval : ℚ) (qn : Nat) (m : Int) :
    (0 ≤ 1 + 2 * (fval * 2 ^ qn) → F2Qn fval qn = ⌊fval * 2 ^ qn + 1 / 2⌋) ∧
    (m ≤ 0 → (m : ℚ) - 1 < fval * 2 ^ qn → fval * 2 ^ qn < (m : ℚ) - 1 / 2 →
      F2Qn fval qn = m ∧ ⌊fval * 2 ^ qn + 1 / 2⌋ = m - 1) :=
  ⟨fun h => F2Qn_of_nonneg h, fun hm h1 h2 => F2Qn_of_neg h1 h2 hm⟩

theorem F2Qn_truncates_toward_zero_witness :
    F2Qn (-3 / 4) 0 = 0 ∧ ⌊(-3 / 4 : ℚ) * 2 ^ 0 + 1 / 2⌋ = 0 - 1 :=
  (F2Qn_truncates_toward_zero (-3 / 4) 0 0).2 (by decide) (by norm_num) (by norm_num)

/-- C26: over exact arithmetic, let `n` be the coefficient count that `bilinear`
keeps, that is `1 <= n <= N`, every pair `numa[j]`, `dena[j]` with
`n <= j < N` is zero, and `n = 1` or one of `numa[n-1]`, `dena[n-1]` is not zero
(so `n = N` unless both top coefficients are zero). If the constant term of the
expansion of `dena` is not zero, then for `j < n` the outputs `numd[j]` and
`dend[j]` are the coefficients of `X ^ j` in
`sum_k a[k] * (2 * (1 - X)) ^ k * (T * (1 + X)) ^ (n - 1 - k)` for `a = numa` and
`a = dena`, each divided by that constant term, `dend[0] = 1`, and the outputs
at `n <= j < N` are zero. -/
theorem bilinear_expansion (numd dend numa dena : Nat → ℚ) (N n : Nat) (T : ℚ)
    (h1 : 1 ≤ n) (hN : n ≤ N) (hz : ∀ j, n ≤ j → j < N → numa j = 0 ∧ dena j = 0)
    (htop : n = 1 ∨ numa (n - 1) ≠ 0 ∨ dena (n - 1) ≠ 0)
    (hden : (∑ k in Finset.range n,
      Polynomial.C (dena k) * (Polynomial.C 2 * (1 - Polynomial.X)) ^ k * (Polynomial.C T * (1 + Polynomial.X)) ^ (n - 1 - k)).coeff 0 ≠ 0) :
    (∀ j, j < n →
      (bilinear numd dend numa dena N T).1 j =
          (∑ k in Finset.range n,
            Polynomial.C (numa k) * (Polynomial.C 2 * (1 - Polynomial.X)) ^ k * (Polynomial.C T * (1 + Polynomial.X)) ^ (n - 1 - k)).coeff j /
          (∑ k in Finset.range n,
            Polynomial.C (dena k) * (Polynomial.C 2 * (1 - Polynomial.X)) ^ k * (Polynomial.C T * (1 + Polynomial.X)) ^ (n - 1 - k)).coeff 0 ∧
        (bilinear numd dend numa dena N T).2 j =
          (∑ k in Finset.range n,
            Polynomial.C (dena k) * (Polynomial.C 2 * (1 - Polynomial.X)) ^ k * (Polynomial.C T * (1 + Polynomial.X)) ^ (n - 1 - k)).coeff j /
          (∑ k in Finset.range n,
            Polynomial.C (dena k) * (Polynomial.C 2 * (1 - Polynomial.X)) ^ k * (Polynomial.C T * (1 + Polynomial.X)) ^ (n - 1 - k)).coeff 0) ∧
    (bilinear numd dend numa dena N T).2 0 = 1 ∧
    (∀ j, n ≤ j → j < N →
      (bilinear numd dend numa dena N T).1 j = 0 ∧
        (bilinear numd dend numa dena N T).2 j = 0) :=
  bilinear_of_count numd dend numa dena N n T h1 hN hz htop hden

theorem bilinear_expansion_witness :
    (bilinear (arr []) (arr []) (arr [3, 0]) (arr [3, 1]) 2 (1 / 2)).2 0 = 1 :=
  (bilinear_expansion (arr []) (arr []) (arr [3, 0]) (arr [3, 1]) 2 2 (1 / 2) (by decide)
    (by decide) (fun j a b => absurd b (by omega)) (Or.inr (Or.inr (by norm_num [arr])))
    (by
      simp only [Finset.sum_range_succ, Finset.sum_range_zero, arr]
      norm_num [Polynomial.coeff_zero_eq_eval_zero])).2.1

/-- Against the reading of C26 in which the count is the argument `N`: for
`N = 2`, `numa = dena = [1, 0]` and `T = 1` the source drops the zero top pair and
returns `numd[1] = 0`, while the coefficient of `X` in the expansion for count 2,
divided by its constant term, is `1`. -/
theorem bilinear_drops_zero_top :
    (bilinear (arr []) (arr []) (arr [1, 0]) (arr [1, 0]) 2 1).1 1 = 0 ∧
    (∑ k in Finset.range 2,
        Polynomial.C (arr [1, 0] k) * (Polynomial.C 2 * (1 - Polynomial.X)) ^ k * (Polynomial.C (1 : ℚ) * (1 + Polynomial.X)) ^ (2 - 1 - k)).coeff 1 /
      (∑ k in Finset.range 2,
        Polynomial.C (arr [1, 0] k) * (Polynomial.C 2 * (1 - Polynomial.X)) ^ k * (Polynomial.C (1 : ℚ) * (1 + Polynomial.X)) ^ (2 - 1 - k)).coeff 0
      = 1 := by
  constructor
  · refine ((bilinear_of_count (arr []) (arr []) (arr [1, 0]) (arr [1, 0]) 2 1 1 (by decide)
      (by decide) ?_ (Or.inl rfl) ?_).2.2 1 (by decide) (by decide)).1
    · intro j a b
      have : j = 1 := by omega
      subst this
      norm_num [arr]
    · simp only [Finset.sum_range_succ, Finset.sum_range_zero, arr]
      norm_num [Polynomial.coeff_zero_eq_eval_zero]
  · simp only [Finset.sum_range_succ, Finset.sum_range_zero, arr]
    norm_num [Polynomial.coeff_zero_eq_eval_zero, Polynomial.coeff_one]

/-- C25 with the range of cutoff frequencies for which it holds, in `float`
arithmetic with any rounding `fl` that has the properties `FloatRounding`: when
the `float` product `w = fl (wp * T)` of the prewarped frequency and the sample
period satisfies `3/10 <= w <= 65536` (`w` is `2 * tan(pi * fc / fs)`, so this is
about `0.0474 * fs <= fc`, up to a hair below `fs / 2`), `IIRFilter1.setFreq` for
`FILTER_TYPE_LPF` completes with `b0 = b1`, the numerator `b0 + b1` of the DC gain
is the denominator `32768 - a1` plus `-1`, `0`, `1` or `2`, the denominator is at
least `8192` and at least `8192` times the distance of the two, and so the gain
is within `2 ^ (-13)` of `1`. -/
theorem lpf1_unity_dc_gain (fl : ℚ → ℚ) (f : IIR1DirectFormI) (wp T : ℚ)
    (hfl : FloatRounding fl) (hlo : 3 / 10 ≤ fl (wp * T)) (hhi : fl (wp * T) ≤ 65536) :
    ∃ g, IIRFilter1.setFreq_f32 fl f wp T FILTER_TYPE_LPF = Except.ok g ∧ g.b0 = g.b1 ∧
      -1 ≤ (g.b0 + g.b1) - (32768 - g.a1) ∧ (g.b0 + g.b1) - (32768 - g.a1) ≤ 2 ∧
      8192 ≤ 32768 - g.a1 ∧
      8192 * |(g.b0 + g.b1) - (32768 - g.a1)| ≤ 32768 - g.a1 ∧
      |((g.b0 : ℚ) + (g.b1 : ℚ)) / (32768 - (g.a1 : ℚ)) - 1| ≤ 1 / 2 ^ 13 :=
  setFreq1_f32_lpf_gain hfl f wp T hlo hhi

theorem lpf1_unity_dc_gain_witness :
    FloatRounding id ∧ 3 / 10 ≤ id ((15733801 / 4096 : ℚ) * (8589935 / 68719476736)) ∧
    id ((15733801 / 4096 : ℚ) * (8589935 / 68719476736)) ≤ 65536 ∧
    ∃ g, IIRFilter1.setFreq_f32 id (IIR1DirectFormI.mk 32767 0 0 0 0) (15733801 / 4096)
        (8589935 / 68719476736) FILTER_TYPE_LPF = Except.ok g ∧ g.b0 = g.b1 ∧
      -1 ≤ (g.b0 + g.b1) - (32768 - g.a1) ∧ (g.b0 + g.b1) - (32768 - g.a1) ≤ 2 ∧
      8192 ≤ 32768 - g.a1 ∧
      8192 * |(g.b0 + g.b1) - (32768 - g.a1)| ≤ 32768 - g.a1 ∧
      |((g.b0 : ℚ) + (g.b1 : ℚ)) / (32768 - (g.a1 : ℚ)) - 1| ≤ 1 / 2 ^ 13 :=
  ⟨floatRounding_id, by norm_num, by norm_num,
    lpf1_unity_dc_gain id (IIR1DirectFormI.mk 32767 0 0 0 0) (15733801 / 4096)
      (8589935 / 68719476736) floatRounding_id (by norm_num) (by norm_num)⟩

/-- Against C25 for low cutoff frequencies: with `T = 8589935 / 2 ^ 36` (the
`float` nearest to `1 / 8000`) and `wp = 9882601 / 2 ^ 19` (the `float` value of
the prewarped frequency for `fc = 3`), `IIRFilter1.setFreq` for
`FILTER_TYPE_LPF` gives `b0 = b1 = 39` and `a1 = 32691` for every rounding with
the properties `FloatRounding`, so the DC gain is `78 / 77`, further from `1`
than `2 ^ (-13)`. -/
theorem lpf1_gain_low_cutoff :
    (∀ fl : ℚ → ℚ, FloatRounding fl →
      IIRFilter1.setFreq_f32 fl (IIR1DirectFormI.mk 32767 0 0 0 0) (9882601 / 524288)
        (8589935 / 68719476736) FILTER_TYPE_LPF =
        Except.ok (IIR1DirectFormI.mk 39 39 32691 0 0)) ∧
    (1 : ℚ) / 2 ^ 13 <
      |(((39 : Int) : ℚ) + ((39 : Int) : ℚ)) / (32768 - ((32691 : Int) : ℚ)) - 1| := by
  constructor
  · intro fl h
    have hw : |(9882601 / 524288 : ℚ) * (8589935 / 68719476736)| ≤ 1 := by
      rw [abs_le]
      constructor <;> norm_num
    obtain ⟨p1, p2⟩ := floatRounding_err h hw (by norm_num)
    obtain ⟨hb, ha⟩ := lpf1_f32_low h (p := fl ((9882601 / 524288 : ℚ) *
      (8589935 / 68719476736))) (by norm_num at p1 ⊢; linarith) (by norm_num at p2 ⊢; linarith)
    rw [setFreq1_f32_lpf h, hb, ha]
    rfl
  · norm_num [abs_of_pos]

/-- C28: `Goertzel.getSquaredMagnitude` returns the same value, object and status
whatever values `Y0`, `Y1` the accumulators `y[0]`, `y[1]` hold before the call.
The value is the one obtained from the specified recursion `goertzelSpecBlock`
(both accumulators start at zero; for each of the `N` samples in order
`acc = L_sub (L_shl (L_mult (round_fx y0) coef) 1) y1`, `y1 = y0`,
`y0 = L_mac acc att sample`): `compute` leaves the accumulators `y0`, `y1` of that
recursion in the object, and the returned value is
`L_mac (L_mac (L_negate (L_shl (L_mult (mult r0 r1) coef) 1)) r1 r1) r0 r0` for
their rounded values `r0`, `r1`. -/
theorem goertzel_block_self_contained (g : Goertzel) (Y0 Y1 : Int) (input : Nat → Int)
    (s : Status) :
    Goertzel.getSquaredMagnitude { g with y0 := Y0, y1 := Y1 } input s =
      g.getSquaredMagnitude input s ∧
    ∃ y0 y1 t r0 s0 r1 s1 m sm sh ssh a1 sa1 a0 sa0,
      goertzelSpecBlock g.coef g.att ((List.range g.N.toNat).map input) s = (y0, y1, t) ∧
      Goertzel.compute { g with y0 := Y0, y1 := Y1 } input s =
        (Goertzel.mk g.N y0 y1 g.coef g.att, t) ∧
      round_fx y0 t = (r0, s0) ∧ round_fx y1 s0 = (r1, s1) ∧
      L_mult (wrap16 (mult r0 r1)) g.coef s1 = (m, sm) ∧ L_shl m 1 sm = (sh, ssh) ∧
      L_mac (L_negate sh) r1 r1 ssh = (a1, sa1) ∧ L_mac a1 r0 r0 sa1 = (a0, sa0) ∧
      Goertzel.getSquaredMagnitude { g with y0 := Y0, y1 := Y1 } input s =
        (a0, Goertzel.mk g.N y0 y1 g.coef g.att, sa0) := by
  refine ⟨?_, getSquaredMagnitude_refines g Y0 Y1 input s⟩
  unfold Goertzel.getSquaredMagnitude
  rw [compute_reset]

/-- C29: let `compute` leave the accumulators `Y0 = c.y0`, `Y1 = c.y1`, and let
`y0`, `y1` be the values returned by `round_fx` for them. If the coefficient is a
16-bit value and no later primitive saturates, that is `y0` and `y1` are not
`-32768` and, with `m = floor (y0 * y1 / 2 ^ 15)`, the values `4 * m * coef`,
`-(4 * m * coef)`, `-(4 * m * coef) + 2 * y1 ^ 2` and
`-(4 * m * coef) + 2 * y1 ^ 2 + 2 * y0 ^ 2` are 32-bit values, then
`getSquaredMagnitude` returns
`2 * y0 ^ 2 + 2 * y1 ^ 2 - 4 * coef * floor (y0 * y1 / 2 ^ 15)`. -/
theorem squared_magnitude_value (g : Goertzel) (input : Nat → Int) (s : Status)
    (c : Goertzel) (sc s0 s1 : Status) (y0 y1 : Int)
    (hc : g.compute input s = (c, sc)) (h0 : round_fx c.y0 sc = (y0, s0))
    (h1 : round_fx c.y1 s0 = (y1, s1)) (hcoef : isInt16 g.coef)
    (hy0 : y0 ≠ -32768) (hy1 : y1 ≠ -32768)
    (hsh : isInt32 (4 * (y0 * y1 / 2 ^ 15) * g.coef))
    (hneg : isInt32 (-(4 * (y0 * y1 / 2 ^ 15) * g.coef)))
    (hs1 : isInt32 (-(4 * (y0 * y1 / 2 ^ 15) * g.coef) + 2 * y1 ^ 2))
    (hs0 : isInt32 (-(4 * (y0 * y1 / 2 ^ 15) * g.coef) + 2 * y1 ^ 2 + 2 * y0 ^ 2)) :
    (g.getSquaredMagnitude input s).1 =
      2 * y0 ^ 2 + 2 * y1 ^ 2 - 4 * g.coef * (y0 * y1 / 2 ^ 15) := by
  obtain ⟨c', sc', hc', -, -, -, hcc, -⟩ := compute_inv g input s
  rw [hc] at hc'
  obtain ⟨e1, e2⟩ := Prod.mk.inj hc'
  subst e1
  subst e2
  obtain ⟨i0, -⟩ := round_fx_spec h0
  obtain ⟨i1, -⟩ := round_fx_spec h1
  have hp : (2 : Int) ^ 15 = 32768 := by norm_num
  rw [hp] at hsh hneg hs1 hs0 ⊢
  obtain ⟨em, im⟩ := mult_of_ne i0 i1 (fun h => hy0 h.1)
  rw [← hcc] at hcoef
  have hne : ¬ (mult y0 y1 = -32768 ∧ c.coef = -32768) := by
    rintro ⟨a, b⟩
    rw [← em, a, ← hcc, b] at hsh
    revert hsh
    decide
  have hM := L_mult_of_ne im hcoef hne s1
  have hMi : isInt32 (2 * mult y0 y1 * c.coef) := by
    have := L_mult_isInt32 im hcoef s1
    rw [hM] at this
    exact this
  have hS := L_shl_pos_pair hMi (show (0 : Int) < 15 - 14 by decide) s1
  have hq : (2 : Int) ^ (15 - 14 : Int).toNat = 2 := by decide
  have e4 : 2 * mult y0 y1 * c.coef * 2 = 4 * (y0 * y1 / 32768) * g.coef := by
    rw [em, hcc]
    ring
  rw [hq, e4, if_pos hsh, clamp32_of_isInt32 hsh] at hS
  have hN : L_negate (4 * (y0 * y1 / 32768) * g.coef) = -(4 * (y0 * y1 / 32768) * g.coef) := by
    rw [L_negate_eq hsh, clamp32_of_isInt32 hneg]
  have hA1 : L_mac (L_negate (4 * (y0 * y1 / 32768) * g.coef)) y1 y1 s1 =
      (-(4 * (y0 * y1 / 32768) * g.coef) + 2 * y1 * y1, s1) := by
    rw [hN]
    exact L_mac_exact hneg i1 i1 (fun h => hy1 h.1)
      (by rw [show 2 * y1 * y1 = 2 * y1 ^ 2 by ring]; exact hs1) s1
  have hA0 := L_mac_exact (a := -(4 * (y0 * y1 / 32768) * g.coef) + 2 * y1 * y1) (by
      rw [show 2 * y1 * y1 = 2 * y1 ^ 2 by ring]; exact hs1) i0 i0 (fun h => hy0 h.1)
    (by rw [show 2 * y1 * y1 = 2 * y1 ^ 2 by ring, show 2 * y0 * y0 = 2 * y0 ^ 2 by ring]
        exact hs0) s1
  have := getSquaredMagnitude_of g input s hc h0 h1
    (by rw [wrap16_of_isInt16 im]; exact hM) hS hA1 hA0
  rw [this]
  show -(4 * (y0 * y1 / 32768) * g.coef) + 2 * y1 * y1 + 2 * y0 * y0 = _
  ring

theorem squared_magnitude_value_witness :
    ((Goertzel.mk 2 7 (-9) 16384 16384).getSquaredMagnitude (fun _ => 20000) Status.init).1 =
      2 * 20000 ^ 2 + 2 * 10000 ^ 2 -
        4 * (Goertzel.mk 2 7 (-9) 16384 16384).coef * (20000 * 10000 / 2 ^ 15) :=
  squared_magnitude_value (Goertzel.mk 2 7 (-9) 16384 16384) (fun _ => 20000) Status.init
    (Goertzel.mk 2 1310720000 655360000 16384 16384) Status.init Status.init Status.init
    20000 10000 compute_example (by decide) (by decide) (by decide) (by decide) (by decide)
    (by decide) (by decide) (by decide) (by decide)

/-- C30: for a 16-bit input sample `x` and a 32-bit gain state, with
`g = floor (gain / 2 ^ 16)`, the output that `Agc.process` emits for `x` is
`floor ((x * g + 512) / 1024)` clamped to `[-32768, 32767]`, in every case,
including those where `L_mult`, `L_shl` or `round_fx` saturates. -/
theorem agc_output_rounded (a : Agc) (x : Int) (xs : List Int) (s : Status) (hx : isInt16 x)
    (hg : isInt32 a.gain) :
    (a.process_sample x s).1 = clamp16 ((x * (a.gain / 2 ^ 16) + 512) / 1024) ∧
    (a.process (x :: xs) s).1 =
      clamp16 ((x * (a.gain / 2 ^ 16) + 512) / 1024) ::
        (Agc.process (a.process_sample x s).2.1 xs (a.process_sample x s).2.2).1 := by
  refine ⟨process_sample_out a x s hx hg, ?_⟩
  rw [Agc.process]
  dsimp only
  rw [process_sample_out a x s hx hg]

theorem agc_output_rounded_witness :
    ((Agc.mk 23170 10240 32000 100 (-2147483648) 717).process_sample (-32768) Status.init).1 =
      clamp16 ((-32768 * ((Agc.mk 23170 10240 32000 100 (-2147483648) 717).gain / 2 ^ 16) +
        512) / 1024) :=
  (agc_output_rounded (Agc.mk 23170 10240 32000 100 (-2147483648) 717) (-32768) [1, 2]
    Status.init (by decide) (by decide)).1

/-- C31: for an `Agc` object whose `minGain` and `maxGain` are 16-bit values with
`minGain <= maxGain`, and every input sample, after `process` has handled the
sample the gain satisfies `minGain * 2 ^ 16 <= gain <= maxGain * 2 ^ 16`, on the
attack and on the release branch alike, and `minGain`, `maxGain` are unchanged;
hence the bound holds after every non-empty input buffer. -/
theorem agc_gain_clamped (a : Agc) (x : Int) (xs : List Int) (s : Status)
    (hlo : isInt16 a.minGain) (hhi : isInt16 a.maxGain) (hle : a.minGain ≤ a.maxGain) :
    (∃ o b t, a.process_sample x s = (o, b, t) ∧ b.maxGain = a.maxGain ∧
      b.minGain = a.minGain ∧ a.minGain * 2 ^ 16 ≤ b.gain ∧ b.gain ≤ a.maxGain * 2 ^ 16) ∧
    (∃ os b t, a.process (x :: xs) s = (os, b, t) ∧ b.maxGain = a.maxGain ∧
      b.minGain = a.minGain ∧ a.minGain * 2 ^ 16 ≤ b.gain ∧ b.gain ≤ a.maxGain * 2 ^ 16) := by
  refine ⟨?_, process_bounds xs a x s hlo hhi hle⟩
  obtain ⟨o, b, t, h, -, e1, -, -, e2, h1, h2⟩ := process_sample_bounds a x s hlo hhi hle
  exact ⟨o, b, t, h, e1, e2, h1, h2⟩

theorem agc_gain_clamped_witness :
    (∃ o b t, (Agc.mk 23170 10240 32000 100 0 717).process_sample 1000 Status.init = (o, b, t) ∧
      b.maxGain = (Agc.mk 23170 10240 32000 100 0 717).maxGain ∧
      b.minGain = (Agc.mk 23170 10240 32000 100 0 717).minGain ∧
      (Agc.mk 23170 10240 32000 100 0 717).minGain * 2 ^ 16 ≤ b.gain ∧
      b.gain ≤ (Agc.mk 23170 10240 32000 100 0 717).maxGain * 2 ^ 16) ∧
    (∃ os b t, (Agc.mk 23170 10240 32000 100 0 717).process (1000 :: [2000, -3000])
        Status.init = (os, b, t) ∧
      b.maxGain = (Agc.mk 23170 10240 32000 100 0 717).maxGain ∧
      b.minGain = (Agc.mk 23170 10240 32000 100 0 717).minGain ∧
      (Agc.mk 23170 10240 32000 100 0 717).minGain * 2 ^ 16 ≤ b.gain ∧
      b.gain ≤ (Agc.mk 23170 10240 32000 100 0 717).maxGain * 2 ^ 16) :=
  agc_gain_clamped (Agc.mk 23170 10240 32000 100 0 717) 1000 [2000, -3000] Status.init
    (by decide) (by decide) (by decide)

/-- C32 with the conditions under which it holds: for an `Agc` object with 16-bit
`minGain`, `maxGain`, a gain with `0 <= gain` and
`minGain * 2 ^ 16 <= gain <= maxGain * 2 ^ 16`, `0 <= attack <= 32767`, and an
input sample whose output `o` has `target < abs_s o`: with `r = round_fx gain`
(`floor ((gain + 32768) / 2 ^ 16)`), `L_mult r attack` is `2 * r * attack`
without saturation, the gain after the sample is
`max (minGain * 2 ^ 16) (2 * r * attack)`, it is at most `r * 2 ^ 16`, and it is
not greater than the gain before when the low half of the gain is below `2 ^ 15`
(so that `round_fx` does not round up) or when `16384 <= r * (32768 - attack)`. -/
theorem agc_attack_decay (a : Agc) (x : Int) (s : Status) (o : Int)
    (hlo : isInt16 a.minGain) (hhi : isInt16 a.maxGain) (hg0 : 0 ≤ a.gain)
    (hg1 : a.minGain * 2 ^ 16 ≤ a.gain) (hg2 : a.gain ≤ a.maxGain * 2 ^ 16)
    (ha0 : 0 ≤ a.attack) (ha1 : a.attack ≤ 32767)
    (ho : (a.process_sample x s).1 = o) (hb : a.target < abs_s o) :
    ∃ g t, g = max (a.minGain * 2 ^ 16) (2 * ((a.gain + 32768) / 65536) * a.attack) ∧
      a.process_sample x s = (o, { a with gain := g }, t) ∧
      (∀ u, L_mult ((a.gain + 32768) / 65536) a.attack u =
        (2 * ((a.gain + 32768) / 65536) * a.attack, u)) ∧
      g ≤ (a.gain + 32768) / 65536 * 2 ^ 16 ∧
      (a.gain % 65536 < 32768 → g ≤ a.gain) ∧
      (16384 ≤ (a.gain + 32768) / 65536 * (32768 - a.attack) → g ≤ a.gain) := by
  obtain ⟨g, t, hg, hps, hM⟩ := process_sample_attack a x s o hlo hhi hg0 hg2 ha0 ha1 ho hb
  refine ⟨g, t, hg, hps, hM, ?_⟩
  have hp : (2 : Int) ^ 16 = 65536 := by norm_num
  rw [hp] at hg1 hg2 hg ⊢
  have h1 : 0 ≤ (a.gain + 32768) / 65536 := by omega
  have h3 : (a.gain + 32768) / 65536 * a.attack ≤ (a.gain + 32768) / 65536 * 32767 :=
    mul_le_mul_of_nonneg_left ha1 h1
  have h4 : 0 ≤ (a.gain + 32768) / 65536 * a.attack := mul_nonneg h1 ha0
  have e : (a.gain + 32768) / 65536 * (32768 - a.attack) =
      (a.gain + 32768) / 65536 * 32768 - (a.gain + 32768) / 65536 * a.attack := by ring
  rw [mul_assoc] at hg
  rw [e]
  generalize (a.gain + 32768) / 65536 * a.attack = q at h3 h4 hg ⊢
  refine ⟨?_, ?_, ?_⟩
  · omega
  · intro h
    omega
  · intro h
    omega

theorem agc_attack_decay_witness :
    ∃ g t, g = max ((Agc.mk 10 10240 31959 100 67108864 717).minGain * 2 ^ 16)
        (2 * (((Agc.mk 10 10240 31959 100 67108864 717).gain + 32768) / 65536) *
          (Agc.mk 10 10240 31959 100 67108864 717).attack) ∧
      (Agc.mk 10 10240 31959 100 67108864 717).process_sample 32767 Status.init =
        (32767, { Agc.mk 10 10240 31959 100 67108864 717 with gain := g }, t) ∧
      (∀ u, L_mult (((Agc.mk 10 10240 31959 100 67108864 717).gain + 32768) / 65536)
          (Agc.mk 10 10240 31959 100 67108864 717).attack u =
        (2 * (((Agc.mk 10 10240 31959 100 67108864 717).gain + 32768) / 65536) *
          (Agc.mk 10 10240 31959 100 67108864 717).attack, u)) ∧
      g ≤ ((Agc.mk 10 10240 31959 100 67108864 717).gain + 32768) / 65536 * 2 ^ 16 ∧
      ((Agc.mk 10 10240 31959 100 67108864 717).gain % 65536 < 32768 →
        g ≤ (Agc.mk 10 10240 31959 100 67108864 717).gain) ∧
      (16384 ≤ ((Agc.mk 10 10240 31959 100 67108864 717).gain + 32768) / 65536 *
          (32768 - (Agc.mk 10 10240 31959 100 67108864 717).attack) →
        g ≤ (Agc.mk 10 10240 31959 100 67108864 717).gain) :=
  agc_attack_decay (Agc.mk 10 10240 31959 100 67108864 717) 32767 Status.init 32767
    (by decide) (by decide) (by decide) (by decide) (by decide) (by decide) (by decide)
    attack_example_out (by decide)

/-- An attack step that raises the gain: `gain = 1.5 * 2 ^ 16`, `attack = 32767`,
`minGain = 1`, `maxGain = 10240`, `target = 10` and the sample `32767`. The output
`32` is above the target, `round_fx gain = 2`, and the gain becomes
`2 * 2 * 32767 = 131068`. -/
theorem agc_attack_raises_gain :
    (Agc.mk 10 10240 32767 100 98304 1).process_sample 32767 Status.init =
      (32, Agc.mk 10 10240 32767 100 131068 1, Status.init) ∧
    (Agc.mk 10 10240 32767 100 98304 1).minGain * 2 ^ 16 ≤
      (Agc.mk 10 10240 32767 100 98304 1).gain ∧
    (Agc.mk 10 10240 32767 100 98304 1).gain ≤
      (Agc.mk 10 10240 32767 100 98304 1).maxGain * 2 ^ 16 ∧
    (Agc.mk 10 10240 32767 100 98304 1).target < abs_s 32 ∧
    (Agc.mk 10 10240 32767 100 98304 1).gain < (131068 : Int) := by
  refine ⟨?_, by decide, by decide, by decide, by decide⟩
  have hm : L_mult 32767 (extract_h (Agc.mk 10 10240 32767 100 98304 1).gain) Status.init =
      (65534, Status.init) := by decide
  have hsh : L_shl 65534 (15 - AGC_GAIN_Qn) Status.init = (2097088, Status.init) := by decide
  have ho : round_fx 2097088 Status.init = (32, Status.init) := by decide
  have hr : round_fx (Agc.mk 10 10240 32767 100 98304 1).gain Status.init =
      (2, Status.init) := by decide
  have hg : L_mult 2 (Agc.mk 10 10240 32767 100 98304 1).attack Status.init =
      (131068, Status.init) := by decide
  rw [process_sample_attack_of _ _ _ hm hsh ho (by decide) hr hg]
  decide

/-- C33: for an `Agc` object with 16-bit `minGain`, `maxGain`, a gain with
`minGain * 2 ^ 16 <= gain <= maxGain * 2 ^ 16`, `0 <= release <= 32767`, and an
input sample whose output `o` does not have `target < abs_s o`: with
`g = L_mac (gain, shr (sub (32767, round_fx gain), 2), release)`, the gain after
the sample is `max (minGain * 2 ^ 16) (min (maxGain * 2 ^ 16) g)`; it is not
smaller than the gain before and not larger than `maxGain * 2 ^ 16`. -/
theorem agc_release_recovery (a : Agc) (x : Int) (s : Status) (o : Int)
    (hlo : isInt16 a.minGain) (hhi : isInt16 a.maxGain)
    (hg1 : a.minGain * 2 ^ 16 ≤ a.gain) (hg2 : a.gain ≤ a.maxGain * 2 ^ 16)
    (hr0 : 0 ≤ a.release) (hr1 : a.release ≤ 32767)
    (ho : (a.process_sample x s).1 = o) (hb : ¬ a.target < abs_s o) :
    ∃ so r sr d sd q sq g t b, round_fx a.gain so = (r, sr) ∧
      sub INT16_MAX r sr = (d, sd) ∧ shr d 2 sd = (q, sq) ∧
      L_mac a.gain q a.release sq = (g, t) ∧
      b = max (a.minGain * 2 ^ 16) (min (a.maxGain * 2 ^ 16) g) ∧
      a.process_sample x s = (o, { a with gain := b }, t) ∧
      a.gain ≤ b ∧ b ≤ a.maxGain * 2 ^ 16 := by
  have hp : (2 : Int) ^ 16 = 65536 := by norm_num
  rw [hp] at hg1 hg2 ⊢
  have hg : isInt32 a.gain := by
    unfold isInt16 at hlo hhi
    unfold isInt32
    omega
  have hri : isInt16 a.release := by
    unfold isInt16
    omega
  rcases hm : L_mult x (extract_h a.gain) s with ⟨m, sm⟩
  rcases hsh : L_shl m (15 - AGC_GAIN_Qn) sm with ⟨sh, ssh⟩
  rcases hro : round_fx sh ssh with ⟨o', so⟩
  have ho' : o' = o := by
    rw [← ho]
    exact (process_sample_out_of a x s hm hsh hro).symm
  subst ho'
  obtain ⟨r, sr, d, sd, q, sq, g, t, e1, e2, e3, e4, hge⟩ := release_chain a so hg hr0 hri
  refine ⟨so, r, sr, d, sd, q, sq, g, t, _, e1, e2, e3, e4, rfl, ?_, ?_, ?_⟩
  · rw [process_sample_release_of a x s hm hsh hro hb e1 e2 e3 e4, gain_clamp_eq hlo hhi]
  · omega
  · omega

theorem agc_release_recovery_witness :
    ∃ so r sr d sd q sq g t b,
      round_fx (Agc.mk 23170 10240 31959 100 67108864 717).gain so = (r, sr) ∧
      sub INT16_MAX r sr = (d, sd) ∧ shr d 2 sd = (q, sq) ∧
      L_mac (Agc.mk 23170 10240 31959 100 67108864 717).gain q
        (Agc.mk 23170 10240 31959 100 67108864 717).release sq = (g, t) ∧
      b = max ((Agc.mk 23170 10240 31959 100 67108864 717).minGain * 2 ^ 16)
        (min ((Agc.mk 23170 10240 31959 100 67108864 717).maxGain * 2 ^ 16) g) ∧
      (Agc.mk 23170 10240 31959 100 67108864 717).process_sample 100 Status.init =
        (100, { Agc.mk 23170 10240 31959 100 67108864 717 with gain := b }, t) ∧
      (Agc.mk 23170 10240 31959 100 67108864 717).gain ≤ b ∧
      b ≤ (Agc.mk 23170 10240 31959 100 67108864 717).maxGain * 2 ^ 16 :=
  agc_release_recovery (Agc.mk 23170 10240 31959 100 67108864 717) 100 Status.init 100
    (by decide) (by decide) (by decide) (by decide) (by decide) (by decide)
    release_example_out (by decide)

/-- C34: the step of `Smoother::smooth` for a 32-bit accumulator `buf`, a 16-bit
input `x` and coefficients in `[0, 32767]`, with `current = round_fx buf`. When
the difference `x - current` fits in 16 bits, the step is
`buf = L_mac (buf, x - current, coef)` with `coef = up_coef` for
`current <= x` and `down_coef` otherwise, and the output `round_fx buf` lies
between `current` and `x`. When it does not fit, the 16-bit variable `dat` holds
the wrapped difference: for `buf = -65536` (`current = -1`), `x = 32767` and
`down_coef = 16384` the output is `-16385`, outside `[-1, 32767]`. -/
theorem smoother_step (m : Smoother) (x : Int) (s : Status) (hbuf : isInt32 m.buf)
    (hx : isInt16 x) (hu0 : 0 ≤ m.up_coef) (hu1 : m.up_coef ≤ 32767)
    (hd0 : 0 ≤ m.down_coef) (hd1 : m.down_coef ≤ 32767) :
    (isInt16 (x - min 32767 ((m.buf + 32768) / 65536)) →
      ∃ sr b sb o so, round_fx m.buf s = (min 32767 ((m.buf + 32768) / 65536), sr) ∧
        L_mac m.buf (x - min 32767 ((m.buf + 32768) / 65536))
          (if min 32767 ((m.buf + 32768) / 65536) ≤ x then m.up_coef else m.down_coef) sr =
          (b, sb) ∧
        round_fx b sb = (o, so) ∧
        m.smooth_sample x s = (o, { m with buf := b }, so) ∧
        min (min 32767 ((m.buf + 32768) / 65536)) x ≤ o ∧
        o ≤ max (min 32767 ((m.buf + 32768) / 65536)) x) ∧
    (Smoother.mk 16384 16384 (-65536)).smooth_sample 32767 Status.init =
      (-16385, Smoother.mk 16384 16384 (-1073807360), Status.init) :=
  ⟨fun hnw => smooth_sample_toward m x s hbuf hx hu0 hu1 hd0 hd1 hnw, smooth_sample_wraps⟩

theorem smoother_step_witness :
    ∃ sr b sb o so,
      round_fx (Smoother.mk 8192 4096 655360).buf Status.init =
        (min 32767 (((Smoother.mk 8192 4096 655360).buf + 32768) / 65536), sr) ∧
      L_mac (Smoother.mk 8192 4096 655360).buf
          (1000 - min 32767 (((Smoother.mk 8192 4096 655360).buf + 32768) / 65536))
          (if min 32767 (((Smoother.mk 8192 4096 655360).buf + 32768) / 65536) ≤ 1000 then
            (Smoother.mk 8192 4096 655360).up_coef
            else (Smoother.mk 8192 4096 655360).down_coef) sr = (b, sb) ∧
      round_fx b sb = (o, so) ∧
      (Smoother.mk 8192 4096 655360).smooth_sample 1000 Status.init =
        (o, { Smoother.mk 8192 4096 655360 with buf := b }, so) ∧
      min (min 32767 (((Smoother.mk 8192 4096 655360).buf + 32768) / 65536)) 1000 ≤ o ∧
      o ≤ max (min 32767 (((Smoother.mk 8192 4096 655360).buf + 32768) / 65536)) 1000 :=
  (smoother_step (Smoother.mk 8192 4096 655360) 1000 Status.init (by decide) (by decide)
    (by decide) (by decide) (by decide) (by decide)).1 (by decide)

/-- C35 (amended): an all-zero input buffer gives an all-zero output buffer at
every stage. A first- or second-order filter built by its constructor (any
coefficients, `filter_q15` and `filter_q31`), a `Smoother` built by its
constructor and `Goertzel::getSquaredMagnitude` (any object, result `0`) leave
the status as it was, and the filter and smoother objects as constructed.
`Agc::process` gives the all-zero output for every object; it leaves the status
as it was when `0 <= minGain` and `0 <= gain <= 32767 * 2 ^ 16`, which is the
case for an object built by the constructor after any input `xs`. -/
theorem zero_input_zero_output (n : Nat) (s s0 : Status) (b0 b1 b2 a1 a2 up down : Int)
    (a : Agc) (tq mq ac rc : ℚ) (xs : List Int) (g : Goertzel) (input : Nat → Int)
    (hz : ∀ i, i < g.N.toNat → input i = 0) :
    ((IIR1DirectFormI.ctor b0 b1 a1).filter_q15 (List.replicate n 0) s =
        (List.replicate n 0, IIR1DirectFormI.ctor b0 b1 a1, s) ∧
      (IIR1DirectFormI.ctor b0 b1 a1).filter_q31 (List.replicate n 0) s =
        (List.replicate n 0, IIR1DirectFormI.ctor b0 b1 a1, s)) ∧
    ((IIR2DirectFormI.ctor b0 b1 b2 a1 a2).filter_q15 (List.replicate n 0) s =
        (List.replicate n 0, IIR2DirectFormI.ctor b0 b1 b2 a1 a2, s) ∧
      (IIR2DirectFormI.ctor b0 b1 b2 a1 a2).filter_q31 (List.replicate n 0) s =
        (List.replicate n 0, IIR2DirectFormI.ctor b0 b1 b2 a1 a2, s)) ∧
    (a.process (List.replicate n 0) s).1 = List.replicate n 0 ∧
    (isInt16 a.minGain → isInt16 a.maxGain → isInt16 a.attack → isInt16 a.release →
      0 ≤ a.minGain → 0 ≤ a.gain → a.gain ≤ 32767 * 2 ^ 16 →
      ∃ b, a.process (List.replicate n 0) s = (List.replicate n 0, b, s)) ∧
    (∃ os b t c, (Agc.ctor tq mq ac rc).process xs s0 = (os, b, t) ∧
      b.process (List.replicate n 0) s = (List.replicate n 0, c, s)) ∧
    g.getSquaredMagnitude input s = (0, Goertzel.mk g.N 0 0 g.coef g.att, s) ∧
    (Smoother.ctor up down).smooth (List.replicate n 0) s =
      (List.replicate n 0, Smoother.ctor up down, s) :=
  ⟨filter1_zero b0 b1 a1 s n, filter2_zero b0 b1 b2 a1 a2 s n, process_zero_out n a s,
    fun h1 h2 h3 h4 h5 h6 h7 => process_zero_status n a s h1 h2 h3 h4 h5 h6 (by omega),
    ctor_process_zero tq mq ac rc xs s0 s n, getSquaredMagnitude_zero g input s hz,
    smooth_zero up down s n⟩

theorem zero_input_zero_output_witness :
    (∀ i, i < (Goertzel.mk 4 7 (-3) 12540 8192).N.toNat → (fun _ : Nat => (0 : Int)) i = 0) ∧
    (Goertzel.mk 4 7 (-3) 12540 8192).getSquaredMagnitude (fun _ => 0) Status.init =
      (0, Goertzel.mk 4 0 0 12540 8192, Status.init) ∧
    (∃ b, (Agc.mk 23170 10240 31959 100 67108864 717).process (List.replicate 3 0) Status.init =
      (List.replicate 3 0, b, Status.init)) :=
  ⟨fun _ _ => rfl,
    (zero_input_zero_output 3 Status.init Status.init 100 200 300 400 500 600 700
      (Agc.mk 23170 10240 31959 100 67108864 717) (7 / 10) 20 (1 / 2) (1 / 2) [1, 2]
      (Goertzel.mk 4 7 (-3) 12540 8192) (fun _ => 0) (fun _ _ => rfl)).2.2.2.2.2.1,
    (zero_input_zero_output 3 Status.init Status.init 100 200 300 400 500 600 700
      (Agc.mk 23170 10240 31959 100 67108864 717) (7 / 10) 20 (1 / 2) (1 / 2) [1, 2]
      (Goertzel.mk 4 7 (-3) 12540 8192) (fun _ => 0) (fun _ _ => rfl)).2.2.2.1
      (by decide) (by decide) (by decide) (by decide) (by decide) (by decide) (by decide)⟩

/-- C35, the part that fails: `Agc::process` can set `Overflow` on all-zero input.
At gain `INT32_MAX` the sample `0` sets it in `round_fx(gain)`. The object
`Agc(0.7, 20.0, ..)` after `setMaxGain(-0.01)` and `setMinGain(-1)` maps `[0, 0]` to
`[0, 0]` and sets it on the second sample, where the gain is `-9 * 2 ^ 16` and
`sub(INT16_MAX, round_fx(gain))` saturates. -/
theorem agc_zero_input_sets_overflow :
    (Agc.mk 23170 10240 31959 100 2147483647 717).process [0] Status.init =
      ([0], Agc.mk 23170 10240 31959 100 671088640 717, { Overflow := true, Carry := 0 }) ∧
    (((Agc.ctor (7 / 10) 20 (1 / 2) (1023 / 1024)).setMaxGain (-1 / 100)).setMinGain
      (-1)).process [0, 0] Status.init =
      ([0, 0], Agc.mk 22937 (-9) 16384 128 (-589824) (-1023),
        { Overflow := true, Carry := 0 }) := by
  constructor
  · rw [Agc.process, zero_sample_max_gain]
    rfl
  · rw [agc_negative_limits, Agc.process, zero_sample_negative_limits]
    dsimp only
    rw [Agc.process, zero_sample_negative_gain]
    rfl

/-- C36 (amended): for 32-bit operands and an incoming `Carry` of 0 or 1,
`L_sub_c` returns `L_v1 - L_v2 - (1 - Carry)` wrapped modulo `2 ^ 32`, without
saturation: the flag is a "no borrow" flag, a clear `Carry` subtracts one more
and a set `Carry` subtracts nothing. -/
theorem L_sub_c_borrow (a b : Int) (s : Status) (ha : isInt32 a) (hb : isInt32 b)
    (hc : s.Carry = 0 ∨ s.Carry = 1) :
    (L_sub_c a b s).1 = wrap32 (a - b - (1 - s.Carry)) :=
  L_sub_c_value ha hb s hc

theorem L_sub_c_borrow_witness :
    (L_sub_c (-2147483648) 1 { Overflow := false, Carry := 1 }).1 =
      wrap32 (-2147483648 - 1 - (1 - ({ Overflow := false, Carry := 1 } : Status).Carry)) :=
  L_sub_c_borrow (-2147483648) 1 { Overflow := false, Carry := 1 } (by decide) (by decide)
    (Or.inr rfl)

/-- C36 as stated fails: `L_sub_c(5, 3)` returns `1` with `Carry = 0` and `2` with
`Carry = 1`, where `L_v1 - L_v2 - C` wrapped modulo `2 ^ 32` is `2` and `1`. -/
theorem L_sub_c_not_minus_carry :
    (L_sub_c 5 3 { Overflow := false, Carry := 0 }).1 = 1 ∧
    wrap32 (5 - 3 - ({ Overflow := false, Carry := 0 } : Status).Carry) = 2 ∧
    (L_sub_c 5 3 { Overflow := false, Carry := 1 }).1 = 2 ∧
    wrap32 (5 - 3 - ({ Overflow := false, Carry := 1 } : Status).Carry) = 1 := by
  refine ⟨by decide, by decide, by decide, by decide⟩

/-- C37: `L_mls(Lv, v)` is the floor of `v * Lv / 2 ^ 15` clamped to
`[INT32_MIN, INT32_MAX]`, that is `a * v / 2 ^ 15 + 2 * b * v` with `a` the
unsigned low word and `b` the signed high word of `Lv`, for every 32-bit `Lv` and
16-bit `v` except `v = -32768` with `b = -32768` and `a /= 0`
(`INT32_MIN < Lv < INT32_MIN + 65536`). There `L_mult(v, b)` saturates to
`INT32_MAX` and the result is one less than the product: `L_mls(-2147483647, -32768)`
returns `2147483646` and sets `Overflow`, where the floor of `v * Lv / 2 ^ 15` is
`2147483647`. -/
theorem L_mls_scaled_product (Lv v : Int) (s : Status) (hL : isInt32 Lv) (hv : isInt16 v)
    (hne : ¬ (v = -32768 ∧ Lv / 65536 = -32768 ∧ Lv % 65536 ≠ 0)) :
    (∃ t, L_mls Lv v s = (clamp32 ⌊((v * Lv : Int) : ℚ) / 2 ^ 15⌋, t)) ∧
    Lv % 65536 * v / 32768 + 2 * (Lv / 65536) * v = ⌊((v * Lv : Int) : ℚ) / 2 ^ 15⌋ ∧
    L_mls (-2147483647) (-32768) s = (2147483646, { s with Overflow := true }) ∧
    clamp32 ⌊((-32768 * -2147483647 : Int) : ℚ) / 2 ^ 15⌋ = 2147483647 := by
  refine ⟨?_, ?_, L_mls_example s, ?_⟩
  · rw [floor_div_two_pow_15]
    by_cases h : v = -32768 ∧ Lv / 65536 = -32768
    · have hL' := hL
      unfold isInt32 at hL'
      have h0 : Lv % 65536 = 0 := by
        by_contra hc
        exact hne ⟨h.1, h.2, hc⟩
      have e1 : Lv = -2147483648 := by omega
      rw [h.1, e1, L_mls_min_min]
      exact ⟨_, rfl⟩
    · rw [L_mls_value hL hv h]
      exact ⟨_, rfl⟩
  · rw [floor_div_two_pow_15]
    have e : v * Lv = Lv % 65536 * v + 2 * (Lv / 65536) * v * 32768 := by
      have h := Int.emod_add_ediv Lv 65536
      linear_combination (-v) * h
    rw [e, Int.add_mul_ediv_right _ _ (by decide)]
  · rw [floor_div_two_pow_15]
    decide

theorem L_mls_scaled_product_witness :
    ∃ t, L_mls 100000 (-3) Status.init =
      (clamp32 ⌊((-3 * 100000 : Int) : ℚ) / 2 ^ 15⌋, t) :=
  (L_mls_scaled_product 100000 (-3) Status.init (by decide) (by decide) (by decide)).1

/-- C39 (amended): an object built by the constructor, for every configuration,
has `gain = 0` and `minGain = 717`, so the gain is below `minGain * 2 ^ 16`. For
every first sample the first output is `0`, and the gain after it is at least
`minGain * 2 ^ 16`. It is at most `maxGain * 2 ^ 16`, after the first sample and
after every longer buffer, when the quantised `maxGain` is at least `717`; when
`maxGain` is below `717` the gain after the first sample is `717 * 2 ^ 16`, above
`maxGain * 2 ^ 16`. -/
theorem agc_fresh_gain (tq mq ac rc : ℚ) (x : Int) (xs : List Int) (s : Status) :
    (Agc.ctor tq mq ac rc).gain = 0 ∧ (Agc.ctor tq mq ac rc).minGain = 717 ∧
    (Agc.ctor tq mq ac rc).gain < (Agc.ctor tq mq ac rc).minGain * 2 ^ 16 ∧
    (∃ g t, (Agc.ctor tq mq ac rc).process_sample x s =
        (0, { (Agc.ctor tq mq ac rc) with gain := g }, t) ∧ 717 * 2 ^ 16 ≤ g ∧
      (717 ≤ (Agc.ctor tq mq ac rc).maxGain → g ≤ (Agc.ctor tq mq ac rc).maxGain * 2 ^ 16) ∧
      ((Agc.ctor tq mq ac rc).maxGain < 717 → g = 717 * 2 ^ 16)) ∧
    (717 ≤ (Agc.ctor tq mq ac rc).maxGain →
      ∃ os b t, (Agc.ctor tq mq ac rc).process (x :: xs) s = (0 :: os, b, t) ∧
        b.minGain = 717 ∧ b.maxGain = (Agc.ctor tq mq ac rc).maxGain ∧
        b.minGain * 2 ^ 16 ≤ b.gain ∧ b.gain ≤ b.maxGain * 2 ^ 16) := by
  obtain ⟨e0, e1, -, -, -, -⟩ := agc_ctor_fields tq mq ac rc
  refine ⟨e0, e1, ?_, ctor_first_sample tq mq ac rc x s,
    ctor_process_bounds tq mq ac rc x xs s⟩
  rw [e0, e1]
  decide

theorem agc_fresh_gain_witness :
    717 ≤ (Agc.ctor (7 / 10) 20 (1 / 2) (1023 / 1024)).maxGain ∧
    ∃ os b t, (Agc.ctor (7 / 10) 20 (1 / 2) (1023 / 1024)).process (1000 :: [2000, -3000])
        Status.init = (0 :: os, b, t) ∧
      b.minGain = 717 ∧ b.maxGain = (Agc.ctor (7 / 10) 20 (1 / 2) (1023 / 1024)).maxGain ∧
      b.minGain * 2 ^ 16 ≤ b.gain ∧ b.gain ≤ b.maxGain * 2 ^ 16 :=
  ⟨by rw [agc_ctor_maxGain_20]; decide,
    (agc_fresh_gain (7 / 10) 20 (1 / 2) (1023 / 1024) 1000 [2000, -3000] Status.init).2.2.2.2
      (by rw [agc_ctor_maxGain_20]; decide)⟩

/-- C39, the part that fails: for the constructor configuration with the
maximum-gain factor `0.5` (`maxGain = 512`, below `minGain = 717`) the gain after
the first sample is `717 * 2 ^ 16`, above `maxGain * 2 ^ 16`, so it is not within
`[minGain * 2 ^ 16, maxGain * 2 ^ 16]` from the second sample on. -/
theorem agc_gain_above_max_after_first :
    ∃ g t, (Agc.ctor (7 / 10) (1 / 2) (1 / 2) (1023 / 1024)).process_sample 1000 Status.init =
        (0, { (Agc.ctor (7 / 10) (1 / 2) (1 / 2) (1023 / 1024)) with gain := g }, t) ∧
      g = 46989312 ∧
      (Agc.ctor (7 / 10) (1 / 2) (1 / 2) (1023 / 1024)).maxGain * 2 ^ 16 = 33554432 ∧
      ¬ g ≤ (Agc.ctor (7 / 10) (1 / 2) (1 / 2) (1023 / 1024)).maxGain * 2 ^ 16 := by
  obtain ⟨g, t, h, -, -, k⟩ :=
    ctor_first_sample (7 / 10) (1 / 2) (1 / 2) (1023 / 1024) 1000 Status.init
  have hg := k (by rw [agc_ctor_maxGain_half]; decide)
  refine ⟨g, t, h, ?_, ?_, ?_⟩
  · rw [hg]
    decide
  · rw [agc_ctor_maxGain_half]
    decide
  · rw [hg, agc_ctor_maxGain_half]
    decide

/-- C40 (amended): the fixed-point squared magnitude can be negative. For
`N = 2`, `coef = -32768`, `att = 16384` and the samples `[-2, -2]` the
accumulators are `y[0] = 65536`, `y[1] = -65536`, rounded to `1` and `-1`, and
`getSquaredMagnitude` returns `-131068`. For every object and input the value
`L_max(getSquaredMagnitude(in), 1)` of `getMagnitude` is at least `1`, and the
argument `magSq / 2 ^ 31` of the square root is at least `2 ^ -31`, hence
positive. -/
theorem squared_magnitude_can_be_negative (g : Goertzel) (input : Nat → Int) (s : Status) :
    (Goertzel.mk 2 0 0 (-32768) 16384).getSquaredMagnitude (fun _ => -2) Status.init =
      (-131068, Goertzel.mk 2 65536 (-65536) (-32768) 16384, Status.init) ∧
    round_fx 65536 Status.init = (1, Status.init) ∧
    round_fx (-65536) Status.init = (-1, Status.init) ∧
    1 ≤ (g.getMagnitude_magSq input s).1 ∧
    1 / 2 ^ 31 ≤ g.getMagnitude_sqrt_arg input s ∧ 0 < g.getMagnitude_sqrt_arg input s := by
  have h1 := getMagnitude_magSq_ge_one g input s
  have hq : (1 : ℚ) ≤ ((g.getMagnitude_magSq input s).1 : ℚ) := by exact_mod_cast h1
  have h2 : (1 : ℚ) / 2 ^ 31 ≤ g.getMagnitude_sqrt_arg input s := by
    rw [getMagnitude_sqrt_arg_eq]
    exact div_le_div_of_nonneg_right hq (by positivity)
  refine ⟨getSquaredMagnitude_negative_example, by decide, by decide, h1, h2, ?_⟩
  exact lt_of_lt_of_le (by positivity) h2

/-- C40, the part that fails: the argument of the square root is not at least
`1`. For the block `[-2, -2]` with `N = 2`, `coef = -32768`, `att = 16384` the
clamped value is `1` and the argument `magSq / 2 ^ 31` is `2 ^ -31`. -/
theorem sqrt_arg_below_one :
    (Goertzel.mk 2 0 0 (-32768) 16384).getMagnitude_sqrt_arg (fun _ => -2) Status.init =
      1 / 2 ^ 31 ∧
    ¬ 1 ≤ (Goertzel.mk 2 0 0 (-32768) 16384).getMagnitude_sqrt_arg (fun _ => -2) Status.init := by
  have h : (Goertzel.mk 2 0 0 (-32768) 16384).getMagnitude_sqrt_arg (fun _ => -2) Status.init =
      1 / 2 ^ 31 := by
    rw [getMagnitude_sqrt_arg_eq, getMagnitude_magSq_example]
    norm_num
  refine ⟨h, ?_⟩
  rw [h]
  norm_num

end BasicOp
